import Mathlib

/-!
# Plinko-Web: outcome engine of `src/game/game.js`

A shallow embedding of the numeric core of the game (multiplier tables,
binomial base distribution, win-rate tilting and bisection, inverse-CDF
selection, closest-box lookup, seeded generator, ball physics) together with
theorems about it.

Modelling conventions.

* A JavaScript number that is finite is an element of an ordered field `K`
  (instantiated with `ℚ` for evaluation and with `ℝ` where `Math.exp` is
  needed).  In the definitions that bear the plain names of the source,
  arithmetic on such numbers is exact.  Where the source guards an input with
  `Number.isFinite`, the input is an `Option K` and `none` stands for a
  non-finite value.
* Where rounding, overflow or `NaN` decide what the code does, the function
  is given on the numbers `JsNum K` (finite, `NaN`, `Infinity`, `-Infinity`)
  in the namespace `Js`, with every guard `Number.isFinite` of the source, and
  with the rounding of an exact result as a parameter `fl`:
  `Binary64.round` rounds a rational to the nearest binary64 number, ties to
  even, and `JsNum.ofExact` keeps the exact result and only overflows above
  `Number.MAX_VALUE`.  An option the source reads with `??` alone is an
  `Option (JsNum K)`: `none` for `null` or `undefined`, a number otherwise.
  Counters of loops are natural numbers.
* Transcendental library functions (`Math.exp`, `Math.cos`, ...) are passed
  as parameters, so that every definition is executable once they are
  supplied.
* 32-bit integer operations (`>>>`, `^`, `|`, `Math.imul`) are operations on
  `Nat` reduced modulo `2 ^ 32`.
* Closure variables of `createGame` that a function reads become explicit
  arguments; variables it writes are returned.
-/

namespace Plinko

/-! ## Multiplier tables -/

/-- One landing slot: `{ value, color }`. -/
structure MultiplierSlot (K : Type) where
  value : K
  color : Nat
deriving DecidableEq, Repr

/-- The values `startRound` and the history can hold: a number, a slot object
or `undefined` (an out-of-range array read). -/
inductive JsVal (K : Type) where
  | undefined : JsVal K
  | number (x : K) : JsVal K
  | slot (s : MultiplierSlot K) : JsVal K
deriving DecidableEq, Repr

/-- A JavaScript number: finite, `NaN`, `Infinity` or `-Infinity`. -/
inductive JsNum (α : Type) where
  | finite (x : α)
  | nan
  | posInf
  | negInf
  deriving DecidableEq, Repr

section Tables

variable (K : Type) [LinearOrderedField K]

/-- `MULTIPLIER_TABLE_MEDIUM`, keyed by row count. -/
def MULTIPLIER_TABLE_MEDIUM : Nat → Option (List (MultiplierSlot K))
  | 16 => some [⟨110, 0xff003f⟩, ⟨41, 0xff1837⟩, ⟨10, 0xff302f⟩, ⟨5, 0xff4827⟩,
      ⟨3, 0xff6020⟩, ⟨1.5, 0xff7818⟩, ⟨1, 0xff9010⟩, ⟨0.5, 0xffa808⟩, ⟨0.3, 0xffc000⟩,
      ⟨0.5, 0xffa808⟩, ⟨1, 0xff9010⟩, ⟨1.5, 0xff7818⟩, ⟨3, 0xff6020⟩, ⟨5, 0xff4827⟩,
      ⟨10, 0xff302f⟩, ⟨41, 0xff1837⟩, ⟨110, 0xff003f⟩]
  | 15 => some [⟨88, 0xff003f⟩, ⟨18, 0xff1a37⟩, ⟨11, 0xff332e⟩, ⟨5, 0xff4d26⟩,
      ⟨3, 0xff661d⟩, ⟨1, 0xff8015⟩, ⟨0.5, 0xff9a0d⟩, ⟨0.3, 0xffb304⟩, ⟨0.3, 0xffb304⟩,
      ⟨0.5, 0xff9a0d⟩, ⟨1, 0xff8015⟩, ⟨3, 0xff661d⟩, ⟨5, 0xff4d26⟩, ⟨11, 0xff332e⟩,
      ⟨18, 0xff1a37⟩, ⟨88, 0xff003f⟩]
  | 14 => some [⟨58, 0xff003f⟩, ⟨15, 0xff1b36⟩, ⟨7, 0xff372d⟩, ⟨4, 0xff5224⟩,
      ⟨1.9, 0xff6e1b⟩, ⟨1, 0xff8912⟩, ⟨0.5, 0xffa509⟩, ⟨0.2, 0xffc000⟩, ⟨0.5, 0xffa509⟩,
      ⟨1, 0xff8912⟩, ⟨1.9, 0xff6e1b⟩, ⟨4, 0xff5224⟩, ⟨7, 0xff372d⟩, ⟨15, 0xff1b36⟩,
      ⟨58, 0xff003f⟩]
  | 13 => some [⟨43, 0xff003f⟩, ⟨13, 0xff1e35⟩, ⟨6, 0xff3b2c⟩, ⟨3, 0xff5922⟩,
      ⟨1.3, 0xff7618⟩, ⟨0.7, 0xff940f⟩, ⟨0.4, 0xffb105⟩, ⟨0.4, 0xffb105⟩, ⟨0.7, 0xff940f⟩,
      ⟨1.3, 0xff7618⟩, ⟨3, 0xff5922⟩, ⟨6, 0xff3b2c⟩, ⟨13, 0xff1e35⟩, ⟨43, 0xff003f⟩]
  | 12 => some [⟨33, 0xff003f⟩, ⟨11, 0xff2035⟩, ⟨4, 0xff402a⟩, ⟨2, 0xff6020⟩,
      ⟨1.1, 0xff8015⟩, ⟨0.6, 0xffa00b⟩, ⟨0.3, 0xffc000⟩, ⟨0.6, 0xffa00b⟩, ⟨1.1, 0xff8015⟩,
      ⟨2, 0xff6020⟩, ⟨4, 0xff402a⟩, ⟨11, 0xff2035⟩, ⟨33, 0xff003f⟩]
  | 11 => some [⟨24, 0xff003f⟩, ⟨6, 0xff2334⟩, ⟨3, 0xff4628⟩, ⟨1.8, 0xff691d⟩,
      ⟨0.7, 0xff8c11⟩, ⟨0.5, 0xffaf06⟩, ⟨0.5, 0xffaf06⟩, ⟨0.7, 0xff8c11⟩, ⟨1.8, 0xff691d⟩,
      ⟨3, 0xff4628⟩, ⟨6, 0xff2334⟩, ⟨24, 0xff003f⟩]
  | 10 => some [⟨22, 0xff003f⟩, ⟨5, 0xff2632⟩, ⟨2, 0xff4d26⟩, ⟨1.4, 0xff7319⟩,
      ⟨0.6, 0xff9a0d⟩, ⟨0.4, 0xffc000⟩, ⟨0.6, 0xff9a0d⟩, ⟨1.4, 0xff7319⟩, ⟨2, 0xff4d26⟩,
      ⟨5, 0xff2632⟩, ⟨22, 0xff003f⟩]
  | 9 => some [⟨18, 0xff003f⟩, ⟨4, 0xff2b31⟩, ⟨1.7, 0xff5523⟩, ⟨0.9, 0xff8015⟩,
      ⟨0.5, 0xffab07⟩, ⟨0.5, 0xffab07⟩, ⟨0.9, 0xff8015⟩, ⟨1.7, 0xff5523⟩, ⟨4, 0xff2b31⟩,
      ⟨18, 0xff003f⟩]
  | 8 => some [⟨13, 0xff003f⟩, ⟨3, 0xff302f⟩, ⟨1.3, 0xff6020⟩, ⟨0.7, 0xff9010⟩,
      ⟨0.4, 0xffc000⟩, ⟨0.7, 0xff9010⟩, ⟨1.3, 0xff6020⟩, ⟨3, 0xff302f⟩, ⟨13, 0xff003f⟩]
  | _ => none

/-- `MULTIPLIER_TABLE_LOW_VALUES`, keyed by row count. -/
def MULTIPLIER_TABLE_LOW_VALUES : Nat → Option (List K)
  | 8 => some [5.6, 2.1, 1.1, 1, 0.5, 1, 1.1, 2.1, 5.6]
  | 9 => some [5.6, 2, 1.6, 1, 0.7, 0.7, 1, 1.6, 2, 5.6]
  | 10 => some [8.9, 3, 1.4, 1.1, 1, 0.5, 1, 1.1, 1.4, 3, 8.9]
  | 11 => some [8.4, 3, 1.9, 1.3, 1, 0.7, 0.7, 1, 1.3, 1.9, 3, 8.4]
  | 12 => some [10, 3, 1.6, 1.4, 1.1, 1, 0.5, 1, 1.1, 1.4, 1.6, 3, 10]
  | 13 => some [8.1, 4, 3, 1.9, 1.2, 0.9, 0.7, 0.7, 0.9, 1.2, 1.9, 3, 4, 8.1]
  | 14 => some [7.1, 4, 1.9, 1.4, 1.3, 1.1, 1, 0.5, 1, 1.1, 1.3, 1.4, 1.9, 4, 7.1]
  | 15 => some [15, 8, 3, 2, 1.5, 1.1, 1, 0.7, 0.7, 1, 1.1, 1.5, 2, 3, 8, 15]
  | 16 => some [16, 9, 2, 1.4, 1.4, 1.2, 1.1, 1, 0.5, 1, 1.1, 1.2, 1.4, 1.4, 2, 9, 16]
  | _ => none

/-- `MULTIPLIER_TABLE_HIGH_VALUES`, keyed by row count. -/
def MULTIPLIER_TABLE_HIGH_VALUES : Nat → Option (List K)
  | 8 => some [29, 4, 1.5, 0.3, 0.2, 0.3, 1.5, 4, 29]
  | 9 => some [43, 7, 2, 0.6, 0.2, 0.2, 0.6, 2, 7, 43]
  | 10 => some [76, 10, 3, 0.9, 0.3, 0.2, 0.3, 0.9, 3, 10, 76]
  | 11 => some [120, 14, 5.2, 1.4, 0.4, 0.2, 0.2, 0.4, 1.4, 5.2, 14, 120]
  | 12 => some [170, 24, 8.1, 2, 0.7, 0.3, 0.2, 0.3, 0.7, 2, 8.1, 24, 170]
  | 13 => some [260, 37, 11, 4, 1, 0.2, 0.2, 0.2, 0.2, 1, 4, 11, 37, 260]
  | 14 => some [420, 56, 18, 5, 1.9, 0.3, 0.2, 0.2, 0.2, 0.3, 1.9, 5, 18, 56, 420]
  | 15 => some [620, 83, 27, 8, 3, 0.5, 0.2, 0.2, 0.2, 0.2, 0.5, 3, 8, 27, 83, 620]
  | 16 => some [1000, 130, 26, 9, 4, 2, 0.2, 0.2, 0.2, 0.2, 0.2, 2, 4, 9, 26, 130, 1000]
  | _ => none

end Tables

section TableOps

variable {K : Type} [LinearOrderedField K]

/-- The inner `values.map((value, index) => ...)` of `buildValueTable`:
the colour comes from `source[index]`, white when that entry is missing. -/
def zipColor : List K → List (MultiplierSlot K) → List (MultiplierSlot K)
  | [], _ => []
  | v :: vs, [] => ⟨v, 0xffffff⟩ :: zipColor vs []
  | v :: vs, s :: ss => ⟨v, s.color⟩ :: zipColor vs ss

/-- `buildValueTable(valuesByRow, colorSource)`: one entry per key of
`valuesByRow`; `colorSource[rowKey] || []` supplies the colours. -/
def buildValueTable (valuesByRow : Nat → Option (List K))
    (colorSource : Nat → Option (List (MultiplierSlot K))) :
    Nat → Option (List (MultiplierSlot K)) :=
  fun rowKey =>
    match valuesByRow rowKey with
    | none => none
    | some values => some (zipColor values ((colorSource rowKey).getD []))

/-- `MULTIPLIER_TABLE_LOW`. -/
def MULTIPLIER_TABLE_LOW : Nat → Option (List (MultiplierSlot K)) :=
  buildValueTable (MULTIPLIER_TABLE_LOW_VALUES K) (MULTIPLIER_TABLE_MEDIUM K)

/-- `MULTIPLIER_TABLE_HIGH`. -/
def MULTIPLIER_TABLE_HIGH : Nat → Option (List (MultiplierSlot K)) :=
  buildValueTable (MULTIPLIER_TABLE_HIGH_VALUES K) (MULTIPLIER_TABLE_MEDIUM K)

/-- `DEFAULT_DIFFICULTY`. -/
def DEFAULT_DIFFICULTY : String := "medium"

/-- `normalizeDifficulty(value)`: `value` when it is one of the keys of
`DIFFICULTY_SCALES` (`low`, `medium`, `high`, all with a truthy scale),
otherwise the default.  Keys inherited from `Object.prototype` are not
modelled. -/
def normalizeDifficulty (value : String) : String :=
  if value = "low" ∨ value = "medium" ∨ value = "high" then value else DEFAULT_DIFFICULTY

/-- `MULTIPLIER_TABLES[key]`. -/
def MULTIPLIER_TABLES (key : String) : Option (Nat → Option (List (MultiplierSlot K))) :=
  if key = "low" then some MULTIPLIER_TABLE_LOW
  else if key = "medium" then some (MULTIPLIER_TABLE_MEDIUM K)
  else if key = "high" then some MULTIPLIER_TABLE_HIGH
  else none

/-- `getMultiplierTable(difficulty)`. -/
def getMultiplierTable (difficulty : String) :
    Option (Nat → Option (List (MultiplierSlot K))) :=
  MULTIPLIER_TABLES (normalizeDifficulty difficulty)

/-- `getMultipliersForRows(rows, difficulty)`: a copy of the table row, or the
empty list (after a console warning) when there is none. -/
def getMultipliersForRows (rows : Nat) (difficulty : String) : List (MultiplierSlot K) :=
  match (getMultiplierTable difficulty).bind (fun table => table rows) with
  | none => []
  | some multipliers => multipliers.map (fun entry => { entry with })

end TableOps

/-! ## Round settlement -/

section Round

variable {K : Type} [LinearOrderedField K]

/-- `array[index]` for an array of slots: `undefined` out of range. -/
def slotAt (multipliers : List (MultiplierSlot K)) (index : Nat) : JsVal K :=
  match multipliers[index]? with
  | some s => JsVal.slot s
  | none => JsVal.undefined

/-- The part of `startRound` that follows `await simulateDrop(...)`
(`if (landedIndex >= 0) { ... } return -1;`).  Returns the resolved value and
the new history. -/
def startRoundSettle (testModeEnabled : Bool) (multipliers : List (MultiplierSlot K))
    (historySize : Nat) (history : List (JsVal K)) (landedIndex : Int) :
    JsVal K × List (JsVal K) :=
  if landedIndex ≥ 0 then
    let multiplier := slotAt multipliers landedIndex.toNat
    let history := multiplier :: history
    let history := if history.length > historySize then history.take historySize else history
    if testModeEnabled then (JsVal.number 0, history) else (multiplier, history)
  else (JsVal.number (-1), history)

end Round

/-! ## Probability engine -/

section Probability

variable {K : Type} [LinearOrderedField K]

/-- `clamp01(value)`. -/
def clamp01 (value : K) : K := max 0 (min 1 value)

/-- `factorial(n)` for a non-negative integer `n` in exact arithmetic: the loop
`for (i = 2; i <= n; i++) result *= i`, started at `1`.  The products of the
code are binary64 numbers, exact up to `n = 22`: see `Js.factorial`. -/
def factorial (n : Nat) : Nat :=
  if n ≤ 1 then 1 else (List.range' 2 (n - 1)).foldl (fun result i => result * i) 1

/-- `generateBinomialProbabilities(n)` in exact arithmetic (see
`Js.generateBinomialProbabilities` for binary64 numbers). -/
def generateBinomialProbabilities (n : Nat) : List K :=
  (List.range (n + 1)).map fun k =>
    let bin : K := (factorial n : K) / ((factorial k : K) * (factorial (n - k) : K))
    bin / (2 : K) ^ n

/-- `WINRATE_BIAS_RANGE`. -/
def WINRATE_BIAS_RANGE : K := 8

/-- `probabilities.reduce((acc, value) => acc + value, 0)`. -/
def sumOf (probabilities : List K) : K :=
  probabilities.foldl (fun acc value => acc + value) 0

/-- `normalizeProbabilities(probabilities)` on finite numbers in exact
arithmetic, where the sum is finite and only the `sum <= 0` guard remains
(see `Js.normalizeProbabilities` for a sum that overflows). -/
def normalizeProbabilities (probabilities : List K) : List K :=
  let sum := sumOf probabilities
  if sum ≤ 0 then probabilities else probabilities.map fun value => value / sum

/-- `Number(multipliers[i]?.value ?? multipliers[i])`, replaced by `0` when it
is not finite. -/
def multiplierValueOf : Option (JsVal K) → K
  | some (JsVal.slot s) => s.value
  | some (JsVal.number x) => x
  | some JsVal.undefined => 0
  | none => 0

/-- `getMultiplierValues(multipliers, count)`. -/
def getMultiplierValues (multipliers : List (JsVal K)) (count : Nat) : List K :=
  (List.range count).map fun i => multiplierValueOf multipliers[i]?

/-- One iteration of the loop of `getWinChanceFromValues` on the pair
`(probabilities[i], values[i])`; the accumulator is
`(totalProbability, winProbability)`. -/
def winStep (threshold : K) (acc : K × K) (pv : K × K) : K × K :=
  if pv.1 < 0 then acc
  else (acc.1 + pv.1, if pv.2 ≥ threshold then acc.2 + pv.1 else acc.2)

/-- `getWinChanceFromValues(probabilities, values, minMultiplier)` on finite
numbers (see `Js.getWinChanceFromValues` for entries that are not finite);
`none` is `null`.  An index at which `values[i]` is `undefined` is skipped by
the source (`Number(undefined)` is not finite), which is what `zip` does. -/
def getWinChanceFromValues (probabilities values : List K) (minMultiplier : Option K) :
    Option K :=
  let threshold := minMultiplier.getD 1
  let acc := (probabilities.zip values).foldl (winStep threshold) (0, 0)
  if acc.1 ≤ 0 then none else some (acc.2 / acc.1)

/-- The running `min` of `buildWeightedProbabilities`; `none` is `Infinity`. -/
def minOf (values : List K) : Option K :=
  values.foldl (fun m value => some (match m with | none => value | some m => min m value)) none

/-- The running `max` of `buildWeightedProbabilities`; `none` is `-Infinity`. -/
def maxOf (values : List K) : Option K :=
  values.foldl (fun m value => some (match m with | none => value | some m => max m value)) none

/-- The weight of slot `i` in `buildWeightedProbabilities`. -/
def weightOf (exp : K → K) (min range bias : K) (base value : K) : K :=
  if base < 0 then 0
  else
    let score := (value - min) / range
    let factor := exp (bias * (score - 0.5))
    base * factor

/-- `buildWeightedProbabilities(baseProbabilities, values, bias)` in exact
arithmetic, with `Math.exp` passed as `exp` (see
`Js.buildWeightedProbabilities` for weights that overflow). -/
def buildWeightedProbabilities (exp : K → K) (baseProbabilities values : List K) (bias : K) :
    List K :=
  let count := min baseProbabilities.length values.length
  if count ≤ 0 then []
  else
    match minOf (values.take count), maxOf (values.take count) with
    | some min, some max =>
      if max = min then normalizeProbabilities (baseProbabilities.take count)
      else
        let range := max - min
        let weights := (List.range count).map fun i =>
          weightOf exp min range bias (baseProbabilities.getD i 0) (values.getD i 0)
        normalizeProbabilities weights
    | _, _ => normalizeProbabilities (baseProbabilities.take count)

/-- The 30-step loop of `buildWinRateProbabilities`, with the number of
remaining iterations as first argument; it returns the final `highBias`.
(`lowChance` and `highChance` are assigned in the source loop but never read
again.) -/
def bisectBias (exp : K → K) (base values : List K) (clampedTarget : K)
    (minMultiplier : Option K) : Nat → K → K → K
  | 0, _, highBias => highBias
  | n + 1, lowBias, highBias =>
    let midBias := (lowBias + highBias) / 2
    let midProbs := buildWeightedProbabilities exp base values midBias
    match getWinChanceFromValues midProbs values minMultiplier with
    | none => highBias
    | some midChance =>
      if midChance < clampedTarget then
        bisectBias exp base values clampedTarget minMultiplier n midBias highBias
      else
        bisectBias exp base values clampedTarget minMultiplier n lowBias midBias

/-- `buildWinRateProbabilities(baseProbabilities, multipliers, targetWinRate,
minMultiplier)` in exact arithmetic (see `Js.buildWinRateProbabilities` for
weights that overflow); a non-finite `targetWinRate` is `none`. -/
def buildWinRateProbabilities (exp : K → K) (baseProbabilities : List K)
    (multipliers : List (JsVal K)) (targetWinRate : Option K) (minMultiplier : Option K) :
    List K :=
  match targetWinRate with
  | none => baseProbabilities
  | some targetWinRate =>
    let clampedTarget := clamp01 targetWinRate
    let count := min baseProbabilities.length multipliers.length
    if count ≤ 0 then baseProbabilities
    else
      let base := baseProbabilities.take count
      let values := getMultiplierValues multipliers count
      let lowBias : K := -WINRATE_BIAS_RANGE
      let highBias : K := WINRATE_BIAS_RANGE
      let lowProbs := buildWeightedProbabilities exp base values lowBias
      let highProbs := buildWeightedProbabilities exp base values highBias
      match getWinChanceFromValues lowProbs values minMultiplier,
          getWinChanceFromValues highProbs values minMultiplier with
      | some lowChance, some highChance =>
        let swap : Bool := decide (lowChance > highChance)
        let lowBias' := if swap then highBias else lowBias
        let highBias' := if swap then lowBias else highBias
        let lowChance' := if swap then highChance else lowChance
        let highChance' := if swap then lowChance else highChance
        if clampedTarget ≤ lowChance' then lowProbs
        else if clampedTarget ≥ highChance' then highProbs
        else
          buildWeightedProbabilities exp base values
            (bisectBias exp base values clampedTarget minMultiplier 30 lowBias' highBias')
      | _, _ => normalizeProbabilities base

/-- The scan of `selectByProbability`: `acc += normalized[i]; if (r <= acc)
return i`.  `none` when the loop runs to its end. -/
def selectScan (r : K) : List K → K → Nat → Option Nat
  | [], _, _ => none
  | p :: ps, acc, i =>
    let acc := acc + p
    if r ≤ acc then some i else selectScan r ps acc (i + 1)

/-- `selectByProbability(probabilities)`, with the value of `Math.random()`
passed as `r`. -/
def selectByProbability (probabilities : List K) (r : K) : Nat :=
  let sum := sumOf probabilities
  if sum ≤ 0 then 0
  else
    let normalized := probabilities.map fun p => p / sum
    (selectScan r normalized 0 0).getD (normalized.length - 1)

end Probability

/-! ## JavaScript numbers with rounding and overflow -/

section JsArithmetic

variable {K : Type} [LinearOrderedField K]

/-- `Number.MAX_VALUE`, the largest finite number: `(2^53 - 1) * 2^971`. -/
def MAX_VALUE : K := (2 ^ 53 - 1) * 2 ^ 971

/-- `Number.isFinite(x)` for a number `x`. -/
def JsNum.isFinite {α : Type} : JsNum α → Bool
  | JsNum.finite _ => true
  | _ => false

/-- The number an operation returns when its exact result is `x`, if only
overflow is taken into account: `±Infinity` beyond `Number.MAX_VALUE`, and `x`
itself otherwise (no rounding). -/
def JsNum.ofExact (x : K) : JsNum K :=
  if x > MAX_VALUE then JsNum.posInf
  else if x < -MAX_VALUE then JsNum.negInf
  else JsNum.finite x

/-- The sum `a + b`; `fl x` is the number returned for the exact result `x`
of an operation on finite numbers. -/
def JsNum.add (fl : K → JsNum K) : JsNum K → JsNum K → JsNum K
  | JsNum.finite a, JsNum.finite b => fl (a + b)
  | JsNum.nan, _ => JsNum.nan
  | _, JsNum.nan => JsNum.nan
  | JsNum.posInf, JsNum.negInf => JsNum.nan
  | JsNum.negInf, JsNum.posInf => JsNum.nan
  | JsNum.posInf, _ => JsNum.posInf
  | _, JsNum.posInf => JsNum.posInf
  | JsNum.negInf, _ => JsNum.negInf
  | _, JsNum.negInf => JsNum.negInf

/-- The difference `a - b`. -/
def JsNum.sub (fl : K → JsNum K) : JsNum K → JsNum K → JsNum K
  | JsNum.finite a, JsNum.finite b => fl (a - b)
  | JsNum.nan, _ => JsNum.nan
  | _, JsNum.nan => JsNum.nan
  | JsNum.posInf, JsNum.posInf => JsNum.nan
  | JsNum.negInf, JsNum.negInf => JsNum.nan
  | JsNum.posInf, _ => JsNum.posInf
  | _, JsNum.negInf => JsNum.posInf
  | JsNum.negInf, _ => JsNum.negInf
  | _, JsNum.posInf => JsNum.negInf

/-- The product `a * b`. -/
def JsNum.mul (fl : K → JsNum K) : JsNum K → JsNum K → JsNum K
  | JsNum.finite a, JsNum.finite b => fl (a * b)
  | JsNum.nan, _ => JsNum.nan
  | _, JsNum.nan => JsNum.nan
  | JsNum.finite a, JsNum.posInf =>
    if a > 0 then JsNum.posInf else if a < 0 then JsNum.negInf else JsNum.nan
  | JsNum.finite a, JsNum.negInf =>
    if a > 0 then JsNum.negInf else if a < 0 then JsNum.posInf else JsNum.nan
  | JsNum.posInf, JsNum.finite b =>
    if b > 0 then JsNum.posInf else if b < 0 then JsNum.negInf else JsNum.nan
  | JsNum.negInf, JsNum.finite b =>
    if b > 0 then JsNum.negInf else if b < 0 then JsNum.posInf else JsNum.nan
  | JsNum.posInf, JsNum.posInf => JsNum.posInf
  | JsNum.negInf, JsNum.negInf => JsNum.posInf
  | JsNum.posInf, JsNum.negInf => JsNum.negInf
  | JsNum.negInf, JsNum.posInf => JsNum.negInf

/-- The quotient `a / b`.  The sign of a zero is not tracked: a zero divisor
counts as `+0`. -/
def JsNum.div (fl : K → JsNum K) : JsNum K → JsNum K → JsNum K
  | JsNum.finite a, JsNum.finite b =>
    if b = 0 then
      if a > 0 then JsNum.posInf else if a < 0 then JsNum.negInf else JsNum.nan
    else fl (a / b)
  | JsNum.nan, _ => JsNum.nan
  | _, JsNum.nan => JsNum.nan
  | JsNum.finite _, _ => JsNum.finite 0
  | JsNum.posInf, JsNum.finite b => if b < 0 then JsNum.negInf else JsNum.posInf
  | JsNum.negInf, JsNum.finite b => if b < 0 then JsNum.posInf else JsNum.negInf
  | _, _ => JsNum.nan

/-- The comparison `a < b`: false when an operand is `NaN`. -/
def JsNum.lt : JsNum K → JsNum K → Bool
  | JsNum.finite a, JsNum.finite b => decide (a < b)
  | JsNum.nan, _ => false
  | _, JsNum.nan => false
  | _, JsNum.negInf => false
  | JsNum.posInf, _ => false
  | _, _ => true

/-- The comparison `a <= b`: false when an operand is `NaN`. -/
def JsNum.le : JsNum K → JsNum K → Bool
  | JsNum.finite a, JsNum.finite b => decide (a ≤ b)
  | JsNum.nan, _ => false
  | _, JsNum.nan => false
  | JsNum.negInf, _ => true
  | _, JsNum.posInf => true
  | _, _ => false

end JsArithmetic

/-! ### Rounding to binary64 -/

namespace Binary64

/-- The integer `e` with `2^e ≤ q < 2^(e+1)`, for a positive rational `q`. -/
def ilog2 (q : ℚ) : Int :=
  let e0 : Int := (Nat.log2 q.num.natAbs : Int) - (Nat.log2 q.den : Int)
  if (2 : ℚ) ^ e0 ≤ q then e0 else e0 - 1

/-- The integer nearest to `m`, a tie going to the even one. -/
def roundHalfEven (m : ℚ) : Int :=
  let f := ⌊m⌋
  let r := m - f
  if r < 1 / 2 then f else if r > 1 / 2 then f + 1 else if f % 2 = 0 then f else f + 1

/-- The binary64 magnitude nearest to `q > 0`: 53 significant bits, ties to
even, spacing `2^-1074` below `2^-1022`, the exponent not bounded above. -/
def roundMagnitude (q : ℚ) : ℚ :=
  let e := max (ilog2 q) (-1022)
  let ulp : ℚ := 2 ^ (e - 52)
  roundHalfEven (q / ulp) * ulp

/-- The binary64 number an operation returns when its exact result is `q`:
round to nearest, ties to even, `±Infinity` when the rounded magnitude reaches
`2^1024`.  The sign of a zero is not tracked. -/
def round (q : ℚ) : JsNum ℚ :=
  if q = 0 then JsNum.finite 0
  else
    let v := roundMagnitude |q|
    if v ≥ 2 ^ 1024 then (if q > 0 then JsNum.posInf else JsNum.negInf)
    else JsNum.finite (if q > 0 then v else -v)

end Binary64

/-! ### The binomial distribution in JavaScript numbers -/

namespace Js

section

variable {K : Type} [LinearOrderedField K]

/-- `factorial(n)` for a non-negative integer `n`, every product being the
number `fl` returns for it. -/
def factorial (fl : K → JsNum K) (n : Nat) : JsNum K :=
  if n ≤ 1 then JsNum.finite 1
  else
    (List.range' 2 (n - 1)).foldl
      (fun result (i : Nat) => JsNum.mul fl result (JsNum.finite (i : K))) (JsNum.finite 1)

/-- The local `bin` of `generateBinomialProbabilities(n)` at index `k`:
`factorial(n) / (factorial(k) * factorial(n - k))`. -/
def binomialQuotient (fl : K → JsNum K) (n k : Nat) : JsNum K :=
  JsNum.div fl (factorial fl n) (JsNum.mul fl (factorial fl k) (factorial fl (n - k)))

/-- `generateBinomialProbabilities(n)`; `Math.pow(2, n)` is the number `fl`
returns for `2^n`. -/
def generateBinomialProbabilities (fl : K → JsNum K) (n : Nat) : List (JsNum K) :=
  let total := fl (2 ^ n)
  (List.range (n + 1)).map fun k =>
    let bin := binomialQuotient fl n k
    JsNum.div fl bin total

end

end Js

section OverflowOnly

variable {K : Type} [LinearOrderedField K]

/-- `Math.exp(x)` for a finite `x` when only overflow is taken into account:
the exact value `exp x`, or `Infinity` beyond `Number.MAX_VALUE`. -/
def JsNum.expExact (exp : K → K) (x : K) : JsNum K := JsNum.ofExact (exp x)

end OverflowOnly

/-! ### The probability engine in JavaScript numbers

The functions of the probability engine once more, on numbers that can be
`NaN` or infinite, with the `Number.isFinite` guards of the source.  `fl x` is
the number an arithmetic operation returns when its exact result is `x`
(`JsNum.ofExact` for overflow alone, `Binary64.round` for binary64), and
`exp x` the number `Math.exp(x)` returns for a finite `x`. -/

namespace Js

section

variable {K : Type} [LinearOrderedField K]

/-- `Math.exp(x)`. -/
def mathExp (exp : K → JsNum K) : JsNum K → JsNum K
  | JsNum.finite x => exp x
  | JsNum.nan => JsNum.nan
  | JsNum.posInf => JsNum.posInf
  | JsNum.negInf => JsNum.finite 0

/-- `probabilities.reduce((acc, value) => acc + value, 0)`. -/
def sumOf (fl : K → JsNum K) (probabilities : List (JsNum K)) : JsNum K :=
  probabilities.foldl (fun acc value => JsNum.add fl acc value) (JsNum.finite 0)

/-- `normalizeProbabilities(probabilities)`. -/
def normalizeProbabilities (fl : K → JsNum K) (probabilities : List (JsNum K)) :
    List (JsNum K) :=
  let sum := sumOf fl probabilities
  if !sum.isFinite || JsNum.le sum (JsNum.finite 0) then probabilities
  else probabilities.map fun value => JsNum.div fl value sum

/-- One iteration of the loop of `getWinChanceFromValues` on the pair
`(probabilities[i], values[i])`; the accumulator is
`(totalProbability, winProbability)`. -/
def winStep (fl : K → JsNum K) (threshold : K) (acc : JsNum K × JsNum K) (pv : JsNum K × K) :
    JsNum K × JsNum K :=
  if !pv.1.isFinite || JsNum.lt pv.1 (JsNum.finite 0) then acc
  else
    (JsNum.add fl acc.1 pv.1, if pv.2 ≥ threshold then JsNum.add fl acc.2 pv.1 else acc.2)

/-- `getWinChanceFromValues(probabilities, values, minMultiplier)`; `none` is
`null`.  The entries of `values` are finite numbers (`getMultiplierValues`
returns such a list); an index past the end of `values` is skipped by the
source (`Number(undefined)` is not finite), which is what `zip` does. -/
def getWinChanceFromValues (fl : K → JsNum K) (probabilities : List (JsNum K))
    (values : List K) (minMultiplier : Option K) : Option (JsNum K) :=
  let threshold := minMultiplier.getD 1
  let acc := (probabilities.zip values).foldl (winStep fl threshold)
    (JsNum.finite 0, JsNum.finite 0)
  if JsNum.le acc.1 (JsNum.finite 0) then none else some (JsNum.div fl acc.2 acc.1)

/-- The weight of slot `i` in `buildWeightedProbabilities`. -/
def weightOf (fl exp : K → JsNum K) (min : K) (range : JsNum K) (bias : K) (base : JsNum K)
    (value : K) : JsNum K :=
  if !base.isFinite || JsNum.lt base (JsNum.finite 0) then JsNum.finite 0
  else
    let score := JsNum.div fl (JsNum.sub fl (JsNum.finite value) (JsNum.finite min)) range
    let factor := mathExp exp
      (JsNum.mul fl (JsNum.finite bias) (JsNum.sub fl score (JsNum.finite 0.5)))
    JsNum.mul fl base factor

/-- `buildWeightedProbabilities(baseProbabilities, values, bias)` for a list
`values` of finite numbers and a finite `bias`. -/
def buildWeightedProbabilities (fl exp : K → JsNum K) (baseProbabilities : List (JsNum K))
    (values : List K) (bias : K) : List (JsNum K) :=
  let count := min baseProbabilities.length values.length
  if count ≤ 0 then []
  else
    match minOf (values.take count), maxOf (values.take count) with
    | some min, some max =>
      if max = min then normalizeProbabilities fl (baseProbabilities.take count)
      else
        let range := JsNum.sub fl (JsNum.finite max) (JsNum.finite min)
        let weights := (List.range count).map fun i =>
          weightOf fl exp min range bias (baseProbabilities.getD i JsNum.nan) (values.getD i 0)
        normalizeProbabilities fl weights
    | _, _ => normalizeProbabilities fl (baseProbabilities.take count)

/-- The win chance of the distribution built with a given bias:
`getWinChanceFromValues(buildWeightedProbabilities(base, values, bias), values,
minMultiplier)`. -/
def winChanceAt (fl exp : K → JsNum K) (base : List (JsNum K)) (values : List K)
    (minMultiplier : Option K) (bias : K) : Option (JsNum K) :=
  getWinChanceFromValues fl (buildWeightedProbabilities fl exp base values bias) values
    minMultiplier

/-- The 30-step loop of `buildWinRateProbabilities`, with the number of
remaining iterations as first argument; it returns the final `highBias`.  The
biases are multiples of `2^-26` between `-8` and `8`, which binary64 holds
exactly, so the midpoint is computed exactly. -/
def bisectBias (fl exp : K → JsNum K) (base : List (JsNum K)) (values : List K)
    (clampedTarget : K) (minMultiplier : Option K) : Nat → K → K → K
  | 0, _, highBias => highBias
  | n + 1, lowBias, highBias =>
    let midBias := (lowBias + highBias) / 2
    let midProbs := buildWeightedProbabilities fl exp base values midBias
    match getWinChanceFromValues fl midProbs values minMultiplier with
    | some (JsNum.finite midChance) =>
      if midChance < clampedTarget then
        bisectBias fl exp base values clampedTarget minMultiplier n midBias highBias
      else
        bisectBias fl exp base values clampedTarget minMultiplier n lowBias midBias
    | _ => highBias

/-- `buildWinRateProbabilities(baseProbabilities, multipliers, targetWinRate,
minMultiplier)`; a non-finite `targetWinRate` is `none`. -/
def buildWinRateProbabilities (fl exp : K → JsNum K) (baseProbabilities : List (JsNum K))
    (multipliers : List (JsVal K)) (targetWinRate : Option K) (minMultiplier : Option K) :
    List (JsNum K) :=
  match targetWinRate with
  | none => baseProbabilities
  | some targetWinRate =>
    let clampedTarget := clamp01 targetWinRate
    let count := min baseProbabilities.length multipliers.length
    if count ≤ 0 then baseProbabilities
    else
      let base := baseProbabilities.take count
      let values := getMultiplierValues multipliers count
      let lowBias : K := -WINRATE_BIAS_RANGE
      let highBias : K := WINRATE_BIAS_RANGE
      let lowProbs := buildWeightedProbabilities fl exp base values lowBias
      let highProbs := buildWeightedProbabilities fl exp base values highBias
      match getWinChanceFromValues fl lowProbs values minMultiplier,
          getWinChanceFromValues fl highProbs values minMultiplier with
      | some (JsNum.finite lowChance), some (JsNum.finite highChance) =>
        let swap : Bool := decide (lowChance > highChance)
        let lowBias' := if swap then highBias else lowBias
        let highBias' := if swap then lowBias else highBias
        let lowChance' := if swap then highChance else lowChance
        let highChance' := if swap then lowChance else highChance
        if clampedTarget ≤ lowChance' then lowProbs
        else if clampedTarget ≥ highChance' then highProbs
        else
          buildWeightedProbabilities fl exp base values
            (bisectBias fl exp base values clampedTarget minMultiplier 30 lowBias' highBias')
      | _, _ => normalizeProbabilities fl base

end

end Js

/-! ## Closest box -/

section Boxes

variable {K : Type} [LinearOrderedField K]

/-- The fields of a box graphic that the physics reads. -/
structure Box (K : Type) where
  x : K
  y : K
deriving DecidableEq, Repr

/-- The loop of `getClosestBoxIndexByX`; the accumulator is `(best, bestD)`
and `none` is `Infinity`. -/
def closestScan (boxWidth x : K) : List (Box K) → Nat → Nat × Option K → Nat × Option K
  | [], _, acc => acc
  | b :: bs, i, acc =>
    let cx := b.x + boxWidth / 2
    let d := |cx - x|
    let better : Bool := match acc.2 with
      | none => true
      | some bestD => decide (d < bestD)
    if better then closestScan boxWidth x bs (i + 1) (i, some d)
    else closestScan boxWidth x bs (i + 1) acc

/-- `getClosestBoxIndexByX(x)`. -/
def getClosestBoxIndexByX (boxGraphics : List (Box K)) (boxWidth x : K) : Int :=
  if boxGraphics.length = 0 then -1
  else ((closestScan boxWidth x boxGraphics 0 (0, none)).1 : Int)

end Boxes

/-! ## Specification-side notions used in the statements -/

section SpecNotions

variable {K : Type} [LinearOrderedField K]

/-- Cumulative normalized weight `p_0 + ... + p_i`, where `p_j` is weight `j`
divided by the sum of all weights. -/
def cumulativeWeight (probabilities : List K) (i : Nat) : K :=
  ((probabilities.take (i + 1)).map fun p => p / sumOf probabilities).sum

/-- Distance `|center - x|` of the centre `box.x + boxWidth / 2` of box `j`
from `x` (`0` past the end of the row). -/
def centerDist (boxWidth x : K) (boxes : List (Box K)) (j : Nat) : K :=
  match boxes[j]? with
  | some b => |b.x + boxWidth / 2 - x|
  | none => 0

/-- Invariant of the scan of `getClosestBoxIndexByX` once the boxes of `pre`
have been visited: nothing seen yet, or `best` is the first index of `pre`
at minimal distance and `bestD` is that distance. -/
def ClosestInv (boxWidth x : K) (pre : List (Box K)) (acc : Nat × Option K) : Prop :=
  (pre = [] ∧ acc = (0, none)) ∨
    (acc.1 < pre.length ∧ acc.2 = some (centerDist boxWidth x pre acc.1) ∧
      (∀ j, j < pre.length → centerDist boxWidth x pre acc.1 ≤ centerDist boxWidth x pre j) ∧
      (∀ j, j < acc.1 → centerDist boxWidth x pre acc.1 < centerDist boxWidth x pre j))

end SpecNotions

/-! ## Auxiliary notions for the win-chance proofs -/

section WinChanceNotions

variable {K : Type} [LinearOrderedField K]

/-- Contribution of one `(probability, multiplier)` pair to
`totalProbability`. -/
def totPart (pv : K × K) : K := if pv.1 < 0 then 0 else pv.1

/-- Contribution of one `(probability, multiplier)` pair to
`winProbability`. -/
def winPart (threshold : K) (pv : K × K) : K :=
  if pv.1 < 0 then 0 else if pv.2 ≥ threshold then pv.1 else 0

/-- The win chance of the distribution built with a given bias:
`getWinChanceFromValues(buildWeightedProbabilities(base, values, bias), values,
minMultiplier)`. -/
def winChanceAt (exp : K → K) (base values : List K) (minMultiplier : Option K) (bias : K) :
    Option K :=
  getWinChanceFromValues (buildWeightedProbabilities exp base values bias) values minMultiplier

end WinChanceNotions

section TiltNotions

variable {K : Type} [LinearOrderedField K]

/-- The base weight that `buildWeightedProbabilities` actually uses for slot
`i`: a negative entry counts as `0`. -/
def effBase (base : List K) (i : Nat) : K :=
  if base.getD i 0 < 0 then 0 else base.getD i 0

/-- The exponent coordinate `score - 0.5` of slot `i`. -/
def tiltCoord (mn range : K) (values : List K) (i : Nat) : K :=
  (values.getD i 0 - mn) / range - 0.5

/-- Sum over the slots `0..n-1` of the tilted weights
`eb i * exp (bias * x i)`. -/
def tiltTotal (exp : K → K) (eb x : Nat → K) (n : Nat) (bias : K) : K :=
  ∑ i in Finset.range n, eb i * exp (bias * x i)

/-- Sum of the tilted weights over the winning slots. -/
def tiltWin (exp : K → K) (eb x : Nat → K) (win : Nat → Bool) (n : Nat) (bias : K) : K :=
  ∑ i in Finset.range n, if win i then eb i * exp (bias * x i) else 0

/-- Sum of the tilted weights over the losing slots. -/
def tiltLose (exp : K → K) (eb x : Nat → K) (win : Nat → Bool) (n : Nat) (bias : K) : K :=
  ∑ i in Finset.range n, if win i then 0 else eb i * exp (bias * x i)

/-- Both win chances are `null`, or both are numbers and the first is at
most the second. -/
def OptLe : Option K → Option K → Prop
  | some a, some b => a ≤ b
  | none, none => True
  | _, _ => False

end TiltNotions

/-! ## Random sources -/

section Random

variable {K : Type} [LinearOrderedField K]

/-- `Math.imul(a, b)` on the 32-bit patterns of its arguments. -/
def imul (a b : Nat) : Nat := (a * b) % 2 ^ 32

/-- `createSeededRandom(seed)` for an integer seed: the initial value
`seed >>> 0` of the closure variable `t`.  A generator is represented by the
current value of its `t`. -/
def createSeededRandom (seed : Int) : Nat := (seed % 4294967296).toNat

/-- One call of the closure returned by `createSeededRandom`: the number it
returns and the new value of `t`.  The integer operators act on `t` and `r`
reduced modulo `2 ^ 32`; `t` itself is incremented without wrapping, as in
the source. -/
def seededNext (t : Nat) : K × Nat :=
  let t := t + 0x6d2b79f5
  let t32 := t % 2 ^ 32
  let r := imul (t32 ^^^ (t32 >>> 15)) (t32 ||| 1)
  let r := r ^^^ ((r + imul (r ^^^ (r >>> 7)) (r ||| 61)) % 2 ^ 32)
  (((r ^^^ (r >>> 14) : Nat) : K) / 4294967296, t)

/-- The random sources a drop can reach: the generator passed as `randomFn`
(`none` for `null` or `undefined`) and the global `Math.random`, given by the
sequence of numbers it will return and the count of calls made so far. -/
structure Rng (K : Type) where
  randomFn : Option Nat
  globalDraws : Nat → K
  globalUsed : Nat

/-- Computations that may draw random numbers. -/
abbrev RandM (K : Type) := StateM (Rng K)

/-- A call `rand()` where `rand = randomFn ?? Math.random`. -/
def rand : RandM K K := fun rng =>
  match rng.randomFn with
  | some t =>
    ((seededNext t : K × Nat).1, { rng with randomFn := some (seededNext t : K × Nat).2 })
  | none => (rng.globalDraws rng.globalUsed, { rng with globalUsed := rng.globalUsed + 1 })

/-- A computation is seeded when, run with a generator supplied as
`randomFn`, its result and the generator's final state are the same whatever
the global random source holds, and the global source is left untouched. -/
def Seeded {α : Type} (prog : RandM K α) : Prop :=
  ∀ t, ∃ a t', ∀ g u, prog ⟨some t, g, u⟩ = (a, ⟨some t', g, u⟩)

end Random

/-! ## Ball physics -/

section Physics

variable {K : Type} [LinearOrderedField K]

/-- The library functions of `Math` used by the physics. -/
structure MathFns (K : Type) where
  cos : K → K
  sin : K → K
  sqrt : K → K
  pow : K → K → K
  hypot : K → K → K
  pi : K

/-- The physics table `phys`.  A field the source guards with
`Number.isFinite` or `??` is optional (`none`: not finite, or missing). -/
structure Phys (K : Type) where
  gravity : K
  drag : K
  aimStrength : K
  wallRestitution : K
  restitution : K
  tangentialDamp : K
  collisionSlop : K
  impulseJitter : K
  maxSpeed : Option K
  minSpeed : Option K
  constantSpeed : Option K
  spawnSpeed : Option K
  spawnAngleJitter : Option K
  bounceAngleJitter : Option K
  keepDirectionChance : Option K
  centerBiasStrength : Option K
  centerBiasJitter : Option K
  constantSpeedBaseRows : Option K

/-- The fields of `THEME.layout` read when a drop is set up (`none`: not
finite, or missing). -/
structure Layout (K : Type) where
  spawnCompensatePegOffset : Option Bool
  spawnOffsetX : Option K
  spawnOffsetY : Option K
  spawnClampPadding : Option K
  spawnRangeX : Option K
  spawnRangeXMinRows : Option K
  spawnRangeXMaxRows : Option K
  spawnRangeXAtMinRows : Option K
  spawnRangeXAtMaxRows : Option K

/-- A peg centre. -/
structure Point (K : Type) where
  x : K
  y : K

/-- The board configuration: the closure variables of `createGame` and the
theme constants that the drop simulation reads. -/
structure Board (K : Type) where
  rows : K
  gridWidth : K
  gridStartY : K
  pegSpacingX : K
  pegSpacingY : K
  pegOffsetX : K
  apexX : K
  ballRadius : K
  pegRadius : K
  boxWidth : K
  boxHeight : K
  lastRowY : K
  scoreZoneTop : K
  scoreZoneBottom : K
  gameHeight : K
  boxGraphics : List (Box K)
  pegPoints : List (Point K)
  phys : Phys K
  layout : Layout K
  startRow : Option K
  entryInsetScale : Option K
  entryBottomScale : Option K

/-- The ball: `{ x, y, vx, vy }`. -/
structure BallState (K : Type) where
  x : K
  y : K
  vx : K
  vy : K

/-- The result of `buildDropContext`. -/
structure DropContext (K : Type) where
  state : BallState K
  targetX : Option K
  playLeft : K
  playRight : K
  zTop : K
  zBottom : K

/-- `Math.sign(x)`. -/
def sign (x : K) : K := if x > 0 then 1 else if x < 0 then -1 else 0

/-- `getPegPosition(row, col, gridWidth, startY, pegSpacingX, pegSpacingY,
pegOffsetX)`. -/
def getPegPosition (row col gridWidth startY pegSpacingX pegSpacingY : K)
    (pegOffsetX : Option K) : Point K :=
  let offsetX := pegOffsetX.getD 0
  let pegsInRow := row + 1
  let rowWidth := (pegsInRow - 1) * pegSpacingX
  let startX := (gridWidth - rowWidth) / 2
  { x := startX + col * pegSpacingX + offsetX, y := startY + row * pegSpacingY }

/-- `getSpawnRangeXForRows(rowCount, pegSpacingX, boxWidth, layout)`. -/
def getSpawnRangeXForRows (rowCount pegSpacingX boxWidth : K) (layout : Layout K) : K :=
  match layout.spawnRangeX with
  | some direct => max 0 direct
  | none =>
    let minRows := layout.spawnRangeXMinRows.getD 8
    let maxRows := layout.spawnRangeXMaxRows.getD 16
    match layout.spawnRangeXAtMinRows, layout.spawnRangeXAtMaxRows with
    | some atMin, some atMax =>
      if maxRows ≠ minRows then
        let t := (rowCount - minRows) / (maxRows - minRows)
        let clamped := max 0 (min 1 t)
        max 0 (atMin + (atMax - atMin) * clamped)
      else
        let baseJitter := min (pegSpacingX * 0.35) (boxWidth * 0.3)
        let spawnJitter := max 4 (min 24 baseJitter)
        spawnJitter * 2
    | _, _ =>
      let baseJitter := min (pegSpacingX * 0.35) (boxWidth * 0.3)
      let spawnJitter := max 4 (min 24 baseJitter)
      spawnJitter * 2

/-- `buildDropContext(targetIndex, randomFn)` for an integer `targetIndex`.
It draws twice: the spawn position, then the spawn angle. -/
def buildDropContext (m : MathFns K) (b : Board K) (targetIndex : Int) :
    RandM K (DropContext K) := do
  let startRow := b.startRow.getD 0
  let startPos := getPegPosition startRow 0 b.gridWidth b.gridStartY b.pegSpacingX
    b.pegSpacingY (some b.pegOffsetX)
  let spawnCompensate := b.layout.spawnCompensatePegOffset.getD true
  let fallback : K × K × K × Bool := (b.ballRadius, b.gridWidth - b.ballRadius, b.apexX, false)
  let boxCenterBounds : K × K × K × Bool :=
    if b.boxGraphics.length ≠ 0 ∧ b.boxWidth > 0 then
      match b.boxGraphics.head?, b.boxGraphics.getLast? with
      | some first, some last =>
        let left := first.x + b.boxWidth / 2
        let right := last.x + b.boxWidth / 2
        if right > left then (left, right, (left + right) / 2, true) else fallback
      | _, _ => fallback
    else fallback
  let boundsLeftC := boxCenterBounds.1
  let boundsRightC := boxCenterBounds.2.1
  let boundsCenter := boxCenterBounds.2.2.1
  let boundsHas := boxCenterBounds.2.2.2
  let spawnOffsetX := b.layout.spawnOffsetX.getD 0
    + (if !boundsHas && spawnCompensate then -b.pegOffsetX else 0)
  let spawnOffsetY := b.layout.spawnOffsetY.getD 0
  let spawnCenterX := boundsCenter + spawnOffsetX
  let spawnRangeX := getSpawnRangeXForRows b.rows b.pegSpacingX b.boxWidth b.layout
  let spawnClampPadding := b.layout.spawnClampPadding.getD 0
  let clampPad := max 0 spawnClampPadding
  let halfBoxWidth := if b.boxWidth > 0 then b.boxWidth / 2 else 0
  let boundsLeft := boundsLeftC - halfBoxWidth
  let boundsRight := boundsRightC + halfBoxWidth
  let spawnLeft := boundsLeft - clampPad
  let spawnRight := boundsRight + clampPad
  let targetBox : Option (Box K) :=
    if targetIndex ≥ 0 then b.boxGraphics[targetIndex.toNat]? else none
  let targetX : Option K := targetBox.map fun box => box.x + b.boxWidth / 2
  let r1 ← rand
  let spawnX := max spawnLeft (min spawnRight (spawnCenterX + (r1 - 0.5) * spawnRangeX))
  let spawnSpeed : K :=
    match b.phys.constantSpeed with
    | some c => if c > 0 then c else b.phys.spawnSpeed.getD 0
    | none => b.phys.spawnSpeed.getD 0
  let spawnAngleJitter := b.phys.spawnAngleJitter.getD 0
  let r2 ← rand
  let spawnAngle := m.pi / 2 + (r2 - 0.5) * spawnAngleJitter
  let spawnVx := m.cos spawnAngle * spawnSpeed
  let spawnVy := m.sin spawnAngle * spawnSpeed
  let state : BallState K :=
    { x := spawnX, y := startPos.y - b.pegSpacingY * 0.9 + spawnOffsetY,
      vx := spawnVx, vy := spawnVy }
  let boxTop : K :=
    match b.boxGraphics.head? with
    | some first => first.y
    | none => b.lastRowY + b.pegSpacingY
  let entryInset := min (b.boxHeight * 0.45)
    (max (b.ballRadius * 0.6) (b.boxHeight * b.entryInsetScale.getD 0.22))
  let entryBottom := max (entryInset + b.ballRadius)
    (b.boxHeight * b.entryBottomScale.getD 0.92)
  let zTop := if b.scoreZoneTop ≠ 0 then b.scoreZoneTop else boxTop + entryInset
  let zBottom := if b.scoreZoneBottom ≠ 0 then b.scoreZoneBottom else boxTop + entryBottom
  return { state := state, targetX := targetX, playLeft := spawnLeft, playRight := spawnRight,
           zTop := zTop, zBottom := zBottom }

/-- `clampStateSpeed(state, maxSpeed)`. -/
def clampStateSpeed (m : MathFns K) (state : BallState K) (maxSpeed : Option K) : BallState K :=
  match maxSpeed with
  | none => state
  | some maxSpeed =>
    if maxSpeed ≤ 0 then state
    else
      let speed := m.hypot state.vx state.vy
      if speed > maxSpeed then
        let k := maxSpeed / speed
        { state with vx := state.vx * k, vy := state.vy * k }
      else state

/-- `resolvePegCollision(state, pegX, pegY, randomFn, { emitRipple })`: the
returned flag and the mutated `state`.  The ripple it may spawn is a visual
effect and is not part of the model.  It draws, in this order: the impulse
jitter, the bounce-angle jitter (when `bounceAngleJitter > 0`), the
keep-direction test, the sign of a zero incoming velocity (when the
direction is not kept), and the centre-bias jitter (when that bias applies). -/
def resolvePegCollision (m : MathFns K) (b : Board K) (state : BallState K) (pegX pegY : K) :
    RandM K (Bool × BallState K) := do
  let mut state := state
  let dx := state.x - pegX
  let dy := state.y - pegY
  let r := b.ballRadius + b.pegRadius
  let d2 := dx * dx + dy * dy
  if d2 ≤ 0 ∨ d2 > r * r then
    return (false, state)
  let d := m.sqrt d2
  let nx := dx / d
  let ny := dy / d
  let penetration := r - d + b.phys.collisionSlop
  state := { state with x := state.x + nx * penetration }
  state := { state with y := state.y + ny * penetration }
  let vDotN := state.vx * nx + state.vy * ny
  if vDotN < 0 then
    let incomingVx := state.vx
    let tx := -ny
    let ty := nx
    let vDotT := state.vx * tx + state.vy * ty
    let mut j := -(1 + b.phys.restitution) * vDotN
    if state.y > pegY then
      j := 0
    state := { state with vx := state.vx + j * nx }
    state := { state with vy := state.vy + j * ny }
    state := { state with
      vx := tx * (vDotT * b.phys.tangentialDamp) + nx * (state.vx * nx + state.vy * ny) }
    state := { state with
      vy := ty * (vDotT * b.phys.tangentialDamp) + ny * (state.vx * nx + state.vy * ny) }
    let r1 ← rand
    state := { state with vx := state.vx + (r1 - 0.5) * b.phys.impulseJitter }
    let angleJitter := b.phys.bounceAngleJitter.getD 0
    if angleJitter > 0 then
      let r2 ← rand
      let angle := (r2 - 0.5) * angleJitter * 2
      let cos := m.cos angle
      let sin := m.sin angle
      let vx := state.vx
      let vy := state.vy
      state := { state with vx := vx * cos - vy * sin }
      state := { state with vy := vx * sin + vy * cos }
    let keepChance := b.phys.keepDirectionChance.getD 0
    let r3 ← rand
    let shouldKeep : Bool := decide (r3 < keepChance)
    if !shouldKeep then
      let mut incomingSign := sign incomingVx
      if incomingSign = 0 then
        let r4 ← rand
        incomingSign := if r4 < 0.5 then -1 else 1
      let outgoingSign := sign state.vx
      if outgoingSign = 0 ∨ outgoingSign = incomingSign then
        state := { state with vx := -state.vx }
        if |state.vx| < 1e-4 then
          let nudge := max (max 1 |incomingVx|) b.phys.impulseJitter
          state := { state with vx := -incomingSign * nudge }
    let centerBiasStrength := b.phys.centerBiasStrength.getD 0
    if centerBiasStrength > 0 ∧ |state.vx| > 1e-4 then
      let toCenter := b.apexX + b.pegOffsetX - state.x
      let directionToCenter := sign toCenter
      if directionToCenter ≠ 0 then
        let maxDistance := max 1 (b.gridWidth * 0.5)
        let distanceFactor := min 1 (|toCenter| / maxDistance)
        if distanceFactor > 0 then
          let r5 ← rand
          let jitter := 1 + (r5 - 0.5) * b.phys.centerBiasJitter.getD 0
          let bias := centerBiasStrength * distanceFactor * jitter
          let movingTowardCenter : Bool := decide (sign state.vx = directionToCenter)
          state := { state with vx := state.vx * (if movingTowardCenter then 1 + bias else 1 - bias) }
    state := clampStateSpeed m state b.phys.maxSpeed
    return (true, state)
  return (false, state)

/-- The loop `for (i = 0; i < pegPoints.length; i++)` of `stepBallPhysics`;
the accumulator is `(hit, state)`. -/
def pegLoop (m : MathFns K) (b : Board K) : List (Point K) → Bool × BallState K →
    RandM K (Bool × BallState K)
  | [], acc => pure acc
  | peg :: pegs, acc => do
    let res ← resolvePegCollision m b acc.2 peg.x peg.y
    pegLoop m b pegs (if res.1 then true else acc.1, res.2)

/-- `stepBallPhysics(state, randomFn, targetX, dt, playBounds, { emitRipple })`:
the returned `hit` flag and the mutated `state`. -/
def stepBallPhysics (m : MathFns K) (b : Board K) (state : BallState K) (targetX : Option K)
    (dt playLeft playRight : K) : RandM K (Bool × BallState K) := do
  let mut state := state
  state := { state with vy := state.vy + b.phys.gravity * dt }
  state := { state with vx := state.vx * m.pow b.phys.drag (dt * 60) }
  state := { state with vy := state.vy * m.pow b.phys.drag (dt * 60) }
  match targetX with
  | some targetX =>
    let dx := targetX - state.x
    state := { state with vx := state.vx + dx * b.phys.aimStrength * dt * 60 }
  | none => pure ()
  let speedLimit := b.phys.maxSpeed.getD 0
  let sp := m.hypot state.vx state.vy
  if speedLimit > 0 ∧ sp > speedLimit then
    let k := speedLimit / sp
    state := { state with vx := state.vx * k }
    state := { state with vy := state.vy * k }
  state := { state with x := state.x + state.vx * dt }
  state := { state with y := state.y + state.vy * dt }
  let left := playLeft + b.ballRadius
  let right := playRight - b.ballRadius
  if state.x < left then
    state := { state with x := left }
    if state.vx < 0 then
      state := { state with vx := -state.vx * b.phys.wallRestitution }
  else if state.x > right then
    state := { state with x := right }
    if state.vx > 0 then
      state := { state with vx := -state.vx * b.phys.wallRestitution }
  let res ← pegLoop m b b.pegPoints (false, state)
  let hit := res.1
  state := res.2
  let maxSpeed := b.phys.maxSpeed.getD 0
  let minSpeed := b.phys.minSpeed.getD 0
  let constantSpeed := b.phys.constantSpeed.getD 0
  let mut speed := m.hypot state.vx state.vy
  if constantSpeed > 0 then
    let target := if maxSpeed > 0 then min constantSpeed maxSpeed else constantSpeed
    if target > 0 then
      if speed < 1e-4 then
        state := { state with vx := 0 }
        state := { state with vy := target }
      else
        let k := target / speed
        state := { state with vx := state.vx * k }
        state := { state with vy := state.vy * k }
  else
    if maxSpeed > 0 ∧ speed > maxSpeed then
      let k := maxSpeed / speed
      state := { state with vx := state.vx * k }
      state := { state with vy := state.vy * k }
      speed := maxSpeed
    let floorSpeed :=
      if minSpeed > 0 then (if maxSpeed > 0 then min minSpeed maxSpeed else minSpeed) else 0
    if floorSpeed > 0 ∧ speed < floorSpeed then
      if speed < 1e-4 then
        state := { state with vx := 0 }
        state := { state with vy := floorSpeed }
      else
        let k := floorSpeed / speed
        state := { state with vx := state.vx * k }
        state := { state with vy := state.vy * k }
  return (hit, state)

/-- The loop `for (step = 0; step < steps; step++)` of `simulateDropPreview`,
with the number of remaining iterations as argument. -/
def previewLoop (m : MathFns K) (b : Board K) (targetX : Option K)
    (stepDelta playLeft playRight zTop zBottom : K) : Nat → BallState K → RandM K Int
  | 0, _ => pure (-1)
  | n + 1, state => do
    let res ← stepBallPhysics m b state targetX stepDelta playLeft playRight
    let state := res.2
    if state.y ≥ zTop ∧ state.y ≤ zBottom then
      return getClosestBoxIndexByX b.boxGraphics b.boxWidth state.x
    if state.y > b.gameHeight + b.ballRadius * 3 then
      return -1
    previewLoop m b targetX stepDelta playLeft playRight zTop zBottom n state

/-- `simulateDropPreview(targetIndex, randomFn, fixedDelta, maxSteps)`; the
generator `randomFn` is the one held by the random source the computation is
run with.  `fixedDelta` is `none` when it is not finite, `maxSteps` is `none`
when it is `null` or `undefined`. -/
def simulateDropPreview [FloorRing K] (m : MathFns K) (b : Board K) (targetIndex : Int)
    (fixedDelta : Option K) (maxSteps : Option K) : RandM K Int := do
  let ctx ← buildDropContext m b targetIndex
  let steps := max 1 ⌊maxSteps.getD 2000⌋₊
  let stepDelta : K :=
    match fixedDelta with
    | some fixedDelta => if fixedDelta > 0 then fixedDelta else 1 / 60
    | none => 1 / 60
  previewLoop m b ctx.targetX stepDelta ctx.playLeft ctx.playRight ctx.zTop ctx.zBottom steps
    ctx.state

end Physics

section Post

/-- A postcondition on the value a computation returns, for every state of
the random sources. -/
structure Post {K α : Type} (Q : α → Prop) (prog : RandM K α) : Prop where
  holds : ∀ rng, Q (prog rng).1

/-- A small board used to instantiate the physics theorems: two boxes of
width `10`, one peg at the origin, ball radius `1`, peg radius `1`, and the
physics constants of `PHYS`. -/
def exampleBoard (K : Type) [LinearOrderedField K] : Board K where
  rows := 8
  gridWidth := 20
  gridStartY := 0
  pegSpacingX := 10
  pegSpacingY := 10
  pegOffsetX := 0
  apexX := 10
  ballRadius := 1
  pegRadius := 1
  boxWidth := 10
  boxHeight := 4
  lastRowY := 80
  scoreZoneTop := 0
  scoreZoneBottom := 0
  gameHeight := 100
  boxGraphics := [⟨0, 90⟩, ⟨10, 90⟩]
  pegPoints := [⟨0, 0⟩]
  phys :=
    { gravity := 10000, drag := 0.993, aimStrength := 0.20105, wallRestitution := 0.14,
      restitution := 0.18, tangentialDamp := 0.85, collisionSlop := 0.01, impulseJitter := 8,
      maxSpeed := some 300, minSpeed := some 300, constantSpeed := some 300,
      spawnSpeed := some 300, spawnAngleJitter := some 0, bounceAngleJitter := some 0.02,
      keepDirectionChance := some 0.15, centerBiasStrength := some 1,
      centerBiasJitter := some 0.15, constantSpeedBaseRows := some 16 }
  layout :=
    { spawnCompensatePegOffset := some true, spawnOffsetX := some 0, spawnOffsetY := some 0,
      spawnClampPadding := some 0, spawnRangeX := none, spawnRangeXMinRows := some 16,
      spawnRangeXMaxRows := some 8, spawnRangeXAtMinRows := some 120,
      spawnRangeXAtMaxRows := some 60 }
  startRow := some 1
  entryInsetScale := some 0.22
  entryBottomScale := some 0.92

end Post

section TestMode

variable {K : Type} [LinearOrderedField K] [FloorRing K]

/-- The options object `testMode`.  An option the code reads as
`Number.isFinite(x) ? x : fallback` (`forcedLandingIndex`, `fixedDelta`,
`seedBase`) is `none` when it is not finite.  An option the code reads as
`x ?? fallback` (`maxAttempts`, `maxSteps`, `variationsPerSide`,
`searchYieldMs`) is `none` when it is `null` or `undefined` and a number
otherwise, `NaN` and the infinities included. -/
structure TestMode (K : Type) where
  enabled : Bool
  forcedLandingIndex : Option K
  fixedDelta : Option K
  maxAttempts : Option (JsNum K)
  maxSteps : Option (JsNum K)
  seedBase : Option K
  variationsPerSide : Option (JsNum K)
  autoSearch : Bool
  searchYieldMs : Option (JsNum K)

/-- The defaults `TEST_MODE`. -/
def TEST_MODE : TestMode K where
  enabled := false
  forcedLandingIndex := some 1
  fixedDelta := some (1 / 60)
  maxAttempts := some (JsNum.finite 1000000)
  maxSteps := some (JsNum.finite 2000)
  seedBase := some 0x1a2b3c4d
  variationsPerSide := some (JsNum.finite 4)
  autoSearch := true
  searchYieldMs := some (JsNum.finite 8)

/-- `Math.round` on a finite number: halves round up. -/
def jsRound (x : K) : Int := ⌊x + 1 / 2⌋

/-- `getForcedLandingIndex()`; `forcedLandingIndex` is `none` when
`Number(testMode.forcedLandingIndex)` is not finite. -/
def getForcedLandingIndex (testMode : TestMode K) (boxCount : Int) : Option Int :=
  if !testMode.enabled then none
  else
    match testMode.forcedLandingIndex with
    | none => none
    | some idx => some (max 0 (min (boxCount - 1) (jsRound idx)))

/-- `getTestModeTargets()`: the pair `(leftIndex, rightIndex)`, or `none` for
`null`. -/
def getTestModeTargets (testMode : TestMode K) (boxCount : Int) : Option (Int × Int) :=
  match getForcedLandingIndex testMode boxCount with
  | none => none
  | some offset =>
    let leftIndex := offset
    let rightIndex := max 0 (boxCount - 1 - offset)
    some (leftIndex, rightIndex)

/-- The expression `Math.max(1, Math.floor(x))` for a number `x`: `NaN` for
`NaN`, `Infinity` for `Infinity`, `1` for `-Infinity`. -/
def floorAtLeastOne : JsNum K → JsNum Nat
  | JsNum.finite x => JsNum.finite (max 1 ⌊x⌋₊)
  | JsNum.nan => JsNum.nan
  | JsNum.posInf => JsNum.posInf
  | JsNum.negInf => JsNum.finite 1

/-- `getDesiredVariations()`. -/
def getDesiredVariations (testMode : TestMode K) : JsNum Nat :=
  floorAtLeastOne (testMode.variationsPerSide.getD (JsNum.finite 4))

/-- The conversion `v >>> 0` of a finite number: truncate toward zero, then
reduce modulo `2^32`. -/
def toUint32 (v : K) : Nat :=
  ((if 0 ≤ v then ⌊v⌋ else ⌈v⌉) % 2 ^ 32).toNat

/-- `makeTestSeed(base, rowCount, targetIndex, attempt)`. -/
def makeTestSeed (base rowCount : K) (targetIndex : Int) (attempt : Nat) : Nat :=
  let v :=
    base +
    rowCount * 0x1f123bb5 +
    (targetIndex : K) * 0x9e3779b9 +
    (attempt : K) * 0x85ebca6b
  toUint32 v

/-- One of the keys `"left"` and `"right"` of the pools. -/
inductive Side where
  | left
  | right
  deriving DecidableEq, Repr

/-- A pair `{ left, right }` of seed collections (the arrays of
`testModePools`, the sets of `testModePoolSets`). -/
structure Pools where
  left : List Nat
  right : List Nat
  deriving DecidableEq, Repr

/-- The lookup `pools[side]`. -/
def Pools.get (pools : Pools) : Side → List Nat
  | Side.left => pools.left
  | Side.right => pools.right

/-- The update `pools[side].push(seed)` (for a set: `.add(seed)`). -/
def Pools.push (pools : Pools) (side : Side) (seed : Nat) : Pools :=
  match side with
  | Side.left => { pools with left := pools.left ++ [seed] }
  | Side.right => { pools with right := pools.right ++ [seed] }

/-- The variables of the seed search: `testModePools`, `testModePoolSets`,
`testModePoolKey`, `testModeSearchKey`, `testModeSearchPromise` (`true` when a
promise is stored), `testModeSearchToken` and `testModeLastSeed`. -/
structure TestSearch where
  testModePools : Pools
  testModePoolSets : Pools
  testModePoolKey : Option String
  testModeSearchKey : Option String
  testModeSearchPromise : Bool
  testModeSearchToken : Nat
  testModeLastSeed : Option Nat
  deriving DecidableEq, Repr

/-- The state the search variables start in. -/
def TestSearch.initial : TestSearch where
  testModePools := ⟨[], []⟩
  testModePoolSets := ⟨[], []⟩
  testModePoolKey := none
  testModeSearchKey := none
  testModeSearchPromise := false
  testModeSearchToken := 0
  testModeLastSeed := none

/-- A call that passes the generator in state `t` as `randomFn`: the callee
draws from it, the caller's own random source is left as it was. -/
def withRandomFn {α : Type} (t : Nat) (prog : RandM K α) : RandM K α := fun rng =>
  ((prog { rng with randomFn := some t }).1,
    { (prog { rng with randomFn := some t }).2 with randomFn := rng.randomFn })

/-- The local `attemptsLimit` of `fillTestModePools`:
`Math.min(rawAttemptsLimit, desired * 25000)`, which is `NaN` when either
number is `NaN`; the product overflows to `Infinity` above
`Number.MAX_VALUE`. -/
def attemptsLimit (testMode : TestMode K) : JsNum Nat :=
  let desired := getDesiredVariations testMode
  let rawAttemptsLimit := floorAtLeastOne (testMode.maxAttempts.getD (JsNum.finite 1000000))
  let product : JsNum Nat :=
    match desired with
    | JsNum.finite d =>
      if ((d * 25000 : Nat) : K) > MAX_VALUE then JsNum.posInf else JsNum.finite (d * 25000)
    | other => other
  match rawAttemptsLimit, product with
  | JsNum.nan, _ => JsNum.nan
  | _, JsNum.nan => JsNum.nan
  | JsNum.negInf, _ => JsNum.negInf
  | _, JsNum.negInf => JsNum.negInf
  | JsNum.posInf, p => p
  | r, JsNum.posInf => r
  | JsNum.finite r, JsNum.finite p => JsNum.finite (min r p)

/-- The local `fixedDelta` of `fillTestModePools`. -/
def searchFixedDelta (testMode : TestMode K) : K :=
  testMode.fixedDelta.getD (1 / 60)

/-- The local `maxSteps` of `fillTestModePools`, the configured step budget. -/
def configuredMaxSteps (testMode : TestMode K) : JsNum Nat :=
  floorAtLeastOne (testMode.maxSteps.getD (JsNum.finite 2000))

/-- The local `searchMaxSteps` of `fillTestModePools`, the budget the search
simulates with: `Math.min(maxSteps, Math.max(700, rows * 110))`, which is
`NaN` when `maxSteps` is and never `Infinity`. -/
def searchMaxSteps (testMode : TestMode K) (rows : K) : JsNum K :=
  match configuredMaxSteps testMode with
  | JsNum.finite maxSteps => JsNum.finite (min (maxSteps : K) (max 700 (rows * 110)))
  | JsNum.nan => JsNum.nan
  | JsNum.posInf => JsNum.finite (max 700 (rows * 110))
  | JsNum.negInf => JsNum.negInf

/-- The call `simulateDropPreview(targetIndex, randomFn, fixedDelta, maxSteps)`
with a number `maxSteps` that is not `Infinity`.  For `NaN` the local `steps`
is `NaN`, the test `step < steps` fails at once and `-1` is returned after
`buildDropContext`; for `-Infinity` it is `1`.  (With `Infinity` the loop
runs until the ball lands or leaves the board; the search never passes it,
see `searchMaxSteps`, and the model treats it as `NaN`.) -/
def simulateDropPreviewWith (m : MathFns K) (b : Board K) (targetIndex : Int)
    (fixedDelta : Option K) (maxSteps : JsNum K) : RandM K Int :=
  match maxSteps with
  | JsNum.finite maxSteps => simulateDropPreview m b targetIndex fixedDelta (some maxSteps)
  | JsNum.negInf => simulateDropPreview m b targetIndex fixedDelta (some 1)
  | _ => do
    let _ ← buildDropContext m b targetIndex
    return -1

/-- The closure `tryAddSeed(side, targetIndex, attempt)` of
`fillTestModePools`, with the search variables as explicit state. -/
def tryAddSeed (m : MathFns K) (b : Board K) (testMode : TestMode K) (token : Nat) (side : Side)
    (targetIndex : Int) (attempt : Nat) (search : TestSearch) : RandM K (Bool × TestSearch) := do
  if token ≠ search.testModeSearchToken then
    return (false, search)
  let seed := makeTestSeed (testMode.seedBase.getD 0x1a2b3c4d) b.rows targetIndex attempt
  if seed ∈ search.testModePoolSets.get side then
    return (false, search)
  let landedIndex ← withRandomFn (createSeededRandom seed)
    (simulateDropPreviewWith m b targetIndex (some (searchFixedDelta testMode))
      (searchMaxSteps testMode b.rows))
  if landedIndex = targetIndex then
    if token ≠ search.testModeSearchToken then
      return (false, search)
    return (true,
      { search with
        testModePoolSets := search.testModePoolSets.push side seed
        testModePools := search.testModePools.push side seed })
  return (false, search)

/-- The variables of the search loop. -/
structure FillState where
  search : TestSearch
  leftAttempts : Nat
  rightAttempts : Nat
  deriving DecidableEq, Repr

/-- How a run of the search loop ends: the iteration bound of the model is
used up, the search is cancelled (`return null`), or the loop is left by
`break`. -/
inductive FillOutcome where
  | outOfFuel
  | cancelled (st : FillState)
  | completed (st : FillState)
  deriving DecidableEq, Repr

/-- The comparison `count >= bound` of a count with a number: false when the
bound is `NaN` or `Infinity`. -/
def countReaches (count : Nat) : JsNum Nat → Bool
  | JsNum.finite bound => decide (count ≥ bound)
  | JsNum.negInf => true
  | _ => false

/-- The loop `while (true)` of `fillTestModePools`, run for at most `fuel`
iterations; the cooperative yields have no effect on the variables. -/
def fillLoop (m : MathFns K) (b : Board K) (testMode : TestMode K) (token : Nat)
    (leftIndex rightIndex : Int) : Nat → FillState → RandM K FillOutcome
  | 0, _ => pure FillOutcome.outOfFuel
  | fuel + 1, st => do
    if token ≠ st.search.testModeSearchToken then
      return FillOutcome.cancelled st
    let desired := getDesiredVariations testMode
    let needRight := decide (leftIndex ≠ rightIndex)
    let leftDone :=
      countReaches st.search.testModePools.left.length desired ||
        countReaches st.leftAttempts (attemptsLimit testMode)
    let rightDone :=
      !needRight ||
        countReaches st.search.testModePools.right.length desired ||
        countReaches st.rightAttempts (attemptsLimit testMode)
    if leftDone && rightDone then
      return FillOutcome.completed st
    let mut st := st
    if !leftDone then
      let res ← tryAddSeed m b testMode token Side.left leftIndex st.leftAttempts st.search
      st := { st with search := res.2, leftAttempts := st.leftAttempts + 1 }
    if !rightDone then
      let res ← tryAddSeed m b testMode token Side.right rightIndex st.rightAttempts st.search
      st := { st with search := res.2, rightAttempts := st.rightAttempts + 1 }
    fillLoop m b testMode token leftIndex rightIndex fuel st

/-- `fillTestModePools(targets)` with `targets = { leftIndex, rightIndex }`,
the loop being run for at most `fuel` iterations. -/
def fillTestModePools (m : MathFns K) (b : Board K) (testMode : TestMode K)
    (leftIndex rightIndex : Int) (fuel : Nat) (search : TestSearch) : RandM K FillOutcome :=
  let token := search.testModeSearchToken + 1
  let search := { search with testModeSearchToken := token }
  fillLoop m b testMode token leftIndex rightIndex fuel ⟨search, 0, 0⟩

/-- Every seed of `pool` makes `simulateDropPreview(targetIndex,
createSeededRandom(seed), fixedDelta, maxSteps)` return `targetIndex`,
whatever the global random source holds, `maxSteps` being the configured step
budget.  For the budget `Infinity`, with which the loop of the preview runs
until the ball lands or leaves the board, this reads: the preview returns
`targetIndex` with every large enough number of steps. -/
def PoolValid (m : MathFns K) (b : Board K) (testMode : TestMode K) (targetIndex : Int)
    (pool : List Nat) : Prop :=
  ∀ seed ∈ pool, ∀ rng : Rng K,
    match configuredMaxSteps testMode with
    | JsNum.posInf =>
      ∃ N : Nat, ∀ n : Nat, N ≤ n →
        (withRandomFn (createSeededRandom seed)
          (simulateDropPreview m b targetIndex (some (searchFixedDelta testMode))
            (some (n : K))) rng).1 = targetIndex
    | JsNum.finite maxSteps =>
      (withRandomFn (createSeededRandom seed)
        (simulateDropPreview m b targetIndex (some (searchFixedDelta testMode))
          (some (maxSteps : K))) rng).1 = targetIndex
    | JsNum.nan =>
      (withRandomFn (createSeededRandom seed)
        (simulateDropPreviewWith m b targetIndex (some (searchFixedDelta testMode))
          JsNum.nan) rng).1 = targetIndex
    | JsNum.negInf =>
      (withRandomFn (createSeededRandom seed)
        (simulateDropPreviewWith m b targetIndex (some (searchFixedDelta testMode))
          JsNum.negInf) rng).1 = targetIndex

end TestMode

section Game

variable {K : Type} [LinearOrderedField K] [FloorRing K]

/-- `Math.round(x)`. -/
def JsNum.round : JsNum K → JsNum Int
  | JsNum.finite x => JsNum.finite (jsRound x)
  | JsNum.nan => JsNum.nan
  | JsNum.posInf => JsNum.posInf
  | JsNum.negInf => JsNum.negInf

/-- `Math.min(a, b)`: `NaN` when an argument is `NaN`. -/
def JsNum.min : JsNum Int → JsNum Int → JsNum Int
  | JsNum.nan, _ => JsNum.nan
  | _, JsNum.nan => JsNum.nan
  | JsNum.negInf, _ => JsNum.negInf
  | _, JsNum.negInf => JsNum.negInf
  | JsNum.posInf, b => b
  | a, JsNum.posInf => a
  | JsNum.finite x, JsNum.finite y => JsNum.finite (Min.min x y)

/-- `Math.max(a, b)`: `NaN` when an argument is `NaN`. -/
def JsNum.max : JsNum Int → JsNum Int → JsNum Int
  | JsNum.nan, _ => JsNum.nan
  | _, JsNum.nan => JsNum.nan
  | JsNum.posInf, _ => JsNum.posInf
  | _, JsNum.posInf => JsNum.posInf
  | JsNum.negInf, b => b
  | a, JsNum.negInf => a
  | JsNum.finite x, JsNum.finite y => JsNum.finite (Max.max x y)

/-- The comparison `a === b` of two numbers: `NaN` equals nothing. -/
def JsNum.strictEq : JsNum Int → JsNum Int → Bool
  | JsNum.nan, _ => false
  | _, JsNum.nan => false
  | a, b => decide (a = b)

/-- The row count as a table key and loop bound: a finite count that is not
negative.  For every other count `table[rows]` is `undefined` and the loop
`for (k = 0; k <= rows; k++)` does not run (`Infinity`, for which the loop
would not end, is never stored: the count is capped by `maxRows`). -/
def JsNum.toIndex : JsNum Int → Option Nat
  | JsNum.finite x => if 0 ≤ x then some x.toNat else none
  | _ => none

/-- The rows initialisation of `createGame`: `rows = opts.rows ?? 16` followed
by `rows = Math.max(minRows, Math.min(maxRows, rows))`. -/
def createGameRows (minRows maxRows : Int) (optsRows : Option (JsNum Int)) : JsNum Int :=
  let rows := optsRows.getD (JsNum.finite 16)
  JsNum.max (JsNum.finite minRows) (JsNum.min (JsNum.finite maxRows) rows)

/-- `getMultipliersForRows(rows, difficulty)` for the stored row count. -/
def multipliersForRows (rows : JsNum Int) (difficulty : String) : List (MultiplierSlot K) :=
  match rows.toIndex with
  | some n => getMultipliersForRows n difficulty
  | none => []

/-- `generateBinomialProbabilities(rows)` for the stored row count. -/
def binomialForRows (rows : JsNum Int) : List K :=
  match rows.toIndex with
  | some n => generateBinomialProbabilities n
  | none => []

/-- The constants `PHYS`. -/
def PHYS : Phys K where
  gravity := 10000
  drag := 0.993
  maxSpeed := some 300
  spawnSpeed := some 300
  spawnAngleJitter := some 0
  minSpeed := some 300
  constantSpeed := some 300
  constantSpeedBaseRows := some 16
  restitution := 0.18
  wallRestitution := 0.14
  tangentialDamp := 0.85
  collisionSlop := 0.01
  impulseJitter := 8
  aimStrength := 0.20105
  centerBiasStrength := some 1.0
  centerBiasJitter := some 0.15
  bounceAngleJitter := some 0.02
  keepDirectionChance := some 0.15

/-- `getSpeedScaleForRows(rowCount)` for a finite `rowCount`. -/
def getSpeedScaleForRows (rowCount : K) : K :=
  let baseRows := (PHYS : Phys K).constantSpeedBaseRows.getD 16
  let safeRows := max 1 rowCount
  let safeBase := max 1 baseRows
  safeBase / safeRows

/-- The table `getPhysForRows` builds from a finite `scale`: every constant
but `constantSpeedBaseRows` is multiplied by `scale`, those of
`PHYS_FORCE_SCALE_KEYS` by `forceScale = Math.min(2, Math.max(0, scale))`, and
those of `PHYS_CLAMP_01_KEYS` are then clamped to `[0, 1]`. -/
def scalePhys (scale : K) : Phys K :=
  let forceScale := min 2 (max 0 scale)
  { gravity := (PHYS : Phys K).gravity * scale
    drag := clamp01 ((PHYS : Phys K).drag * scale)
    maxSpeed := (PHYS : Phys K).maxSpeed.map (fun value => value * scale)
    spawnSpeed := (PHYS : Phys K).spawnSpeed.map (fun value => value * scale)
    spawnAngleJitter := (PHYS : Phys K).spawnAngleJitter.map (fun value => value * scale)
    minSpeed := (PHYS : Phys K).minSpeed.map (fun value => value * scale)
    constantSpeed := (PHYS : Phys K).constantSpeed.map (fun value => value * scale)
    constantSpeedBaseRows := (PHYS : Phys K).constantSpeedBaseRows
    restitution := clamp01 ((PHYS : Phys K).restitution * scale)
    wallRestitution := clamp01 ((PHYS : Phys K).wallRestitution * scale)
    tangentialDamp := clamp01 ((PHYS : Phys K).tangentialDamp * scale)
    collisionSlop := (PHYS : Phys K).collisionSlop * scale
    impulseJitter := (PHYS : Phys K).impulseJitter * scale
    aimStrength := (PHYS : Phys K).aimStrength * forceScale
    centerBiasStrength := (PHYS : Phys K).centerBiasStrength.map (fun value => value * forceScale)
    centerBiasJitter := (PHYS : Phys K).centerBiasJitter.map (fun value => value * forceScale)
    bounceAngleJitter := (PHYS : Phys K).bounceAngleJitter.map (fun value => value * forceScale)
    keepDirectionChance :=
      (PHYS : Phys K).keepDirectionChance.map (fun value => clamp01 (value * forceScale)) }

/-- `getPhysForRows(rowCount)` for a finite `rowCount`. -/
def getPhysForRows (rowCount : K) : Phys K :=
  scalePhys (getSpeedScaleForRows rowCount)

/-- `getPhysForRows(rows)` for the stored row count; `none` is the table whose
scaled entries are all `NaN` (row count `NaN`).  For `Infinity` the scale is
`safeBase / Infinity = 0`, for `-Infinity` it is `safeBase / 1`. -/
def physForRows (rows : JsNum Int) : Option (Phys K) :=
  match rows with
  | JsNum.finite rowCount => some (getPhysForRows (rowCount : K))
  | JsNum.nan => none
  | JsNum.posInf => some (scalePhys 0)
  | JsNum.negInf => some (scalePhys (getSpeedScaleForRows 1))

/-- The variables of a game that the row and difficulty setters read or
write.  `view` stands for what is drawn (layout, pegs, boxes, history
display), `searchYieldMs` for `testMode.searchYieldMs`. -/
structure GameState (K V : Type) where
  rows : JsNum Int
  difficulty : String
  multipliers : List (MultiplierSlot K)
  boxCount : Nat
  baseProbabilities : List K
  probabilities : List K
  winRateTarget : Option K
  winRateMinMultiplier : K
  phys : Option (Phys K)
  isAnimating : Bool
  activeDrops : Nat
  history : List (JsVal K)
  search : TestSearch
  searchYieldMs : Option K
  view : V

/-- What a game is created with: `Math.exp`, the constants `minRows`,
`maxRows` and `defaultSearchYieldMs`, and the effect of the drawing
functions.  `resizeView` is `resize()` up to `createTestModeLabel()`,
`queueTestModeSearch` the effect on the search variables of the call that
ends `resize()`; none of them assigns another variable of the state. -/
structure GameEnv (K V : Type) where
  exp : K → K
  minRows : Int
  maxRows : Int
  defaultSearchYieldMs : K
  resizeView : GameState K V → V
  queueTestModeSearch : GameState K V → TestSearch
  createBoxes : GameState K V → V
  updateHistoryDisplay : GameState K V → V
  updateHistoryTitleColor : GameState K V → V

/-- The closure `markDropStart`. -/
def markDropStart {V : Type} (st : GameState K V) : GameState K V :=
  let st := { st with activeDrops := st.activeDrops + 1 }
  { st with isAnimating := decide (st.activeDrops > 0) }

/-- The closure `markDropEnd`. -/
def markDropEnd {V : Type} (st : GameState K V) : GameState K V :=
  let st := { st with activeDrops := max 0 (st.activeDrops - 1) }
  { st with isAnimating := decide (st.activeDrops > 0) }

/-- The closure `rebuildProbabilities`. -/
def rebuildProbabilities {V : Type} (env : GameEnv K V) (st : GameState K V) : GameState K V :=
  { st with
    probabilities := buildWinRateProbabilities env.exp st.baseProbabilities
      (st.multipliers.map JsVal.slot) st.winRateTarget (some st.winRateMinMultiplier) }

/-- The method `setDifficulty(newDifficulty)`. -/
def setDifficulty {V : Type} (env : GameEnv K V) (newDifficulty : String) (st : GameState K V) :
    GameState K V :=
  if st.isAnimating then st
  else
    let normalized := normalizeDifficulty newDifficulty
    if normalized = st.difficulty then st
    else
      let st := { st with difficulty := normalized }
      let st := { st with multipliers := multipliersForRows st.rows st.difficulty }
      let st := { st with boxCount := st.multipliers.length }
      let st := rebuildProbabilities env st
      let st := { st with view := env.createBoxes st }
      let st := { st with view := env.updateHistoryDisplay st }
      { st with view := env.updateHistoryTitleColor st }

/-- The method `setRows(newRows)`. -/
def setRows {V : Type} (env : GameEnv K V) (newRows : JsNum K) (st : GameState K V) :
    GameState K V :=
  if st.isAnimating then st
  else
    let target := newRows.round
    let clamped := JsNum.max (JsNum.finite env.minRows) (JsNum.min (JsNum.finite env.maxRows) target)
    if clamped.strictEq st.rows then st
    else
      let st := { st with rows := clamped }
      let st := { st with multipliers := multipliersForRows st.rows st.difficulty }
      let st := { st with boxCount := st.multipliers.length }
      let st := { st with baseProbabilities := binomialForRows st.rows }
      let st := rebuildProbabilities env st
      let st := { st with phys := physForRows st.rows }
      let st := { st with
        search := { st.search with testModeSearchToken := st.search.testModeSearchToken + 1 } }
      let st := { st with search := { st.search with testModePools := ⟨[], []⟩ } }
      let st := { st with search := { st.search with testModePoolSets := ⟨[], []⟩ } }
      let st := { st with search := { st.search with testModePoolKey := none } }
      let st := { st with search := { st.search with testModeSearchKey := none } }
      let st := { st with search := { st.search with testModeSearchPromise := false } }
      let st := { st with search := { st.search with testModeLastSeed := none } }
      let st := { st with searchYieldMs := some env.defaultSearchYieldMs }
      let st := { st with view := env.resizeView st }
      { st with search := env.queueTestModeSearch st }

/-- The state `createGame` sets up before anything is drawn, for the options
`rows`, `difficulty`, `winRate` (after `normalizeWinRateValue`) and
`winRateMinMultiplier`, with the view `view`. -/
def createGame {V : Type} (env : GameEnv K V) (optsRows : Option (JsNum Int))
    (optsDifficulty : String) (winRate : Option K) (winRateMinMultiplier : Option K)
    (searchYieldMs : Option K) (view : V) : GameState K V :=
  let rows := createGameRows env.minRows env.maxRows optsRows
  let difficulty := normalizeDifficulty optsDifficulty
  let multipliers : List (MultiplierSlot K) := multipliersForRows rows difficulty
  let boxCount := multipliers.length
  let baseProbabilities : List K := binomialForRows rows
  let st : GameState K V :=
    { rows := rows
      difficulty := difficulty
      multipliers := multipliers
      boxCount := boxCount
      baseProbabilities := baseProbabilities
      probabilities := baseProbabilities
      winRateTarget := winRate
      winRateMinMultiplier := winRateMinMultiplier.getD 1
      phys := physForRows rows
      isAnimating := false
      activeDrops := 0
      history := []
      search := TestSearch.initial
      searchYieldMs := searchYieldMs
      view := view }
  rebuildProbabilities env st

end Game

section Pick

variable {K : Type} [LinearOrderedField K] [FloorRing K]

/-- A call `Math.random()`: a draw from the global random source. -/
def mathRandom : RandM K K := fun rng =>
  (rng.globalDraws rng.globalUsed, { rng with globalUsed := rng.globalUsed + 1 })

/-- `pickTestModeSeed(targets, pools)` with `testModeLastSeed` as explicit
state: the returned pick `{ seed, targetIndex }` (`none` for `null`) and the
new `testModeLastSeed`.  A seed is `none` when the array access is out of
range (`undefined`); `Math.floor` is taken of draws that are not negative. -/
def pickTestModeSeed (targets : Option (Int × Int)) (pools : Option Pools)
    (testModeLastSeed : Option Nat) : RandM K (Option (Option Nat × Int) × Option Nat) := do
  match targets, pools with
  | some targets, some pools =>
    let leftPool := pools.left
    let rightPool := pools.right
    let mut useLeft := true
    if targets.1 ≠ targets.2 then
      if leftPool.length ≠ 0 ∧ rightPool.length ≠ 0 then
        let r ← mathRandom
        useLeft := decide (r < 0.5)
      else if leftPool.length = 0 ∧ rightPool.length ≠ 0 then
        useLeft := false
      else if leftPool.length = 0 ∧ rightPool.length = 0 then
        return (none, testModeLastSeed)
    else if leftPool.length = 0 then
      return (none, testModeLastSeed)
    let pool := if useLeft then leftPool else rightPool
    if pool.length = 0 then
      return (none, testModeLastSeed)
    let r1 ← mathRandom
    let mut index := ⌊r1 * (pool.length : K)⌋₊
    let mut seed := pool[index]?
    if pool.length > 1 ∧ seed.isSome ∧ seed = testModeLastSeed then
      let r2 ← mathRandom
      index := (index + 1 + ⌊r2 * ((pool.length : K) - 1)⌋₊) % pool.length
      seed := pool[index]?
    return (some (seed, if useLeft then targets.1 else targets.2), seed)
  | _, _ => return (none, testModeLastSeed)

end Pick

section StartRound

variable {K : Type} [LinearOrderedField K] [FloorRing K]

/-- `selectByProbability(probabilities)` with its own call of `Math.random()`,
which is made only when the sum is positive. -/
def selectByProbabilityDraw (probabilities : List K) : RandM K Nat := do
  let sum := sumOf probabilities
  if sum ≤ 0 then
    return 0
  let r ← mathRandom
  return selectByProbability probabilities r

/-- The test `probs.length !== fullBoxCount` of `startRound`, with
`fullBoxCount = rows + 1` (`NaN` differs from every length). -/
def probabilitiesStale (rows : JsNum Int) (probs : List K) : Bool :=
  match rows with
  | JsNum.finite n => decide ((probs.length : Int) ≠ n + 1)
  | JsNum.nan => true
  | JsNum.posInf => true
  | JsNum.negInf => true

/-- What `startRound` calls `simulateDrop` with. -/
structure DropPlan (K : Type) where
  targetIndex : Int
  randomFn : Option Nat
  fixedDelta : Option K

/-- The part of `startRound` before `simulateDrop`: `markDropStart()`, the
refresh of stale probabilities, the choice of the steering target and, in
test mode, the pick of a pooled seed.  `ensureTestModeSeed` is the effect on
the search variables of `await ensureTestModeSeed(targets)`; `randomFn` is
the state of the generator `createSeededRandom(pick.seed)`, `none` for
`null`. -/
def startRoundPlan {V : Type} (env : GameEnv K V) (testMode : TestMode K)
    (ensureTestModeSeed : GameState K V → TestSearch) (st : GameState K V) :
    RandM K (DropPlan K × GameState K V) := do
  let mut st := markDropStart st
  let targets := if testMode.enabled then getTestModeTargets testMode st.boxCount else none
  if probabilitiesStale st.rows st.probabilities then
    st := { st with baseProbabilities := binomialForRows st.rows }
    st := rebuildProbabilities env st
  let probs := st.probabilities
  let selected ← selectByProbabilityDraw probs
  let mut targetIndex : Int := max 0 (min (selected : Int) ((st.boxCount : Int) - 1))
  let mut randomFn : Option Nat := none
  let mut fixedDelta : Option K := none
  if testMode.enabled then
    match targets with
    | some targets =>
      targetIndex := targets.1
      st := { st with search := ensureTestModeSeed st }
      let pick ← pickTestModeSeed (some targets) (some st.search.testModePools)
        st.search.testModeLastSeed
      st := { st with search := { st.search with testModeLastSeed := pick.2 } }
      match pick.1 with
      | some pick =>
        targetIndex := pick.2
        randomFn := some (createSeededRandom ((pick.1.getD 0 : Nat) : Int))
        fixedDelta := testMode.fixedDelta
      | none => pure ()
    | none => pure ()
  return ({ targetIndex := targetIndex, randomFn := randomFn, fixedDelta := fixedDelta }, st)

end StartRound

section Rtp

variable {K : Type} [LinearOrderedField K]

/-- `Number(multipliers[i]?.value ?? multipliers[i])`; `none` when it is not
finite (`undefined` gives `NaN`). -/
def multiplierNumberOf : Option (JsVal K) → Option K
  | some (JsVal.slot s) => some s.value
  | some (JsVal.number x) => some x
  | some JsVal.undefined => none
  | none => none

/-- One iteration of the loop of `getRtpEstimate` on
`(Number(probabilities[i]), multiplier)`, `none` being a number that is not
finite; the accumulator is `(weightedSum, totalProbability)`. -/
def rtpStep (acc : K × K) (entry : Option K × Option K) : K × K :=
  match entry.1 with
  | none => acc
  | some probability =>
    if probability < 0 then acc
    else
      match entry.2 with
      | none => acc
      | some multiplier => (acc.1 + probability * multiplier, acc.2 + probability)

/-- `getRtpEstimate()` on the arrays `probabilities` and `multipliers`; an
entry of `probabilities` is `none` when it is not a finite number, and the
result is `none` for `null`. -/
def getRtpEstimate (probabilities : List (Option K)) (multipliers : List (JsVal K)) : Option K :=
  let count := min probabilities.length multipliers.length
  if count ≤ 0 then none
  else
    let acc := (List.range count).foldl
      (fun acc i => rtpStep acc ((probabilities[i]?).getD none, multiplierNumberOf multipliers[i]?))
      ((0 : K), (0 : K))
    let weightedSum := acc.1
    let totalProbability := acc.2
    if totalProbability ≤ 0 then none
    else some (weightedSum / totalProbability)

/-- The contribution of slot `i` to the weighted sum: `probability *
multiplier` when the probability is finite and not negative and the
multiplier is finite, else `0`. -/
def rtpWeighted (probabilities : List (Option K)) (multipliers : List (JsVal K)) (i : Nat) : K :=
  match (probabilities[i]?).getD none, multiplierNumberOf multipliers[i]? with
  | some p, some v => if 0 ≤ p then p * v else 0
  | _, _ => 0

/-- The contribution of slot `i` to the total probability. -/
def rtpMass (probabilities : List (Option K)) (multipliers : List (JsVal K)) (i : Nat) : K :=
  match (probabilities[i]?).getD none, multiplierNumberOf multipliers[i]? with
  | some p, some _ => if 0 ≤ p then p else 0
  | _, _ => 0

end Rtp

section CollisionStages

variable {K : Type} [LinearOrderedField K]

/-- The impulse-and-damping stage of `resolvePegCollision`, from
`const tx = -ny` to the recomposition of `state.vy`, for the unit normal
`(nx, ny)` and the incoming normal speed `vDotN`. -/
def impulseAndDamp (b : Board K) (state : BallState K) (nx ny pegY vDotN : K) : BallState K :=
  Id.run do
    let mut state := state
    let tx := -ny
    let ty := nx
    let vDotT := state.vx * tx + state.vy * ty
    let mut j := -(1 + b.phys.restitution) * vDotN
    if state.y > pegY then
      j := 0
    state := { state with vx := state.vx + j * nx }
    state := { state with vy := state.vy + j * ny }
    state := { state with
      vx := tx * (vDotT * b.phys.tangentialDamp) + nx * (state.vx * nx + state.vy * ny) }
    state := { state with
      vy := ty * (vDotT * b.phys.tangentialDamp) + ny * (state.vx * nx + state.vy * ny) }
    return state

/-- The jitter stage of `resolvePegCollision`: the random nudge of `vx` and
the rotation by the bounce-angle jitter. -/
def jitterStage (m : MathFns K) (b : Board K) (state : BallState K) : RandM K (BallState K) := do
  let mut state := state
  let r1 ← rand
  state := { state with vx := state.vx + (r1 - 0.5) * b.phys.impulseJitter }
  let angleJitter := b.phys.bounceAngleJitter.getD 0
  if angleJitter > 0 then
    let r2 ← rand
    let angle := (r2 - 0.5) * angleJitter * 2
    let cos := m.cos angle
    let sin := m.sin angle
    let vx := state.vx
    let vy := state.vy
    state := { state with vx := vx * cos - vy * sin }
    state := { state with vy := vx * sin + vy * cos }
  return state

/-- The keep-direction stage of `resolvePegCollision`. -/
def keepDirectionStage (b : Board K) (incomingVx : K) (state : BallState K) :
    RandM K (BallState K) := do
  let mut state := state
  let keepChance := b.phys.keepDirectionChance.getD 0
  let r3 ← rand
  let shouldKeep : Bool := decide (r3 < keepChance)
  if !shouldKeep then
    let mut incomingSign := sign incomingVx
    if incomingSign = 0 then
      let r4 ← rand
      incomingSign := if r4 < 0.5 then -1 else 1
    let outgoingSign := sign state.vx
    if outgoingSign = 0 ∨ outgoingSign = incomingSign then
      state := { state with vx := -state.vx }
      if |state.vx| < 1e-4 then
        let nudge := max (max 1 |incomingVx|) b.phys.impulseJitter
        state := { state with vx := -incomingSign * nudge }
  return state

/-- The centre-bias stage of `resolvePegCollision`. -/
def centerBiasStage (b : Board K) (state : BallState K) : RandM K (BallState K) := do
  let mut state := state
  let centerBiasStrength := b.phys.centerBiasStrength.getD 0
  if centerBiasStrength > 0 ∧ |state.vx| > 1e-4 then
    let toCenter := b.apexX + b.pegOffsetX - state.x
    let directionToCenter := sign toCenter
    if directionToCenter ≠ 0 then
      let maxDistance := max 1 (b.gridWidth * 0.5)
      let distanceFactor := min 1 (|toCenter| / maxDistance)
      if distanceFactor > 0 then
        let r5 ← rand
        let jitter := 1 + (r5 - 0.5) * b.phys.centerBiasJitter.getD 0
        let bias := centerBiasStrength * distanceFactor * jitter
        let movingTowardCenter : Bool := decide (sign state.vx = directionToCenter)
        state := { state with vx := state.vx * (if movingTowardCenter then 1 + bias else 1 - bias) }
  return state

/-- `resolvePegCollision` written as the sequence of its stages. -/
def resolvePegCollisionStages (m : MathFns K) (b : Board K) (state : BallState K)
    (pegX pegY : K) : RandM K (Bool × BallState K) := do
  let mut state := state
  let dx := state.x - pegX
  let dy := state.y - pegY
  let r := b.ballRadius + b.pegRadius
  let d2 := dx * dx + dy * dy
  if d2 ≤ 0 ∨ d2 > r * r then
    return (false, state)
  let d := m.sqrt d2
  let nx := dx / d
  let ny := dy / d
  let penetration := r - d + b.phys.collisionSlop
  state := { state with x := state.x + nx * penetration }
  state := { state with y := state.y + ny * penetration }
  let vDotN := state.vx * nx + state.vy * ny
  if vDotN < 0 then
    let incomingVx := state.vx
    state := impulseAndDamp b state nx ny pegY vDotN
    state ← jitterStage m b state
    state ← keepDirectionStage b incomingVx state
    state ← centerBiasStage b state
    state := clampStateSpeed m state b.phys.maxSpeed
    return (true, state)
  return (false, state)

end CollisionStages

section LayoutPass

variable {K : Type} [LinearOrderedField K]

/-- `getPegOffsetXForRows(rows)` with the constants of `THEME.layout`
(`pegOffsetX = 0`, rows `8` and `16`, offsets `-38` and `-20`). -/
def getPegOffsetXForRows (rows : K) : K :=
  let baseOffset : K := 0
  let minRows : K := 8
  let maxRows : K := 16
  let minOffset : K := -38
  let maxOffset : K := -20
  let t := (rows - minRows) / (maxRows - minRows)
  let clamped := max 0 (min 1 t)
  baseOffset + minOffset + (maxOffset - minOffset) * clamped

/-- `getBoxRowWidthScaleForRows(rowCount, layout)` with the constants of
`THEME.layout` (no `boxRowWidthScale`, rows `8` and `16`, scales `1.0` and
`0.9`). -/
def getBoxRowWidthScaleForRows (rowCount : K) : K :=
  let minRows : K := 8
  let maxRows : K := 16
  let atMin : K := 1.0
  let atMax : K := 0.9
  let t := (rowCount - minRows) / (maxRows - minRows)
  let clamped := max 0 (min 1 t)
  atMin + (atMax - atMin) * clamped

/-- The variables `calculateLayout` assigns. -/
structure LayoutVars (K : Type) where
  pegOffsetX : K
  historyPanelWidth : K
  gameWidth : K
  gameHeight : K
  gridStartY : K
  gridWidth : K
  pegSpacingX : K
  pegSpacingY : K
  pegRadius : K
  ballRadius : K
  lastRowY : K
  baseWidth : K
  baseLeft : K
  baseRight : K
  apexX : K

/-- `calculateLayout()` for a container of `clientWidth` by `clientHeight`
pixels, with the constants of `THEME`. -/
def calculateLayout (clientWidth clientHeight rows : K) : LayoutVars K :=
  let containerWidth := max 1 (if clientWidth = 0 then 500 else clientWidth)
  let containerHeight := max 1 (if clientHeight = 0 then 500 else clientHeight)
  let leftPadding : K := 0
  let rightPadding : K := 0
  let historyGap : K := 5
  let pegOffsetX := getPegOffsetXForRows rows
  let historyPanelWidth := min 110 (containerWidth * 0.16)
  let playAreaWidth :=
    max 1 (containerWidth - historyPanelWidth - historyGap - leftPadding - rightPadding)
  let gameWidth := playAreaWidth
  let gameHeight := containerHeight
  let maxPegsInRow := rows + 1
  let gridStartY := gameHeight * 0.055 + 0
  let gridWidth := gameWidth
  let bottomReserve := gameHeight * 0.14
  let usableH := gameHeight - gridStartY - bottomReserve
  let pegSpacingX := (gameWidth * 0.9) / maxPegsInRow
  let pegSpacingY := (usableH * 0.92) / (rows + 1)
  let pegRadius := min pegSpacingX pegSpacingY * 0.14
  let ballRadius := pegRadius * 1.5
  let lastRowY := gridStartY + rows * pegSpacingY
  let baseWidth := rows * pegSpacingX * 1.2
  let baseLeft := (gridWidth - baseWidth) / 2
  let baseRight := baseLeft + baseWidth
  let apexX := gridWidth / 2
  { pegOffsetX := pegOffsetX, historyPanelWidth := historyPanelWidth, gameWidth := gameWidth,
    gameHeight := gameHeight, gridStartY := gridStartY, gridWidth := gridWidth,
    pegSpacingX := pegSpacingX, pegSpacingY := pegSpacingY, pegRadius := pegRadius,
    ballRadius := ballRadius, lastRowY := lastRowY, baseWidth := baseWidth,
    baseLeft := baseLeft, baseRight := baseRight, apexX := apexX }

/-- What `createBoxes` assigns that the physics reads: `boxGraphics`,
`boxWidth` and `boxHeight`. -/
structure BoxRow (K : Type) where
  boxGraphics : List (Box K)
  boxWidth : K
  boxHeight : K

/-- `createBoxes()` after `calculateLayout()`, with the constants of `THEME`
(`gap = 5`, `widthScale = 1.5`, `height = 40`, no offsets).  A box that fails
one of the two bounds checks is skipped (`continue`); the others are pushed in
order. -/
def createBoxes (v : LayoutVars K) (rows : K) (boxCount : Nat) : BoxRow K :=
  let gap : K := 5
  let maxBoxesWidth := min (v.baseWidth * getBoxRowWidthScaleForRows rows) v.gridWidth
  let wFit := (maxBoxesWidth - boxCount * gap) / boxCount
  let w := max (160 / ((boxCount : K) - 1) * 2) (min (v.pegSpacingX * 1.5) wFit)
  let h : K := max 40 40
  let totalW := boxCount * w + ((boxCount : K) - 1) * gap
  let startX := v.baseLeft + (v.baseWidth - totalW) / 2 + 0
  let boxY := min (v.gameHeight - h - 12) (v.lastRowY + v.pegSpacingY * 0.65) + 0
  { boxGraphics := (List.range boxCount).filterMap fun i =>
      let x := startX + i * (w + gap)
      if x < v.baseLeft - 1 then none
      else if x + w > v.baseRight + 1 then none
      else some { x := x, y := boxY }
    boxWidth := w
    boxHeight := h }

end LayoutPass

/-! # Theorems -/

/-! ## Round settlement and tables -/

section RoundTheorems

variable {K : Type} [LinearOrderedField K]

/-- C1 (as stated, refuted): on the 8-row medium board, outside test mode, a
landing in slot 0 (multiplier value 13) does not resolve to the number 13 but
to the slot object `{ value: 13, color: 0xff003f }`. -/
theorem startRound_number_counterexample :
    ((getMultipliersForRows 8 "medium" : List (MultiplierSlot ℚ))[0]?).map
        (fun s => s.value) = some 13 ∧
      (startRoundSettle false (getMultipliersForRows 8 "medium" : List (MultiplierSlot ℚ))
        10 [] 0).1 ≠ JsVal.number 13 ∧
      (startRoundSettle false (getMultipliersForRows 8 "medium" : List (MultiplierSlot ℚ))
        10 [] 0).1 = JsVal.slot ⟨13, 0xff003f⟩ := by
  decide

/-- C1 (amended): outside test mode, a landing in slot `i` resolves to the
array element `multipliers[i]` itself, the slot object that carries the
multiplier value (`undefined` when `i` is past the end of the array), and a
drop without landing (`-1`) resolves to the number `-1`. -/
theorem startRound_resolves_slot (multipliers : List (MultiplierSlot K)) (historySize : Nat)
    (history : List (JsVal K)) (i : Nat) :
    (startRoundSettle false multipliers historySize history (i : Int)).1
        = (match multipliers[i]? with
            | some s => JsVal.slot s
            | none => JsVal.undefined) ∧
      (startRoundSettle false multipliers historySize history (-1)).1 = JsVal.number (-1) := by
  constructor
  · simp [startRoundSettle, slotAt]
  · simp [startRoundSettle]

/-- C4: for `rows` in `8..16` and each of the three difficulties,
`getMultipliersForRows` has `rows + 1` entries and the entries at positions
`i` and `rows - i` carry the same multiplier value. -/
theorem getMultipliersForRows_symmetric (rows : Nat) (difficulty : String)
    (hrows : 8 ≤ rows ∧ rows ≤ 16)
    (hdiff : difficulty = "low" ∨ difficulty = "medium" ∨ difficulty = "high") :
    (getMultipliersForRows rows difficulty : List (MultiplierSlot K)).length = rows + 1 ∧
    ∀ i, i ≤ rows →
      ((getMultipliersForRows rows difficulty : List (MultiplierSlot K))[i]?).map
          (fun s => s.value)
        = ((getMultipliersForRows rows difficulty : List (MultiplierSlot K))[rows - i]?).map
            (fun s => s.value) := by
  obtain ⟨h8, h16⟩ := hrows
  rcases hdiff with rfl | rfl | rfl <;> interval_cases rows <;>
    refine ⟨rfl, fun i hi => ?_⟩ <;> interval_cases i <;> rfl

/-- C4 at `rows = 11`, `difficulty = "high"`, slot `3` against slot `8`. -/
theorem getMultipliersForRows_symmetric_witness :
    (8 ≤ 11 ∧ 11 ≤ 16) ∧ ("high" = "low" ∨ "high" = "medium" ∨ "high" = "high") ∧
      (getMultipliersForRows 11 "high" : List (MultiplierSlot ℚ)).length = 11 + 1 ∧
      ((getMultipliersForRows 11 "high" : List (MultiplierSlot ℚ))[3]?).map (fun s => s.value)
        = ((getMultipliersForRows 11 "high" : List (MultiplierSlot ℚ))[11 - 3]?).map
            (fun s => s.value) :=
  ⟨by decide, by decide,
    (getMultipliersForRows_symmetric 11 "high" (by decide) (by decide)).1,
    (getMultipliersForRows_symmetric 11 "high" (by decide) (by decide)).2 3 (by decide)⟩

end RoundTheorems

/-! ## Binomial base distribution -/

section BinomialTheorems

variable {K : Type} [LinearOrderedField K]

theorem foldl_mul_range' (m s : Nat) :
    (List.range' (s + 1) m).foldl (fun result i => result * i) s.factorial
      = (s + m).factorial := by
  induction m generalizing s with
  | zero => simp
  | succ m ih =>
    have hs : s.factorial * (s + 1) = (s + 1).factorial := by
      rw [Nat.factorial_succ, Nat.mul_comm]
    rw [List.range'_succ, List.foldl_cons, hs, ih (s + 1)]
    congr 1
    omega

/-- The loop of `factorial` computes the factorial. -/
theorem factorial_eq (n : Nat) : factorial n = n.factorial := by
  unfold factorial
  split
  · interval_cases n <;> rfl
  · have h := foldl_mul_range' (n - 1) 1
    simp only [Nat.factorial_one] at h
    rw [h]
    congr 1
    omega

/-- Up to `n = 18` every value of `factorial` is an integer below `2 ^ 53`,
so the exact model and double-precision arithmetic agree on it. -/
theorem factorial_lt_two_pow_53 (n : Nat) (hn : n ≤ 18) : factorial n < 2 ^ 53 := by
  interval_cases n <;> decide

theorem sumOf_eq_sum (l : List K) : sumOf l = l.sum := by
  unfold sumOf
  rw [List.sum_eq_foldl]

theorem sum_map_range (f : Nat → K) (n : Nat) :
    ((List.range n).map f).sum = ∑ i in Finset.range n, f i := by
  induction n with
  | zero => simp
  | succ n ih =>
    rw [List.range_succ, List.map_append, List.sum_append, ih, Finset.sum_range_succ]
    simp

theorem generateBinomialProbabilities_eq (n : Nat) :
    (generateBinomialProbabilities n : List K)
      = (List.range (n + 1)).map fun k => ((n.choose k : K) / 2 ^ n) := by
  unfold generateBinomialProbabilities
  apply List.map_congr_left
  intro k hk
  have hk' : k ≤ n := by
    have := List.mem_range.mp hk
    omega
  simp only [factorial_eq]
  rw [Nat.choose_eq_factorial_div_factorial hk',
    Nat.cast_div (Nat.factorial_mul_factorial_dvd_factorial hk')]
  · push_cast
    rfl
  · have := Nat.factorial_pos k
    have := Nat.factorial_pos (n - k)
    positivity

theorem length_generateBinomialProbabilities (n : Nat) :
    (generateBinomialProbabilities n : List K).length = n + 1 := by
  simp [generateBinomialProbabilities]

theorem sum_generateBinomialProbabilities (n : Nat) :
    sumOf (generateBinomialProbabilities n : List K) = 1 := by
  rw [sumOf_eq_sum, generateBinomialProbabilities_eq, sum_map_range, ← Finset.sum_div]
  have h : (∑ i in Finset.range (n + 1), (n.choose i : K)) = 2 ^ n := by
    have := Nat.sum_range_choose n
    exact_mod_cast this
  rw [h]
  exact div_self (by positivity)

/-- C2: for `8 ≤ rows ≤ 16`, `generateBinomialProbabilities(rows)` has
`rows + 1` entries and they sum (by the source's `reduce`) to exactly `1`;
in that range every factorial the function computes is an integer below
`2 ^ 53`. -/
theorem generateBinomialProbabilities_length_sum (rows : Nat) (hrows : 8 ≤ rows ∧ rows ≤ 16) :
    (generateBinomialProbabilities rows : List K).length = rows + 1 ∧
      sumOf (generateBinomialProbabilities rows : List K) = 1 ∧
      ∀ k, k ≤ rows → factorial k < 2 ^ 53 :=
  ⟨length_generateBinomialProbabilities rows, sum_generateBinomialProbabilities rows,
    fun k hk => factorial_lt_two_pow_53 k (le_trans hk (le_trans hrows.2 (by decide)))⟩

/-- C2 at `rows = 8`, over the rationals. -/
theorem generateBinomialProbabilities_length_sum_witness :
    (8 ≤ 8 ∧ 8 ≤ 16) ∧ (generateBinomialProbabilities 8 : List ℚ).length = 8 + 1 ∧
      sumOf (generateBinomialProbabilities 8 : List ℚ) = 1 ∧
      ∀ k, k ≤ 8 → factorial k < 2 ^ 53 :=
  ⟨by decide, generateBinomialProbabilities_length_sum 8 (by decide)⟩

end BinomialTheorems

/-! ## Rounding to binary64 -/

namespace Binary64

/-- The exponent `ilog2 q` is not above `q`: `2 ^ ilog2 q ≤ q`. -/
theorem two_zpow_ilog2_le (q : ℚ) (hq : 0 < q) : (2 : ℚ) ^ ilog2 q ≤ q := by
  unfold ilog2
  dsimp only
  split_ifs with h
  · exact h
  · have hnum : 0 < q.num := Rat.num_pos.mpr hq
    have hna : (q.num.natAbs : Int) = q.num := Int.natAbs_of_nonneg hnum.le
    have hne : q.num.natAbs ≠ 0 := by
      intro h0
      rw [h0] at hna
      omega
    have h1 : (2 : ℚ) ^ q.num.natAbs.log2 ≤ (q.num.natAbs : ℚ) := by
      exact_mod_cast Nat.log2_self_le hne
    have h2 : (q.den : ℚ) < (2 : ℚ) ^ (q.den.log2 + 1) := by
      exact_mod_cast (Nat.lt_log2_self : q.den < 2 ^ (q.den.log2 + 1))
    have hden : (0 : ℚ) < q.den := by exact_mod_cast q.den_pos
    have hnq : (q.num : ℚ) = (q.num.natAbs : ℚ) := by
      conv_lhs => rw [← hna]
      exact Int.cast_natCast _
    have hq' : (q.num.natAbs : ℚ) / (q.den : ℚ) = q := by
      rw [← hnq]
      exact Rat.num_div_den q
    have e : (2 : ℚ) ^ ((q.num.natAbs.log2 : Int) - (q.den.log2 : Int) - 1)
        = (2 : ℚ) ^ q.num.natAbs.log2 / (2 : ℚ) ^ (q.den.log2 + 1) := by
      rw [show ((q.num.natAbs.log2 : Int) - (q.den.log2 : Int) - 1)
          = (q.num.natAbs.log2 : Int) - ((q.den.log2 + 1 : Nat) : Int) by push_cast; ring]
      rw [zpow_sub₀ (by norm_num : (2 : ℚ) ≠ 0), zpow_natCast, zpow_natCast]
    have hp : (0 : ℚ) < (2 : ℚ) ^ (q.den.log2 + 1) := by positivity
    have h3 : (0 : ℚ) ≤ (2 : ℚ) ^ q.num.natAbs.log2 := by positivity
    have key : (2 : ℚ) ^ q.num.natAbs.log2 / (2 : ℚ) ^ (q.den.log2 + 1)
        ≤ (q.num.natAbs : ℚ) / (q.den : ℚ) := by
      rw [div_le_div_iff₀ hp hden]
      nlinarith
    rw [e]
    exact le_of_le_of_eq key hq'

/-- `q` is below the next power of two: `q < 2 ^ (ilog2 q + 1)`. -/
theorem lt_two_zpow_ilog2 (q : ℚ) (hq : 0 < q) : q < (2 : ℚ) ^ (ilog2 q + 1) := by
  unfold ilog2
  dsimp only
  split_ifs with h
  · have hnum : 0 < q.num := Rat.num_pos.mpr hq
    have hna : (q.num.natAbs : Int) = q.num := Int.natAbs_of_nonneg hnum.le
    have hne : q.den ≠ 0 := q.den_nz
    have h1 : (q.num.natAbs : ℚ) < (2 : ℚ) ^ (q.num.natAbs.log2 + 1) := by
      exact_mod_cast (Nat.lt_log2_self : q.num.natAbs < 2 ^ (q.num.natAbs.log2 + 1))
    have h2 : (2 : ℚ) ^ q.den.log2 ≤ (q.den : ℚ) := by
      exact_mod_cast Nat.log2_self_le hne
    have hden : (0 : ℚ) < q.den := by exact_mod_cast q.den_pos
    have hnq : (q.num : ℚ) = (q.num.natAbs : ℚ) := by
      conv_lhs => rw [← hna]
      exact Int.cast_natCast _
    have hq' : (q.num.natAbs : ℚ) / (q.den : ℚ) = q := by
      rw [← hnq]
      exact Rat.num_div_den q
    have e : (2 : ℚ) ^ ((q.num.natAbs.log2 : Int) - (q.den.log2 : Int) + 1)
        = (2 : ℚ) ^ (q.num.natAbs.log2 + 1) / (2 : ℚ) ^ q.den.log2 := by
      rw [show ((q.num.natAbs.log2 : Int) - (q.den.log2 : Int) + 1)
          = ((q.num.natAbs.log2 + 1 : Nat) : Int) - (q.den.log2 : Int) by push_cast; ring]
      rw [zpow_sub₀ (by norm_num : (2 : ℚ) ≠ 0), zpow_natCast, zpow_natCast]
    have hp : (0 : ℚ) < (2 : ℚ) ^ q.den.log2 := by positivity
    have h3 : (0 : ℚ) ≤ (q.num.natAbs : ℚ) := by positivity
    have key : (q.num.natAbs : ℚ) / (q.den : ℚ)
        < (2 : ℚ) ^ (q.num.natAbs.log2 + 1) / (2 : ℚ) ^ q.den.log2 := by
      rw [div_lt_div_iff₀ hden hp]
      nlinarith
    rw [e]
    exact lt_of_eq_of_lt hq'.symm key
  · rw [sub_add_cancel]
    exact not_le.mp h

/-- The exponent of a positive rational is determined by the two bounds. -/
theorem ilog2_eq (q : ℚ) (e : Int) (h1 : (2 : ℚ) ^ e ≤ q) (h2 : q < (2 : ℚ) ^ (e + 1)) :
    ilog2 q = e := by
  have hq : 0 < q := lt_of_lt_of_le (by positivity) h1
  have a1 := two_zpow_ilog2_le q hq
  have a2 := lt_two_zpow_ilog2 q hq
  have b1 : (2 : ℚ) ^ e < (2 : ℚ) ^ (ilog2 q + 1) := lt_of_le_of_lt h1 a2
  have b2 : (2 : ℚ) ^ ilog2 q < (2 : ℚ) ^ (e + 1) := lt_of_le_of_lt a1 h2
  have c1 := (zpow_lt_zpow_iff_right₀ (by norm_num : (1 : ℚ) < 2)).mp b1
  have c2 := (zpow_lt_zpow_iff_right₀ (by norm_num : (1 : ℚ) < 2)).mp b2
  omega

/-- An integer is its own nearest integer. -/
theorem roundHalfEven_intCast (m : Int) : roundHalfEven (m : ℚ) = m := by
  unfold roundHalfEven
  simp

/-- A rational within less than a half of an integer rounds to it. -/
theorem roundHalfEven_eq (x : ℚ) (m : Int) (h : |x - m| < 1 / 2) : roundHalfEven x = m := by
  rw [abs_lt] at h
  unfold roundHalfEven
  dsimp only
  by_cases hx : (m : ℚ) ≤ x
  · have hf : ⌊x⌋ = m := Int.floor_eq_iff.mpr ⟨hx, by linarith⟩
    rw [hf, if_pos (by linarith)]
  · have hf : ⌊x⌋ = m - 1 := Int.floor_eq_iff.mpr ⟨by push_cast; linarith, by push_cast; linarith⟩
    rw [hf]
    push_cast
    rw [if_neg (by linarith), if_pos (by linarith)]
    ring

/-- A number with a significand below `2^53` and an exponent in the range of
binary64 is returned as it is. -/
theorem round_exact (M : Nat) (z : Int) (hM : M < 2 ^ 53) (hz : -1074 ≤ z) (hz2 : z ≤ 971) :
    round ((M : ℚ) * 2 ^ z) = JsNum.finite ((M : ℚ) * 2 ^ z) := by
  have h2 : (0 : ℚ) < 2 ^ z := by positivity
  by_cases hM0 : M = 0
  · subst hM0
    simp [round]
  have hMpos : (0 : ℚ) < M := by exact_mod_cast Nat.pos_of_ne_zero hM0
  have hq : (0 : ℚ) < (M : ℚ) * 2 ^ z := mul_pos hMpos h2
  have hMlt : (M : ℚ) < 2 ^ (53 : Int) := by
    rw [show ((53 : Int)) = ((53 : Nat) : Int) by rfl, zpow_natCast]
    exact_mod_cast hM
  have hlt : (M : ℚ) * 2 ^ z < 2 ^ (z + 53) := by
    rw [zpow_add₀ (by norm_num : (2 : ℚ) ≠ 0), mul_comm ((2 : ℚ) ^ z)]
    exact mul_lt_mul_of_pos_right hMlt h2
  have hlog : ilog2 ((M : ℚ) * 2 ^ z) ≤ z + 52 := by
    have a1 := two_zpow_ilog2_le _ hq
    have := (zpow_lt_zpow_iff_right₀ (by norm_num : (1 : ℚ) < 2)).mp (lt_of_le_of_lt a1 hlt)
    omega
  have hmag : roundMagnitude ((M : ℚ) * 2 ^ z) = (M : ℚ) * 2 ^ z := by
    unfold roundMagnitude
    dsimp only
    generalize he : max (ilog2 ((M : ℚ) * 2 ^ z)) (-1022) = e
    have hes : e - 52 ≤ z := by
      rw [← he]
      have : max (ilog2 ((M : ℚ) * 2 ^ z)) (-1022) ≤ z + 52 := max_le hlog (by omega)
      omega
    obtain ⟨n, hn⟩ := Int.eq_ofNat_of_zero_le (sub_nonneg.mpr hes)
    have hdiv : (M : ℚ) * 2 ^ z / 2 ^ (e - 52) = ((M * 2 ^ n : Nat) : Int) := by
      rw [mul_div_assoc, ← zpow_sub₀ (by norm_num : (2 : ℚ) ≠ 0), hn, zpow_natCast]
      push_cast
      rfl
    rw [hdiv, roundHalfEven_intCast]
    push_cast
    rw [mul_assoc, ← zpow_natCast, ← hn, ← zpow_add₀ (by norm_num : (2 : ℚ) ≠ 0)]
    congr 2
    ring
  have hbig : ¬ (M : ℚ) * 2 ^ z ≥ 2 ^ 1024 := by
    have : (2 : ℚ) ^ (z + 53) ≤ 2 ^ ((1024 : Nat) : Int) :=
      zpow_le_zpow_right₀ (by norm_num) (by push_cast; omega)
    rw [zpow_natCast] at this
    exact not_le.mpr (lt_of_lt_of_le hlt this)
  unfold round
  rw [if_neg (ne_of_gt hq)]
  dsimp only
  rw [abs_of_pos hq, hmag, if_neg hbig, if_pos hq]

/-- A positive rational with exponent `e ≥ -1022` that lies within less than
half a spacing of `m * 2^(e - 52)` is returned as that number. -/
theorem round_eq (q : ℚ) (e m : Int) (h1 : (2 : ℚ) ^ e ≤ q) (h2 : q < (2 : ℚ) ^ (e + 1))
    (he : -1022 ≤ e) (hm : |q / 2 ^ (e - 52) - m| < 1 / 2)
    (hlt : (m : ℚ) * 2 ^ (e - 52) < 2 ^ 1024) :
    round q = JsNum.finite ((m : ℚ) * 2 ^ (e - 52)) := by
  have hq : 0 < q := lt_of_lt_of_le (by positivity) h1
  have hmag : roundMagnitude q = (m : ℚ) * 2 ^ (e - 52) := by
    unfold roundMagnitude
    dsimp only
    rw [ilog2_eq q e h1 h2, max_eq_left he, roundHalfEven_eq _ m hm]
  unfold round
  rw [if_neg (ne_of_gt hq)]
  dsimp only
  rw [abs_of_pos hq, hmag, if_neg (not_le.mpr hlt), if_pos hq]

end Binary64

namespace Binary64

/-- A natural number `M * 2^s` with `M < 2^53` is returned as it is. -/
theorem round_natCast (N M s : Nat) (hN : N = M * 2 ^ s) (hM : M < 2 ^ 53) (hs : s ≤ 971) :
    round (N : ℚ) = JsNum.finite (N : ℚ) := by
  have hr := round_exact M (s : Int) hM (by omega) (by omega)
  have e : (M : ℚ) * 2 ^ (s : Int) = (N : ℚ) := by
    rw [zpow_natCast, hN]
    push_cast
    rfl
  rw [e] at hr
  exact hr

/-- A divisor of a number with at most 53 significant bits has at most 53
significant bits. -/
theorem exact_of_dvd (P N M s b : Nat) (hP : P ∣ N) (hN : N = M * 2 ^ s) (hN0 : N ≠ 0)
    (hM : M < 2 ^ 53) (hlt : N < 2 ^ b) (hb : b ≤ 971) :
    ∃ M1 s1 : Nat, P = M1 * 2 ^ s1 ∧ M1 < 2 ^ 53 ∧ s1 ≤ 971 := by
  have hP0 : P ≠ 0 := by
    rintro rfl
    exact hN0 (Nat.eq_zero_of_zero_dvd hP)
  obtain ⟨t, P1, hodd, hPe⟩ := Nat.exists_eq_two_pow_mul_odd hP0
  have hM0 : M ≠ 0 := by
    rintro rfl
    simp at hN
    exact hN0 hN
  have hcop : Nat.Coprime P1 (2 ^ s) :=
    Nat.Coprime.pow_right s (Nat.coprime_two_left.mpr hodd).symm
  have hd : P1 ∣ M * 2 ^ s := by
    rw [← hN]
    exact Dvd.dvd.trans ⟨2 ^ t, by rw [hPe]; ring⟩ hP
  have hle : P1 ≤ M := Nat.le_of_dvd (Nat.pos_of_ne_zero hM0) (hcop.dvd_of_dvd_mul_right hd)
  refine ⟨P1, t, by rw [hPe]; ring, lt_of_le_of_lt hle hM, ?_⟩
  have hPle : P ≤ N := Nat.le_of_dvd (Nat.pos_of_ne_zero hN0) hP
  have hP1 : 1 ≤ P1 := by
    rcases hodd with ⟨r, hr⟩
    omega
  have h2t : 2 ^ t ≤ P := by
    rw [hPe]
    exact Nat.le_mul_of_pos_right _ hP1
  have : 2 ^ t < 2 ^ b := lt_of_le_of_lt (le_trans h2t hPle) hlt
  have htb : t < b := (Nat.pow_lt_pow_iff_right Nat.one_lt_two).mp this
  omega

end Binary64

namespace Js

/-- One more turn of the loop of `factorial`. -/
theorem factorial_succ {K : Type} [LinearOrderedField K] (fl : K → JsNum K) (n : Nat)
    (hn : 1 ≤ n) :
    factorial fl (n + 1) = JsNum.mul fl (factorial fl n) (JsNum.finite ((n + 1 : Nat) : K)) := by
  unfold factorial
  rw [if_neg (by omega)]
  by_cases h1 : n ≤ 1
  · have : n = 1 := by omega
    subst this
    rfl
  · rw [if_neg h1]
    have : n + 1 - 1 = (n - 1) + 1 := by omega
    rw [this, List.range'_concat, List.foldl_append]
    simp only [List.foldl_cons, List.foldl_nil, Nat.one_mul]
    congr 3
    omega

/-- As long as every factorial up to `n!` has at most 53 significant bits,
`factorial(n)` is `n!`. -/
theorem factorial_exact (n : Nat)
    (h : ∀ j, j ≤ n → ∃ M s : Nat, j.factorial = M * 2 ^ s ∧ M < 2 ^ 53 ∧ s ≤ 971) :
    factorial Binary64.round n = JsNum.finite (n.factorial : ℚ) := by
  induction n with
  | zero => simp [factorial]
  | succ n ih =>
    by_cases hn : n = 0
    · subst hn
      simp [factorial]
    · rw [factorial_succ _ n (by omega), ih (fun j hj => h j (by omega))]
      obtain ⟨M, s, h1, h2, h3⟩ := h (n + 1) le_rfl
      have e : ((n.factorial : ℚ)) * ((n + 1 : Nat) : ℚ) = ((n + 1).factorial : ℚ) := by
        rw [Nat.factorial_succ]
        push_cast
        ring
      show Binary64.round ((n.factorial : ℚ) * ((n + 1 : Nat) : ℚ)) = _
      rw [e]
      exact Binary64.round_natCast _ M s h1 h2 h3

end Js

section BinaryBinomial

/-- Every factorial up to `22!` has at most 53 significant bits. -/
theorem factorial_exact_upto_22 (j : Nat) (hj : j ≤ 22) :
    ∃ M s : Nat, j.factorial = M * 2 ^ s ∧ M < 2 ^ 53 ∧ s ≤ 971 := by
  by_cases h18 : j ≤ 18
  · refine ⟨j.factorial, 0, by simp, ?_, by omega⟩
    interval_cases j <;> decide
  · by_cases h21 : j ≤ 21
    · refine ⟨j.factorial / 2 ^ 16, 16, ?_, ?_, by omega⟩ <;> interval_cases j <;> decide!
    · have : j = 22 := by omega
      subst this
      exact ⟨Nat.factorial 22 / 2 ^ 19, 19, by decide!, by decide!, by omega⟩

end BinaryBinomial

section BinaryBinomialClaims

/-- C3 (amended): in binary64 arithmetic, for `k ≤ n ≤ 22`, the quotient
`factorial(n) / (factorial(k) * factorial(n - k))` that
`generateBinomialProbabilities(n)` computes is exactly the integer `C(n, k)`,
and entry `k` of the result is exactly `C(n, k) / 2^n`. -/
theorem generateBinomialProbabilities_entry (n k : Nat) (hn : n ≤ 22) (hk : k ≤ n) :
    Js.binomialQuotient Binary64.round n k = JsNum.finite (n.choose k : ℚ) ∧
      (Js.generateBinomialProbabilities Binary64.round n)[k]?
        = some (JsNum.finite ((n.choose k : ℚ) / 2 ^ n)) := by
  have hfn := Js.factorial_exact n fun j hj => factorial_exact_upto_22 j (by omega)
  have hfk := Js.factorial_exact k fun j hj => factorial_exact_upto_22 j (by omega)
  have hfd := Js.factorial_exact (n - k) fun j hj => factorial_exact_upto_22 j (by omega)
  obtain ⟨M, s, h1, h2, _⟩ := factorial_exact_upto_22 n hn
  have hnlt : n.factorial < 2 ^ 70 := by
    have h22 : n.factorial ≤ Nat.factorial 22 := Nat.factorial_le hn
    have : Nat.factorial 22 < 2 ^ 70 := by decide!
    omega
  obtain ⟨M1, s1, e1, e2, e3⟩ := Binary64.exact_of_dvd (k.factorial * (n - k).factorial)
    n.factorial M s 70 (Nat.factorial_mul_factorial_dvd_factorial hk) h1
    (Nat.factorial_ne_zero n) h2 hnlt (by omega)
  have hP0 : ((k.factorial * (n - k).factorial : Nat) : ℚ) ≠ 0 := by
    have := Nat.factorial_pos k
    have := Nat.factorial_pos (n - k)
    positivity
  have hC : n.choose k < 2 ^ 53 := by
    have h0 : n.choose k ≤ ∑ m in Finset.range (n + 1), n.choose m :=
      Finset.single_le_sum (f := fun m => n.choose m) (fun _ _ => Nat.zero_le _)
        (Finset.mem_range.mpr (by omega))
    rw [Nat.sum_range_choose] at h0
    have h3 : 2 ^ n ≤ 2 ^ 22 := Nat.pow_le_pow_right (by norm_num) hn
    have h4 : 2 ^ 22 < 2 ^ 53 := by norm_num
    omega
  have hq : Js.binomialQuotient Binary64.round n k = JsNum.finite (n.choose k : ℚ) := by
    unfold Js.binomialQuotient
    rw [hfn, hfk, hfd]
    have hm : JsNum.mul Binary64.round (JsNum.finite (k.factorial : ℚ))
        (JsNum.finite ((n - k).factorial : ℚ))
        = JsNum.finite ((k.factorial * (n - k).factorial : Nat) : ℚ) := by
      show Binary64.round ((k.factorial : ℚ) * ((n - k).factorial : ℚ)) = _
      rw [← Nat.cast_mul]
      exact Binary64.round_natCast _ M1 s1 e1 e2 e3
    rw [hm]
    show (if ((k.factorial * (n - k).factorial : Nat) : ℚ) = 0 then _ else _) = _
    rw [if_neg hP0]
    have hdiv : (n.factorial : ℚ) / ((k.factorial * (n - k).factorial : Nat) : ℚ)
        = (n.choose k : ℚ) := by
      rw [Nat.choose_eq_factorial_div_factorial hk,
        Nat.cast_div (Nat.factorial_mul_factorial_dvd_factorial hk) hP0]
    rw [hdiv]
    exact Binary64.round_natCast _ (n.choose k) 0 (by simp) hC (by omega)
  refine ⟨hq, ?_⟩
  unfold Js.generateBinomialProbabilities
  dsimp only
  rw [List.getElem?_map, List.getElem?_range (Nat.lt_succ_of_le hk), Option.map_some', hq]
  have ht : Binary64.round ((2 : ℚ) ^ n) = JsNum.finite ((2 : ℚ) ^ n) := by
    have := Binary64.round_exact 1 (n : Int) (by norm_num) (by omega) (by omega)
    rw [zpow_natCast] at this
    simpa using this
  rw [ht]
  show some (if (2 : ℚ) ^ n = 0 then _ else _) = _
  rw [if_neg (by positivity)]
  have := Binary64.round_exact (n.choose k) (-(n : Int)) hC (by omega) (by omega)
  rw [zpow_neg, zpow_natCast, ← div_eq_mul_inv] at this
  rw [this]

/-- C3 at `n = 8`, `k = 3`: the quotient is `56` and the entry `56 / 256`. -/
theorem generateBinomialProbabilities_entry_witness :
    Js.binomialQuotient Binary64.round 8 3 = JsNum.finite (((8 : Nat).choose 3 : Nat) : ℚ) ∧
      (Js.generateBinomialProbabilities Binary64.round 8)[3]?
        = some (JsNum.finite ((((8 : Nat).choose 3 : Nat) : ℚ) / 2 ^ 8)) :=
  generateBinomialProbabilities_entry 8 3 (by decide) (by decide)

/-- C3 (as stated) at `n = 23`, `k = 2`: `factorial(23)` is not `23!` (which
needs 56 significant bits) but the binary64 number next to it, and the
quotient `factorial(23) / (factorial(2) * factorial(21))` is
`253 + 2^-45`, not the integer `C(23, 2) = 253`; entry `2` of
`generateBinomialProbabilities(23)` is therefore not `C(23, 2) / 2^23`. -/
theorem generateBinomialProbabilities_entry_counterexample :
    Nat.factorial 23 = 25852016738884976640000 ∧
      Js.factorial Binary64.round 23 = JsNum.finite 25852016738884978212864 ∧
      Js.binomialQuotient Binary64.round 23 2 = JsNum.finite (253 + 1 / 2 ^ 45) ∧
      (Js.generateBinomialProbabilities Binary64.round 23)[2]?
        = some (JsNum.finite ((253 + 1 / 2 ^ 45) / 2 ^ 23)) ∧
      (253 + 1 / 2 ^ 45 : ℚ) ≠ (((23 : Nat).choose 2 : Nat) : ℚ) := by
  have hf22 := Js.factorial_exact 22 fun j hj => factorial_exact_upto_22 j hj
  have hf21 := Js.factorial_exact 21 fun j hj => factorial_exact_upto_22 j (by omega)
  have hf2 : Js.factorial Binary64.round 2 = JsNum.finite 2 := by
    have := Js.factorial_exact 2 fun j hj => factorial_exact_upto_22 j (by omega)
    simpa using this
  have e22 : ((Nat.factorial 22 : Nat) : ℚ) = 1124000727777607680000 := by
    have : Nat.factorial 22 = 1124000727777607680000 := by decide!
    rw [this]
    norm_num
  have e21 : ((Nat.factorial 21 : Nat) : ℚ) = 51090942171709440000 := by
    have : Nat.factorial 21 = 51090942171709440000 := by decide!
    rw [this]
    norm_num
  have hf23 : Js.factorial Binary64.round 23 = JsNum.finite 25852016738884978212864 := by
    rw [Js.factorial_succ _ 22 (by norm_num), hf22, e22]
    show Binary64.round (1124000727777607680000 * ((22 + 1 : Nat) : ℚ)) = _
    have h := Binary64.round_eq (1124000727777607680000 * ((22 + 1 : Nat) : ℚ)) 74
      6163601097794766 (by norm_num) (by norm_num) (by norm_num)
      (by rw [abs_lt]; constructor <;> norm_num) (by norm_num)
    rw [h]
    norm_num
  have hq : Js.binomialQuotient Binary64.round 23 2 = JsNum.finite (253 + 1 / 2 ^ 45) := by
    unfold Js.binomialQuotient
    rw [hf23, hf2, hf21, e21]
    have hm : JsNum.mul Binary64.round (JsNum.finite (2 : ℚ)) (JsNum.finite 51090942171709440000)
        = JsNum.finite 102181884343418880000 := by
      show Binary64.round (2 * 51090942171709440000) = _
      have := Binary64.round_natCast 102181884343418880000 (102181884343418880000 / 2 ^ 19) 19
        (by decide!) (by decide!) (by omega)
      norm_num at this ⊢
      exact this
    rw [hm]
    simp only [JsNum.div]
    rw [if_neg (by norm_num)]
    have h := Binary64.round_eq (25852016738884978212864 / 102181884343418880000) 7
      8901646138474497 (by norm_num) (by norm_num) (by norm_num)
      (by rw [abs_lt]; constructor <;> norm_num) (by norm_num)
    rw [h]
    norm_num
  refine ⟨by decide!, hf23, hq, ?_, by norm_num [Nat.choose]⟩
  unfold Js.generateBinomialProbabilities
  dsimp only
  rw [List.getElem?_map, List.getElem?_range (by norm_num), Option.map_some', hq]
  have ht : Binary64.round ((2 : ℚ) ^ 23) = JsNum.finite ((2 : ℚ) ^ 23) := by
    have := Binary64.round_exact 1 ((23 : Nat) : Int) (by norm_num) (by omega) (by omega)
    rw [zpow_natCast] at this
    simpa using this
  rw [ht]
  simp only [JsNum.div]
  rw [if_neg (by positivity)]
  have := Binary64.round_exact 8901646138474497 (-68) (by norm_num) (by omega) (by omega)
  have e : (253 + 1 / 2 ^ 45 : ℚ) / 2 ^ 23 = ((8901646138474497 : Nat) : ℚ) * 2 ^ (-68 : Int) := by
    norm_num
  rw [e, this]

end BinaryBinomialClaims

/-! ## Outcome selector -/

section SelectTheorems

variable {K : Type} [LinearOrderedField K]

theorem selectScan_some (r : K) (ps : List K) :
    ∀ (acc : K) (i0 i : Nat), selectScan r ps acc i0 = some i →
      i0 ≤ i ∧ i < i0 + ps.length ∧ r ≤ acc + (ps.take (i - i0 + 1)).sum ∧
        ∀ j, i0 ≤ j → j < i → acc + (ps.take (j - i0 + 1)).sum < r := by
  induction ps with
  | nil => intro acc i0 i h; simp [selectScan] at h
  | cons p ps ih =>
    intro acc i0 i h
    rw [selectScan] at h
    by_cases hr : r ≤ acc + p
    · rw [if_pos hr] at h
      have hi : i0 = i := by simpa using h
      subst hi
      refine ⟨le_refl _, by simp, by simpa using hr, ?_⟩
      intro j h1 h2
      omega
    · rw [if_neg hr] at h
      obtain ⟨h1, h2, h3, h4⟩ := ih (acc + p) (i0 + 1) i h
      refine ⟨by omega, by simp; omega, ?_, ?_⟩
      · have e : i - i0 + 1 = (i - (i0 + 1) + 1) + 1 := by omega
        rw [e, List.take_succ_cons, List.sum_cons, ← add_assoc]
        exact h3
      · intro j hj1 hj2
        rcases Nat.eq_or_lt_of_le hj1 with rfl | hlt
        · simpa using not_le.mp hr
        · have e : j - i0 + 1 = (j - (i0 + 1) + 1) + 1 := by omega
          rw [e, List.take_succ_cons, List.sum_cons, ← add_assoc]
          exact h4 j hlt hj2

theorem selectScan_none (r : K) (ps : List K) :
    ∀ (acc : K) (i0 : Nat), selectScan r ps acc i0 = none →
      ∀ j, j < ps.length → acc + (ps.take (j + 1)).sum < r := by
  induction ps with
  | nil => intro acc i0 _ j hj; simp at hj
  | cons p ps ih =>
    intro acc i0 h j hj
    rw [selectScan] at h
    by_cases hr : r ≤ acc + p
    · rw [if_pos hr] at h
      simp at h
    · rw [if_neg hr] at h
      rw [List.take_succ_cons, List.sum_cons, ← add_assoc]
      cases j with
      | zero => simpa using not_le.mp hr
      | succ j => exact ih (acc + p) (i0 + 1) h j (by simpa using hj)

theorem selectScan_isSome_lt (r : K) (ps : List K) (acc : K) (i0 i : Nat)
    (h : selectScan r ps acc i0 = some i) : i < i0 + ps.length :=
  (selectScan_some r ps acc i0 i h).2.1

/-- C8: when the weights have a positive sum, `selectByProbability` returns a
valid index that is the least one whose cumulative normalized weight reaches
the draw `r`, or the last index when no prefix reaches `r`; when the sum is
`<= 0` (the empty list included) it returns `0`. -/
theorem selectByProbability_spec (probabilities : List K) (r : K) :
    (0 < sumOf probabilities →
      selectByProbability probabilities r < probabilities.length ∧
      ((r ≤ cumulativeWeight probabilities (selectByProbability probabilities r) ∧
          ∀ j, j < selectByProbability probabilities r → cumulativeWeight probabilities j < r) ∨
        ((∀ j, j < probabilities.length → cumulativeWeight probabilities j < r) ∧
          selectByProbability probabilities r = probabilities.length - 1))) ∧
    (sumOf probabilities ≤ 0 → selectByProbability probabilities r = 0) := by
  constructor
  · intro hpos
    have hne : probabilities ≠ [] := by
      rintro rfl
      simp [sumOf] at hpos
    have hlen : 0 < probabilities.length := List.length_pos.mpr hne
    unfold selectByProbability
    simp only [not_le.mpr hpos, if_false]
    cases hscan : selectScan r (probabilities.map fun p => p / sumOf probabilities) 0 0 with
    | none =>
      simp only [Option.getD_none, List.length_map]
      refine ⟨by omega, Or.inr ⟨?_, trivial⟩⟩
      intro j hj
      have := selectScan_none r _ 0 0 hscan j (by simpa using hj)
      simpa [cumulativeWeight, List.map_take] using this
    | some i =>
      simp only [Option.getD_some]
      obtain ⟨-, h2, h3, h4⟩ := selectScan_some r _ 0 0 i hscan
      refine ⟨by simpa using h2, Or.inl ⟨?_, ?_⟩⟩
      · simpa [cumulativeWeight, List.map_take] using h3
      · intro j hj
        have := h4 j (Nat.zero_le _) hj
        simpa [cumulativeWeight, List.map_take] using this
  · intro h
    simp [selectByProbability, h]

/-- C8 at the weights `[1, 1, 2]` with draw `1 / 2` (positive sum) and at the
weights `[0, 0]` (degenerate sum). -/
theorem selectByProbability_spec_witness :
    (0 < sumOf [(1 : ℚ), 1, 2] ∧
      selectByProbability [(1 : ℚ), 1, 2] (1 / 2) < [(1 : ℚ), 1, 2].length ∧
      ((1 / 2 ≤ cumulativeWeight [(1 : ℚ), 1, 2] (selectByProbability [(1 : ℚ), 1, 2] (1 / 2)) ∧
          ∀ j, j < selectByProbability [(1 : ℚ), 1, 2] (1 / 2) →
            cumulativeWeight [(1 : ℚ), 1, 2] j < 1 / 2) ∨
        ((∀ j, j < [(1 : ℚ), 1, 2].length → cumulativeWeight [(1 : ℚ), 1, 2] j < 1 / 2) ∧
          selectByProbability [(1 : ℚ), 1, 2] (1 / 2) = [(1 : ℚ), 1, 2].length - 1))) ∧
    (sumOf [(0 : ℚ), 0] ≤ 0 ∧ selectByProbability [(0 : ℚ), 0] (1 / 2) = 0) :=
  ⟨⟨by norm_num [sumOf],
      (selectByProbability_spec [(1 : ℚ), 1, 2] (1 / 2)).1 (by norm_num [sumOf])⟩,
    ⟨by norm_num [sumOf],
      (selectByProbability_spec [(0 : ℚ), 0] (1 / 2)).2 (by norm_num [sumOf])⟩⟩

end SelectTheorems

/-! ## Closest box -/

section ClosestTheorems

variable {K : Type} [LinearOrderedField K]

theorem centerDist_append_left (boxWidth x : K) (pre : List (Box K)) (b : Box K) (j : Nat)
    (hj : j < pre.length) :
    centerDist boxWidth x (pre ++ [b]) j = centerDist boxWidth x pre j := by
  simp [centerDist, List.getElem?_append_left hj]

theorem centerDist_append_last (boxWidth x : K) (pre : List (Box K)) (b : Box K) :
    centerDist boxWidth x (pre ++ [b]) pre.length = |b.x + boxWidth / 2 - x| := by
  simp [centerDist]

theorem closestScan_inv (boxWidth x : K) (bs : List (Box K)) :
    ∀ (pre : List (Box K)) (acc : Nat × Option K), ClosestInv boxWidth x pre acc →
      ClosestInv boxWidth x (pre ++ bs) (closestScan boxWidth x bs pre.length acc) := by
  induction bs with
  | nil => intro pre acc h; simpa [closestScan] using h
  | cons b bs ih =>
    intro pre acc h
    have hlen : (pre ++ [b]).length = pre.length + 1 := by simp
    have happ : pre ++ b :: bs = (pre ++ [b]) ++ bs := by simp
    rw [closestScan, happ]
    rcases h with ⟨rfl, rfl⟩ | ⟨hlt, hd, hmin, hfirst⟩
    · -- first box
      simp only []
      have := ih ([] ++ [b]) (0, some (|b.x + boxWidth / 2 - x|)) (by
        right
        refine ⟨by simp, by simp [centerDist], ?_, ?_⟩
        · intro j hj
          have : j = 0 := by simpa using hj
          subst this
          exact le_refl _
        · intro j hj; exact absurd hj (Nat.not_lt_zero _))
      simpa using this
    · rw [hd]
      simp only []
      by_cases hlt2 : |b.x + boxWidth / 2 - x| < centerDist boxWidth x pre acc.1
      · simp only [hlt2, decide_True, if_true]
        rw [← hlen]
        apply ih
        right
        refine ⟨by simp, ?_, ?_, ?_⟩
        · simp [centerDist_append_last]
        · intro j hj
          simp only [centerDist_append_last]
          rw [hlen] at hj
          rcases Nat.lt_succ_iff_lt_or_eq.mp hj with hj | rfl
          · rw [centerDist_append_left _ _ _ _ _ hj]
            exact le_trans (le_of_lt hlt2) (hmin j hj)
          · rw [centerDist_append_last]
        · intro j hj
          simp only [centerDist_append_last]
          rw [centerDist_append_left _ _ _ _ _ hj]
          exact lt_of_lt_of_le hlt2 (hmin j hj)
      · simp only [hlt2, decide_False, Bool.false_eq_true, if_false]
        rw [← hlen]
        apply ih
        right
        refine ⟨by simp; omega, ?_, ?_, ?_⟩
        · rw [hd, centerDist_append_left _ _ _ _ _ hlt]
        · intro j hj
          rw [centerDist_append_left _ _ _ _ _ hlt]
          rw [hlen] at hj
          rcases Nat.lt_succ_iff_lt_or_eq.mp hj with hj | rfl
          · rw [centerDist_append_left _ _ _ _ _ hj]
            exact hmin j hj
          · rw [centerDist_append_last]
            exact not_lt.mp hlt2
        · intro j hj
          rw [centerDist_append_left _ _ _ _ _ hlt,
            centerDist_append_left _ _ _ _ _ (lt_trans hj hlt)]
          exact hfirst j hj

/-- C9: for a non-empty row of boxes `getClosestBoxIndexByX(x)` is an index
`i` in range whose centre distance `|box.x + boxWidth / 2 - x|` is minimal
over all boxes and strictly smaller than that of every earlier box (the
lowest index on ties); for an empty row it is `-1`. -/
theorem getClosestBoxIndexByX_spec (boxGraphics : List (Box K)) (boxWidth x : K) :
    (boxGraphics ≠ [] →
      ∃ i : Nat, getClosestBoxIndexByX boxGraphics boxWidth x = (i : Int) ∧
        i < boxGraphics.length ∧
        (∀ j, j < boxGraphics.length →
          centerDist boxWidth x boxGraphics i ≤ centerDist boxWidth x boxGraphics j) ∧
        (∀ j, j < i →
          centerDist boxWidth x boxGraphics i < centerDist boxWidth x boxGraphics j)) ∧
    (boxGraphics = [] → getClosestBoxIndexByX boxGraphics boxWidth x = -1) := by
  constructor
  · intro hne
    have hlen : boxGraphics.length ≠ 0 := fun h => hne (List.length_eq_zero.mp h)
    have hinv := closestScan_inv boxWidth x boxGraphics [] (0, none) (Or.inl ⟨rfl, rfl⟩)
    simp only [List.nil_append, List.length_nil] at hinv
    rcases hinv with ⟨h, -⟩ | ⟨h1, -, h3, h4⟩
    · exact absurd h hne
    · exact ⟨_, by simp [getClosestBoxIndexByX, hlen], h1, h3, h4⟩
  · rintro rfl
    simp [getClosestBoxIndexByX]

/-- C9 on three boxes of width `10` at `x = 0, 12, 24` with the ball at
`x = 11` (a tie between boxes 0 and 1, resolved to 0) and on no boxes. -/
theorem getClosestBoxIndexByX_spec_witness :
    ([(⟨0, 0⟩ : Box ℚ), ⟨12, 0⟩, ⟨24, 0⟩] ≠ [] ∧
      ∃ i : Nat, getClosestBoxIndexByX [(⟨0, 0⟩ : Box ℚ), ⟨12, 0⟩, ⟨24, 0⟩] 10 11 = (i : Int) ∧
        i < [(⟨0, 0⟩ : Box ℚ), ⟨12, 0⟩, ⟨24, 0⟩].length ∧
        (∀ j, j < [(⟨0, 0⟩ : Box ℚ), ⟨12, 0⟩, ⟨24, 0⟩].length →
          centerDist 10 11 [(⟨0, 0⟩ : Box ℚ), ⟨12, 0⟩, ⟨24, 0⟩] i
            ≤ centerDist 10 11 [(⟨0, 0⟩ : Box ℚ), ⟨12, 0⟩, ⟨24, 0⟩] j) ∧
        (∀ j, j < i →
          centerDist 10 11 [(⟨0, 0⟩ : Box ℚ), ⟨12, 0⟩, ⟨24, 0⟩] i
            < centerDist 10 11 [(⟨0, 0⟩ : Box ℚ), ⟨12, 0⟩, ⟨24, 0⟩] j)) ∧
    (([] : List (Box ℚ)) = [] ∧ getClosestBoxIndexByX ([] : List (Box ℚ)) 10 11 = -1) :=
  ⟨⟨by decide,
      (getClosestBoxIndexByX_spec [(⟨0, 0⟩ : Box ℚ), ⟨12, 0⟩, ⟨24, 0⟩] 10 11).1 (by decide)⟩,
    ⟨rfl, (getClosestBoxIndexByX_spec ([] : List (Box ℚ)) 10 11).2 rfl⟩⟩

end ClosestTheorems

/-! ## Win chance of a tilted distribution -/

section WinChanceTheorems

variable {K : Type} [LinearOrderedField K]

theorem foldl_winStep (threshold : K) (l : List (K × K)) :
    ∀ acc : K × K, l.foldl (winStep threshold) acc
      = (acc.1 + (l.map totPart).sum, acc.2 + (l.map (winPart threshold)).sum) := by
  induction l with
  | nil => intro acc; simp
  | cons pv l ih =>
    intro acc
    rw [List.foldl_cons, ih]
    unfold winStep totPart winPart
    by_cases h1 : pv.1 < 0
    · simp [h1]
    · by_cases h2 : pv.2 ≥ threshold
      · simp [h1, h2, add_assoc]
      · simp [h1, h2, add_assoc]

theorem zip_map_range {α β : Type} (f : Nat → α) (vs : List β) (d : β) (n : Nat)
    (h : n ≤ vs.length) :
    ((List.range n).map f).zip vs = (List.range n).map fun i => (f i, vs.getD i d) := by
  apply List.ext_getElem
  · simp [h]
  · intro i h1 h2
    have hi : i < n := by simpa using h2
    have hv : i < vs.length := lt_of_lt_of_le hi h
    simp [List.getD_eq_getElem?_getD, List.getElem?_eq_getElem hv]

theorem getWinChance_range (p : Nat → K) (values : List K) (minMultiplier : Option K) (n : Nat)
    (hn : n ≤ values.length) (hp : ∀ i, i < n → 0 ≤ p i) :
    getWinChanceFromValues ((List.range n).map p) values minMultiplier
      = if (∑ i in Finset.range n, p i) ≤ 0 then none
        else some ((∑ i in Finset.range n,
            if values.getD i 0 ≥ minMultiplier.getD 1 then p i else 0)
          / (∑ i in Finset.range n, p i)) := by
  unfold getWinChanceFromValues
  simp only [foldl_winStep, zip_map_range p values 0 n hn, List.map_map, zero_add,
    sum_map_range]
  have e1 : (∑ i in Finset.range n, (totPart ∘ fun i => (p i, values.getD i 0)) i)
      = ∑ i in Finset.range n, p i := by
    apply Finset.sum_congr rfl
    intro i hi
    simp [totPart, not_lt.mpr (hp i (Finset.mem_range.mp hi))]
  have e2 : (∑ i in Finset.range n,
        (winPart (minMultiplier.getD 1) ∘ fun i => (p i, values.getD i 0)) i)
      = ∑ i in Finset.range n, if values.getD i 0 ≥ minMultiplier.getD 1 then p i else 0 := by
    apply Finset.sum_congr rfl
    intro i hi
    simp [winPart, not_lt.mpr (hp i (Finset.mem_range.mp hi))]
  rw [e1, e2]

end WinChanceTheorems

section MinMaxTheorems

variable {K : Type} [LinearOrderedField K]

theorem foldl_min_some (l : List K) : ∀ a : K,
    l.foldl (fun m value => some (match m with | none => value | some m => min m value)) (some a)
      = some (l.foldl min a) := by
  induction l with
  | nil => intro a; rfl
  | cons v l ih => intro a; rw [List.foldl_cons, List.foldl_cons]; exact ih _

theorem foldl_max_some (l : List K) : ∀ a : K,
    l.foldl (fun m value => some (match m with | none => value | some m => max m value)) (some a)
      = some (l.foldl max a) := by
  induction l with
  | nil => intro a; rfl
  | cons v l ih => intro a; rw [List.foldl_cons, List.foldl_cons]; exact ih _

theorem foldl_min_le (l : List K) : ∀ a : K,
    l.foldl min a ≤ a ∧ ∀ v ∈ l, l.foldl min a ≤ v := by
  induction l with
  | nil => intro a; simp
  | cons u l ih =>
    intro a
    obtain ⟨h1, h2⟩ := ih (min a u)
    rw [List.foldl_cons]
    refine ⟨le_trans h1 (min_le_left _ _), ?_⟩
    intro v hv
    rcases List.mem_cons.mp hv with rfl | hv
    · exact le_trans h1 (min_le_right _ _)
    · exact h2 v hv

theorem le_foldl_max (l : List K) : ∀ a : K,
    a ≤ l.foldl max a ∧ ∀ v ∈ l, v ≤ l.foldl max a := by
  induction l with
  | nil => intro a; simp
  | cons u l ih =>
    intro a
    obtain ⟨h1, h2⟩ := ih (max a u)
    rw [List.foldl_cons]
    refine ⟨le_trans (le_max_left _ _) h1, ?_⟩
    intro v hv
    rcases List.mem_cons.mp hv with rfl | hv
    · exact le_trans (le_max_right _ _) h1
    · exact h2 v hv

theorem minOf_nil : minOf ([] : List K) = none := rfl

theorem maxOf_nil : maxOf ([] : List K) = none := rfl

/-- On a non-empty list the running minimum and maximum exist and bound
every element. -/
theorem minOf_maxOf_spec (l : List K) (hl : l ≠ []) :
    ∃ mn mx, minOf l = some mn ∧ maxOf l = some mx ∧ ∀ v ∈ l, mn ≤ v ∧ v ≤ mx := by
  cases l with
  | nil => exact absurd rfl hl
  | cons a l =>
    refine ⟨l.foldl min a, l.foldl max a, ?_, ?_, ?_⟩
    · unfold minOf; rw [List.foldl_cons]; exact foldl_min_some l a
    · unfold maxOf; rw [List.foldl_cons]; exact foldl_max_some l a
    · intro v hv
      rcases List.mem_cons.mp hv with rfl | hv
      · exact ⟨(foldl_min_le l v).1, (le_foldl_max l v).1⟩
      · exact ⟨(foldl_min_le l a).2 v hv, (le_foldl_max l a).2 v hv⟩

theorem sumOf_map_range (f : Nat → K) (n : Nat) :
    sumOf ((List.range n).map f) = ∑ i in Finset.range n, f i := by
  rw [sumOf_eq_sum, sum_map_range]

/-- Win chance of a normalized list of non-negative weights indexed by
`0..n-1`. -/
theorem getWinChance_normalize_range (w : Nat → K) (values : List K) (minMultiplier : Option K)
    (n : Nat) (hn : n ≤ values.length) (hw : ∀ i, i < n → 0 ≤ w i) :
    getWinChanceFromValues (normalizeProbabilities ((List.range n).map w)) values minMultiplier
      = if (∑ i in Finset.range n, w i) ≤ 0 then none
        else some ((∑ i in Finset.range n,
            if values.getD i 0 ≥ minMultiplier.getD 1 then w i else 0)
          / (∑ i in Finset.range n, w i)) := by
  unfold normalizeProbabilities
  simp only [sumOf_map_range]
  by_cases hS : (∑ i in Finset.range n, w i) ≤ 0
  · simp only [hS, if_true]
    rw [getWinChance_range w values minMultiplier n hn hw]
    simp [hS]
  · simp only [hS, if_false]
    have hpos : 0 < ∑ i in Finset.range n, w i := not_le.mp hS
    rw [List.map_map]
    rw [getWinChance_range ((fun value => value / ∑ i in Finset.range n, w i) ∘ w) values
      minMultiplier n hn (fun i hi => div_nonneg (hw i hi) (le_of_lt hpos))]
    have e1 : (∑ i in Finset.range n, ((fun value => value / ∑ i in Finset.range n, w i) ∘ w) i)
        = 1 := by
      simp only [Function.comp]
      rw [← Finset.sum_div]
      exact div_self (ne_of_gt hpos)
    have e2 : (∑ i in Finset.range n, if values.getD i 0 ≥ minMultiplier.getD 1
          then ((fun value => value / ∑ i in Finset.range n, w i) ∘ w) i else 0)
        = (∑ i in Finset.range n, if values.getD i 0 ≥ minMultiplier.getD 1 then w i else 0)
          / (∑ i in Finset.range n, w i) := by
      rw [Finset.sum_div]
      apply Finset.sum_congr rfl
      intro i _
      by_cases h : values.getD i 0 ≥ minMultiplier.getD 1
      · rw [if_pos h, if_pos h]
        rfl
      · rw [if_neg h, if_neg h, zero_div]
    rw [e1, e2]
    simp

end MinMaxTheorems

section NormalFormTheorems

variable {K : Type} [LinearOrderedField K]

theorem weightOf_eq (exp : K → K) (mn range bias : K) (base values : List K) (i : Nat) :
    weightOf exp mn range bias (base.getD i 0) (values.getD i 0)
      = effBase base i * exp (bias * tiltCoord mn range values i) := by
  unfold weightOf effBase tiltCoord
  by_cases h : base.getD i 0 < 0
  · simp [h]
  · simp [h]

theorem effBase_nonneg (base : List K) (i : Nat) : 0 ≤ effBase base i := by
  unfold effBase
  split
  · exact le_refl _
  · exact not_lt.mp ‹_›

/-- Normal form of `buildWeightedProbabilities`: either its result does not
depend on the bias, or it is the normalized list of tilted weights over the
first `n` slots, whose values span a proper interval `[mn, mx]`. -/
theorem buildWeightedProbabilities_cases (exp : K → K) (base values : List K) :
    (∃ probs, ∀ bias, buildWeightedProbabilities exp base values bias = probs) ∨
    (∃ (n : Nat) (mn mx : K), 0 < n ∧ n ≤ values.length ∧ n ≤ base.length ∧ mn < mx ∧
      (∀ i, i < n → mn ≤ values.getD i 0 ∧ values.getD i 0 ≤ mx) ∧
      ∀ bias, buildWeightedProbabilities exp base values bias
        = normalizeProbabilities ((List.range n).map fun i =>
            effBase base i * exp (bias * tiltCoord mn (mx - mn) values i))) := by
  by_cases hc : min base.length values.length ≤ 0
  · left
    exact ⟨[], fun bias => by simp [buildWeightedProbabilities, hc]⟩
  · have hpos : 0 < min base.length values.length := Nat.pos_of_ne_zero (by omega)
    have hnv : min base.length values.length ≤ values.length := Nat.min_le_right _ _
    have hnb : min base.length values.length ≤ base.length := Nat.min_le_left _ _
    have hne : values.take (min base.length values.length) ≠ [] := by
      intro h
      have := congrArg List.length h
      rw [List.length_take, List.length_nil] at this
      omega
    obtain ⟨mn, mx, hmn, hmx, hb⟩ := minOf_maxOf_spec _ hne
    have hbound : ∀ i, i < min base.length values.length →
        mn ≤ values.getD i 0 ∧ values.getD i 0 ≤ mx := by
      intro i hi
      have hiv : i < values.length := lt_of_lt_of_le hi hnv
      apply hb
      rw [List.getD_eq_getElem?_getD, List.getElem?_eq_getElem hiv]
      simp only [Option.getD_some]
      rw [List.mem_take_iff_getElem]
      exact ⟨i, by rw [lt_min_iff]; exact ⟨hi, hiv⟩, rfl⟩
    by_cases hdeg : mx = mn
    · left
      refine ⟨normalizeProbabilities (base.take (min base.length values.length)), ?_⟩
      intro bias
      simp [buildWeightedProbabilities, hc, hmn, hmx, hdeg]
    · right
      have hle : mn ≤ mx := le_trans (hbound 0 hpos).1 (hbound 0 hpos).2
      refine ⟨_, mn, mx, hpos, hnv, hnb, lt_of_le_of_ne hle (Ne.symm hdeg), hbound, ?_⟩
      intro bias
      simp only [buildWeightedProbabilities, hc, if_false, hmn, hmx, hdeg, weightOf_eq]

end NormalFormTheorems

/-! ## Exponential tilting over the reals -/

section TiltTheorems

theorem tiltWin_add_tiltLose (eb x : Nat → ℝ) (win : Nat → Bool) (n : Nat) (b : ℝ) :
    tiltWin Real.exp eb x win n b + tiltLose Real.exp eb x win n b
      = tiltTotal Real.exp eb x n b := by
  unfold tiltWin tiltLose tiltTotal
  rw [← Finset.sum_add_distrib]
  apply Finset.sum_congr rfl
  intro i _
  cases win i <;> simp

theorem tiltWin_nonneg (eb x : Nat → ℝ) (win : Nat → Bool) (n : Nat) (b : ℝ)
    (heb : ∀ i, 0 ≤ eb i) : 0 ≤ tiltWin Real.exp eb x win n b := by
  unfold tiltWin
  apply Finset.sum_nonneg
  intro i _
  cases win i
  · simp
  · simpa using mul_nonneg (heb i) (le_of_lt (Real.exp_pos _))

theorem tiltLose_nonneg (eb x : Nat → ℝ) (win : Nat → Bool) (n : Nat) (b : ℝ)
    (heb : ∀ i, 0 ≤ eb i) : 0 ≤ tiltLose Real.exp eb x win n b := by
  unfold tiltLose
  apply Finset.sum_nonneg
  intro i _
  cases win i
  · simpa using mul_nonneg (heb i) (le_of_lt (Real.exp_pos _))
  · simp

theorem tiltTotal_nonneg (eb x : Nat → ℝ) (n : Nat) (b : ℝ)
    (heb : ∀ i, 0 ≤ eb i) : 0 ≤ tiltTotal Real.exp eb x n b := by
  unfold tiltTotal
  exact Finset.sum_nonneg fun i _ => mul_nonneg (heb i) (le_of_lt (Real.exp_pos _))

/-- Whether the total tilted weight is positive does not depend on the bias. -/
theorem tiltTotal_pos_iff (eb x : Nat → ℝ) (n : Nat) (b : ℝ) (heb : ∀ i, 0 ≤ eb i) :
    0 < tiltTotal Real.exp eb x n b ↔ ∃ i, i < n ∧ 0 < eb i := by
  unfold tiltTotal
  constructor
  · intro hpos
    by_contra hcon
    have hz : ∀ i ∈ Finset.range n, eb i * Real.exp (b * x i) = 0 := by
      intro i hi
      have hle : ¬ 0 < eb i := fun h => hcon ⟨i, Finset.mem_range.mp hi, h⟩
      have : eb i = 0 := le_antisymm (not_lt.mp hle) (heb i)
      rw [this, zero_mul]
    rw [Finset.sum_eq_zero hz] at hpos
    exact lt_irrefl _ hpos
  · rintro ⟨i, hi, hpos⟩
    exact Finset.sum_pos' (fun j _ => mul_nonneg (heb j) (le_of_lt (Real.exp_pos _)))
      ⟨i, Finset.mem_range.mpr hi, mul_pos hpos (Real.exp_pos _)⟩

theorem tiltTotal_pos_of_pos (eb x : Nat → ℝ) (n : Nat) (b1 b2 : ℝ) (heb : ∀ i, 0 ≤ eb i)
    (h : 0 < tiltTotal Real.exp eb x n b1) : 0 < tiltTotal Real.exp eb x n b2 :=
  (tiltTotal_pos_iff eb x n b2 heb).mpr ((tiltTotal_pos_iff eb x n b1 heb).mp h)

/-- Moving the bias from `b1` to `b2 ≥ b1` multiplies each weight by
`exp ((b2 - b1) * x i)`. -/
theorem tilt_term (e xi b1 b2 : ℝ) :
    e * Real.exp (b2 * xi) = e * Real.exp (b1 * xi) * Real.exp ((b2 - b1) * xi) := by
  rw [mul_assoc, ← Real.exp_add]
  congr 2
  ring

theorem tiltWin_ge (eb x : Nat → ℝ) (win : Nat → Bool) (n : Nat) (b1 b2 c : ℝ)
    (heb : ∀ i, 0 ≤ eb i) (hb : b1 ≤ b2) (hc : ∀ i, i < n → win i = true → c ≤ x i) :
    Real.exp ((b2 - b1) * c) * tiltWin Real.exp eb x win n b1
      ≤ tiltWin Real.exp eb x win n b2 := by
  unfold tiltWin
  rw [Finset.mul_sum]
  apply Finset.sum_le_sum
  intro i hi
  cases hw : win i
  · simp
  · simp only [if_true]
    rw [tilt_term (eb i) (x i) b1 b2, mul_comm]
    apply mul_le_mul_of_nonneg_left _ (mul_nonneg (heb i) (le_of_lt (Real.exp_pos _)))
    apply Real.exp_le_exp.mpr
    exact mul_le_mul_of_nonneg_left (hc i (Finset.mem_range.mp hi) hw) (by linarith)

theorem tiltLose_le (eb x : Nat → ℝ) (win : Nat → Bool) (n : Nat) (b1 b2 c : ℝ)
    (heb : ∀ i, 0 ≤ eb i) (hb : b1 ≤ b2) (hc : ∀ i, i < n → win i = false → x i ≤ c) :
    tiltLose Real.exp eb x win n b2
      ≤ Real.exp ((b2 - b1) * c) * tiltLose Real.exp eb x win n b1 := by
  unfold tiltLose
  rw [Finset.mul_sum]
  apply Finset.sum_le_sum
  intro i hi
  cases hw : win i
  · simp only [Bool.false_eq_true, if_false]
    rw [tilt_term (eb i) (x i) b1 b2, mul_comm (Real.exp _)]
    apply mul_le_mul_of_nonneg_left _ (mul_nonneg (heb i) (le_of_lt (Real.exp_pos _)))
    apply Real.exp_le_exp.mpr
    exact mul_le_mul_of_nonneg_left (hc i (Finset.mem_range.mp hi) hw) (by linarith)
  · simp

/-- Monotone likelihood ratio: when the winning slots are those with the
larger exponent coordinate, the win fraction does not decrease with the
bias. -/
theorem tilt_ratio_mono (eb x : Nat → ℝ) (win : Nat → Bool) (n : Nat) (b1 b2 c : ℝ)
    (heb : ∀ i, 0 ≤ eb i) (hb : b1 ≤ b2)
    (hwin : ∀ i, i < n → win i = true → c ≤ x i)
    (hlose : ∀ i, i < n → win i = false → x i ≤ c)
    (hpos : 0 < tiltTotal Real.exp eb x n b1) :
    tiltWin Real.exp eb x win n b1 / tiltTotal Real.exp eb x n b1
      ≤ tiltWin Real.exp eb x win n b2 / tiltTotal Real.exp eb x n b2 := by
  have hpos2 := tiltTotal_pos_of_pos eb x n b1 b2 heb hpos
  rw [div_le_div_iff₀ hpos hpos2]
  have hA := tiltWin_ge eb x win n b1 b2 c heb hb hwin
  have hL := tiltLose_le eb x win n b1 b2 c heb hb hlose
  have hA1 := tiltWin_nonneg eb x win n b1 heb
  have hA2 := tiltWin_nonneg eb x win n b2 heb
  have hL1 := tiltLose_nonneg eb x win n b1 heb
  have hk : 0 < Real.exp ((b2 - b1) * c) := Real.exp_pos _
  rw [← tiltWin_add_tiltLose eb x win n b1, ← tiltWin_add_tiltLose eb x win n b2]
  have h1 : tiltWin Real.exp eb x win n b1 * tiltLose Real.exp eb x win n b2
      ≤ tiltWin Real.exp eb x win n b1
        * (Real.exp ((b2 - b1) * c) * tiltLose Real.exp eb x win n b1) :=
    mul_le_mul_of_nonneg_left hL hA1
  have h2 : Real.exp ((b2 - b1) * c) * tiltWin Real.exp eb x win n b1
        * tiltLose Real.exp eb x win n b1
      ≤ tiltWin Real.exp eb x win n b2 * tiltLose Real.exp eb x win n b1 :=
    mul_le_mul_of_nonneg_right hA hL1
  nlinarith [h1, h2]

theorem tiltWin_le_of_coord_le (eb x : Nat → ℝ) (win : Nat → Bool) (n : Nat) (b1 b2 : ℝ)
    (heb : ∀ i, 0 ≤ eb i) (hb : b1 ≤ b2) (hx : ∀ i, i < n → x i ≤ 1 / 2) :
    tiltWin Real.exp eb x win n b2
      ≤ Real.exp ((b2 - b1) * (1 / 2)) * tiltWin Real.exp eb x win n b1 := by
  unfold tiltWin
  rw [Finset.mul_sum]
  apply Finset.sum_le_sum
  intro i hi
  cases hw : win i
  · simp
  · simp only [if_true]
    rw [tilt_term (eb i) (x i) b1 b2, mul_comm (Real.exp _)]
    apply mul_le_mul_of_nonneg_left _ (mul_nonneg (heb i) (le_of_lt (Real.exp_pos _)))
    apply Real.exp_le_exp.mpr
    exact mul_le_mul_of_nonneg_left (hx i (Finset.mem_range.mp hi)) (by linarith)

theorem tiltTotal_ge_of_coord_ge (eb x : Nat → ℝ) (n : Nat) (b1 b2 : ℝ)
    (heb : ∀ i, 0 ≤ eb i) (hb : b1 ≤ b2) (hx : ∀ i, i < n → -(1 / 2) ≤ x i) :
    Real.exp ((b2 - b1) * (-(1 / 2))) * tiltTotal Real.exp eb x n b1
      ≤ tiltTotal Real.exp eb x n b2 := by
  unfold tiltTotal
  rw [Finset.mul_sum]
  apply Finset.sum_le_sum
  intro i hi
  rw [tilt_term (eb i) (x i) b1 b2, mul_comm]
  apply mul_le_mul_of_nonneg_left _ (mul_nonneg (heb i) (le_of_lt (Real.exp_pos _)))
  apply Real.exp_le_exp.mpr
  exact mul_le_mul_of_nonneg_left (hx i (Finset.mem_range.mp hi)) (by linarith)

/-- Continuity estimate: raising the bias by `b2 - b1` multiplies the win
fraction by at most `exp (b2 - b1)`. -/
theorem tilt_ratio_le_exp (eb x : Nat → ℝ) (win : Nat → Bool) (n : Nat) (b1 b2 : ℝ)
    (heb : ∀ i, 0 ≤ eb i) (hb : b1 ≤ b2)
    (hx : ∀ i, i < n → -(1 / 2) ≤ x i ∧ x i ≤ 1 / 2)
    (hpos : 0 < tiltTotal Real.exp eb x n b1) :
    tiltWin Real.exp eb x win n b2 / tiltTotal Real.exp eb x n b2
      ≤ Real.exp (b2 - b1)
        * (tiltWin Real.exp eb x win n b1 / tiltTotal Real.exp eb x n b1) := by
  have hpos2 := tiltTotal_pos_of_pos eb x n b1 b2 heb hpos
  have hA := tiltWin_le_of_coord_le eb x win n b1 b2 heb hb (fun i hi => (hx i hi).2)
  have hT := tiltTotal_ge_of_coord_ge eb x n b1 b2 heb hb (fun i hi => (hx i hi).1)
  have hA1 := tiltWin_nonneg eb x win n b1 heb
  have hsplit : Real.exp (b2 - b1)
      = Real.exp ((b2 - b1) * (1 / 2)) * Real.exp ((b2 - b1) * (1 / 2)) := by
    rw [← Real.exp_add]; congr 1; ring
  have hinv : Real.exp ((b2 - b1) * (1 / 2)) * Real.exp ((b2 - b1) * (-(1 / 2))) = 1 := by
    rw [← Real.exp_add]
    have : (b2 - b1) * (1 / 2) + (b2 - b1) * (-(1 / 2)) = 0 := by ring
    rw [this, Real.exp_zero]
  have hk : 0 < Real.exp ((b2 - b1) * (1 / 2)) := Real.exp_pos _
  rw [← mul_div_assoc, div_le_div_iff₀ hpos2 hpos]
  -- A2 * T1 ≤ exp δ * A1 * T2
  have h1 : tiltWin Real.exp eb x win n b2 * tiltTotal Real.exp eb x n b1
      ≤ Real.exp ((b2 - b1) * (1 / 2)) * tiltWin Real.exp eb x win n b1
        * tiltTotal Real.exp eb x n b1 :=
    mul_le_mul_of_nonneg_right hA (le_of_lt hpos)
  have h2 : Real.exp ((b2 - b1) * (1 / 2)) * tiltWin Real.exp eb x win n b1
        * (Real.exp ((b2 - b1) * (1 / 2))
          * (Real.exp ((b2 - b1) * (-(1 / 2))) * tiltTotal Real.exp eb x n b1))
      ≤ Real.exp ((b2 - b1) * (1 / 2)) * tiltWin Real.exp eb x win n b1
        * (Real.exp ((b2 - b1) * (1 / 2)) * tiltTotal Real.exp eb x n b2) :=
    mul_le_mul_of_nonneg_left (mul_le_mul_of_nonneg_left hT (le_of_lt hk))
      (mul_nonneg (le_of_lt hk) hA1)
  have h3 : Real.exp ((b2 - b1) * (1 / 2)) * tiltWin Real.exp eb x win n b1
        * (Real.exp ((b2 - b1) * (1 / 2))
          * (Real.exp ((b2 - b1) * (-(1 / 2))) * tiltTotal Real.exp eb x n b1))
      = Real.exp ((b2 - b1) * (1 / 2)) * tiltWin Real.exp eb x win n b1
        * tiltTotal Real.exp eb x n b1 := by
    rw [← mul_assoc (Real.exp ((b2 - b1) * (1 / 2))) (Real.exp ((b2 - b1) * (-(1 / 2)))), hinv,
      one_mul]
  rw [hsplit]
  calc tiltWin Real.exp eb x win n b2 * tiltTotal Real.exp eb x n b1
      ≤ Real.exp ((b2 - b1) * (1 / 2)) * tiltWin Real.exp eb x win n b1
        * tiltTotal Real.exp eb x n b1 := h1
    _ = _ := h3.symm
    _ ≤ _ := h2
    _ = _ := by ring

theorem tilt_ratio_bounds (eb x : Nat → ℝ) (win : Nat → Bool) (n : Nat) (b : ℝ)
    (heb : ∀ i, 0 ≤ eb i) (hpos : 0 < tiltTotal Real.exp eb x n b) :
    0 ≤ tiltWin Real.exp eb x win n b / tiltTotal Real.exp eb x n b ∧
      tiltWin Real.exp eb x win n b / tiltTotal Real.exp eb x n b ≤ 1 := by
  have hA := tiltWin_nonneg eb x win n b heb
  have hL := tiltLose_nonneg eb x win n b heb
  have hsum := tiltWin_add_tiltLose eb x win n b
  refine ⟨div_nonneg hA (le_of_lt hpos), ?_⟩
  rw [div_le_one hpos]
  linarith

end TiltTheorems

section WinChanceBounds

variable {K : Type} [LinearOrderedField K]

theorem totPart_nonneg (pv : K × K) : 0 ≤ totPart pv := by
  unfold totPart
  split
  · exact le_refl _
  · exact not_lt.mp ‹_›

theorem winPart_nonneg (threshold : K) (pv : K × K) : 0 ≤ winPart threshold pv := by
  unfold winPart
  split
  · exact le_refl _
  · split
    · exact not_lt.mp ‹_›
    · exact le_refl _

theorem winPart_le_totPart (threshold : K) (pv : K × K) :
    winPart threshold pv ≤ totPart pv := by
  unfold winPart totPart
  split
  · exact le_refl _
  · split
    · exact le_refl _
    · exact not_lt.mp ‹_›

/-- A win chance that is a number lies in `[0, 1]`. -/
theorem getWinChanceFromValues_bounds (probabilities values : List K) (minMultiplier : Option K)
    (a : K) (h : getWinChanceFromValues probabilities values minMultiplier = some a) :
    0 ≤ a ∧ a ≤ 1 := by
  unfold getWinChanceFromValues at h
  simp only [foldl_winStep, zero_add] at h
  split at h
  · exact absurd h (by simp)
  · rename_i hT
    have hpos : 0 < ((probabilities.zip values).map totPart).sum := not_le.mp hT
    have ha := Option.some.inj h
    have hw : 0 ≤ ((probabilities.zip values).map (winPart (minMultiplier.getD 1))).sum :=
      List.sum_nonneg (by
        intro v hv
        obtain ⟨pv, -, rfl⟩ := List.mem_map.mp hv
        exact winPart_nonneg _ pv)
    have hle : ((probabilities.zip values).map (winPart (minMultiplier.getD 1))).sum
        ≤ ((probabilities.zip values).map totPart).sum :=
      List.sum_le_sum (fun pv _ => winPart_le_totPart _ pv)
    rw [← ha]
    exact ⟨div_nonneg hw (le_of_lt hpos), (div_le_one hpos).mpr hle⟩

end WinChanceBounds

section WinChanceReal

/-- Normal form of the win chance as a function of the bias: it is either
constant, or the win fraction of an exponentially tilted family in which the
winning slots are exactly those with the larger exponent coordinate. -/
theorem winChanceAt_cases (base values : List ℝ) (minMultiplier : Option ℝ) :
    (∃ r, ∀ bias, winChanceAt Real.exp base values minMultiplier bias = r) ∨
    (∃ (n : Nat) (eb x : Nat → ℝ) (win : Nat → Bool) (c : ℝ),
      (∀ i, 0 ≤ eb i) ∧ (∀ i, i < n → -(1 / 2) ≤ x i ∧ x i ≤ 1 / 2) ∧
      (∀ i, i < n → win i = true → c ≤ x i) ∧ (∀ i, i < n → win i = false → x i ≤ c) ∧
      ∀ bias, winChanceAt Real.exp base values minMultiplier bias
        = if tiltTotal Real.exp eb x n bias ≤ 0 then none
          else some (tiltWin Real.exp eb x win n bias / tiltTotal Real.exp eb x n bias)) := by
  rcases buildWeightedProbabilities_cases Real.exp base values with
    ⟨probs, hp⟩ | ⟨n, mn, mx, hn, hnv, hnb, hlt, hbound, hp⟩
  · left
    exact ⟨getWinChanceFromValues probs values minMultiplier, fun bias => by
      unfold winChanceAt; rw [hp bias]⟩
  · right
    have hr : 0 < mx - mn := by linarith
    refine ⟨n, effBase base, tiltCoord mn (mx - mn) values,
      fun i => decide (values.getD i 0 ≥ minMultiplier.getD 1),
      (minMultiplier.getD 1 - mn) / (mx - mn) - 0.5, effBase_nonneg base, ?_, ?_, ?_, ?_⟩
    · intro i hi
      obtain ⟨h1, h2⟩ := hbound i hi
      unfold tiltCoord
      have h3 : 0 ≤ (values.getD i 0 - mn) / (mx - mn) := div_nonneg (by linarith) (le_of_lt hr)
      have h4 : (values.getD i 0 - mn) / (mx - mn) ≤ 1 := (div_le_one hr).mpr (by linarith)
      have e : (0.5 : ℝ) = 1 / 2 := by norm_num
      rw [e]
      constructor <;> linarith
    · intro i _ hw
      have hw' : values.getD i 0 ≥ minMultiplier.getD 1 := of_decide_eq_true hw
      unfold tiltCoord
      have : (minMultiplier.getD 1 - mn) / (mx - mn) ≤ (values.getD i 0 - mn) / (mx - mn) :=
        div_le_div_of_nonneg_right (by linarith) (le_of_lt hr)
      linarith
    · intro i _ hw
      have hw' : ¬ values.getD i 0 ≥ minMultiplier.getD 1 := of_decide_eq_false hw
      unfold tiltCoord
      have : (values.getD i 0 - mn) / (mx - mn) ≤ (minMultiplier.getD 1 - mn) / (mx - mn) :=
        div_le_div_of_nonneg_right (by linarith [not_le.mp hw']) (le_of_lt hr)
      linarith
    · intro bias
      unfold winChanceAt
      rw [hp bias, getWinChance_normalize_range _ values minMultiplier n hnv
        (fun i _ => mul_nonneg (effBase_nonneg base i) (le_of_lt (Real.exp_pos _)))]
      unfold tiltTotal tiltWin
      simp

/-- How the win chance moves when the bias is raised from `b1` to `b2`:
either it is `null` at both, or it is a number in `[0, 1]` at both, does not
decrease, and grows by a factor of at most `exp (b2 - b1)`. -/
theorem winChanceAt_step (base values : List ℝ) (minMultiplier : Option ℝ) (b1 b2 : ℝ)
    (hb : b1 ≤ b2) :
    (winChanceAt Real.exp base values minMultiplier b1 = none ∧
      winChanceAt Real.exp base values minMultiplier b2 = none) ∨
    (∃ a c, winChanceAt Real.exp base values minMultiplier b1 = some a ∧
      winChanceAt Real.exp base values minMultiplier b2 = some c ∧
      0 ≤ a ∧ a ≤ c ∧ c ≤ 1 ∧ c ≤ Real.exp (b2 - b1) * a) := by
  rcases winChanceAt_cases base values minMultiplier with
    ⟨r, hr⟩ | ⟨n, eb, x, win, c, heb, hx, hwin, hlose, hW⟩
  · cases r with
    | none => left; exact ⟨hr b1, hr b2⟩
    | some a =>
      right
      have hba := getWinChanceFromValues_bounds _ _ _ a (hr b1)
      refine ⟨a, a, hr b1, hr b2, hba.1, le_refl _, hba.2, ?_⟩
      have : 1 ≤ Real.exp (b2 - b1) := Real.one_le_exp (by linarith)
      nlinarith [hba.1]
  · by_cases hT : tiltTotal Real.exp eb x n b1 ≤ 0
    · left
      have hT2 : tiltTotal Real.exp eb x n b2 ≤ 0 := by
        by_contra h
        exact absurd (tiltTotal_pos_of_pos eb x n b2 b1 heb (not_le.mp h)) (not_lt.mpr hT)
      exact ⟨by rw [hW b1, if_pos hT], by rw [hW b2, if_pos hT2]⟩
    · right
      have hpos : 0 < tiltTotal Real.exp eb x n b1 := not_le.mp hT
      have hpos2 := tiltTotal_pos_of_pos eb x n b1 b2 heb hpos
      refine ⟨_, _, by rw [hW b1, if_neg hT], by rw [hW b2, if_neg (not_le.mpr hpos2)],
        (tilt_ratio_bounds eb x win n b1 heb hpos).1,
        tilt_ratio_mono eb x win n b1 b2 c heb hb hwin hlose hpos,
        (tilt_ratio_bounds eb x win n b2 heb hpos2).2,
        tilt_ratio_le_exp eb x win n b1 b2 heb hb hx hpos⟩

end WinChanceReal

section ExplicitForm

variable {K : Type} [LinearOrderedField K]

/-- Explicit form of `buildWeightedProbabilities` in the non-degenerate case. -/
theorem buildWeightedProbabilities_eq_tilt (exp : K → K) (base values : List K) (n : Nat)
    (mn mx bias : K) (hn : min base.length values.length = n) (hpos : 0 < n)
    (hmn : minOf (values.take n) = some mn) (hmx : maxOf (values.take n) = some mx)
    (hne : mx ≠ mn) :
    buildWeightedProbabilities exp base values bias
      = normalizeProbabilities ((List.range n).map fun i =>
          effBase base i * exp (bias * tiltCoord mn (mx - mn) values i)) := by
  subst hn
  have hc : ¬ min base.length values.length ≤ 0 := by omega
  simp only [buildWeightedProbabilities, hc, if_false, hmn, hmx, hne, weightOf_eq]

end ExplicitForm

section ExplicitFormReal

/-- Explicit form of the win chance in the non-degenerate case. -/
theorem winChanceAt_eq_tilt (base values : List ℝ) (minMultiplier : Option ℝ) (n : Nat)
    (mn mx bias : ℝ) (hn : min base.length values.length = n) (hpos : 0 < n)
    (hmn : minOf (values.take n) = some mn) (hmx : maxOf (values.take n) = some mx)
    (hne : mx ≠ mn) :
    winChanceAt Real.exp base values minMultiplier bias
      = if tiltTotal Real.exp (effBase base) (tiltCoord mn (mx - mn) values) n bias ≤ 0 then none
        else some (tiltWin Real.exp (effBase base) (tiltCoord mn (mx - mn) values)
            (fun i => decide (values.getD i 0 ≥ minMultiplier.getD 1)) n bias
          / tiltTotal Real.exp (effBase base) (tiltCoord mn (mx - mn) values) n bias) := by
  have hnv : n ≤ values.length := by rw [← hn]; exact min_le_right _ _
  unfold winChanceAt
  rw [buildWeightedProbabilities_eq_tilt Real.exp base values n mn mx bias hn hpos hmn hmx hne,
    getWinChance_normalize_range _ values minMultiplier n hnv
      (fun i _ => mul_nonneg (effBase_nonneg base i) (le_of_lt (Real.exp_pos _)))]
  unfold tiltTotal tiltWin
  simp

end ExplicitFormReal

/-! ## Bisection on the bias -/

section BisectTheorems

/-- Invariant of the bisection: started with a win chance below the target
at `lo` and at least the target at `hi`, after `n` steps the returned
`highBias` still has a win chance at least the target, and the bias
`(hi - lo) / 2 ^ n` below it has a win chance below the target. -/
theorem bisectBias_spec (base values : List ℝ) (minMultiplier : Option ℝ) (t : ℝ) (n : Nat) :
    ∀ lo hi : ℝ, lo ≤ hi →
      (∃ a, winChanceAt Real.exp base values minMultiplier lo = some a ∧ a < t) →
      (∃ c, winChanceAt Real.exp base values minMultiplier hi = some c ∧ t ≤ c) →
      ∃ lo', lo ≤ lo' ∧ lo' ≤ bisectBias Real.exp base values t minMultiplier n lo hi ∧
        bisectBias Real.exp base values t minMultiplier n lo hi ≤ hi ∧
        bisectBias Real.exp base values t minMultiplier n lo hi - lo' = (hi - lo) / 2 ^ n ∧
        (∃ a, winChanceAt Real.exp base values minMultiplier lo' = some a ∧ a < t) ∧
        (∃ c, winChanceAt Real.exp base values minMultiplier
          (bisectBias Real.exp base values t minMultiplier n lo hi) = some c ∧ t ≤ c) := by
  induction n with
  | zero =>
    intro lo hi hle hlo hhi
    exact ⟨lo, le_refl _, hle, le_refl _, by simp [bisectBias], hlo, hhi⟩
  | succ n ih =>
    intro lo hi hle hlo hhi
    obtain ⟨a, ha, hat⟩ := hlo
    have hmid1 : lo ≤ (lo + hi) / 2 := by linarith
    have hmid2 : (lo + hi) / 2 ≤ hi := by linarith
    rcases winChanceAt_step base values minMultiplier lo ((lo + hi) / 2) hmid1 with
      ⟨h1, -⟩ | ⟨a', m, h1, hm, -⟩
    · rw [h1] at ha; exact absurd ha (by simp)
    · have hm' : getWinChanceFromValues
          (buildWeightedProbabilities Real.exp base values ((lo + hi) / 2)) values minMultiplier
          = some m := hm
      by_cases hlt : m < t
      · have hrec : bisectBias Real.exp base values t minMultiplier (n + 1) lo hi
            = bisectBias Real.exp base values t minMultiplier n ((lo + hi) / 2) hi := by
          simp only [bisectBias, hm', if_pos hlt]
        rw [hrec]
        obtain ⟨lo', h1', h2', h3', h4', h5', h6'⟩ := ih ((lo + hi) / 2) hi hmid2 ⟨m, hm, hlt⟩ hhi
        refine ⟨lo', by linarith, h2', h3', ?_, h5', h6'⟩
        rw [h4', pow_succ]
        field_simp
        ring
      · have hrec : bisectBias Real.exp base values t minMultiplier (n + 1) lo hi
            = bisectBias Real.exp base values t minMultiplier n lo ((lo + hi) / 2) := by
          simp only [bisectBias, hm', if_neg hlt]
        rw [hrec]
        obtain ⟨lo', h1', h2', h3', h4', h5', h6'⟩ :=
          ih lo ((lo + hi) / 2) hmid1 ⟨a, ha, hat⟩ ⟨m, hm, not_lt.mp hlt⟩
        refine ⟨lo', h1', h2', by linarith, ?_, h5', h6'⟩
        rw [h4', pow_succ]
        field_simp
        ring

theorem exp_small_sub_one_le : Real.exp (16 / 2 ^ 30) - 1 ≤ (0.02 : ℝ) := by
  have h : Real.exp (16 / 2 ^ 30) ≤ 1 / (1 - 16 / 2 ^ 30) := by
    have h1 := Real.add_one_le_exp (-(16 / 2 ^ 30 : ℝ))
    have h2 : (0 : ℝ) < 1 - 16 / 2 ^ 30 := by norm_num
    rw [Real.exp_neg] at h1
    rw [le_div_iff₀ h2]
    have h3 : 0 < Real.exp (16 / 2 ^ 30) := Real.exp_pos _
    have h4 : (1 - 16 / 2 ^ 30 : ℝ) ≤ (Real.exp (16 / 2 ^ 30))⁻¹ := by linarith
    calc Real.exp (16 / 2 ^ 30) * (1 - 16 / 2 ^ 30)
        ≤ Real.exp (16 / 2 ^ 30) * (Real.exp (16 / 2 ^ 30))⁻¹ :=
          mul_le_mul_of_nonneg_left h4 (le_of_lt h3)
      _ = 1 := mul_inv_cancel₀ (ne_of_gt h3)
  have h5 : (1 : ℝ) / (1 - 16 / 2 ^ 30) ≤ 1 + 0.02 := by norm_num
  linarith

end BisectTheorems

/-! ## Win-rate targeting -/

section WinRateTheorems

theorem clamp01_of_mem (t : ℝ) (h0 : 0 ≤ t) (h1 : t ≤ 1) : clamp01 t = t := by
  unfold clamp01
  rw [min_eq_right h1, max_eq_right h0]

/-- The three exits of `buildWinRateProbabilities` once both endpoint win
chances are numbers (they are then ordered, so the source's swap of the
biases never happens). -/
theorem buildWinRateProbabilities_eq (base : List ℝ) (multipliers : List (JsVal ℝ))
    (target : ℝ) (minMultiplier : Option ℝ) (l h : ℝ)
    (hl : winChanceAt Real.exp (base.take (min base.length multipliers.length))
      (getMultiplierValues multipliers (min base.length multipliers.length))
      minMultiplier (-8) = some l)
    (hh : winChanceAt Real.exp (base.take (min base.length multipliers.length))
      (getMultiplierValues multipliers (min base.length multipliers.length))
      minMultiplier 8 = some h) :
    l ≤ h ∧
    buildWinRateProbabilities Real.exp base multipliers (some target) minMultiplier
      = if clamp01 target ≤ l then
          buildWeightedProbabilities Real.exp (base.take (min base.length multipliers.length))
            (getMultiplierValues multipliers (min base.length multipliers.length)) (-8)
        else if clamp01 target ≥ h then
          buildWeightedProbabilities Real.exp (base.take (min base.length multipliers.length))
            (getMultiplierValues multipliers (min base.length multipliers.length)) 8
        else
          buildWeightedProbabilities Real.exp (base.take (min base.length multipliers.length))
            (getMultiplierValues multipliers (min base.length multipliers.length))
            (bisectBias Real.exp (base.take (min base.length multipliers.length))
              (getMultiplierValues multipliers (min base.length multipliers.length))
              (clamp01 target) minMultiplier 30 (-8) 8) := by
  have hle : l ≤ h := by
    rcases winChanceAt_step (base.take (min base.length multipliers.length))
      (getMultiplierValues multipliers (min base.length multipliers.length))
      minMultiplier (-8) 8 (by norm_num) with ⟨h1, -⟩ | ⟨a, c, h1, h2, -, h3, -⟩
    · rw [h1] at hl; exact absurd hl (by simp)
    · rw [h1] at hl; rw [h2] at hh
      rw [← Option.some.inj hl, ← Option.some.inj hh]
      exact h3
  refine ⟨hle, ?_⟩
  by_cases hc : min base.length multipliers.length ≤ 0
  · have h0 : min base.length multipliers.length = 0 := by omega
    rw [h0] at hl
    simp [winChanceAt, buildWeightedProbabilities, getWinChanceFromValues,
      getMultiplierValues] at hl
  · unfold winChanceAt at hl hh
    unfold buildWinRateProbabilities
    simp only [hc, if_false, WINRATE_BIAS_RANGE, hl, hh, not_lt.mpr hle, gt_iff_lt,
      decide_False, Bool.false_eq_true]

end WinRateTheorems

section WinRateClaims

/-- For a target between the two endpoint win chances, the distribution
returned by `buildWinRateProbabilities` has a win chance `w` with
`target ≤ w ≤ target + (exp (16 / 2 ^ 30) - 1)`. -/
theorem buildWinRateProbabilities_close (baseProbabilities : List ℝ)
    (multipliers : List (JsVal ℝ)) (target : ℝ) (minMultiplier : Option ℝ)
    (base values : List ℝ) (l h : ℝ)
    (hbase : base = baseProbabilities.take (min baseProbabilities.length multipliers.length))
    (hvalues : values
      = getMultiplierValues multipliers (min baseProbabilities.length multipliers.length))
    (hl : winChanceAt Real.exp base values minMultiplier (-8) = some l)
    (hh : winChanceAt Real.exp base values minMultiplier 8 = some h)
    (ht : l ≤ target ∧ target ≤ h) :
    ∃ w, getWinChanceFromValues
        (buildWinRateProbabilities Real.exp baseProbabilities multipliers (some target)
          minMultiplier) values minMultiplier = some w ∧
      target ≤ w ∧ w - target ≤ Real.exp (16 / 2 ^ 30) - 1 := by
  subst hbase hvalues
  obtain ⟨hle, heq⟩ := buildWinRateProbabilities_eq baseProbabilities multipliers target
    minMultiplier l h hl hh
  have hlb := getWinChanceFromValues_bounds _ _ _ l hl
  have hhb := getWinChanceFromValues_bounds _ _ _ h hh
  have hclamp : clamp01 target = target :=
    clamp01_of_mem target (le_trans hlb.1 ht.1) (le_trans ht.2 hhb.2)
  have hexp : 0 ≤ Real.exp (16 / 2 ^ 30) - 1 := by
    have := Real.one_le_exp (show (0 : ℝ) ≤ 16 / 2 ^ 30 by positivity)
    linarith
  rw [heq, hclamp]
  by_cases h1 : target ≤ l
  · rw [if_pos h1]
    have : target = l := le_antisymm h1 ht.1
    exact ⟨l, hl, by linarith, by linarith⟩
  · rw [if_neg h1]
    by_cases h2 : target ≥ h
    · rw [if_pos h2]
      have : target = h := le_antisymm ht.2 h2
      exact ⟨h, hh, by linarith, by linarith⟩
    · rw [if_neg h2]
      obtain ⟨lo', -, hlo', -, hdiff, ⟨a, ha, hat⟩, ⟨c, hc, htc⟩⟩ :=
        bisectBias_spec _ _ minMultiplier target 30 (-8) 8 (by norm_num)
          ⟨l, hl, not_le.mp h1⟩ ⟨h, hh, le_of_lt (not_le.mp h2)⟩
      refine ⟨c, hc, htc, ?_⟩
      rcases winChanceAt_step _ _ minMultiplier lo' _ hlo' with
        ⟨e1, -⟩ | ⟨a', c', e1, e2, ha0, -, -, hlip⟩
      · rw [e1] at ha; exact absurd ha (by simp)
      · rw [e1] at ha; rw [e2] at hc
        have ea : a' = a := Option.some.inj ha
        have ec : c' = c := Option.some.inj hc
        subst ea ec
        have hd : ((8 : ℝ) - -8) / 2 ^ 30 = 16 / 2 ^ 30 := by norm_num
        rw [hdiff, hd] at hlip
        have ht1 : target ≤ 1 := le_trans ht.2 hhb.2
        have h1e : 1 ≤ Real.exp (16 / 2 ^ 30) := by linarith
        nlinarith [hlip, hat, ht1, h1e, ha0]

/-- In exact arithmetic: when both endpoint win chances are numbers, a clamped
target at or below the smaller one makes `buildWinRateProbabilities` return
the endpoint distribution built with bias `-8`, whose win chance is that
smaller one; a clamped target at or above the larger one makes it return an
endpoint distribution whose win chance is the larger one. -/
theorem buildWinRateProbabilities_endpoints (baseProbabilities : List ℝ)
    (multipliers : List (JsVal ℝ)) (targetWinRate : ℝ) (minMultiplier : Option ℝ)
    (base values : List ℝ) (lowChance highChance : ℝ)
    (hbase : base = baseProbabilities.take (min baseProbabilities.length multipliers.length))
    (hvalues : values
      = getMultiplierValues multipliers (min baseProbabilities.length multipliers.length))
    (hlow : getWinChanceFromValues (buildWeightedProbabilities Real.exp base values (-8))
      values minMultiplier = some lowChance)
    (hhigh : getWinChanceFromValues (buildWeightedProbabilities Real.exp base values 8)
      values minMultiplier = some highChance) :
    (clamp01 targetWinRate ≤ min lowChance highChance →
      buildWinRateProbabilities Real.exp baseProbabilities multipliers (some targetWinRate)
          minMultiplier
        = buildWeightedProbabilities Real.exp base values (-8) ∧
      getWinChanceFromValues (buildWeightedProbabilities Real.exp base values (-8)) values
          minMultiplier
        = some (min lowChance highChance)) ∧
    (clamp01 targetWinRate ≥ max lowChance highChance →
      (buildWinRateProbabilities Real.exp baseProbabilities multipliers (some targetWinRate)
            minMultiplier
          = buildWeightedProbabilities Real.exp base values (-8) ∨
        buildWinRateProbabilities Real.exp baseProbabilities multipliers (some targetWinRate)
            minMultiplier
          = buildWeightedProbabilities Real.exp base values 8) ∧
      getWinChanceFromValues
          (buildWinRateProbabilities Real.exp baseProbabilities multipliers
            (some targetWinRate) minMultiplier) values minMultiplier
        = some (max lowChance highChance)) := by
  subst hbase hvalues
  obtain ⟨hle, heq⟩ := buildWinRateProbabilities_eq baseProbabilities multipliers
    targetWinRate minMultiplier lowChance highChance hlow hhigh
  rw [min_eq_left hle, max_eq_right hle]
  constructor
  · intro ht
    rw [heq, if_pos ht]
    exact ⟨rfl, hlow⟩
  · intro ht
    rw [heq]
    by_cases h1 : clamp01 targetWinRate ≤ lowChance
    · rw [if_pos h1]
      have : lowChance = highChance := le_antisymm hle (le_trans ht h1)
      exact ⟨Or.inl rfl, by rw [hlow, this]⟩
    · rw [if_neg h1, if_pos ht]
      exact ⟨Or.inr rfl, hhigh⟩

end WinRateClaims

/-! ## The 8-row board -/

section EightRows

theorem winChanceAt_isSome_tilt (base values : List ℝ) (minMultiplier : Option ℝ) (n : Nat)
    (mn mx bias : ℝ) (hn : min base.length values.length = n) (hpos : 0 < n)
    (hmn : minOf (values.take n) = some mn) (hmx : maxOf (values.take n) = some mx)
    (hne : mx ≠ mn) (hw : ∃ i, i < n ∧ 0 < effBase base i) :
    ∃ a, winChanceAt Real.exp base values minMultiplier bias = some a := by
  rw [winChanceAt_eq_tilt base values minMultiplier n mn mx bias hn hpos hmn hmx hne]
  have hT := (tiltTotal_pos_iff (effBase base) (tiltCoord mn (mx - mn) values) n bias
    (effBase_nonneg base)).mpr hw
  rw [if_neg (not_le.mpr hT)]
  exact ⟨_, rfl⟩

theorem base8_eq : (generateBinomialProbabilities 8 : List ℝ)
    = [1/256, 8/256, 28/256, 56/256, 70/256, 56/256, 28/256, 8/256, 1/256] := by
  rw [generateBinomialProbabilities_eq]
  simp [List.range, List.range.loop, Nat.choose]
  norm_num

theorem effBase8 (i : Nat) : effBase (generateBinomialProbabilities 8 : List ℝ) i
    = ([1/256, 8/256, 28/256, 56/256, 70/256, 56/256, 28/256, 8/256, 1/256] : List ℝ).getD i 0 := by
  rw [base8_eq]
  unfold effBase
  rw [if_neg]
  rw [not_lt]
  rcases Nat.lt_or_ge i 9 with h | h
  · interval_cases i <;> norm_num
  · rw [List.getD_eq_default _ _ (by simpa using h)]

theorem effBase8_pos : ∃ i, i < 9 ∧ 0 < effBase (generateBinomialProbabilities 8 : List ℝ) i :=
  ⟨0, by norm_num, by rw [effBase8]; norm_num⟩

theorem values8_medium : (getMultiplierValues
      ((getMultipliersForRows 8 "medium" : List (MultiplierSlot ℝ)).map JsVal.slot) 9 : List ℝ)
    = [13, 3, 1.3, 0.7, 0.4, 0.7, 1.3, 3, 13] := rfl

theorem values8_low : (getMultiplierValues
      ((getMultipliersForRows 8 "low" : List (MultiplierSlot ℝ)).map JsVal.slot) 9 : List ℝ)
    = [5.6, 2.1, 1.1, 1, 0.5, 1, 1.1, 2.1, 5.6] := rfl

theorem values8_high : (getMultiplierValues
      ((getMultipliersForRows 8 "high" : List (MultiplierSlot ℝ)).map JsVal.slot) 9 : List ℝ)
    = [29, 4, 1.5, 0.3, 0.2, 0.3, 1.5, 4, 29] := rfl

theorem length_base8 : (generateBinomialProbabilities 8 : List ℝ).length = 9 := rfl

/-- On the 8-row board the win chance is a number for every bias. -/
theorem board8_isSome (difficulty : String)
    (hdiff : difficulty = "low" ∨ difficulty = "medium" ∨ difficulty = "high") (bias : ℝ) :
    ∃ a, winChanceAt Real.exp (generateBinomialProbabilities 8)
      (getMultiplierValues
        ((getMultipliersForRows 8 difficulty : List (MultiplierSlot ℝ)).map JsVal.slot) 9)
      (some 1) bias = some a := by
  rcases hdiff with rfl | rfl | rfl
  · rw [values8_low]
    exact winChanceAt_isSome_tilt _ _ _ 9 0.5 5.6 bias rfl (by norm_num)
      (by norm_num [minOf, min_def]) (by norm_num [maxOf, max_def]) (by norm_num) effBase8_pos
  · rw [values8_medium]
    exact winChanceAt_isSome_tilt _ _ _ 9 0.4 13 bias rfl (by norm_num)
      (by norm_num [minOf, min_def]) (by norm_num [maxOf, max_def]) (by norm_num) effBase8_pos
  · rw [values8_high]
    exact winChanceAt_isSome_tilt _ _ _ 9 0.2 29 bias rfl (by norm_num)
      (by norm_num [minOf, min_def]) (by norm_num [maxOf, max_def]) (by norm_num) effBase8_pos

theorem medium8_tiltWin (b : ℝ) :
    tiltWin Real.exp (effBase (generateBinomialProbabilities 8 : List ℝ))
      (tiltCoord 0.4 (13 - 0.4) [13, 3, 1.3, 0.7, 0.4, 0.7, 1.3, 3, 13])
      (fun i => decide (([13, 3, 1.3, 0.7, 0.4, 0.7, 1.3, 3, 13] : List ℝ).getD i 0
        ≥ (some (1 : ℝ)).getD 1)) 9 b
    = (2 * Real.exp (b * (1 / 2)) + 16 * Real.exp (b * (-37 / 126))
        + 56 * Real.exp (b * (-3 / 7))) / 256 := by
  unfold tiltWin
  simp only [Finset.sum_range_succ, Finset.sum_range_zero, effBase8, tiltCoord]
  norm_num
  ring_nf

theorem medium8_tiltTotal (b : ℝ) :
    tiltTotal Real.exp (effBase (generateBinomialProbabilities 8 : List ℝ))
      (tiltCoord 0.4 (13 - 0.4) [13, 3, 1.3, 0.7, 0.4, 0.7, 1.3, 3, 13]) 9 b
    = (2 * Real.exp (b * (1 / 2)) + 16 * Real.exp (b * (-37 / 126))
        + 56 * Real.exp (b * (-3 / 7)) + 112 * Real.exp (b * (-10 / 21))
        + 70 * Real.exp (b * (-1 / 2))) / 256 := by
  unfold tiltTotal
  simp only [Finset.sum_range_succ, Finset.sum_range_zero, effBase8, tiltCoord]
  norm_num
  ring_nf

theorem medium8_winChance (b : ℝ) :
    winChanceAt Real.exp (generateBinomialProbabilities 8)
      (getMultiplierValues
        ((getMultipliersForRows 8 "medium" : List (MultiplierSlot ℝ)).map JsVal.slot) 9)
      (some 1) b
    = some ((2 * Real.exp (b * (1 / 2)) + 16 * Real.exp (b * (-37 / 126))
          + 56 * Real.exp (b * (-3 / 7)))
        / (2 * Real.exp (b * (1 / 2)) + 16 * Real.exp (b * (-37 / 126))
          + 56 * Real.exp (b * (-3 / 7)) + 112 * Real.exp (b * (-10 / 21))
          + 70 * Real.exp (b * (-1 / 2)))) := by
  rw [values8_medium, winChanceAt_eq_tilt (generateBinomialProbabilities 8)
    [13, 3, 1.3, 0.7, 0.4, 0.7, 1.3, 3, 13] (some 1) 9 0.4 13 b rfl (by norm_num)
    (by norm_num [minOf, min_def]) (by norm_num [maxOf, max_def]) (by norm_num),
    medium8_tiltWin, medium8_tiltTotal]
  have hpos : 0 < 2 * Real.exp (b * (1 / 2)) + 16 * Real.exp (b * (-37 / 126))
      + 56 * Real.exp (b * (-3 / 7)) + 112 * Real.exp (b * (-10 / 21))
      + 70 * Real.exp (b * (-1 / 2)) := by positivity
  rw [if_neg (not_le.mpr (div_pos hpos (by norm_num)))]
  congr 1
  field_simp

theorem exp_seven_ge : (128 : ℝ) ≤ Real.exp 7 := by
  have h2 : (2 : ℝ) ≤ Real.exp 1 := by
    have := Real.add_one_le_exp (1 : ℝ)
    linarith
  have h7 : Real.exp 7 = Real.exp 1 ^ 7 := by
    rw [← Real.exp_nat_mul]
    norm_num
  rw [h7]
  calc (128 : ℝ) = 2 ^ 7 := by norm_num
    _ ≤ Real.exp 1 ^ 7 := pow_le_pow_left₀ (by norm_num) h2 7

/-- On the 8-row medium board the target `1 / 2` lies between the win chances
at bias `-8` and at bias `8`. -/
theorem medium8_half_in_range (l h : ℝ)
    (hl : winChanceAt Real.exp (generateBinomialProbabilities 8)
      (getMultiplierValues
        ((getMultipliersForRows 8 "medium" : List (MultiplierSlot ℝ)).map JsVal.slot) 9)
      (some 1) (-8) = some l)
    (hh : winChanceAt Real.exp (generateBinomialProbabilities 8)
      (getMultiplierValues
        ((getMultipliersForRows 8 "medium" : List (MultiplierSlot ℝ)).map JsVal.slot) 9)
      (some 1) 8 = some h) :
    l ≤ 1 / 2 ∧ 1 / 2 ≤ h := by
  rw [medium8_winChance] at hl hh
  have el := Option.some.inj hl
  have eh := Option.some.inj hh
  constructor
  · rw [← el, div_le_iff₀ (by positivity)]
    have m1 : Real.exp (-8 * (1 / 2)) ≤ Real.exp (-8 * (-10 / 21)) :=
      Real.exp_le_exp.mpr (by norm_num)
    have m2 : Real.exp (-8 * (-37 / 126)) ≤ Real.exp (-8 * (-10 / 21)) :=
      Real.exp_le_exp.mpr (by norm_num)
    have m3 : Real.exp (-8 * (-3 / 7)) ≤ Real.exp (-8 * (-10 / 21)) :=
      Real.exp_le_exp.mpr (by norm_num)
    have p1 : 0 < Real.exp (-8 * (1 / 2)) := Real.exp_pos _
    have p2 : 0 < Real.exp (-8 * (-37 / 126)) := Real.exp_pos _
    have p3 : 0 < Real.exp (-8 * (-3 / 7)) := Real.exp_pos _
    have p4 : 0 < Real.exp (-8 * (-1 / 2)) := Real.exp_pos _
    linarith
  · rw [← eh, le_div_iff₀ (by positivity)]
    have m1 : Real.exp (8 * (-10 / 21)) ≤ Real.exp (-3) :=
      Real.exp_le_exp.mpr (by norm_num)
    have m2 : Real.exp (8 * (-1 / 2)) ≤ Real.exp (-3) :=
      Real.exp_le_exp.mpr (by norm_num)
    have m3 : Real.exp (8 * (1 / 2)) = Real.exp 7 * Real.exp (-3) := by
      rw [← Real.exp_add]; norm_num
    have p0 : 0 < Real.exp (-3) := Real.exp_pos _
    have p2 : 0 < Real.exp (8 * (-37 / 126)) := Real.exp_pos _
    have p3 : 0 < Real.exp (8 * (-3 / 7)) := Real.exp_pos _
    have h128 := exp_seven_ge
    have : 128 * Real.exp (-3) ≤ Real.exp 7 * Real.exp (-3) :=
      mul_le_mul_of_nonneg_right h128 (le_of_lt p0)
    linarith

end EightRows

section EightRowsClaims

/-- C5: on the 8-row board with `minMultiplier = 1` (any of the three
difficulties), the win chances at bias `-8` and at bias `8` are numbers
`l ≤ h`, and for every target `t` with `l ≤ t ≤ h` the distribution returned
by `buildWinRateProbabilities(base, multipliers, t, 1)` has a win chance
within `0.02` of `t`; on the medium table `t = 0.5` is such a target. -/
theorem buildWinRateProbabilities_eight_rows (difficulty : String)
    (hdiff : difficulty = "low" ∨ difficulty = "medium" ∨ difficulty = "high") :
    ∃ l h : ℝ,
      getWinChanceFromValues
          (buildWeightedProbabilities Real.exp (generateBinomialProbabilities 8)
            (getMultiplierValues ((getMultipliersForRows 8 difficulty).map JsVal.slot) 9) (-8))
          (getMultiplierValues ((getMultipliersForRows 8 difficulty).map JsVal.slot) 9)
          (some 1) = some l ∧
      getWinChanceFromValues
          (buildWeightedProbabilities Real.exp (generateBinomialProbabilities 8)
            (getMultiplierValues ((getMultipliersForRows 8 difficulty).map JsVal.slot) 9) 8)
          (getMultiplierValues ((getMultipliersForRows 8 difficulty).map JsVal.slot) 9)
          (some 1) = some h ∧
      (difficulty = "medium" → l ≤ 1 / 2 ∧ 1 / 2 ≤ h) ∧
      ∀ t : ℝ, l ≤ t → t ≤ h →
        ∃ w, getWinChanceFromValues
            (buildWinRateProbabilities Real.exp (generateBinomialProbabilities 8)
              ((getMultipliersForRows 8 difficulty).map JsVal.slot) (some t) (some 1))
            (getMultiplierValues ((getMultipliersForRows 8 difficulty).map JsVal.slot) 9)
            (some 1) = some w ∧
          |w - t| ≤ 0.02 := by
  obtain ⟨l, hl⟩ := board8_isSome difficulty hdiff (-8)
  obtain ⟨h, hh⟩ := board8_isSome difficulty hdiff 8
  refine ⟨l, h, hl, hh, ?_, ?_⟩
  · rintro rfl
    exact medium8_half_in_range l h hl hh
  · intro t h1 h2
    have hbase : (generateBinomialProbabilities 8 : List ℝ)
        = (generateBinomialProbabilities 8 : List ℝ).take
          (min (generateBinomialProbabilities 8 : List ℝ).length
            ((getMultipliersForRows 8 difficulty : List (MultiplierSlot ℝ)).map
              JsVal.slot).length) := by
      rcases hdiff with rfl | rfl | rfl <;> rfl
    have hvalues : (getMultiplierValues
          ((getMultipliersForRows 8 difficulty : List (MultiplierSlot ℝ)).map JsVal.slot) 9)
        = getMultiplierValues
          ((getMultipliersForRows 8 difficulty : List (MultiplierSlot ℝ)).map JsVal.slot)
          (min (generateBinomialProbabilities 8 : List ℝ).length
            ((getMultipliersForRows 8 difficulty : List (MultiplierSlot ℝ)).map
              JsVal.slot).length) := by
      rcases hdiff with rfl | rfl | rfl <;> rfl
    obtain ⟨w, hw, hw1, hw2⟩ := buildWinRateProbabilities_close
      (generateBinomialProbabilities 8)
      ((getMultipliersForRows 8 difficulty : List (MultiplierSlot ℝ)).map JsVal.slot)
      t (some 1) _ _ l h hbase hvalues hl hh ⟨h1, h2⟩
    refine ⟨w, hw, ?_⟩
    rw [abs_of_nonneg (by linarith)]
    exact le_trans hw2 exp_small_sub_one_le

/-- C5 at the target `1 / 2` on the medium table. -/
theorem buildWinRateProbabilities_eight_rows_witness :
    ("medium" = "low" ∨ "medium" = "medium" ∨ "medium" = "high") ∧
    ∃ w : ℝ, getWinChanceFromValues
        (buildWinRateProbabilities Real.exp (generateBinomialProbabilities 8)
          ((getMultipliersForRows 8 "medium").map JsVal.slot) (some (1 / 2)) (some 1))
        (getMultiplierValues ((getMultipliersForRows 8 "medium").map JsVal.slot) 9)
        (some 1) = some w ∧
      |w - 1 / 2| ≤ 0.02 := by
  refine ⟨by decide, ?_⟩
  obtain ⟨l, h, -, -, hmed, hall⟩ :=
    buildWinRateProbabilities_eight_rows "medium" (by decide)
  exact hall (1 / 2) (hmed rfl).1 (hmed rfl).2

theorem clamp01_zero : clamp01 (0 : ℝ) = 0 := by norm_num [clamp01]

theorem clamp01_one : clamp01 (1 : ℝ) = 1 := by norm_num [clamp01]

end EightRowsClaims

/-! ## Monotonicity in the bias -/

section MonotoneLists

variable {K : Type} [LinearOrderedField K]

theorem eq_map_range_getD (l : List K) : l = (List.range l.length).map fun i => l.getD i 0 := by
  apply List.ext_getElem
  · simp
  · intro i h1 h2
    simp [List.getD_eq_getElem?_getD, List.getElem?_eq_getElem h1]

theorem exists_pos_of_sum_pos (l : List K) (h : 0 < l.sum) : ∃ i, i < l.length ∧ 0 < l.getD i 0 := by
  by_contra hcon
  have hle : ∀ p ∈ l, p ≤ 0 := by
    intro p hp
    obtain ⟨i, hi, rfl⟩ := List.getElem_of_mem hp
    by_contra hpos
    apply hcon
    refine ⟨i, hi, ?_⟩
    rw [List.getD_eq_getElem?_getD, List.getElem?_eq_getElem hi]
    exact not_le.mp hpos
  have hs : ∀ m : List K, (∀ p ∈ m, p ≤ 0) → m.sum ≤ 0 := by
    intro m
    induction m with
    | nil => intro _; simp
    | cons a m ih =>
      intro hm
      rw [List.sum_cons]
      have h1 := hm a (List.mem_cons_self _ _)
      have h2 := ih (fun p hp => hm p (List.mem_cons_of_mem _ hp))
      linarith
  exact absurd h (not_lt.mpr (hs l hle))

end MonotoneLists

section MonotoneClaims

/-- With non-negative base weights of positive sum and a value for every
slot, the win chance is a number at every bias. -/
theorem winChanceAt_isSome (base values : List ℝ) (minMultiplier : Option ℝ) (bias : ℝ)
    (hnn : ∀ p ∈ base, 0 ≤ p) (hsum : 0 < sumOf base) (hlen : base.length ≤ values.length) :
    ∃ a, winChanceAt Real.exp base values minMultiplier bias = some a := by
  have hsum' : 0 < base.sum := by rwa [sumOf_eq_sum] at hsum
  obtain ⟨i0, hi0, hp0⟩ := exists_pos_of_sum_pos base hsum'
  have hn : min base.length values.length = base.length := min_eq_left hlen
  have hpos : 0 < base.length := lt_of_le_of_lt (Nat.zero_le _) hi0
  have hne : values.take base.length ≠ [] := by
    intro h
    have := congrArg List.length h
    rw [List.length_take, List.length_nil] at this
    omega
  obtain ⟨mn, mx, hmn, hmx, -⟩ := minOf_maxOf_spec _ hne
  by_cases hdeg : mx = mn
  · have hc : ¬ min base.length values.length ≤ 0 := by omega
    have hprobs : buildWeightedProbabilities Real.exp base values bias
        = normalizeProbabilities ((List.range base.length).map fun i => base.getD i 0) := by
      have hc' : ¬ base.length ≤ 0 := by omega
      simp only [buildWeightedProbabilities, hc', if_false, hn, hmn, hmx, hdeg, if_true,
        List.take_length]
      rw [← eq_map_range_getD]
    have hw : ∀ i, i < base.length → 0 ≤ base.getD i 0 := by
      intro i hi
      rw [List.getD_eq_getElem?_getD, List.getElem?_eq_getElem hi]
      exact hnn _ (List.getElem_mem hi)
    have hS : (∑ i in Finset.range base.length, base.getD i 0) = base.sum := by
      rw [← sum_map_range, ← eq_map_range_getD]
    unfold winChanceAt
    rw [hprobs, getWinChance_normalize_range _ values minMultiplier base.length hlen hw, hS,
      if_neg (not_le.mpr hsum')]
    exact ⟨_, rfl⟩
  · refine winChanceAt_isSome_tilt base values minMultiplier base.length mn mx bias hn hpos
      hmn hmx hdeg ⟨i0, hi0, ?_⟩
    unfold effBase
    rw [if_neg (not_lt.mpr (le_of_lt hp0))]
    exact hp0

/-- In exact arithmetic the win chance of
`buildWeightedProbabilities(base, values, bias)` is monotonically
non-decreasing in the bias.  For `b1 ≤ b2` either both win
chances are `null` or both are numbers and the one at `b1` is at most the
one at `b2`; and when the base weights are non-negative with positive sum and
every slot has a value, both are numbers. -/
theorem winChance_monotone_in_bias (base values : List ℝ) (minMultiplier : Option ℝ)
    (b1 b2 : ℝ) (hb : b1 ≤ b2) :
    OptLe
        (getWinChanceFromValues (buildWeightedProbabilities Real.exp base values b1) values
          minMultiplier)
        (getWinChanceFromValues (buildWeightedProbabilities Real.exp base values b2) values
          minMultiplier) ∧
      ((∀ p ∈ base, 0 ≤ p) → 0 < sumOf base → base.length ≤ values.length →
        ∃ a c,
          getWinChanceFromValues (buildWeightedProbabilities Real.exp base values b1) values
              minMultiplier = some a ∧
            getWinChanceFromValues (buildWeightedProbabilities Real.exp base values b2) values
              minMultiplier = some c ∧
            a ≤ c) := by
  have hstep := winChanceAt_step base values minMultiplier b1 b2 hb
  unfold winChanceAt at hstep
  constructor
  · rcases hstep with ⟨h1, h2⟩ | ⟨a, c, h1, h2, -, hac, -⟩
    · rw [h1, h2]
      trivial
    · rw [h1, h2]
      exact hac
  · intro hnn hsum hlen
    obtain ⟨a, ha⟩ := winChanceAt_isSome base values minMultiplier b1 hnn hsum hlen
    unfold winChanceAt at ha
    rcases hstep with ⟨h1, -⟩ | ⟨a', c, h1, h2, -, hac, -⟩
    · rw [h1] at ha
      exact absurd ha (by simp)
    · exact ⟨a', c, h1, h2, hac⟩

end MonotoneClaims

/-! ## Deterministic replay -/

section SeededCombinators

variable {K : Type}

theorem seeded_pure {α : Type} (a : α) : Seeded (pure a : RandM K α) :=
  fun t => ⟨a, t, fun _ _ => rfl⟩

theorem seeded_bind {α β : Type} (x : RandM K α) (f : α → RandM K β)
    (hx : Seeded x) (hf : ∀ a, Seeded (f a)) : Seeded (x >>= f) := by
  intro t
  obtain ⟨a, t1, h1⟩ := hx t
  obtain ⟨b, t2, h2⟩ := hf a t1
  refine ⟨b, t2, fun g u => ?_⟩
  show (x >>= f) ⟨some t, g, u⟩ = _
  simp only [bind, StateT.bind, h1, h2]

theorem seeded_ite {α : Type} (c : Prop) [Decidable c] (x y : RandM K α)
    (hx : Seeded x) (hy : Seeded y) : Seeded (if c then x else y) := by
  split <;> assumption

end SeededCombinators

section SeededPhysics

variable {K : Type} [LinearOrderedField K]

/-- A call `rand()` draws from the supplied generator only, and its result
is a function of the generator's state. -/
theorem seeded_rand : Seeded (rand : RandM K K) :=
  fun t => ⟨(seededNext t : K × Nat).1, (seededNext t : K × Nat).2, fun _ _ => rfl⟩

theorem seeded_buildDropContext (m : MathFns K) (b : Board K) (targetIndex : Int) :
    Seeded (buildDropContext m b targetIndex) := by
  unfold buildDropContext
  repeat' first
    | apply seeded_pure
    | apply seeded_rand
    | apply seeded_ite
    | apply seeded_bind
    | intro _

theorem seeded_resolvePegCollision (m : MathFns K) (b : Board K) (state : BallState K)
    (pegX pegY : K) : Seeded (resolvePegCollision m b state pegX pegY) := by
  unfold resolvePegCollision
  repeat' first
    | apply seeded_pure
    | apply seeded_rand
    | apply seeded_ite
    | apply seeded_bind
    | intro _

theorem seeded_pegLoop (m : MathFns K) (b : Board K) (pegs : List (Point K)) :
    ∀ acc : Bool × BallState K, Seeded (pegLoop m b pegs acc) := by
  induction pegs with
  | nil => intro acc; exact seeded_pure acc
  | cons peg pegs ih =>
    intro acc
    unfold pegLoop
    exact seeded_bind _ _ (seeded_resolvePegCollision m b acc.2 peg.x peg.y) (fun res => ih _)

theorem seeded_stepBallPhysics (m : MathFns K) (b : Board K) (state : BallState K)
    (targetX : Option K) (dt playLeft playRight : K) :
    Seeded (stepBallPhysics m b state targetX dt playLeft playRight) := by
  unfold stepBallPhysics
  repeat' first
    | apply seeded_pure
    | apply seeded_rand
    | apply seeded_pegLoop
    | apply seeded_ite
    | apply seeded_bind
    | intro _
    | split

theorem seeded_previewLoop (m : MathFns K) (b : Board K) (targetX : Option K)
    (stepDelta playLeft playRight zTop zBottom : K) (n : Nat) :
    ∀ state : BallState K,
      Seeded (previewLoop m b targetX stepDelta playLeft playRight zTop zBottom n state) := by
  induction n with
  | zero => intro state; exact seeded_pure _
  | succ n ih =>
    intro state
    unfold previewLoop
    repeat' first
      | apply seeded_pure
      | apply seeded_stepBallPhysics
      | apply ih
      | apply seeded_ite
      | apply seeded_bind
      | intro _

theorem seeded_simulateDropPreview [FloorRing K] (m : MathFns K) (b : Board K)
    (targetIndex : Int) (fixedDelta maxSteps : Option K) :
    Seeded (simulateDropPreview m b targetIndex fixedDelta maxSteps) := by
  unfold simulateDropPreview
  exact seeded_bind _ _ (seeded_buildDropContext m b targetIndex)
    (fun ctx => seeded_previewLoop m b _ _ _ _ _ _ _ _)

/-- C10: two calls `simulateDropPreview(targetIndex, createSeededRandom(seed),
fixedDelta, maxSteps)` on the same board return the same landed index,
whatever the global random source holds at either call (`g1`, `u1` and `g2`,
`u2`): every draw of the simulated drop comes from the supplied generator,
whose stream is a function of the seed, and the global source is left as it
was (no call of `Math.random`). -/
theorem simulateDropPreview_deterministic [FloorRing K] (m : MathFns K) (b : Board K)
    (targetIndex seed : Int) (fixedDelta maxSteps : Option K) (g1 g2 : Nat → K)
    (u1 u2 : Nat) :
    (simulateDropPreview m b targetIndex fixedDelta maxSteps
        ⟨some (createSeededRandom seed), g1, u1⟩).1
      = (simulateDropPreview m b targetIndex fixedDelta maxSteps
        ⟨some (createSeededRandom seed), g2, u2⟩).1 ∧
    (simulateDropPreview m b targetIndex fixedDelta maxSteps
        ⟨some (createSeededRandom seed), g1, u1⟩).2.globalUsed = u1 ∧
    (simulateDropPreview m b targetIndex fixedDelta maxSteps
        ⟨some (createSeededRandom seed), g1, u1⟩).2.globalDraws = g1 := by
  obtain ⟨a, t', h⟩ := seeded_simulateDropPreview m b targetIndex fixedDelta maxSteps
    (createSeededRandom seed)
  rw [h g1 u1, h g2 u2]
  exact ⟨rfl, rfl, rfl⟩

end SeededPhysics

section
variable {K : Type}

theorem post_pure {α : Type} (Q : α → Prop) (a : α) (h : Q a) : Post Q (pure a : RandM K α) :=
  ⟨fun _ => h⟩

theorem post_bind {α β : Type} (Q : β → Prop) (x : RandM K α) (f : α → RandM K β)
    (hf : ∀ a, Post Q (f a)) : Post Q (x >>= f) := by
  constructor
  intro rng
  exact (hf (x rng).1).holds (x rng).2

theorem post_ite {α : Type} (Q : α → Prop) (c : Prop) {inst : Decidable c} (x y : RandM K α)
    (hx : c → Post Q x) (hy : ¬ c → Post Q y) : Post Q (@ite _ c inst x y) := by
  split
  · exact hx ‹_›
  · exact hy ‹_›

end

section

theorem clampStateSpeed_x {K : Type} [LinearOrderedField K] (m : MathFns K) (state : BallState K)
    (maxSpeed : Option K) : (clampStateSpeed m state maxSpeed).x = state.x := by
  unfold clampStateSpeed
  split
  · rfl
  · split
    · rfl
    · dsimp only
      split <;> rfl

theorem clampStateSpeed_y {K : Type} [LinearOrderedField K] (m : MathFns K) (state : BallState K)
    (maxSpeed : Option K) : (clampStateSpeed m state maxSpeed).y = state.y := by
  unfold clampStateSpeed
  split
  · rfl
  · split
    · rfl
    · dsimp only
      split <;> rfl

/-- `resolvePegCollision` reports a hit exactly when the distance test passes
and the ball moves into the peg; whenever the distance test passes, the ball
ends where the push-out along the normal has put it. -/
theorem resolvePegCollision_hit {K : Type} [LinearOrderedField K] (m : MathFns K) (b : Board K)
    (state : BallState K) (pegX pegY : K) :
    Post (fun res : Bool × BallState K =>
        (res.1 = true ↔
          ¬ ((state.x - pegX) * (state.x - pegX) + (state.y - pegY) * (state.y - pegY) ≤ 0 ∨
            (state.x - pegX) * (state.x - pegX) + (state.y - pegY) * (state.y - pegY)
              > (b.ballRadius + b.pegRadius) * (b.ballRadius + b.pegRadius)) ∧
          state.vx * ((state.x - pegX)
              / m.sqrt ((state.x - pegX) * (state.x - pegX) + (state.y - pegY) * (state.y - pegY)))
            + state.vy * ((state.y - pegY)
              / m.sqrt ((state.x - pegX) * (state.x - pegX) + (state.y - pegY) * (state.y - pegY)))
            < 0) ∧
        (¬ ((state.x - pegX) * (state.x - pegX) + (state.y - pegY) * (state.y - pegY) ≤ 0 ∨
            (state.x - pegX) * (state.x - pegX) + (state.y - pegY) * (state.y - pegY)
              > (b.ballRadius + b.pegRadius) * (b.ballRadius + b.pegRadius)) →
          res.2.x = state.x + (state.x - pegX)
              / m.sqrt ((state.x - pegX) * (state.x - pegX) + (state.y - pegY) * (state.y - pegY))
            * (b.ballRadius + b.pegRadius
              - m.sqrt ((state.x - pegX) * (state.x - pegX) + (state.y - pegY) * (state.y - pegY))
              + b.phys.collisionSlop) ∧
          res.2.y = state.y + (state.y - pegY)
              / m.sqrt ((state.x - pegX) * (state.x - pegX) + (state.y - pegY) * (state.y - pegY))
            * (b.ballRadius + b.pegRadius
              - m.sqrt ((state.x - pegX) * (state.x - pegX) + (state.y - pegY) * (state.y - pegY))
              + b.phys.collisionSlop)))
      (resolvePegCollision m b state pegX pegY) := by
  unfold resolvePegCollision
  dsimp only
  apply post_ite
  · intro hc
    apply post_pure
    exact ⟨⟨fun h => (by cases h), fun h => absurd hc h.1⟩, fun h => absurd hc h⟩
  · intro hc
    apply post_bind
    intro _
    apply post_ite
    · intro hv
      repeat' first
        | (with_reducible apply post_pure)
        | ((with_reducible apply post_ite) <;> intro _)
        | ((with_reducible apply post_bind); intro _)
      all_goals
        exact ⟨⟨fun _ => ⟨hc, hv⟩, fun _ => rfl⟩,
          fun _ => ⟨clampStateSpeed_x _ _ _, clampStateSpeed_y _ _ _⟩⟩
    · intro hv
      apply post_bind
      intro _
      apply post_pure
      exact ⟨⟨fun h => (by cases h), fun h => absurd h.2 hv⟩, fun _ => ⟨rfl, rfl⟩⟩

/-- After the push-out the ball is at distance `|r + slop|` from the peg. -/
theorem pushOut_distance (x y pegX pegY r slop : ℝ)
    (hpos : 0 < (x - pegX) * (x - pegX) + (y - pegY) * (y - pegY)) :
    Real.sqrt
        ((x + (x - pegX) / Real.sqrt ((x - pegX) * (x - pegX) + (y - pegY) * (y - pegY))
              * (r - Real.sqrt ((x - pegX) * (x - pegX) + (y - pegY) * (y - pegY)) + slop)
            - pegX) ^ 2
          + (y + (y - pegY) / Real.sqrt ((x - pegX) * (x - pegX) + (y - pegY) * (y - pegY))
              * (r - Real.sqrt ((x - pegX) * (x - pegX) + (y - pegY) * (y - pegY)) + slop)
            - pegY) ^ 2)
      = |r + slop| := by
  set d2 := (x - pegX) * (x - pegX) + (y - pegY) * (y - pegY) with hd2
  have hd : 0 < Real.sqrt d2 := Real.sqrt_pos.mpr hpos
  have hsq : Real.sqrt d2 * Real.sqrt d2 = d2 := Real.mul_self_sqrt (le_of_lt hpos)
  have e : (x + (x - pegX) / Real.sqrt d2 * (r - Real.sqrt d2 + slop) - pegX) ^ 2
      + (y + (y - pegY) / Real.sqrt d2 * (r - Real.sqrt d2 + slop) - pegY) ^ 2
      = (r + slop) ^ 2 := by
    have hne : Real.sqrt d2 ≠ 0 := ne_of_gt hd
    have e1 : x + (x - pegX) / Real.sqrt d2 * (r - Real.sqrt d2 + slop) - pegX
        = (x - pegX) / Real.sqrt d2 * (r + slop) := by
      field_simp
      ring
    have e2 : y + (y - pegY) / Real.sqrt d2 * (r - Real.sqrt d2 + slop) - pegY
        = (y - pegY) / Real.sqrt d2 * (r + slop) := by
      field_simp
      ring
    rw [e1, e2]
    have e3 : ((x - pegX) / Real.sqrt d2 * (r + slop)) ^ 2
        + ((y - pegY) / Real.sqrt d2 * (r + slop)) ^ 2
        = (d2 / (Real.sqrt d2 * Real.sqrt d2)) * (r + slop) ^ 2 := by
      rw [hd2]
      field_simp
      ring
    rw [e3, hsq, div_self (ne_of_gt hpos), one_mul]
  rw [e, Real.sqrt_sq_eq_abs]

end

section
variable {K : Type} [LinearOrderedField K]

/-- C19: after a round that lands in slot `i`, the history is the first
`historySize` elements of `multipliers[i]` followed by the old history, so it
is never longer than `historySize` and, when `historySize > 0`, starts with
the newest result; a round without landing (`-1`) leaves it unchanged.  This
holds in and outside test mode. -/
theorem startRound_history (testModeEnabled : Bool) (multipliers : List (MultiplierSlot K))
    (historySize : Nat) (history : List (JsVal K)) (i : Nat) :
    (startRoundSettle testModeEnabled multipliers historySize history (i : Int)).2
        = (slotAt multipliers i :: history).take historySize ∧
      (startRoundSettle testModeEnabled multipliers historySize history (i : Int)).2.length
        ≤ historySize ∧
      (0 < historySize →
        (startRoundSettle testModeEnabled multipliers historySize history (i : Int)).2.head?
          = some (slotAt multipliers i)) ∧
      (startRoundSettle testModeEnabled multipliers historySize history (-1)).2 = history := by
  have h1 : (startRoundSettle testModeEnabled multipliers historySize history (i : Int)).2
      = (slotAt multipliers i :: history).take historySize := by
    unfold startRoundSettle
    simp only [Int.natCast_nonneg, ge_iff_le, if_true, Int.toNat_ofNat]
    by_cases hlen : (slotAt multipliers i :: history).length > historySize
    · cases testModeEnabled <;> simp [hlen]
    · have hle : (slotAt multipliers i :: history).length ≤ historySize := not_lt.mp hlen
      cases testModeEnabled <;> simp [hlen, List.take_of_length_le hle]
  refine ⟨h1, ?_, ?_, ?_⟩
  · rw [h1, List.length_take]
    exact min_le_left _ _
  · intro hpos
    rw [h1]
    obtain ⟨n, rfl⟩ : ∃ n, historySize = n + 1 := ⟨historySize - 1, by omega⟩
    simp
  · simp [startRoundSettle]

theorem startRound_history_witness :
    0 < 2 ∧
      (startRoundSettle false (getMultipliersForRows 8 "medium" : List (MultiplierSlot ℚ)) 2
          [JsVal.number 1, JsVal.number 2] ((1 : Nat) : Int)).2.head?
        = some (slotAt (getMultipliersForRows 8 "medium") 1) :=
  ⟨by decide, (startRound_history false _ 2 _ 1).2.2.1 (by decide)⟩

/-- C20: in test mode a landing in any slot `i ≥ 0` resolves to the number
`0`, whatever the multipliers are. -/
theorem startRound_testMode_zero (multipliers : List (MultiplierSlot K)) (historySize : Nat)
    (history : List (JsVal K)) (i : Nat) :
    (startRoundSettle true multipliers historySize history (i : Int)).1 = JsVal.number 0 := by
  simp [startRoundSettle]

end

section

/-- C13: whenever `resolvePegCollision` returns `true`, the ball ends at
distance exactly `ballRadius + pegRadius + collisionSlop` from the peg center,
which is at least `ballRadius + pegRadius` (square root being the real square
root, the slop and the sum of the radii not negative). -/
theorem resolvePegCollision_distance (m : MathFns ℝ) (b : Board ℝ) (state : BallState ℝ)
    (pegX pegY : ℝ) (rng : Rng ℝ) (hsqrt : ∀ x, m.sqrt x = Real.sqrt x)
    (hslop : 0 ≤ b.phys.collisionSlop) (hr : 0 ≤ b.ballRadius + b.pegRadius)
    (hhit : (resolvePegCollision m b state pegX pegY rng).1.1 = true) :
    Real.sqrt (((resolvePegCollision m b state pegX pegY rng).1.2.x - pegX) ^ 2
        + ((resolvePegCollision m b state pegX pegY rng).1.2.y - pegY) ^ 2)
      = b.ballRadius + b.pegRadius + b.phys.collisionSlop ∧
    b.ballRadius + b.pegRadius
      ≤ Real.sqrt (((resolvePegCollision m b state pegX pegY rng).1.2.x - pegX) ^ 2
        + ((resolvePegCollision m b state pegX pegY rng).1.2.y - pegY) ^ 2) := by
  have h := (resolvePegCollision_hit m b state pegX pegY).holds rng
  obtain ⟨hiff, hpos⟩ := h
  have hc := (hiff.mp hhit).1
  obtain ⟨hx, hy⟩ := hpos hc
  have hd2 : 0 < (state.x - pegX) * (state.x - pegX) + (state.y - pegY) * (state.y - pegY) := by
    by_contra hneg
    exact hc (Or.inl (not_lt.mp hneg))
  have e : Real.sqrt (((resolvePegCollision m b state pegX pegY rng).1.2.x - pegX) ^ 2
        + ((resolvePegCollision m b state pegX pegY rng).1.2.y - pegY) ^ 2)
      = b.ballRadius + b.pegRadius + b.phys.collisionSlop := by
    rw [hx, hy, hsqrt, pushOut_distance _ _ _ _ _ _ hd2]
    exact abs_of_nonneg (add_nonneg hr hslop)
  refine ⟨e, ?_⟩
  rw [e]
  linarith

theorem resolvePegCollision_distance_witness :
    (resolvePegCollision
        (⟨Real.cos, Real.sin, Real.sqrt, fun x y => x ^ y,
          fun u v => Real.sqrt (u * u + v * v), Real.pi⟩ : MathFns ℝ)
        (exampleBoard ℝ) ⟨0, -1, 0, 1⟩ 0 0 ⟨some 1, fun _ => 0, 0⟩).1.1 = true ∧
      Real.sqrt (((resolvePegCollision
          (⟨Real.cos, Real.sin, Real.sqrt, fun x y => x ^ y,
            fun u v => Real.sqrt (u * u + v * v), Real.pi⟩ : MathFns ℝ)
          (exampleBoard ℝ) ⟨0, -1, 0, 1⟩ 0 0 ⟨some 1, fun _ => 0, 0⟩).1.2.x - 0) ^ 2
        + ((resolvePegCollision
          (⟨Real.cos, Real.sin, Real.sqrt, fun x y => x ^ y,
            fun u v => Real.sqrt (u * u + v * v), Real.pi⟩ : MathFns ℝ)
          (exampleBoard ℝ) ⟨0, -1, 0, 1⟩ 0 0 ⟨some 1, fun _ => 0, 0⟩).1.2.y - 0) ^ 2)
        = 2.01 := by
  have hhit : (resolvePegCollision
        (⟨Real.cos, Real.sin, Real.sqrt, fun x y => x ^ y,
          fun u v => Real.sqrt (u * u + v * v), Real.pi⟩ : MathFns ℝ)
        (exampleBoard ℝ) ⟨0, -1, 0, 1⟩ 0 0 ⟨some 1, fun _ => 0, 0⟩).1.1 = true := by
    refine ((resolvePegCollision_hit _ _ _ _ _).holds _).1.mpr ?_
    norm_num [exampleBoard]
  refine ⟨hhit, ?_⟩
  have h := (resolvePegCollision_distance _ (exampleBoard ℝ) ⟨0, -1, 0, 1⟩ 0 0
    ⟨some 1, fun _ => 0, 0⟩ (fun _ => rfl) (by norm_num [exampleBoard])
    (by norm_num [exampleBoard]) hhit).1
  rw [h]
  norm_num [exampleBoard]

end

section

/-- A ball set to move straight down at `target` has speed `target`. -/
theorem hypot_rest (target : ℝ) (h : 0 < target) :
    Real.sqrt (0 * 0 + target * target) = target := by
  rw [zero_mul, zero_add, Real.sqrt_mul_self (le_of_lt h)]

/-- Rescaling a velocity by `target / speed` gives it speed `target`. -/
theorem hypot_rescale (vx vy target : ℝ) (h : 0 < target)
    (hs : ¬ Real.sqrt (vx * vx + vy * vy) < 1e-4) :
    Real.sqrt (vx * (target / Real.sqrt (vx * vx + vy * vy))
          * (vx * (target / Real.sqrt (vx * vx + vy * vy)))
        + vy * (target / Real.sqrt (vx * vx + vy * vy))
          * (vy * (target / Real.sqrt (vx * vx + vy * vy)))) = target := by
  have hs0 : 0 < Real.sqrt (vx * vx + vy * vy) := by
    have : (0:ℝ) < 1e-4 := by norm_num
    linarith [not_lt.mp hs]
  have hnn : 0 ≤ vx * vx + vy * vy := add_nonneg (mul_self_nonneg _) (mul_self_nonneg _)
  have hsq := Real.mul_self_sqrt hnn
  set s := Real.sqrt (vx * vx + vy * vy) with hsdef
  have e : vx * (target / s) * (vx * (target / s)) + vy * (target / s) * (vy * (target / s))
      = target * target := by
    have hne : s ≠ 0 := ne_of_gt hs0
    have : vx * (target / s) * (vx * (target / s)) + vy * (target / s) * (vy * (target / s))
        = (vx * vx + vy * vy) * (target * target) / (s * s) := by
      field_simp
      ring
    have hne2 : s * s ≠ 0 := mul_ne_zero hne hne
    rw [this, mul_div_assoc, mul_comm, ← hsq, div_mul_cancel₀ _ hne2]
  rw [e, Real.sqrt_mul_self (le_of_lt h)]

/-- With a finite positive `constantSpeed`, whatever the random draws, the
state `stepBallPhysics` returns moves at the constant target speed. -/
theorem stepBallPhysics_speed (m : MathFns ℝ) (b : Board ℝ) (state : BallState ℝ)
    (targetX : Option ℝ) (dt playLeft playRight c : ℝ)
    (hm : ∀ u v, m.hypot u v = Real.sqrt (u * u + v * v))
    (hc : b.phys.constantSpeed = some c) (hpos : 0 < c) :
    Post (fun res : Bool × BallState ℝ => m.hypot res.2.vx res.2.vy
        = if b.phys.maxSpeed.getD 0 > 0 then min c (b.phys.maxSpeed.getD 0) else c)
      (stepBallPhysics m b state targetX dt playLeft playRight) := by
  have ht : 0 < (if b.phys.maxSpeed.getD 0 > 0 then min c (b.phys.maxSpeed.getD 0) else c) := by
    split
    · exact lt_min hpos ‹_›
    · exact hpos
  unfold stepBallPhysics
  simp only [hc, Option.getD_some]
  cases targetX <;> dsimp only
  all_goals
    repeat' first
      | (with_reducible apply post_pure)
      | ((with_reducible apply post_ite) <;> intro h <;>
          first
            | (with_reducible exact absurd hpos h)
            | (with_reducible exact absurd ht h)
            | skip)
      | ((with_reducible apply post_bind); intro _)
  all_goals
    rename_i h _
    dsimp only
    first
      | (with_reducible exact (hm 0 _).trans (hypot_rest _ ht))
      | (simp only [hm] at h ⊢
         with_reducible exact hypot_rescale _ _ _ ht h)

/-- The speed scale `getSpeedScaleForRows` returns is positive. -/
theorem getSpeedScaleForRows_pos {K : Type} [LinearOrderedField K] (rowCount : K) : 0 < getSpeedScaleForRows rowCount := by
  unfold getSpeedScaleForRows
  exact div_pos (lt_of_lt_of_le one_pos (le_max_left _ _))
    (lt_of_lt_of_le one_pos (le_max_left _ _))

/-- In every table `getPhysForRows` builds, a finite `constantSpeed` is `300`
times the scale of the row count, so it is not negative: positive for a
finite row count and for `-Infinity`, zero for `Infinity` (for `NaN` the entry
is `NaN`). -/
theorem physForRows_constantSpeed_nonneg {K : Type} [LinearOrderedField K] (rows : JsNum Int)
    (phys : Phys K) (c : K)
    (hphys : physForRows rows = some phys) (hc : phys.constantSpeed = some c) : 0 ≤ c := by
  have key : ∀ scale : K, 0 ≤ scale → (scalePhys scale).constantSpeed = some c → 0 ≤ c := by
    intro scale hs h
    simp only [scalePhys, PHYS, Option.map_some', Option.some.injEq] at h
    rw [← h]
    exact mul_nonneg (by norm_num) hs
  cases rows with
  | finite r =>
    simp only [physForRows, Option.some.injEq] at hphys
    subst hphys
    exact key _ (le_of_lt (getSpeedScaleForRows_pos _)) hc
  | nan => simp [physForRows] at hphys
  | posInf =>
    simp only [physForRows, Option.some.injEq] at hphys
    subst hphys
    exact key _ le_rfl hc
  | negInf =>
    simp only [physForRows, Option.some.injEq] at hphys
    subst hphys
    exact key _ (le_of_lt (getSpeedScaleForRows_pos _)) hc

/-- C12: for every ball state, target X, dt and play bounds, if
`phys.constantSpeed` is finite and nonzero then after `stepBallPhysics`
returns the speed `hypot(vx, vy)` equals `min(constantSpeed, maxSpeed)` when
`maxSpeed` is positive and `constantSpeed` otherwise (`hypot` being the
Euclidean norm).  The constants `phys` are a table the game holds, one that
`getPhysForRows` built for some row count (in which a nonzero `constantSpeed`
is positive), or any other table with a positive `constantSpeed`. -/
theorem stepBallPhysics_constantSpeed (m : MathFns ℝ) (b : Board ℝ) (state : BallState ℝ)
    (targetX : Option ℝ) (dt playLeft playRight c : ℝ) (rng : Rng ℝ)
    (hm : ∀ u v, m.hypot u v = Real.sqrt (u * u + v * v))
    (hc : b.phys.constantSpeed = some c) (hne : c ≠ 0)
    (hphys : (∃ rows : JsNum Int, physForRows rows = some b.phys) ∨ 0 < c) :
    m.hypot (stepBallPhysics m b state targetX dt playLeft playRight rng).1.2.vx
        (stepBallPhysics m b state targetX dt playLeft playRight rng).1.2.vy
      = if b.phys.maxSpeed.getD 0 > 0 then min c (b.phys.maxSpeed.getD 0) else c :=
  (stepBallPhysics_speed m b state targetX dt playLeft playRight c hm hc
    (hphys.elim
      (fun ⟨rows, h⟩ => lt_of_le_of_ne (physForRows_constantSpeed_nonneg rows b.phys c h hc)
        (Ne.symm hne))
      id)).holds rng

theorem stepBallPhysics_constantSpeed_witness :
    (physForRows (JsNum.finite 8) : Option (Phys ℝ)) = some (getPhysForRows 8) ∧
      (getPhysForRows (8 : ℝ)).constantSpeed = some 600 ∧
      Real.sqrt
          ((stepBallPhysics
              (⟨Real.cos, Real.sin, Real.sqrt, fun x y => x ^ y,
                fun u v => Real.sqrt (u * u + v * v), Real.pi⟩ : MathFns ℝ)
              { exampleBoard ℝ with phys := getPhysForRows 8 } ⟨0, -1, 0, 1⟩ (some 5) (1 / 60)
              0 20 ⟨some 1, fun _ => 0, 0⟩).1.2.vx
            * (stepBallPhysics
              (⟨Real.cos, Real.sin, Real.sqrt, fun x y => x ^ y,
                fun u v => Real.sqrt (u * u + v * v), Real.pi⟩ : MathFns ℝ)
              { exampleBoard ℝ with phys := getPhysForRows 8 } ⟨0, -1, 0, 1⟩ (some 5) (1 / 60)
              0 20 ⟨some 1, fun _ => 0, 0⟩).1.2.vx
          + (stepBallPhysics
              (⟨Real.cos, Real.sin, Real.sqrt, fun x y => x ^ y,
                fun u v => Real.sqrt (u * u + v * v), Real.pi⟩ : MathFns ℝ)
              { exampleBoard ℝ with phys := getPhysForRows 8 } ⟨0, -1, 0, 1⟩ (some 5) (1 / 60)
              0 20 ⟨some 1, fun _ => 0, 0⟩).1.2.vy
            * (stepBallPhysics
              (⟨Real.cos, Real.sin, Real.sqrt, fun x y => x ^ y,
                fun u v => Real.sqrt (u * u + v * v), Real.pi⟩ : MathFns ℝ)
              { exampleBoard ℝ with phys := getPhysForRows 8 } ⟨0, -1, 0, 1⟩ (some 5) (1 / 60)
              0 20 ⟨some 1, fun _ => 0, 0⟩).1.2.vy)
        = 600 := by
  have hrows : (physForRows (JsNum.finite 8) : Option (Phys ℝ)) = some (getPhysForRows 8) := by
    simp [physForRows]
  have hc : (getPhysForRows (8 : ℝ)).constantSpeed = some 600 := by
    norm_num [getPhysForRows, scalePhys, getSpeedScaleForRows, PHYS]
  have hmax : (getPhysForRows (8 : ℝ)).maxSpeed = some 600 := by
    norm_num [getPhysForRows, scalePhys, getSpeedScaleForRows, PHYS]
  refine ⟨hrows, hc, ?_⟩
  have h := stepBallPhysics_constantSpeed
    (⟨Real.cos, Real.sin, Real.sqrt, fun x y => x ^ y,
      fun u v => Real.sqrt (u * u + v * v), Real.pi⟩ : MathFns ℝ)
    { exampleBoard ℝ with phys := getPhysForRows 8 } ⟨0, -1, 0, 1⟩ (some 5) (1 / 60) 0 20 600
    ⟨some 1, fun _ => 0, 0⟩ (fun _ _ => rfl) hc (by norm_num) (Or.inl ⟨JsNum.finite 8, hrows⟩)
  have e : (if ({ exampleBoard ℝ with phys := getPhysForRows 8 } : Board ℝ).phys.maxSpeed.getD 0
        > 0
      then min (600 : ℝ)
        (({ exampleBoard ℝ with phys := getPhysForRows 8 } : Board ℝ).phys.maxSpeed.getD 0)
      else 600) = 600 := by
    show (if (getPhysForRows (8 : ℝ)).maxSpeed.getD 0 > 0
      then min (600 : ℝ) ((getPhysForRows (8 : ℝ)).maxSpeed.getD 0) else 600) = 600
    rw [hmax]
    norm_num
  rw [e] at h
  exact h

end

section
variable {K : Type} [LinearOrderedField K]

/-- One iteration of the loop of `simulateDropPreview`. -/
theorem previewLoop_succ (m : MathFns K) (b : Board K) (targetX : Option K)
    (stepDelta playLeft playRight zTop zBottom : K) (n : Nat) (state : BallState K)
    (rng : Rng K) :
    previewLoop m b targetX stepDelta playLeft playRight zTop zBottom (n + 1) state rng
      = if (stepBallPhysics m b state targetX stepDelta playLeft playRight rng).1.2.y ≥ zTop ∧
            (stepBallPhysics m b state targetX stepDelta playLeft playRight rng).1.2.y ≤ zBottom
        then (getClosestBoxIndexByX b.boxGraphics b.boxWidth
            (stepBallPhysics m b state targetX stepDelta playLeft playRight rng).1.2.x,
          (stepBallPhysics m b state targetX stepDelta playLeft playRight rng).2)
        else if (stepBallPhysics m b state targetX stepDelta playLeft playRight rng).1.2.y
            > b.gameHeight + b.ballRadius * 3
        then (-1, (stepBallPhysics m b state targetX stepDelta playLeft playRight rng).2)
        else previewLoop m b targetX stepDelta playLeft playRight zTop zBottom n
          (stepBallPhysics m b state targetX stepDelta playLeft playRight rng).1.2
          (stepBallPhysics m b state targetX stepDelta playLeft playRight rng).2 := by
  conv_lhs => unfold previewLoop
  show (do
    let res ← stepBallPhysics m b state targetX stepDelta playLeft playRight
    let state := res.2
    if state.y ≥ zTop ∧ state.y ≤ zBottom then
      return getClosestBoxIndexByX b.boxGraphics b.boxWidth state.x
    if state.y > b.gameHeight + b.ballRadius * 3 then
      return -1
    previewLoop m b targetX stepDelta playLeft playRight zTop zBottom n state : RandM K Int) rng
    = _
  simp only [bind, StateT.bind, pure, StateT.pure]
  generalize stepBallPhysics m b state targetX stepDelta playLeft playRight rng = r
  obtain ⟨a, s⟩ := r
  dsimp only
  by_cases h1 : a.2.y ≥ zTop ∧ a.2.y ≤ zBottom
  · rw [if_pos h1, if_pos h1]
    rfl
  · rw [if_neg h1, if_neg h1]
    by_cases h2 : a.2.y > b.gameHeight + b.ballRadius * 3
    · simp only [StateT.bind, StateT.pure, if_pos h2]
      rfl
    · simp only [StateT.bind, StateT.pure, if_neg h2]
      rfl

/-- A drop that lands within `n` steps lands in the same box, after the same
draws, when given `n + k` steps. -/
theorem previewLoop_add (m : MathFns K) (b : Board K) (targetX : Option K)
    (stepDelta playLeft playRight zTop zBottom : K) (k : Nat) :
    ∀ (n : Nat) (state : BallState K) (rng : Rng K),
      (previewLoop m b targetX stepDelta playLeft playRight zTop zBottom n state rng).1 ≠ -1 →
      previewLoop m b targetX stepDelta playLeft playRight zTop zBottom (n + k) state rng
        = previewLoop m b targetX stepDelta playLeft playRight zTop zBottom n state rng := by
  intro n
  induction n with
  | zero =>
    intro state rng h
    exact absurd rfl h
  | succ n ih =>
    intro state rng h
    have e : n + 1 + k = (n + k) + 1 := by omega
    rw [e, previewLoop_succ, previewLoop_succ]
    rw [previewLoop_succ] at h
    split
    · rfl
    · rename_i h1
      rw [if_neg h1] at h
      split
      · rfl
      · rename_i h2
        rw [if_neg h2] at h
        exact ih _ _ h

end

section
variable {K : Type} [LinearOrderedField K] [FloorRing K]

/-- A drop that lands within the smaller of two step budgets lands in the
same box within the larger one. -/
theorem simulateDropPreview_budget (m : MathFns K) (b : Board K) (targetIndex : Int)
    (fixedDelta s1 s2 : Option K) (rng : Rng K)
    (hle : max 1 ⌊s1.getD 2000⌋₊ ≤ max 1 ⌊s2.getD 2000⌋₊)
    (h : (simulateDropPreview m b targetIndex fixedDelta s1 rng).1 ≠ -1) :
    simulateDropPreview m b targetIndex fixedDelta s2 rng
      = simulateDropPreview m b targetIndex fixedDelta s1 rng := by
  obtain ⟨k, hk⟩ := Nat.exists_eq_add_of_le hle
  unfold simulateDropPreview at h ⊢
  simp only [bind, StateT.bind] at h ⊢
  generalize buildDropContext m b targetIndex rng = r at h ⊢
  obtain ⟨ctx, rng1⟩ := r
  dsimp only at h ⊢
  rw [hk]
  exact previewLoop_add m b _ _ _ _ _ _ k _ _ _ h

/-- The preview with a number as step budget draws from the supplied
generator only. -/
theorem seeded_simulateDropPreviewWith (m : MathFns K) (b : Board K) (targetIndex : Int)
    (fixedDelta : Option K) (maxSteps : JsNum K) :
    Seeded (simulateDropPreviewWith m b targetIndex fixedDelta maxSteps) := by
  cases maxSteps with
  | finite s => exact seeded_simulateDropPreview m b targetIndex fixedDelta (some s)
  | negInf => exact seeded_simulateDropPreview m b targetIndex fixedDelta (some 1)
  | nan =>
    exact seeded_bind _ _ (seeded_buildDropContext m b targetIndex) (fun _ => seeded_pure _)
  | posInf =>
    exact seeded_bind _ _ (seeded_buildDropContext m b targetIndex) (fun _ => seeded_pure _)

/-- With the budget `NaN` the preview returns `-1`. -/
theorem simulateDropPreviewWith_nan (m : MathFns K) (b : Board K) (targetIndex : Int)
    (fixedDelta : Option K) (t : Nat) (rng : Rng K) :
    (withRandomFn t (simulateDropPreviewWith m b targetIndex fixedDelta JsNum.nan) rng).1
      = -1 := rfl

/-- The expression `Math.max(1, Math.floor(x))` is never `-Infinity`. -/
theorem floorAtLeastOne_ne_negInf (x : JsNum K) : floorAtLeastOne x ≠ JsNum.negInf := by
  cases x <;> simp [floorAtLeastOne]

/-- The budget the search simulates with is never `Infinity`. -/
theorem searchMaxSteps_ne_posInf (testMode : TestMode K) (rows : K) :
    searchMaxSteps testMode rows ≠ JsNum.posInf := by
  unfold searchMaxSteps
  cases configuredMaxSteps testMode <;> simp

/-- The effect of `tryAddSeed`: either the search variables are left as they
were, or the seed is new, its simulated drop landed in the target box, and it
is appended to the pool and to the set of its side. -/
theorem tryAddSeed_cases (m : MathFns K) (b : Board K) (testMode : TestMode K) (token : Nat)
    (side : Side) (targetIndex : Int) (attempt : Nat) (search : TestSearch) (rng : Rng K) :
    (tryAddSeed m b testMode token side targetIndex attempt search rng).1 = (false, search) ∨
    (token = search.testModeSearchToken ∧
      makeTestSeed (testMode.seedBase.getD 0x1a2b3c4d) b.rows targetIndex attempt
        ∉ search.testModePoolSets.get side ∧
      (withRandomFn
          (createSeededRandom
            (makeTestSeed (testMode.seedBase.getD 0x1a2b3c4d) b.rows targetIndex attempt))
          (simulateDropPreviewWith m b targetIndex (some (searchFixedDelta testMode))
            (searchMaxSteps testMode b.rows)) rng).1 = targetIndex ∧
      (tryAddSeed m b testMode token side targetIndex attempt search rng).1
        = (true,
          { search with
            testModePoolSets := search.testModePoolSets.push side
              (makeTestSeed (testMode.seedBase.getD 0x1a2b3c4d) b.rows targetIndex attempt)
            testModePools := search.testModePools.push side
              (makeTestSeed (testMode.seedBase.getD 0x1a2b3c4d) b.rows targetIndex attempt) })) := by
  unfold tryAddSeed
  simp only [bind, StateT.bind, pure, StateT.pure]
  by_cases ht : token ≠ search.testModeSearchToken
  · left
    rw [if_pos ht]
    rfl
  · simp only [if_neg ht]
    by_cases hs : makeTestSeed (testMode.seedBase.getD 0x1a2b3c4d) b.rows targetIndex attempt
        ∈ search.testModePoolSets.get side
    · left
      simp only [if_pos hs]
      rfl
    · simp only [if_neg hs, StateT.bind, StateT.pure, Id.pure_eq, Id.bind_eq]
      generalize hr : withRandomFn
        (createSeededRandom
          (makeTestSeed (testMode.seedBase.getD 0x1a2b3c4d) b.rows targetIndex attempt))
        (simulateDropPreviewWith m b targetIndex (some (searchFixedDelta testMode))
          (searchMaxSteps testMode b.rows)) rng = r
      obtain ⟨landedIndex, rng1⟩ := r
      dsimp only
      by_cases hl : landedIndex = targetIndex
      · right
        simp only [if_pos hl]
        exact ⟨not_not.mp ht, hs, hl, rfl⟩
      · left
        simp only [if_neg hl]
        rfl

/-- `tryAddSeed` leaves the cancellation token as it is. -/
theorem tryAddSeed_token (m : MathFns K) (b : Board K) (testMode : TestMode K) (token : Nat)
    (side : Side) (targetIndex : Int) (attempt : Nat) (search : TestSearch) (rng : Rng K) :
    (tryAddSeed m b testMode token side targetIndex attempt search rng).1.2.testModeSearchToken
      = search.testModeSearchToken := by
  rcases tryAddSeed_cases m b testMode token side targetIndex attempt search rng with h | h
  · rw [h]
  · rw [h.2.2.2]

/-- An attempt for the left side leaves the right pool as it is. -/
theorem tryAddSeed_left_right (m : MathFns K) (b : Board K) (testMode : TestMode K) (token : Nat)
    (targetIndex : Int) (attempt : Nat) (search : TestSearch) (rng : Rng K) :
    (tryAddSeed m b testMode token Side.left targetIndex attempt search rng).1.2.testModePools.right
      = search.testModePools.right := by
  rcases tryAddSeed_cases m b testMode token Side.left targetIndex attempt search rng with h | h
  · rw [h]
  · rw [h.2.2.2]
    rfl

/-- An attempt for the right side leaves the left pool as it is. -/
theorem tryAddSeed_right_left (m : MathFns K) (b : Board K) (testMode : TestMode K) (token : Nat)
    (targetIndex : Int) (attempt : Nat) (search : TestSearch) (rng : Rng K) :
    (tryAddSeed m b testMode token Side.right targetIndex attempt search rng).1.2.testModePools.left
      = search.testModePools.left := by
  rcases tryAddSeed_cases m b testMode token Side.right targetIndex attempt search rng with h | h
  · rw [h]
  · rw [h.2.2.2]
    rfl

/-- The rule of the search loop: a property of the loop variables that every
attempt preserves holds whenever the loop is left by `break`, and each side
is then done. -/
theorem fillLoop_rule (m : MathFns K) (b : Board K) (testMode : TestMode K) (token : Nat)
    (leftIndex rightIndex : Int) (P : FillState → Prop)
    (hleft : ∀ (st : FillState) (rng : Rng K), P st →
      st.search.testModeSearchToken = token →
      countReaches st.search.testModePools.left.length (getDesiredVariations testMode) = false →
      countReaches st.leftAttempts (attemptsLimit testMode) = false →
      P { st with
          search := (tryAddSeed m b testMode token Side.left leftIndex st.leftAttempts
            st.search rng).1.2
          leftAttempts := st.leftAttempts + 1 })
    (hright : ∀ (st : FillState) (rng : Rng K), P st →
      st.search.testModeSearchToken = token → leftIndex ≠ rightIndex →
      countReaches st.search.testModePools.right.length (getDesiredVariations testMode) = false →
      countReaches st.rightAttempts (attemptsLimit testMode) = false →
      P { st with
          search := (tryAddSeed m b testMode token Side.right rightIndex st.rightAttempts
            st.search rng).1.2
          rightAttempts := st.rightAttempts + 1 }) :
    ∀ (fuel : Nat) (st : FillState) (rng : Rng K), P st →
      st.search.testModeSearchToken = token →
      ∀ st', (fillLoop m b testMode token leftIndex rightIndex fuel st rng).1
          = FillOutcome.completed st' →
        P st' ∧
        (countReaches st'.search.testModePools.left.length (getDesiredVariations testMode) = true ∨
          countReaches st'.leftAttempts (attemptsLimit testMode) = true) ∧
        (leftIndex = rightIndex ∨
          countReaches st'.search.testModePools.right.length (getDesiredVariations testMode)
            = true ∨
          countReaches st'.rightAttempts (attemptsLimit testMode) = true) := by
  intro fuel
  induction fuel with
  | zero =>
    intro st rng _ _ st' h
    cases h
  | succ fuel ih =>
    intro st rng hP htok st'
    unfold fillLoop
    simp only [bind, StateT.bind, pure, StateT.pure, Id.pure_eq, Id.bind_eq]
    rw [if_neg (not_not.mpr htok.symm)]
    generalize hL : (countReaches st.search.testModePools.left.length
        (getDesiredVariations testMode) ||
      countReaches st.leftAttempts (attemptsLimit testMode)) = bL
    generalize hR : (!decide (leftIndex ≠ rightIndex) ||
      countReaches st.search.testModePools.right.length (getDesiredVariations testMode) ||
      countReaches st.rightAttempts (attemptsLimit testMode)) = bR
    cases bL <;> cases bR <;>
      simp only [Bool.and_self, Bool.and_true, Bool.and_false, Bool.not_true, Bool.not_false,
        Bool.false_eq_true, if_true, if_false, StateT.bind, StateT.pure, Id.pure_eq, Id.bind_eq] <;>
      simp only [Bool.or_eq_false_iff, Bool.or_eq_true, decide_eq_false_iff_not,
        decide_eq_true_eq, Bool.not_eq_true', Bool.not_eq_false',
        not_not, or_assoc] at hL hR
    · -- neither side is done
      obtain ⟨hL1, hL2⟩ := hL
      obtain ⟨⟨hR0, hR1⟩, hR2⟩ := hR
      have hP1 := hleft st rng hP htok hL1 hL2
      have ht1 := tryAddSeed_token m b testMode token Side.left leftIndex st.leftAttempts
        st.search rng
      have hr1 := tryAddSeed_left_right m b testMode token leftIndex st.leftAttempts
        st.search rng
      refine ih _ _ ?_ ?_ st'
      · exact hright _ _ hP1 (ht1.trans htok) hR0 (by rw [hr1]; exact hR1) hR2
      · exact (tryAddSeed_token _ _ _ _ _ _ _ _ _).trans (ht1.trans htok)
    · -- only the left side is not done
      obtain ⟨hL1, hL2⟩ := hL
      refine ih _ _ ?_ ?_ st'
      · exact hleft st rng hP htok hL1 hL2
      · exact (tryAddSeed_token _ _ _ _ _ _ _ _ _).trans htok
    · -- only the right side is not done
      obtain ⟨⟨hR0, hR1⟩, hR2⟩ := hR
      refine ih _ _ ?_ ?_ st'
      · exact hright st rng hP htok hR0 hR1 hR2
      · exact (tryAddSeed_token _ _ _ _ _ _ _ _ _).trans htok
    · intro h
      cases h
      exact ⟨hP, hL, hR⟩

/-- With a finite attempt budget `attemptsLimit` the search loop is left by
`break` within `2 * attemptsLimit + 1` iterations (no cancellation). -/
theorem fillLoop_ends (m : MathFns K) (b : Board K) (testMode : TestMode K) (token : Nat)
    (leftIndex rightIndex : Int) (limit : Nat)
    (hlimit : attemptsLimit testMode = JsNum.finite limit) :
    ∀ (fuel : Nat) (st : FillState) (rng : Rng K),
      st.search.testModeSearchToken = token →
      (limit - st.leftAttempts) + (limit - st.rightAttempts) < fuel →
      ∃ st', (fillLoop m b testMode token leftIndex rightIndex fuel st rng).1
          = FillOutcome.completed st' := by
  intro fuel
  induction fuel with
  | zero =>
    intro st rng _ h
    exact absurd h (Nat.not_lt_zero _)
  | succ fuel ih =>
    intro st rng htok hfuel
    unfold fillLoop
    simp only [bind, StateT.bind, pure, StateT.pure, Id.pure_eq, Id.bind_eq]
    rw [if_neg (not_not.mpr htok.symm), hlimit]
    generalize hL : (countReaches st.search.testModePools.left.length
        (getDesiredVariations testMode) ||
      countReaches st.leftAttempts (JsNum.finite limit)) = bL
    generalize hR : (!decide (leftIndex ≠ rightIndex) ||
      countReaches st.search.testModePools.right.length (getDesiredVariations testMode) ||
      countReaches st.rightAttempts (JsNum.finite limit)) = bR
    cases bL <;> cases bR <;>
      simp only [Bool.and_self, Bool.and_true, Bool.and_false, Bool.not_true, Bool.not_false,
        Bool.false_eq_true, if_true, if_false, StateT.bind, StateT.pure, Id.pure_eq, Id.bind_eq] <;>
      simp only [Bool.or_eq_false_iff, Bool.or_eq_true, decide_eq_false_iff_not,
        decide_eq_true_eq, Bool.not_eq_true', Bool.not_eq_false', countReaches, not_le, ge_iff_le,
        not_not, or_assoc] at hL hR
    · -- neither side is done
      obtain ⟨-, hL2⟩ := hL
      obtain ⟨-, hR2⟩ := hR
      have ht1 := tryAddSeed_token m b testMode token Side.left leftIndex st.leftAttempts
        st.search rng
      refine ih _ _ ?_ ?_
      · exact (tryAddSeed_token _ _ _ _ _ _ _ _ _).trans (ht1.trans htok)
      · dsimp only
        omega
    · -- only the left side is not done
      obtain ⟨-, hL2⟩ := hL
      refine ih _ _ ?_ ?_
      · exact (tryAddSeed_token _ _ _ _ _ _ _ _ _).trans htok
      · dsimp only
        omega
    · -- only the right side is not done
      obtain ⟨-, hR2⟩ := hR
      refine ih _ _ ?_ ?_
      · exact (tryAddSeed_token _ _ _ _ _ _ _ _ _).trans htok
      · dsimp only
        omega
    · exact ⟨st, rfl⟩

end

section
variable {K : Type} [LinearOrderedField K] [FloorRing K]

/-- The indices `getTestModeTargets` returns are not negative. -/
theorem getTestModeTargets_nonneg (testMode : TestMode K) (boxCount leftIndex rightIndex : Int)
    (h : getTestModeTargets testMode boxCount = some (leftIndex, rightIndex)) :
    0 ≤ leftIndex ∧ 0 ≤ rightIndex := by
  unfold getTestModeTargets at h
  cases ho : getForcedLandingIndex testMode boxCount with
  | none =>
    rw [ho] at h
    cases h
  | some offset =>
    rw [ho] at h
    simp only [Option.some.injEq, Prod.mk.injEq] at h
    obtain ⟨h1, h2⟩ := h
    unfold getForcedLandingIndex at ho
    split at ho
    · cases ho
    · split at ho
      · cases ho
      · simp only [Option.some.injEq] at ho
        constructor
        · rw [← h1, ← ho]
          exact le_max_left _ _
        · rw [← h2]
          exact le_max_left _ _

/-- A drop that lands within the budget the search simulates with lands
in the same box with every budget of at least as many steps. -/
theorem searchPreview_budget (m : MathFns K) (b : Board K) (targetIndex : Int)
    (fixedDelta : Option K) (s : K) (n : Nat) (seed : Nat) (rng rng2 : Rng K)
    (h0 : 0 ≤ targetIndex) (hle : max 1 ⌊s⌋₊ ≤ max 1 n)
    (hland : (withRandomFn seed (simulateDropPreview m b targetIndex fixedDelta (some s))
      rng).1 = targetIndex) :
    (withRandomFn seed (simulateDropPreview m b targetIndex fixedDelta (some (n : K)))
      rng2).1 = targetIndex := by
  obtain ⟨a, t2, hseed⟩ := seeded_simulateDropPreview m b targetIndex fixedDelta (some s) seed
  have ha : a = targetIndex := by
    have := hseed rng.globalDraws rng.globalUsed
    unfold withRandomFn at hland
    dsimp only at hland
    rw [this] at hland
    exact hland
  have hne : (simulateDropPreview m b targetIndex fixedDelta (some s)
      { rng2 with randomFn := some seed }).1 ≠ -1 := by
    have := hseed rng2.globalDraws rng2.globalUsed
    rw [this, ha]
    omega
  have hb := simulateDropPreview_budget m b targetIndex fixedDelta (some s) (some (n : K)) _
    (by simpa only [Option.getD_some, Nat.floor_natCast] using hle) hne
  unfold withRandomFn
  dsimp only
  rw [hb, hseed rng2.globalDraws rng2.globalUsed, ha]

/-- An attempt keeps the pool of its side valid for the configured step
budget: a seed is added only after its simulated drop landed in the target
box, and a drop that lands within the search budget lands in the same box
within the configured budget. -/
theorem tryAddSeed_valid (m : MathFns K) (b : Board K) (testMode : TestMode K) (token : Nat)
    (side : Side) (targetIndex : Int) (attempt : Nat) (search : TestSearch) (rng : Rng K)
    (h0 : 0 ≤ targetIndex)
    (hv : PoolValid m b testMode targetIndex (search.testModePools.get side)) :
    PoolValid m b testMode targetIndex
      ((tryAddSeed m b testMode token side targetIndex attempt search rng).1.2.testModePools.get
        side) := by
  rcases tryAddSeed_cases m b testMode token side targetIndex attempt search rng with h | h
  · rw [h]
    exact hv
  · rw [h.2.2.2]
    obtain ⟨_, _, hland, _⟩ := h
    have hpool : (search.testModePools.push side
        (makeTestSeed (testMode.seedBase.getD 0x1a2b3c4d) b.rows targetIndex attempt)).get side
        = search.testModePools.get side
          ++ [makeTestSeed (testMode.seedBase.getD 0x1a2b3c4d) b.rows targetIndex attempt] := by
      cases side <;> rfl
    show PoolValid m b testMode targetIndex
      ((search.testModePools.push side
        (makeTestSeed (testMode.seedBase.getD 0x1a2b3c4d) b.rows targetIndex attempt)).get side)
    rw [hpool]
    intro seed hs rng2
    rcases List.mem_append.mp hs with hs | hs
    · exact hv seed hs rng2
    · rw [List.mem_singleton] at hs
      subst hs
      unfold searchMaxSteps at hland
      have hneg := floorAtLeastOne_ne_negInf (testMode.maxSteps.getD (JsNum.finite 2000))
      cases hc : configuredMaxSteps testMode with
      | finite n =>
        rw [hc] at hland
        exact searchPreview_budget m b targetIndex _ _ n _ rng rng2 h0
          (max_le_max le_rfl (Nat.floor_le_of_le (min_le_left _ _))) hland
      | nan =>
        rw [hc] at hland
        rw [simulateDropPreviewWith_nan] at hland
        omega
      | posInf =>
        rw [hc] at hland
        exact ⟨⌊max (700 : K) (b.rows * 110)⌋₊, fun n hn =>
          searchPreview_budget m b targetIndex _ _ n _ rng rng2 h0
            (max_le_max le_rfl hn) hland⟩
      | negInf => exact absurd hc hneg

/-- C11: on an unchanged board (no cancellation), started from pools whose
seeds are valid, `fillTestModePools(targets)` leaves its loop by `break`
(within `2 * attemptsLimit + 1` iterations when the attempt budget is a finite
number), and whenever it does, every seed of the left pool satisfies
`simulateDropPreview(leftIndex, createSeededRandom(seed), fixedDelta,
maxSteps) === leftIndex`, every seed of the right pool the same for
`rightIndex`, with `maxSteps` the configured step budget, not the smaller
budget the search simulates with. -/
theorem fillTestModePools_pools_valid (m : MathFns K) (b : Board K) (testMode : TestMode K)
    (boxCount leftIndex rightIndex : Int) (fuel : Nat) (search : TestSearch) (rng : Rng K)
    (htargets : getTestModeTargets testMode boxCount = some (leftIndex, rightIndex))
    (hleft : PoolValid m b testMode leftIndex search.testModePools.left)
    (hright : PoolValid m b testMode rightIndex search.testModePools.right) :
    (∀ limit : Nat, attemptsLimit testMode = JsNum.finite limit → 2 * limit < fuel →
      ∃ st, (fillTestModePools m b testMode leftIndex rightIndex fuel search rng).1
        = FillOutcome.completed st) ∧
    ∀ st, (fillTestModePools m b testMode leftIndex rightIndex fuel search rng).1
        = FillOutcome.completed st →
      PoolValid m b testMode leftIndex st.search.testModePools.left ∧
      PoolValid m b testMode rightIndex st.search.testModePools.right := by
  obtain ⟨h0l, h0r⟩ := getTestModeTargets_nonneg testMode boxCount leftIndex rightIndex htargets
  constructor
  · intro limit hlimit hfuel
    exact fillLoop_ends m b testMode (search.testModeSearchToken + 1) leftIndex rightIndex
      limit hlimit fuel
      ⟨{ search with testModeSearchToken := search.testModeSearchToken + 1 }, 0, 0⟩ rng rfl
      (by simp only [Nat.sub_zero]; omega)
  · intro st hst
    exact (fillLoop_rule m b testMode (search.testModeSearchToken + 1) leftIndex rightIndex
      (fun st => PoolValid m b testMode leftIndex st.search.testModePools.left ∧
        PoolValid m b testMode rightIndex st.search.testModePools.right)
      (fun st rng1 hP _ _ _ =>
        ⟨tryAddSeed_valid m b testMode _ Side.left leftIndex _ st.search rng1 h0l hP.1,
          by
            show PoolValid m b testMode rightIndex
              (tryAddSeed m b testMode _ Side.left leftIndex _ st.search
                rng1).1.2.testModePools.right
            rw [tryAddSeed_left_right]
            exact hP.2⟩)
      (fun st rng1 hP _ _ _ _ =>
        ⟨by
            show PoolValid m b testMode leftIndex
              (tryAddSeed m b testMode _ Side.right rightIndex _ st.search
                rng1).1.2.testModePools.left
            rw [tryAddSeed_right_left]
            exact hP.1,
          tryAddSeed_valid m b testMode _ Side.right rightIndex _ st.search rng1 h0r hP.2⟩)
      fuel ⟨{ search with testModeSearchToken := search.testModeSearchToken + 1 }, 0, 0⟩ rng
      ⟨hleft, hright⟩ rfl st hst).1

/-- The attempt budget of the default options: `100000` attempts per side. -/
theorem attemptsLimit_TEST_MODE :
    attemptsLimit { (TEST_MODE : TestMode ℚ) with enabled := true } = JsNum.finite 100000 := by
  have h : ¬ (((max 1 4 * 25000 : Nat) : ℚ) > MAX_VALUE) := by
    unfold MAX_VALUE
    norm_num
  have e4 : ⌊(4 : ℚ)⌋₊ = 4 := Nat.floor_ofNat 4
  have e6 : ⌊(1000000 : ℚ)⌋₊ = 1000000 := Nat.floor_ofNat 1000000
  simp only [attemptsLimit, getDesiredVariations, floorAtLeastOne, TEST_MODE, Option.getD_some,
    e4, e6]
  rw [if_neg h]
  rfl

theorem fillTestModePools_pools_valid_witness :
    ∃ st, (fillTestModePools (⟨id, id, id, fun x _ => x, fun u v => |u| + |v|, 3⟩ : MathFns ℚ)
          (exampleBoard ℚ) { (TEST_MODE : TestMode ℚ) with enabled := true } 1 7 200001
          TestSearch.initial ⟨none, fun _ => 0, 0⟩).1
        = FillOutcome.completed st ∧
      PoolValid (⟨id, id, id, fun x _ => x, fun u v => |u| + |v|, 3⟩ : MathFns ℚ)
        (exampleBoard ℚ) { (TEST_MODE : TestMode ℚ) with enabled := true } 1
        st.search.testModePools.left ∧
      PoolValid (⟨id, id, id, fun x _ => x, fun u v => |u| + |v|, 3⟩ : MathFns ℚ)
        (exampleBoard ℚ) { (TEST_MODE : TestMode ℚ) with enabled := true } 7
        st.search.testModePools.right :=
  have h := fillTestModePools_pools_valid
    (⟨id, id, id, fun x _ => x, fun u v => |u| + |v|, 3⟩ : MathFns ℚ) (exampleBoard ℚ)
    { (TEST_MODE : TestMode ℚ) with enabled := true } 9 1 7 200001 TestSearch.initial
    ⟨none, fun _ => 0, 0⟩
    (by
      have e : ⌊(1 : ℚ) + 2⁻¹⌋ = 1 := Int.floor_eq_iff.mpr ⟨by norm_num, by norm_num⟩
      simp [getTestModeTargets, getForcedLandingIndex, jsRound, TEST_MODE, e])
    (fun _ h => absurd h (List.not_mem_nil _))
    (fun _ h => absurd h (List.not_mem_nil _))
  let ⟨st, hst⟩ := h.1 100000 attemptsLimit_TEST_MODE (by norm_num)
  ⟨st, hst, h.2 st hst⟩

end

section
variable {K : Type} [LinearOrderedField K] [FloorRing K] {V : Type}

/-- Two numbers that compare equal with `===` are the same number. -/
theorem JsNum.eq_of_strictEq (a b : JsNum Int) (h : a.strictEq b = true) : a = b := by
  cases a <;> cases b <;> simp_all [JsNum.strictEq]

/-- A finite number compares equal with itself. -/
theorem JsNum.strictEq_finite (x : Int) :
    (JsNum.finite x).strictEq (JsNum.finite x) = true := by
  simp [JsNum.strictEq]

/-- The clamp of `setRows` on a finite argument. -/
theorem clamp_finite (minRows maxRows : Int) (n : K) :
    JsNum.max (JsNum.finite minRows) (JsNum.min (JsNum.finite maxRows) (JsNum.finite n).round)
      = JsNum.finite (max minRows (min maxRows (jsRound n))) := rfl

/-- The row count `setRows` leaves when no drop is active: the clamped,
rounded argument. -/
theorem setRows_rows_eq (env : GameEnv K V) (newRows : JsNum K) (st : GameState K V)
    (hidle : st.isAnimating = false) :
    (setRows env newRows st).rows
      = JsNum.max (JsNum.finite env.minRows) (JsNum.min (JsNum.finite env.maxRows) newRows.round)
      ∨ (newRows.round = JsNum.nan ∧ (setRows env newRows st).rows = JsNum.nan) := by
  unfold setRows
  rw [hidle]
  simp only [Bool.false_eq_true, if_false]
  split
  · rename_i h
    left
    exact (JsNum.eq_of_strictEq _ _ h).symm
  · left
    rfl

/-- `setRows` never changes the flag `isAnimating`. -/
theorem setRows_isAnimating (env : GameEnv K V) (newRows : JsNum K) (st : GameState K V) :
    (setRows env newRows st).isAnimating = st.isAnimating := by
  unfold setRows
  split
  · rfl
  · dsimp only
    split <;> rfl

/-- C14: for every finite `n` passed to `setRows` while no drop is active, the
row count afterwards is `round(n)` clamped into `[minRows, maxRows]`; with the
default bounds `8` and `16`, `setRows(200)` leaves `16` and `setRows(-5)`
leaves `8`. -/
theorem setRows_clamps (env : GameEnv K V) (n : K) (st : GameState K V)
    (hidle : st.isAnimating = false) :
    (setRows env (JsNum.finite n) st).rows
        = JsNum.finite (max env.minRows (min env.maxRows (jsRound n))) ∧
      (env.minRows = 8 → env.maxRows = 16 →
        (setRows env (JsNum.finite 200) st).rows = JsNum.finite 16 ∧
        (setRows env (JsNum.finite (-5)) st).rows = JsNum.finite 8) := by
  have key : ∀ x : K, (setRows env (JsNum.finite x) st).rows
      = JsNum.finite (max env.minRows (min env.maxRows (jsRound x))) := by
    intro x
    rcases setRows_rows_eq env (JsNum.finite x) st hidle with h | h
    · rw [h]
      rfl
    · exact absurd h.1 (by simp [JsNum.round])
  refine ⟨key n, ?_⟩
  intro hmin hmax
  have e1 : jsRound (200 : K) = 200 := by
    unfold jsRound
    exact Int.floor_eq_iff.mpr ⟨by norm_num, by norm_num⟩
  have e2 : jsRound (-5 : K) = -5 := by
    unfold jsRound
    exact Int.floor_eq_iff.mpr ⟨by norm_num, by norm_num⟩
  rw [key, key, e1, e2, hmin, hmax]
  exact ⟨rfl, rfl⟩

theorem setRows_clamps_witness :
    (createGame (⟨id, 8, 16, 8, fun _ => (), fun s => s.search, fun _ => (), fun _ => (),
          fun _ => ()⟩ : GameEnv ℚ Unit) none "medium" none none none ()).isAnimating = false ∧
      (setRows (⟨id, 8, 16, 8, fun _ => (), fun s => s.search, fun _ => (), fun _ => (),
          fun _ => ()⟩ : GameEnv ℚ Unit) (JsNum.finite (21 / 2))
        (createGame (⟨id, 8, 16, 8, fun _ => (), fun s => s.search, fun _ => (), fun _ => (),
          fun _ => ()⟩ : GameEnv ℚ Unit) none "medium" none none none ())).rows
        = JsNum.finite 11 := by
  refine ⟨rfl, ?_⟩
  have h := (setRows_clamps (⟨id, 8, 16, 8, fun _ => (), fun s => s.search, fun _ => (),
    fun _ => (), fun _ => ()⟩ : GameEnv ℚ Unit) (21 / 2)
    (createGame (⟨id, 8, 16, 8, fun _ => (), fun s => s.search, fun _ => (), fun _ => (),
      fun _ => ()⟩ : GameEnv ℚ Unit) none "medium" none none none ()) rfl).1
  have e : jsRound (21 / 2 : ℚ) = 11 := by
    unfold jsRound
    exact Int.floor_eq_iff.mpr ⟨by norm_num, by norm_num⟩
  rw [h, e]
  rfl

/-- C15 (the code at the failing input): `setRows(NaN)` with no drop active
stores `NaN` as the row count, and so does `createGame` for `opts.rows = NaN`:
`Math.round`, `Math.min` and `Math.max` all return `NaN` and `NaN === rows` is
false.  `Infinity` and `-Infinity` are clamped, to `max(minRows, maxRows)` and
to `minRows`. -/
theorem setRows_nan_stored (env : GameEnv K V) (st : GameState K V) :
    (setRows env JsNum.nan { st with isAnimating := false }).rows = JsNum.nan ∧
      createGameRows env.minRows env.maxRows (some JsNum.nan) = JsNum.nan ∧
      (setRows env JsNum.posInf { st with isAnimating := false }).rows
        = JsNum.finite (max env.minRows env.maxRows) ∧
      (setRows env JsNum.negInf { st with isAnimating := false }).rows
        = JsNum.finite env.minRows := by
  refine ⟨?_, rfl, ?_, ?_⟩
  · rcases setRows_rows_eq env JsNum.nan { st with isAnimating := false } rfl with h | h
    · rw [h]
      rfl
    · exact h.2
  · rcases setRows_rows_eq env JsNum.posInf { st with isAnimating := false } rfl with h | h
    · rw [h]
      rfl
    · exact absurd h.1 (by simp [JsNum.round])
  · rcases setRows_rows_eq env JsNum.negInf { st with isAnimating := false } rfl with h | h
    · rw [h]
      rfl
    · exact absurd h.1 (by simp [JsNum.round])

/-- C16: for every finite `r`, a second call `setRows(r)` right after
`setRows(r)` changes nothing: the whole state (rows, multipliers, boxCount,
baseProbabilities, probabilities, physics parameters, the pools and the search
token among it) is the same before and after the second call. -/
theorem setRows_idempotent (env : GameEnv K V) (r : K) (st : GameState K V) :
    setRows env (JsNum.finite r) (setRows env (JsNum.finite r) st)
      = setRows env (JsNum.finite r) st := by
  cases hidle : st.isAnimating with
  | true =>
    have e : setRows env (JsNum.finite r) st = st := by
      unfold setRows
      rw [hidle]
      rfl
    rw [e, e]
  | false =>
    have hrows := (setRows_rows_eq env (JsNum.finite r) st hidle).resolve_right
      (fun h => absurd h.1 (by simp [JsNum.round]))
    have hanim := (setRows_isAnimating env (JsNum.finite r) st).trans hidle
    generalize setRows env (JsNum.finite r) st = s1 at hrows hanim
    unfold setRows
    rw [hanim]
    simp only [Bool.false_eq_true, if_false]
    rw [hrows]
    have e : (JsNum.max (JsNum.finite env.minRows)
        (JsNum.min (JsNum.finite env.maxRows) (JsNum.finite r).round)).strictEq
        (JsNum.max (JsNum.finite env.minRows)
          (JsNum.min (JsNum.finite env.maxRows) (JsNum.finite r).round)) = true :=
      JsNum.strictEq_finite _
    rw [if_pos e]

/-- C17: while at least one drop is in flight (the counter `activeDrops` is
positive and `isAnimating` is the flag `activeDrops > 0`), every call of
`setRows` or `setDifficulty`, with any argument, leaves the whole game state
unchanged. -/
theorem setters_refused_while_animating (env : GameEnv K V) (st : GameState K V)
    (newRows : JsNum K) (newDifficulty : String)
    (hflag : st.isAnimating = decide (st.activeDrops > 0)) (hdrops : 0 < st.activeDrops) :
    setRows env newRows st = st ∧ setDifficulty env newDifficulty st = st := by
  have h : st.isAnimating = true := by
    rw [hflag]
    exact decide_eq_true hdrops
  constructor
  · unfold setRows
    rw [h]
    rfl
  · unfold setDifficulty
    rw [h]
    rfl

theorem setters_refused_while_animating_witness :
    setRows (⟨id, 8, 16, 8, fun _ => (), fun s => s.search, fun _ => (), fun _ => (),
          fun _ => ()⟩ : GameEnv ℚ Unit) (JsNum.finite 12)
        (markDropStart (createGame (⟨id, 8, 16, 8, fun _ => (), fun s => s.search, fun _ => (),
          fun _ => (), fun _ => ()⟩ : GameEnv ℚ Unit) none "medium" none none none ()))
      = markDropStart (createGame (⟨id, 8, 16, 8, fun _ => (), fun s => s.search, fun _ => (),
          fun _ => (), fun _ => ()⟩ : GameEnv ℚ Unit) none "medium" none none none ()) ∧
    setDifficulty (⟨id, 8, 16, 8, fun _ => (), fun s => s.search, fun _ => (), fun _ => (),
          fun _ => ()⟩ : GameEnv ℚ Unit) "high"
        (markDropStart (createGame (⟨id, 8, 16, 8, fun _ => (), fun s => s.search, fun _ => (),
          fun _ => (), fun _ => ()⟩ : GameEnv ℚ Unit) none "medium" none none none ()))
      = markDropStart (createGame (⟨id, 8, 16, 8, fun _ => (), fun s => s.search, fun _ => (),
          fun _ => (), fun _ => ()⟩ : GameEnv ℚ Unit) none "medium" none none none ()) :=
  setters_refused_while_animating _ _ (JsNum.finite 12) "high" rfl (by decide)

end

section
variable {K V : Type}

/-- The flag `isAnimating` tells whether a drop is in flight: it holds after
`markDropStart`, and after `markDropEnd` it holds exactly when the counter is
still positive. -/
theorem isAnimating_counter (st : GameState K V) :
    (markDropStart st).isAnimating = true ∧ 0 < (markDropStart st).activeDrops ∧
      (markDropEnd st).isAnimating = decide (0 < (markDropEnd st).activeDrops) ∧
      (markDropEnd st).activeDrops = st.activeDrops - 1 := by
  refine ⟨?_, ?_, ?_, ?_⟩
  · simp [markDropStart]
  · simp [markDropStart]
  · simp [markDropEnd]
  · simp [markDropEnd]

end

section
variable {K : Type} [LinearOrderedField K] {V : Type}

/-- C18 (as stated): a `setDifficulty` call that changes the difficulty while
no drop is active does not clear the seed pools and does not increment the
search token: from a 16-row medium game whose pools hold the seeds `5` and `6`
and whose token is `3`, `setDifficulty("high")` changes the difficulty and the
multipliers and leaves pools, token and physics parameters as they were. -/
theorem setDifficulty_keeps_pools_counterexample :
    (setDifficulty (⟨id, 8, 16, 8, fun _ => (), fun s => s.search, fun _ => (), fun _ => (),
          fun _ => ()⟩ : GameEnv ℚ Unit) "high"
        { createGame (⟨id, 8, 16, 8, fun _ => (), fun s => s.search, fun _ => (), fun _ => (),
            fun _ => ()⟩ : GameEnv ℚ Unit) none "medium" none none none () with
          search := { TestSearch.initial with
            testModePools := ⟨[5], [6]⟩, testModePoolSets := ⟨[5], [6]⟩,
            testModeSearchToken := 3 } }).difficulty = "high" ∧
      (setDifficulty (⟨id, 8, 16, 8, fun _ => (), fun s => s.search, fun _ => (), fun _ => (),
          fun _ => ()⟩ : GameEnv ℚ Unit) "high"
        { createGame (⟨id, 8, 16, 8, fun _ => (), fun s => s.search, fun _ => (), fun _ => (),
            fun _ => ()⟩ : GameEnv ℚ Unit) none "medium" none none none () with
          search := { TestSearch.initial with
            testModePools := ⟨[5], [6]⟩, testModePoolSets := ⟨[5], [6]⟩,
            testModeSearchToken := 3 } }).search.testModePools = ⟨[5], [6]⟩ ∧
      (setDifficulty (⟨id, 8, 16, 8, fun _ => (), fun s => s.search, fun _ => (), fun _ => (),
          fun _ => ()⟩ : GameEnv ℚ Unit) "high"
        { createGame (⟨id, 8, 16, 8, fun _ => (), fun s => s.search, fun _ => (), fun _ => (),
            fun _ => ()⟩ : GameEnv ℚ Unit) none "medium" none none none () with
          search := { TestSearch.initial with
            testModePools := ⟨[5], [6]⟩, testModePoolSets := ⟨[5], [6]⟩,
            testModeSearchToken := 3 } }).search.testModeSearchToken = 3 := by
  refine ⟨?_, ?_, ?_⟩ <;> rfl

/-- C18 (amended): a `setDifficulty` call that changes the difficulty while no
drop is active stores the normalized difficulty and rebuilds the multipliers,
the box count and the probabilities from it; unlike `setRows` it leaves the
row count, the base probabilities, the physics parameters and all search
variables (both seed pools and the cancellation token among them) as they
were. -/
theorem setDifficulty_effect (env : GameEnv K V) (newDifficulty : String) (st : GameState K V)
    (hidle : st.isAnimating = false) (hchange : normalizeDifficulty newDifficulty ≠ st.difficulty) :
    (setDifficulty env newDifficulty st).difficulty = normalizeDifficulty newDifficulty ∧
      (setDifficulty env newDifficulty st).multipliers
        = multipliersForRows st.rows (normalizeDifficulty newDifficulty) ∧
      (setDifficulty env newDifficulty st).boxCount
        = (multipliersForRows st.rows (normalizeDifficulty newDifficulty) :
            List (MultiplierSlot K)).length ∧
      (setDifficulty env newDifficulty st).probabilities
        = buildWinRateProbabilities env.exp st.baseProbabilities
          ((multipliersForRows st.rows (normalizeDifficulty newDifficulty)).map JsVal.slot)
          st.winRateTarget (some st.winRateMinMultiplier) ∧
      (setDifficulty env newDifficulty st).rows = st.rows ∧
      (setDifficulty env newDifficulty st).baseProbabilities = st.baseProbabilities ∧
      (setDifficulty env newDifficulty st).phys = st.phys ∧
      (setDifficulty env newDifficulty st).search = st.search := by
  unfold setDifficulty
  rw [hidle]
  simp only [Bool.false_eq_true, if_false, if_neg hchange]
  exact ⟨rfl, rfl, rfl, rfl, rfl, rfl, rfl, rfl⟩

theorem setDifficulty_effect_witness :
    (setDifficulty (⟨id, 8, 16, 8, fun _ => (), fun s => s.search, fun _ => (), fun _ => (),
          fun _ => ()⟩ : GameEnv ℚ Unit) "low"
        (createGame (⟨id, 8, 16, 8, fun _ => (), fun s => s.search, fun _ => (), fun _ => (),
          fun _ => ()⟩ : GameEnv ℚ Unit) none "medium" none none none ())).search
      = (createGame (⟨id, 8, 16, 8, fun _ => (), fun s => s.search, fun _ => (), fun _ => (),
          fun _ => ()⟩ : GameEnv ℚ Unit) none "medium" none none none ()).search :=
  (setDifficulty_effect (⟨id, 8, 16, 8, fun _ => (), fun s => s.search, fun _ => (),
    fun _ => (), fun _ => ()⟩ : GameEnv ℚ Unit) "low"
    (createGame (⟨id, 8, 16, 8, fun _ => (), fun s => s.search, fun _ => (), fun _ => (),
      fun _ => ()⟩ : GameEnv ℚ Unit) none "medium" none none none ()) rfl (by decide)).2.2.2.2.2.2.2

end

section
variable {K : Type} [LinearOrderedField K] [FloorRing K]

/-- C24: for every finite `forcedLandingIndex` and every `boxCount ≥ 1`, with
test mode enabled, `getTestModeTargets` returns
`leftIndex = round(forcedLandingIndex)` clamped into `[0, boxCount - 1]` and
`rightIndex = boxCount - 1 - leftIndex`; both are valid slot indices. -/
theorem getTestModeTargets_spec (testMode : TestMode K) (boxCount : Int) (idx : K)
    (henabled : testMode.enabled = true) (hidx : testMode.forcedLandingIndex = some idx)
    (hbox : 1 ≤ boxCount) :
    getTestModeTargets testMode boxCount
        = some (max 0 (min (boxCount - 1) (jsRound idx)),
            boxCount - 1 - max 0 (min (boxCount - 1) (jsRound idx))) ∧
      0 ≤ max 0 (min (boxCount - 1) (jsRound idx)) ∧
      max 0 (min (boxCount - 1) (jsRound idx)) ≤ boxCount - 1 ∧
      0 ≤ boxCount - 1 - max 0 (min (boxCount - 1) (jsRound idx)) ∧
      boxCount - 1 - max 0 (min (boxCount - 1) (jsRound idx)) ≤ boxCount - 1 := by
  have h0 : (0 : Int) ≤ max 0 (min (boxCount - 1) (jsRound idx)) := le_max_left _ _
  have h1 : max 0 (min (boxCount - 1) (jsRound idx)) ≤ boxCount - 1 :=
    max_le (by omega) (min_le_left _ _)
  refine ⟨?_, h0, h1, by omega, by omega⟩
  unfold getTestModeTargets getForcedLandingIndex
  simp only [henabled, hidx, Bool.not_true, Bool.false_eq_true, if_false]
  rw [max_eq_right (by omega : (0 : Int) ≤ boxCount - 1 - max 0 (min (boxCount - 1) (jsRound idx)))]

theorem getTestModeTargets_spec_witness :
    getTestModeTargets { (TEST_MODE : TestMode ℚ) with enabled := true } 9 = some (1, 7) := by
  have h := (getTestModeTargets_spec { (TEST_MODE : TestMode ℚ) with enabled := true } 9 1
    rfl rfl (by norm_num)).1
  have e : jsRound (1 : ℚ) = 1 := by
    unfold jsRound
    exact Int.floor_eq_iff.mpr ⟨by norm_num, by norm_num⟩
  rw [h, e]
  rfl

/-- An attempt adds at most one seed to the pool of its side. -/
theorem tryAddSeed_length (m : MathFns K) (b : Board K) (testMode : TestMode K) (token : Nat)
    (side : Side) (targetIndex : Int) (attempt : Nat) (search : TestSearch) (rng : Rng K) :
    ((tryAddSeed m b testMode token side targetIndex attempt search rng).1.2.testModePools.get
        side).length
      ≤ (search.testModePools.get side).length + 1 := by
  rcases tryAddSeed_cases m b testMode token side targetIndex attempt search rng with h | h
  · rw [h]
    exact Nat.le_succ _
  · rw [h.2.2.2]
    cases side <;> simp [Pools.get, Pools.push]

/-- The attempt budget for finite options whose product `desired * 25000`
does not overflow: `min(max(1, floor(maxAttempts)), desired * 25000)` with
`desired = max(1, floor(variationsPerSide))`. -/
theorem attemptsLimit_finite (testMode : TestMode K) (variations attempts : K)
    (hv : testMode.variationsPerSide.getD (JsNum.finite 4) = JsNum.finite variations)
    (ha : testMode.maxAttempts.getD (JsNum.finite 1000000) = JsNum.finite attempts)
    (hmax : ((max 1 ⌊variations⌋₊ * 25000 : Nat) : K) ≤ MAX_VALUE) :
    getDesiredVariations testMode = JsNum.finite (max 1 ⌊variations⌋₊) ∧
    attemptsLimit testMode
      = JsNum.finite (min (max 1 ⌊attempts⌋₊) (max 1 ⌊variations⌋₊ * 25000)) := by
  unfold attemptsLimit getDesiredVariations
  rw [hv, ha]
  simp only [floorAtLeastOne, if_neg (not_lt.mpr hmax)]
  exact ⟨trivial, trivial⟩

/-- With finite numbers `desired` and `attemptsLimit` the search loop of
`fillTestModePools` ends (cooperative yields ignored; within
`2 * attemptsLimit + 1` iterations) after at most `attemptsLimit` attempts per
side; a side stops being tried as soon as its pool holds `desired` seeds, so
a pool never grows beyond `desired` (or its initial length), and a side whose
pool is still short has used the whole budget. -/
theorem fillTestModePools_terminates (m : MathFns K) (b : Board K) (testMode : TestMode K)
    (leftIndex rightIndex : Int) (fuel : Nat) (search : TestSearch) (rng : Rng K)
    (desired limit : Nat)
    (hdesired : getDesiredVariations testMode = JsNum.finite desired)
    (hlimit : attemptsLimit testMode = JsNum.finite limit)
    (hfuel : 2 * limit < fuel) :
    ∃ st, (fillTestModePools m b testMode leftIndex rightIndex fuel search rng).1
        = FillOutcome.completed st ∧
      st.leftAttempts ≤ limit ∧
      st.rightAttempts ≤ limit ∧
      st.search.testModePools.left.length ≤ max desired search.testModePools.left.length ∧
      st.search.testModePools.right.length ≤ max desired search.testModePools.right.length ∧
      (st.search.testModePools.left.length < desired → st.leftAttempts = limit) ∧
      (leftIndex ≠ rightIndex →
        st.search.testModePools.right.length < desired → st.rightAttempts = limit) := by
  obtain ⟨st, hst⟩ := fillLoop_ends m b testMode (search.testModeSearchToken + 1) leftIndex
    rightIndex limit hlimit fuel
    ⟨{ search with testModeSearchToken := search.testModeSearchToken + 1 }, 0, 0⟩ rng rfl
    (by simp only [Nat.sub_zero]; omega)
  have h := fillLoop_rule m b testMode (search.testModeSearchToken + 1) leftIndex rightIndex
    (fun st => st.leftAttempts ≤ limit ∧
      st.rightAttempts ≤ limit ∧
      st.search.testModePools.left.length ≤ max desired search.testModePools.left.length ∧
      st.search.testModePools.right.length ≤ max desired search.testModePools.right.length)
    (fun st rng1 hP _ hlen hatt => by
      rw [hdesired] at hlen
      rw [hlimit] at hatt
      simp only [countReaches, decide_eq_false_iff_not, ge_iff_le, not_le] at hlen hatt
      refine ⟨hatt, hP.2.1, ?_, ?_⟩
      · have := tryAddSeed_length m b testMode (search.testModeSearchToken + 1) Side.left
          leftIndex st.leftAttempts st.search rng1
        have h2 : (st.search.testModePools.get Side.left).length
            = st.search.testModePools.left.length := rfl
        rw [h2] at this
        exact le_trans this (le_trans hlen (le_max_left _ _))
      · show (tryAddSeed m b testMode _ Side.left leftIndex _ st.search
          rng1).1.2.testModePools.right.length ≤ _
        rw [tryAddSeed_left_right]
        exact hP.2.2.2)
    (fun st rng1 hP _ _ hlen hatt => by
      rw [hdesired] at hlen
      rw [hlimit] at hatt
      simp only [countReaches, decide_eq_false_iff_not, ge_iff_le, not_le] at hlen hatt
      refine ⟨hP.1, hatt, ?_, ?_⟩
      · show (tryAddSeed m b testMode _ Side.right rightIndex _ st.search
          rng1).1.2.testModePools.left.length ≤ _
        rw [tryAddSeed_right_left]
        exact hP.2.2.1
      · have := tryAddSeed_length m b testMode (search.testModeSearchToken + 1) Side.right
          rightIndex st.rightAttempts st.search rng1
        have h2 : (st.search.testModePools.get Side.right).length
            = st.search.testModePools.right.length := rfl
        rw [h2] at this
        exact le_trans this (le_trans hlen (le_max_left _ _)))
    fuel ⟨{ search with testModeSearchToken := search.testModeSearchToken + 1 }, 0, 0⟩ rng
    ⟨Nat.zero_le _, Nat.zero_le _, le_max_right _ _, le_max_right _ _⟩ rfl st hst
  obtain ⟨⟨ha, hb, hc, hd⟩, hL, hR⟩ := h
  rw [hdesired, hlimit] at hL hR
  simp only [countReaches, decide_eq_true_eq, ge_iff_le] at hL hR
  refine ⟨st, hst, ha, hb, hc, hd, ?_, ?_⟩
  · intro hlt
    rcases hL with hL | hL
    · omega
    · omega
  · intro hne hlt
    rcases hR with hR | hR | hR
    · exact absurd hR hne
    · omega
    · omega

/-- With `variationsPerSide` set to `NaN` the search loop is never left,
whatever the number of iterations it is given. -/
theorem fillLoop_nan (m : MathFns K) (b : Board K) (testMode : TestMode K) (token : Nat)
    (leftIndex rightIndex : Int)
    (hdesired : getDesiredVariations testMode = JsNum.nan)
    (hlimit : attemptsLimit testMode = JsNum.nan) :
    ∀ (fuel : Nat) (st : FillState) (rng : Rng K),
      st.search.testModeSearchToken = token →
      (fillLoop m b testMode token leftIndex rightIndex fuel st rng).1
        = FillOutcome.outOfFuel := by
  intro fuel
  induction fuel with
  | zero =>
    intro st rng _
    rfl
  | succ fuel ih =>
    intro st rng htok
    unfold fillLoop
    simp only [bind, StateT.bind, pure, StateT.pure, Id.pure_eq, Id.bind_eq]
    rw [if_neg (not_not.mpr htok.symm), hdesired, hlimit]
    simp only [countReaches, Bool.or_self, Bool.false_and, Bool.false_eq_true, if_false,
      Bool.not_false, if_true, Bool.or_false, StateT.bind, StateT.pure, Id.pure_eq, Id.bind_eq]
    have ht1 := tryAddSeed_token m b testMode token Side.left leftIndex st.leftAttempts
      st.search rng
    by_cases hne : leftIndex = rightIndex
    · subst hne
      simp only [ne_eq, not_true_eq_false, decide_False, Bool.not_false, if_true,
        Bool.not_true, Bool.false_eq_true, if_false, StateT.bind, StateT.pure, Id.pure_eq,
        Id.bind_eq]
      exact ih _ _ (ht1.trans htok)
    · simp only [hne, ne_eq, not_false_eq_true, decide_True, Bool.not_true, Bool.not_false,
        Bool.false_eq_true, if_true, if_false, StateT.bind, StateT.pure, Id.pure_eq, Id.bind_eq]
      exact ih _ _ ((tryAddSeed_token _ _ _ _ _ _ _ _ _).trans (ht1.trans htok))

/-- C23 (what the code does): `variationsPerSide` is read with `??` only, so
a `NaN` given for it is kept: `desired` and `attemptsLimit` are then `NaN`,
no comparison `>=` with them holds, and the search loop of
`fillTestModePools` is never left, whatever the other options, the targets,
the pools, the random draws and the number of iterations it is given. -/
theorem fillTestModePools_nan_never_ends (m : MathFns K) (b : Board K) (testMode : TestMode K)
    (leftIndex rightIndex : Int) (fuel : Nat) (search : TestSearch) (rng : Rng K) :
    getDesiredVariations { testMode with variationsPerSide := some JsNum.nan } = JsNum.nan ∧
    attemptsLimit { testMode with variationsPerSide := some JsNum.nan } = JsNum.nan ∧
    (fillTestModePools m b { testMode with variationsPerSide := some JsNum.nan }
        leftIndex rightIndex fuel search rng).1 = FillOutcome.outOfFuel := by
  have hd : getDesiredVariations { testMode with variationsPerSide := some JsNum.nan }
      = JsNum.nan := rfl
  have hl : attemptsLimit { testMode with variationsPerSide := some JsNum.nan }
      = JsNum.nan := by
    unfold attemptsLimit
    rw [hd]
    cases floorAtLeastOne (testMode.maxAttempts.getD (JsNum.finite 1000000)) <;> rfl
  exact ⟨hd, hl, fillLoop_nan m b _ _ leftIndex rightIndex hd hl fuel _ rng rfl⟩

end

section
variable {K : Type} [LinearOrderedField K] [FloorRing K]

/-- The index `Math.floor(r * n)` of a draw `0 ≤ r < 1` is below `n`. -/
theorem floor_draw_lt (r : K) (n : Nat) (h0 : 0 ≤ r) (h1 : r < 1) (hn : 0 < n) :
    ⌊r * (n : K)⌋₊ < n := by
  rw [Nat.floor_lt (mul_nonneg h0 (Nat.cast_nonneg n))]
  have hn' : (0 : K) < n := Nat.cast_pos.mpr hn
  calc r * (n : K) < 1 * (n : K) := mul_lt_mul_of_pos_right h1 hn'
    _ = n := one_mul _

/-- In a list without duplicates, moving an index by `1 + k` with
`k < n - 1`, modulo the length `n`, gives another element. -/
theorem shifted_index_ne (pool : List Nat) (hnd : pool.Nodup) (i k : Nat) (hi : i < pool.length)
    (hk : k < pool.length - 1) :
    pool[(i + 1 + k) % pool.length]? ≠ pool[i]? := by
  have hpos : 0 < pool.length := by omega
  have hj : (i + 1 + k) % pool.length < pool.length := Nat.mod_lt _ hpos
  rw [List.getElem?_eq_getElem hj, List.getElem?_eq_getElem hi]
  intro h
  have h2 := (List.Nodup.getElem_inj_iff hnd).mp (Option.some.inj h)
  have h3 : (i + 1 + k) % pool.length = i := h2
  rcases Nat.lt_or_ge (i + 1 + k) pool.length with hlt | hge
  · rw [Nat.mod_eq_of_lt hlt] at h3
    omega
  · have : (i + 1 + k) % pool.length = i + 1 + k - pool.length := by
      rw [Nat.mod_eq_sub_mod hge, Nat.mod_eq_of_lt (by omega)]
    omega

/-- The first pick: an element of the pool, which is returned unless it
repeats the previous pick in a pool of more than one seed. -/
theorem pick_first (pool : List Nat) (lastSeed : Option Nat) (r1 : K) (h0 : 0 ≤ r1) (h1 : r1 < 1)
    (hpos : pool.length ≠ 0)
    (hc : ¬ (pool.length > 1 ∧ (pool[⌊r1 * (pool.length : K)⌋₊]?).isSome = true ∧
      pool[⌊r1 * (pool.length : K)⌋₊]? = lastSeed)) :
    ∃ s, pool[⌊r1 * (pool.length : K)⌋₊]? = some s ∧ s ∈ pool ∧
      (1 < pool.length → lastSeed ≠ some s) := by
  have hi := floor_draw_lt r1 pool.length h0 h1 (Nat.pos_of_ne_zero hpos)
  refine ⟨pool[⌊r1 * (pool.length : K)⌋₊], List.getElem?_eq_getElem hi,
    List.getElem_mem _, ?_⟩
  intro hlen hlast
  apply hc
  refine ⟨hlen, ?_, ?_⟩
  · rw [List.getElem?_eq_getElem hi]
    rfl
  · rw [List.getElem?_eq_getElem hi, hlast]

/-- The second pick, made when the first one repeats the previous pick: an
element of the pool other than the previous pick. -/
theorem pick_second (pool : List Nat) (hnd : pool.Nodup) (lastSeed : Option Nat) (r1 r2 : K)
    (h0 : 0 ≤ r1) (h1 : r1 < 1) (h0' : 0 ≤ r2) (h1' : r2 < 1)
    (hc : pool.length > 1 ∧ (pool[⌊r1 * (pool.length : K)⌋₊]?).isSome = true ∧
      pool[⌊r1 * (pool.length : K)⌋₊]? = lastSeed) :
    ∃ s, pool[(⌊r1 * (pool.length : K)⌋₊ + 1 + ⌊r2 * ((pool.length : K) - 1)⌋₊)
          % pool.length]? = some s ∧ s ∈ pool ∧
      (1 < pool.length → lastSeed ≠ some s) := by
  obtain ⟨hlen, -, hlast⟩ := hc
  have hi := floor_draw_lt r1 pool.length h0 h1 (by omega)
  have hk : ⌊r2 * ((pool.length : K) - 1)⌋₊ < pool.length - 1 := by
    have e : ((pool.length : K) - 1) = ((pool.length - 1 : Nat) : K) := by
      rw [Nat.cast_sub (by omega)]
      simp
    rw [e]
    exact floor_draw_lt r2 (pool.length - 1) h0' h1' (by omega)
  have hj : (⌊r1 * (pool.length : K)⌋₊ + 1 + ⌊r2 * ((pool.length : K) - 1)⌋₊) % pool.length
      < pool.length := Nat.mod_lt _ (by omega)
  refine ⟨pool[(⌊r1 * (pool.length : K)⌋₊ + 1 + ⌊r2 * ((pool.length : K) - 1)⌋₊)
    % pool.length], List.getElem?_eq_getElem hj, List.getElem_mem _, ?_⟩
  intro _ h
  have hne := shifted_index_ne pool hnd _ _ hi hk
  apply hne
  rw [List.getElem?_eq_getElem hj, ← h, hlast]

/-- C22: for pools without duplicate seeds and draws of `Math.random()` in
`[0, 1)`, the seed `pickTestModeSeed` returns is a seed of the pool it chose
(the left pool when the returned target is `leftIndex`, else the right one)
and, if that pool has more than one entry, it differs from the previous pick
`testModeLastSeed`; it becomes the new `testModeLastSeed`. -/
theorem pickTestModeSeed_no_repeat (targets : Int × Int) (pools : Pools)
    (testModeLastSeed : Option Nat) (rng : Rng K) (seed : Option Nat) (target : Int)
    (hdraw : ∀ i, 0 ≤ rng.globalDraws i ∧ rng.globalDraws i < 1)
    (hleft : pools.left.Nodup) (hright : pools.right.Nodup)
    (hpick : (pickTestModeSeed (some targets) (some pools) testModeLastSeed rng).1.1
      = some (seed, target)) :
    ∃ s, seed = some s ∧
      s ∈ (if target = targets.1 then pools.left else pools.right) ∧
      (1 < (if target = targets.1 then pools.left else pools.right).length →
        testModeLastSeed ≠ some s) ∧
      (pickTestModeSeed (some targets) (some pools) testModeLastSeed rng).1.2 = some s := by
  revert hpick
  unfold pickTestModeSeed
  simp only [bind, StateT.bind, pure, StateT.pure, Id.pure_eq, Id.bind_eq, mathRandom]
  have tail : ∀ (pool : List Nat) (tgt : Int) (u : Nat), pool.Nodup →
      pool = (if tgt = targets.1 then pools.left else pools.right) →
      ∀ (res : Option (Option Nat × Int) × Option Nat),
        (pool.length ≠ 0 →
          (¬ (pool.length > 1 ∧ (pool[⌊rng.globalDraws u * (pool.length : K)⌋₊]?).isSome = true ∧
              pool[⌊rng.globalDraws u * (pool.length : K)⌋₊]? = testModeLastSeed) →
            res = (some (pool[⌊rng.globalDraws u * (pool.length : K)⌋₊]?, tgt),
              pool[⌊rng.globalDraws u * (pool.length : K)⌋₊]?)) ∧
          ((pool.length > 1 ∧ (pool[⌊rng.globalDraws u * (pool.length : K)⌋₊]?).isSome = true ∧
              pool[⌊rng.globalDraws u * (pool.length : K)⌋₊]? = testModeLastSeed) →
            res = (some (pool[(⌊rng.globalDraws u * (pool.length : K)⌋₊ + 1
                + ⌊rng.globalDraws (u + 1) * ((pool.length : K) - 1)⌋₊) % pool.length]?, tgt),
              pool[(⌊rng.globalDraws u * (pool.length : K)⌋₊ + 1
                + ⌊rng.globalDraws (u + 1) * ((pool.length : K) - 1)⌋₊) % pool.length]?))) →
        (pool.length = 0 → res = (none, testModeLastSeed)) →
        res.1 = some (seed, target) →
        ∃ s, seed = some s ∧
          s ∈ (if target = targets.1 then pools.left else pools.right) ∧
          (1 < (if target = targets.1 then pools.left else pools.right).length →
            testModeLastSeed ≠ some s) ∧
          res.2 = some s := by
    intro pool tgt u hnd hpool res hres hnil hpick
    by_cases hlen : pool.length = 0
    · rw [hnil hlen] at hpick
      cases hpick
    · obtain ⟨h1, h2⟩ := hres hlen
      by_cases hc : pool.length > 1 ∧
          (pool[⌊rng.globalDraws u * (pool.length : K)⌋₊]?).isSome = true ∧
          pool[⌊rng.globalDraws u * (pool.length : K)⌋₊]? = testModeLastSeed
      · rw [h2 hc] at hpick ⊢
        simp only [Option.some.injEq, Prod.mk.injEq] at hpick
        obtain ⟨hs, ht⟩ := hpick
        obtain ⟨s, e, hmem, hrep⟩ := pick_second pool hnd testModeLastSeed
          (rng.globalDraws u) (rng.globalDraws (u + 1)) (hdraw u).1 (hdraw u).2
          (hdraw (u + 1)).1 (hdraw (u + 1)).2 hc
        rw [← ht, ← hpool]
        exact ⟨s, by rw [← hs, e], hmem, hrep, e⟩
      · rw [h1 hc] at hpick ⊢
        simp only [Option.some.injEq, Prod.mk.injEq] at hpick
        obtain ⟨hs, ht⟩ := hpick
        obtain ⟨s, e, hmem, hrep⟩ := pick_first pool testModeLastSeed
          (rng.globalDraws u) (hdraw u).1 (hdraw u).2 hlen hc
        rw [← ht, ← hpool]
        exact ⟨s, by rw [← hs, e], hmem, hrep, e⟩
  simp only [if_true, Bool.false_eq_true, if_false]
  by_cases hne : targets.1 ≠ targets.2
  · rw [if_pos hne]
    by_cases hboth : pools.left.length ≠ 0 ∧ pools.right.length ≠ 0
    · rw [if_pos hboth]
      simp only [StateT.bind, StateT.pure, mathRandom, Id.pure_eq, Id.bind_eq]
      cases hb : decide (rng.globalDraws rng.globalUsed < 0.5)
      · simp only [hb, Bool.false_eq_true, if_false]
        refine tail pools.right targets.2 (rng.globalUsed + 1) hright
          (by rw [if_neg (Ne.symm hne)]) _ ?_ ?_
        · intro hlen
          refine ⟨fun hc => ?_, fun hc => ?_⟩
          · simp only [StateT.bind, StateT.pure, mathRandom, Id.pure_eq, Id.bind_eq, if_neg hlen,
              if_neg hc]
          · simp only [StateT.bind, StateT.pure, mathRandom, Id.pure_eq, Id.bind_eq, if_neg hlen,
              if_pos hc]
        · intro hlen
          exact absurd hlen hboth.2
      · simp only [hb, if_true]
        refine tail pools.left targets.1 (rng.globalUsed + 1) hleft (by rw [if_pos rfl]) _ ?_ ?_
        · intro hlen
          refine ⟨fun hc => ?_, fun hc => ?_⟩
          · simp only [StateT.bind, StateT.pure, mathRandom, Id.pure_eq, Id.bind_eq, if_neg hlen,
              if_neg hc]
          · simp only [StateT.bind, StateT.pure, mathRandom, Id.pure_eq, Id.bind_eq, if_neg hlen,
              if_pos hc]
        · intro hlen
          exact absurd hlen hboth.1
    · rw [if_neg hboth]
      by_cases hl : pools.left.length = 0 ∧ pools.right.length ≠ 0
      · rw [if_pos hl]
        refine tail pools.right targets.2 rng.globalUsed hright
          (by rw [if_neg (Ne.symm hne)]) _ ?_ ?_
        · intro hlen
          refine ⟨fun hc => ?_, fun hc => ?_⟩
          · simp only [StateT.bind, StateT.pure, mathRandom, Id.pure_eq, Id.bind_eq, if_neg hlen,
              if_neg hc]
          · simp only [StateT.bind, StateT.pure, mathRandom, Id.pure_eq, Id.bind_eq, if_neg hlen,
              if_pos hc]
        · intro hlen
          exact absurd hlen hl.2
      · rw [if_neg hl]
        by_cases hnone : pools.left.length = 0 ∧ pools.right.length = 0
        · rw [if_pos hnone]
          intro h
          cases h
        · rw [if_neg hnone]
          refine tail pools.left targets.1 rng.globalUsed hleft (by rw [if_pos rfl]) _ ?_ ?_
          · intro hlen
            refine ⟨fun hc => ?_, fun hc => ?_⟩
            · simp only [StateT.bind, StateT.pure, mathRandom, Id.pure_eq, Id.bind_eq, if_neg hlen,
              if_neg hc]
            · simp only [StateT.bind, StateT.pure, mathRandom, Id.pure_eq, Id.bind_eq, if_neg hlen,
              if_pos hc]
          · intro hlen
            simp only [if_pos hlen]
            rfl
  · rw [if_neg hne]
    by_cases hl : pools.left.length = 0
    · rw [if_pos hl]
      intro h
      cases h
    · rw [if_neg hl]
      refine tail pools.left targets.1 rng.globalUsed hleft (by rw [if_pos rfl]) _ ?_ ?_
      · intro hlen
        refine ⟨fun hc => ?_, fun hc => ?_⟩
        · simp only [StateT.bind, StateT.pure, mathRandom, Id.pure_eq, Id.bind_eq, if_neg hlen,
              if_neg hc]
        · simp only [StateT.bind, StateT.pure, mathRandom, Id.pure_eq, Id.bind_eq, if_neg hlen,
              if_pos hc]
      · intro hlen
        exact absurd hlen hl

theorem pickTestModeSeed_no_repeat_witness :
    (pickTestModeSeed (some (1, 7)) (some ⟨[5, 6], [7]⟩) (some 5)
        (⟨none, fun _ => 0, 0⟩ : Rng ℚ)).1.1 = some (some 6, 1) ∧
      ∃ s, some 6 = some s ∧ s ∈ [5, 6] ∧ (1 < [5, 6].length → some 5 ≠ some s) := by
  have hpick : (pickTestModeSeed (some (1, 7)) (some ⟨[5, 6], [7]⟩) (some 5)
      (⟨none, fun _ => 0, 0⟩ : Rng ℚ)).1.1 = some (some 6, 1) := by
    norm_num [pickTestModeSeed, bind, StateT.bind, pure, StateT.pure, mathRandom]
    simp [StateT.bind, StateT.pure, mathRandom]
  refine ⟨hpick, ?_⟩
  obtain ⟨s, h1, h2, h3, -⟩ := pickTestModeSeed_no_repeat (1, 7) ⟨[5, 6], [7]⟩ (some 5)
    (⟨none, fun _ => 0, 0⟩ : Rng ℚ) (some 6) 1 (fun _ => ⟨le_refl _, by norm_num⟩)
    (by decide) (by decide) hpick
  exact ⟨s, h1, h2, h3⟩

/-- The seed search keeps the pools free of duplicates: started from pools
that equal their sets and hold no seed twice, `fillTestModePools` leaves its
loop (within `2 * attemptsLimit + 1` iterations when the attempt budget is a
finite number) only with such pools (`tryAddSeed` skips a seed that is already
in the set). -/
theorem fillTestModePools_nodup (m : MathFns K) (b : Board K) (testMode : TestMode K)
    (leftIndex rightIndex : Int) (fuel : Nat) (search : TestSearch) (rng : Rng K)
    (hsets : search.testModePools = search.testModePoolSets)
    (hleft : search.testModePools.left.Nodup) (hright : search.testModePools.right.Nodup) :
    (∀ limit : Nat, attemptsLimit testMode = JsNum.finite limit → 2 * limit < fuel →
      ∃ st, (fillTestModePools m b testMode leftIndex rightIndex fuel search rng).1
        = FillOutcome.completed st) ∧
    ∀ st, (fillTestModePools m b testMode leftIndex rightIndex fuel search rng).1
        = FillOutcome.completed st →
      st.search.testModePools.left.Nodup ∧ st.search.testModePools.right.Nodup := by
  have step : ∀ (side : Side) (targetIndex : Int) (attempt : Nat) (s : TestSearch)
      (rng1 : Rng K), s.testModePools = s.testModePoolSets →
      s.testModePools.left.Nodup → s.testModePools.right.Nodup →
      (tryAddSeed m b testMode (search.testModeSearchToken + 1) side targetIndex attempt s
          rng1).1.2.testModePools
        = (tryAddSeed m b testMode (search.testModeSearchToken + 1) side targetIndex attempt s
          rng1).1.2.testModePoolSets ∧
      (tryAddSeed m b testMode (search.testModeSearchToken + 1) side targetIndex attempt s
          rng1).1.2.testModePools.left.Nodup ∧
      (tryAddSeed m b testMode (search.testModeSearchToken + 1) side targetIndex attempt s
          rng1).1.2.testModePools.right.Nodup := by
    intro side targetIndex attempt s rng1 h1 h2 h3
    rcases tryAddSeed_cases m b testMode (search.testModeSearchToken + 1) side targetIndex
      attempt s rng1 with h | h
    · rw [h]
      exact ⟨h1, h2, h3⟩
    · rw [h.2.2.2]
      obtain ⟨-, hnot, -, -⟩ := h
      rw [← h1] at hnot
      cases side
      · refine ⟨?_, ?_, h3⟩
        · show s.testModePools.push Side.left _ = s.testModePoolSets.push Side.left _
          rw [h1]
        · show (s.testModePools.left ++ [_]).Nodup
          exact List.Nodup.append h2 (List.nodup_singleton _)
            (by
              intro a ha hb
              rw [List.mem_singleton] at hb
              subst hb
              exact hnot ha)
      · refine ⟨?_, h2, ?_⟩
        · show s.testModePools.push Side.right _ = s.testModePoolSets.push Side.right _
          rw [h1]
        · show (s.testModePools.right ++ [_]).Nodup
          exact List.Nodup.append h3 (List.nodup_singleton _)
            (by
              intro a ha hb
              rw [List.mem_singleton] at hb
              subst hb
              exact hnot ha)
  constructor
  · intro limit hlimit hfuel
    exact fillLoop_ends m b testMode (search.testModeSearchToken + 1) leftIndex rightIndex
      limit hlimit fuel
      ⟨{ search with testModeSearchToken := search.testModeSearchToken + 1 }, 0, 0⟩ rng rfl
      (by simp only [Nat.sub_zero]; omega)
  · intro st hst
    have h := fillLoop_rule m b testMode (search.testModeSearchToken + 1) leftIndex rightIndex
      (fun st => st.search.testModePools = st.search.testModePoolSets ∧
        st.search.testModePools.left.Nodup ∧ st.search.testModePools.right.Nodup)
      (fun st rng1 hP _ _ _ => step Side.left leftIndex st.leftAttempts st.search rng1
        hP.1 hP.2.1 hP.2.2)
      (fun st rng1 hP _ _ _ _ => step Side.right rightIndex st.rightAttempts st.search rng1
        hP.1 hP.2.1 hP.2.2)
      fuel ⟨{ search with testModeSearchToken := search.testModeSearchToken + 1 }, 0, 0⟩ rng
      ⟨hsets, hleft, hright⟩ rfl st hst
    exact ⟨h.1.2.1, h.1.2.2⟩

end

section
variable {K : Type}

/-- A postcondition of the first computation may be used for the second. -/
theorem post_bind_of {α β : Type} (P : α → Prop) (Q : β → Prop) (x : RandM K α)
    (f : α → RandM K β) (hx : Post P x) (hf : ∀ a, P a → Post Q (f a)) : Post Q (x >>= f) := by
  constructor
  intro rng
  exact (hf (x rng).1 (hx.holds rng)).holds (x rng).2

end

section
variable {K : Type} [LinearOrderedField K] [FloorRing K] {V : Type}

/-- In test mode with targets `(leftIndex, rightIndex)`, when the pick
returns `null`, the plan of `startRound` keeps the target `leftIndex` and has
neither a generator nor a fixed time step. -/
theorem startRoundPlan_null_pick (env : GameEnv K V) (testMode : TestMode K)
    (ensureTestModeSeed : GameState K V → TestSearch) (st : GameState K V)
    (leftIndex rightIndex : Int) (henabled : testMode.enabled = true)
    (htargets : getTestModeTargets testMode (st.boxCount : Int) = some (leftIndex, rightIndex))
    (hpick : ∀ (s : GameState K V) (rng1 : Rng K),
      (pickTestModeSeed (some (leftIndex, rightIndex))
        (some (ensureTestModeSeed s).testModePools)
        (ensureTestModeSeed s).testModeLastSeed rng1).1.1 = none) :
    Post (fun res : DropPlan K × GameState K V =>
        res.1.targetIndex = leftIndex ∧ res.1.randomFn = none ∧ res.1.fixedDelta = none)
      (startRoundPlan env testMode ensureTestModeSeed st) := by
  have hbox : ((markDropStart st).boxCount : Int) = st.boxCount := rfl
  unfold startRoundPlan
  simp only [henabled, if_true, hbox, htargets]
  apply post_ite <;> intro _
  all_goals
    repeat' first
      | (apply post_bind_of (fun p : Option (Option Nat × Int) × Option Nat => p.1 = none)
         · exact ⟨fun rng1 => hpick _ rng1⟩
         · intro a ha
           rw [ha]
           apply post_pure
           exact ⟨rfl, rfl, rfl⟩)
      | (apply post_bind
         intro _)

/-- With empty pools `pickTestModeSeed` returns `null` without drawing. -/
theorem pickTestModeSeed_empty (targets : Int × Int) (testModeLastSeed : Option Nat)
    (rng : Rng K) :
    (pickTestModeSeed (some targets) (some ⟨[], []⟩) testModeLastSeed rng).1.1 = none := by
  unfold pickTestModeSeed
  by_cases h : targets.1 ≠ targets.2
  · simp [h, bind, StateT.bind, pure, StateT.pure]
  · simp [h, bind, StateT.bind, pure, StateT.pure]

/-- C21 (what the code does): in test mode with targets `(leftIndex,
rightIndex)`, when `pickTestModeSeed` returns `null`, `startRound` calls
`simulateDrop` with the steering target `leftIndex`, assigned before the pick
and not restored (the index drawn by `selectByProbability` is discarded), with
no generator (`randomFn` stays `null`: the physics draws from `Math.random`)
and with no fixed time step.  Only the random source is that of a normal
drop, the one the warning of this branch announces. -/
theorem startRound_fallback (env : GameEnv K V) (testMode : TestMode K)
    (ensureTestModeSeed : GameState K V → TestSearch) (st : GameState K V) (rng : Rng K)
    (leftIndex rightIndex : Int) (henabled : testMode.enabled = true)
    (htargets : getTestModeTargets testMode (st.boxCount : Int) = some (leftIndex, rightIndex))
    (hpick : ∀ (s : GameState K V) (rng1 : Rng K),
      (pickTestModeSeed (some (leftIndex, rightIndex))
        (some (ensureTestModeSeed s).testModePools)
        (ensureTestModeSeed s).testModeLastSeed rng1).1.1 = none) :
    (startRoundPlan env testMode ensureTestModeSeed st rng).1.1.targetIndex = leftIndex ∧
      (startRoundPlan env testMode ensureTestModeSeed st rng).1.1.randomFn = none ∧
      (startRoundPlan env testMode ensureTestModeSeed st rng).1.1.fixedDelta = none :=
  (startRoundPlan_null_pick env testMode ensureTestModeSeed st leftIndex rightIndex henabled
    htargets hpick).holds rng

end

section

/-- The targets of the 8-row board in test mode with offset `1`. -/
theorem targets_eight_rows :
    getTestModeTargets { (TEST_MODE : TestMode ℚ) with enabled := true } 9 = some (1, 7) := by
  have e : ⌊(1 : ℚ) + 2⁻¹⌋ = 1 := Int.floor_eq_iff.mpr ⟨by norm_num, by norm_num⟩
  simp [getTestModeTargets, getForcedLandingIndex, jsRound, TEST_MODE, e]

theorem startRound_fallback_witness :
    (startRoundPlan (⟨id, 8, 16, 8, fun _ => (), fun s => s.search, fun _ => (), fun _ => (),
          fun _ => ()⟩ : GameEnv ℚ Unit) { (TEST_MODE : TestMode ℚ) with enabled := true }
        (fun _ => TestSearch.initial)
        (createGame (⟨id, 8, 16, 8, fun _ => (), fun s => s.search, fun _ => (), fun _ => (),
          fun _ => ()⟩ : GameEnv ℚ Unit) (some (JsNum.finite 8)) "medium" none none none ())
        ⟨none, fun _ => 1 / 2, 0⟩).1.1.randomFn = none :=
  (startRound_fallback _ { (TEST_MODE : TestMode ℚ) with enabled := true }
    (fun _ => TestSearch.initial) _ ⟨none, fun _ => 1 / 2, 0⟩ 1 7 rfl targets_eight_rows
    (fun _ rng1 => pickTestModeSeed_empty (1, 7) none rng1)).2.1

/-- C21 (an input on which the fallback is not a normal drop): on the 8-row
medium board in test mode with empty pools and the draw `Math.random() = 1/2`,
`pickTestModeSeed` returns `null`, the index drawn by `selectByProbability`
from the current probabilities is `4`, and the steering target of the drop is
`1`, the left forced target. -/
theorem startRound_fallback_counterexample :
    (pickTestModeSeed (some (1, 7)) (some TestSearch.initial.testModePools)
        TestSearch.initial.testModeLastSeed (⟨none, fun _ => 1 / 2, 1⟩ : Rng ℚ)).1.1 = none ∧
      selectByProbability
        (createGame (⟨id, 8, 16, 8, fun _ => (), fun s => s.search, fun _ => (), fun _ => (),
          fun _ => ()⟩ : GameEnv ℚ Unit) (some (JsNum.finite 8)) "medium" none none none
          ()).probabilities (1 / 2) = 4 ∧
      (startRoundPlan (⟨id, 8, 16, 8, fun _ => (), fun s => s.search, fun _ => (), fun _ => (),
          fun _ => ()⟩ : GameEnv ℚ Unit) { (TEST_MODE : TestMode ℚ) with enabled := true }
        (fun _ => TestSearch.initial)
        (createGame (⟨id, 8, 16, 8, fun _ => (), fun s => s.search, fun _ => (), fun _ => (),
          fun _ => ()⟩ : GameEnv ℚ Unit) (some (JsNum.finite 8)) "medium" none none none ())
        ⟨none, fun _ => 1 / 2, 0⟩).1.1.targetIndex = 1 := by
  refine ⟨pickTestModeSeed_empty (1, 7) none _, ?_, ?_⟩
  · have e : (createGame (⟨id, 8, 16, 8, fun _ => (), fun s => s.search, fun _ => (),
        fun _ => (), fun _ => ()⟩ : GameEnv ℚ Unit) (some (JsNum.finite 8)) "medium" none none
        none ()).probabilities
        = [1/256, 8/256, 28/256, 56/256, 70/256, 56/256, 28/256, 8/256, 1/256] := by
      show (generateBinomialProbabilities 8 : List ℚ) = _
      norm_num [generateBinomialProbabilities, factorial, List.range, List.range.loop,
        List.range']
    rw [e]
    norm_num [selectByProbability, sumOf, selectScan]
  · exact ((startRoundPlan_null_pick _ { (TEST_MODE : TestMode ℚ) with enabled := true }
      (fun _ => TestSearch.initial) _ 1 7 rfl targets_eight_rows
      (fun _ rng1 => pickTestModeSeed_empty (1, 7) none rng1)).holds _).1

end

section
variable {K : Type} [LinearOrderedField K]

/-- The loop of `getRtpEstimate` sums the contributions of the slots. -/
theorem foldl_rtpStep (probabilities : List (Option K)) (multipliers : List (JsVal K))
    (n : Nat) :
    (List.range n).foldl
        (fun acc i => rtpStep acc ((probabilities[i]?).getD none,
          multiplierNumberOf multipliers[i]?)) ((0 : K), (0 : K))
      = (∑ i in Finset.range n, rtpWeighted probabilities multipliers i,
          ∑ i in Finset.range n, rtpMass probabilities multipliers i) := by
  induction n with
  | zero => simp
  | succ n ih =>
    rw [List.range_succ, List.foldl_append, ih, Finset.sum_range_succ, Finset.sum_range_succ]
    simp only [List.foldl_cons, List.foldl_nil]
    unfold rtpStep rtpWeighted rtpMass
    cases hp : (probabilities[n]?).getD none with
    | none => simp
    | some p =>
      cases hv : multiplierNumberOf multipliers[n]? with
      | none =>
        by_cases hneg : p < 0
        · simp [hneg]
        · simp [hneg]
      | some v =>
        by_cases hneg : p < 0
        · simp [hneg, not_le.mpr hneg]
        · simp [hneg, not_lt.mp hneg]

/-- C25: `getRtpEstimate` is the probability-weighted average multiplier: the
sum of `probabilities[i] * multipliers[i].value` over the slots whose
probability is finite and not negative and whose multiplier is finite, divided
by the sum of those probabilities; it is `null` when there are no slots or
that sum of probabilities is not positive.  On the untargeted 8-row medium
board it is `253.2 / 256`. -/
theorem getRtpEstimate_spec (probabilities : List (Option K)) (multipliers : List (JsVal K)) :
    getRtpEstimate probabilities multipliers
        = (if min probabilities.length multipliers.length = 0 ∨
              ∑ i in Finset.range (min probabilities.length multipliers.length),
                rtpMass probabilities multipliers i ≤ 0
            then none
            else some
              ((∑ i in Finset.range (min probabilities.length multipliers.length),
                  rtpWeighted probabilities multipliers i)
                / ∑ i in Finset.range (min probabilities.length multipliers.length),
                  rtpMass probabilities multipliers i)) ∧
      getRtpEstimate ((generateBinomialProbabilities 8 : List ℚ).map some)
          ((getMultipliersForRows 8 "medium" : List (MultiplierSlot ℚ)).map JsVal.slot)
        = some (253.2 / 256) := by
  constructor
  · unfold getRtpEstimate
    simp only [foldl_rtpStep]
    by_cases h0 : min probabilities.length multipliers.length = 0
    · simp [h0]
    · have h1 : ¬ min probabilities.length multipliers.length ≤ 0 := by omega
      simp only [h1, if_false, h0, false_or]
  · have e : (generateBinomialProbabilities 8 : List ℚ)
        = [1/256, 8/256, 28/256, 56/256, 70/256, 56/256, 28/256, 8/256, 1/256] := by
      norm_num [generateBinomialProbabilities, factorial, List.range, List.range.loop,
        List.range']
    have m : (getMultipliersForRows 8 "medium" : List (MultiplierSlot ℚ))
        = [⟨13, 0xff003f⟩, ⟨3, 0xff302f⟩, ⟨1.3, 0xff6020⟩, ⟨0.7, 0xff9010⟩, ⟨0.4, 0xffc000⟩,
          ⟨0.7, 0xff9010⟩, ⟨1.3, 0xff6020⟩, ⟨3, 0xff302f⟩, ⟨13, 0xff003f⟩] := by
      rfl
    rw [e, m]
    norm_num [getRtpEstimate, rtpStep, multiplierNumberOf, List.range, List.range.loop]

end

section

end

section
variable {K : Type} [LinearOrderedField K]

/-- `clamp01` returns a value of `[0, 1]`. -/
theorem clamp01_mem (value : K) : 0 ≤ clamp01 value ∧ clamp01 value ≤ 1 := by
  unfold clamp01
  exact ⟨le_max_left _ _, max_le zero_le_one (min_le_left _ _)⟩

/-- C26: for every `rowCount`, with `scale = 16 / max(1, rowCount)` and
`forceScale = min(2, max(0, scale))`: `getPhysForRows(rowCount)` leaves
`constantSpeedBaseRows` unchanged, multiplies `aimStrength`,
`centerBiasStrength`, `centerBiasJitter`, `bounceAngleJitter` and
`keepDirectionChance` by `forceScale` and every other constant by `scale`, and
then clamps `drag`, `restitution`, `wallRestitution`, `tangentialDamp` and
`keepDirectionChance` into `[0, 1]`; those five results lie in `[0, 1]`. -/
theorem getPhysForRows_spec (rowCount : K) :
    getSpeedScaleForRows rowCount = 16 / max 1 rowCount ∧
    (getPhysForRows rowCount).constantSpeedBaseRows = some 16 ∧
    (getPhysForRows rowCount).aimStrength
      = 0.20105 * min 2 (max 0 (16 / max 1 rowCount)) ∧
    (getPhysForRows rowCount).centerBiasStrength
      = some (1.0 * min 2 (max 0 (16 / max 1 rowCount))) ∧
    (getPhysForRows rowCount).centerBiasJitter
      = some (0.15 * min 2 (max 0 (16 / max 1 rowCount))) ∧
    (getPhysForRows rowCount).bounceAngleJitter
      = some (0.02 * min 2 (max 0 (16 / max 1 rowCount))) ∧
    (getPhysForRows rowCount).keepDirectionChance
      = some (clamp01 (0.15 * min 2 (max 0 (16 / max 1 rowCount)))) ∧
    (getPhysForRows rowCount).gravity = 10000 * (16 / max 1 rowCount) ∧
    (getPhysForRows rowCount).maxSpeed = some (300 * (16 / max 1 rowCount)) ∧
    (getPhysForRows rowCount).spawnSpeed = some (300 * (16 / max 1 rowCount)) ∧
    (getPhysForRows rowCount).spawnAngleJitter = some (0 * (16 / max 1 rowCount)) ∧
    (getPhysForRows rowCount).minSpeed = some (300 * (16 / max 1 rowCount)) ∧
    (getPhysForRows rowCount).constantSpeed = some (300 * (16 / max 1 rowCount)) ∧
    (getPhysForRows rowCount).collisionSlop = 0.01 * (16 / max 1 rowCount) ∧
    (getPhysForRows rowCount).impulseJitter = 8 * (16 / max 1 rowCount) ∧
    (getPhysForRows rowCount).drag = clamp01 (0.993 * (16 / max 1 rowCount)) ∧
    (getPhysForRows rowCount).restitution = clamp01 (0.18 * (16 / max 1 rowCount)) ∧
    (getPhysForRows rowCount).wallRestitution = clamp01 (0.14 * (16 / max 1 rowCount)) ∧
    (getPhysForRows rowCount).tangentialDamp = clamp01 (0.85 * (16 / max 1 rowCount)) ∧
    (0 ≤ (getPhysForRows rowCount).drag ∧ (getPhysForRows rowCount).drag ≤ 1) ∧
    (0 ≤ (getPhysForRows rowCount).restitution ∧ (getPhysForRows rowCount).restitution ≤ 1) ∧
    (0 ≤ (getPhysForRows rowCount).wallRestitution ∧
      (getPhysForRows rowCount).wallRestitution ≤ 1) ∧
    (0 ≤ (getPhysForRows rowCount).tangentialDamp ∧
      (getPhysForRows rowCount).tangentialDamp ≤ 1) ∧
    (∃ keep, (getPhysForRows rowCount).keepDirectionChance = some keep ∧ 0 ≤ keep ∧
      keep ≤ 1) := by
  have hs : getSpeedScaleForRows rowCount = 16 / max 1 rowCount := by
    unfold getSpeedScaleForRows
    simp only [PHYS, Option.getD_some]
    rw [max_eq_right (by norm_num : (1 : K) ≤ 16)]
  refine ⟨hs, ?_⟩
  unfold getPhysForRows
  rw [hs]
  refine ⟨rfl, rfl, rfl, rfl, rfl, rfl, rfl, rfl, rfl, rfl, rfl, rfl, rfl, rfl, rfl, rfl,
    rfl, rfl, clamp01_mem _, clamp01_mem _, clamp01_mem _, clamp01_mem _, ?_⟩
  exact ⟨_, rfl, clamp01_mem _⟩

end

section
variable {K : Type}

/-- Binding after a conditional is the conditional of the bindings. -/
theorem ite_bind_randM {α β : Type} (c : Prop) [Decidable c] (x y : RandM K α)
    (f : α → RandM K β) :
    (if c then x else y) >>= f = if c then x >>= f else y >>= f := by
  split <;> rfl

end

section
variable {K : Type} [LinearOrderedField K]

/-- The jitter stage followed by a continuation. -/
theorem jitterStage_bind {β : Type} (m : MathFns K) (b : Board K) (s : BallState K)
    (k : BallState K → RandM K β) :
    jitterStage m b s >>= k = (do
      let r1 ← rand
      if b.phys.bounceAngleJitter.getD 0 > 0 then
        let r2 ← rand
        k { s with
          vx := (s.vx + (r1 - 0.5) * b.phys.impulseJitter)
              * m.cos ((r2 - 0.5) * b.phys.bounceAngleJitter.getD 0 * 2)
            - s.vy * m.sin ((r2 - 0.5) * b.phys.bounceAngleJitter.getD 0 * 2)
          vy := (s.vx + (r1 - 0.5) * b.phys.impulseJitter)
              * m.sin ((r2 - 0.5) * b.phys.bounceAngleJitter.getD 0 * 2)
            + s.vy * m.cos ((r2 - 0.5) * b.phys.bounceAngleJitter.getD 0 * 2) }
      else
        k { s with vx := s.vx + (r1 - 0.5) * b.phys.impulseJitter }) := by
  unfold jitterStage
  simp only [bind_assoc, pure_bind, ite_bind_randM]

/-- The centre-bias stage followed by a continuation. -/
theorem centerBiasStage_bind {β : Type} (b : Board K) (s : BallState K)
    (k : BallState K → RandM K β) :
    centerBiasStage b s >>= k = (
      if b.phys.centerBiasStrength.getD 0 > 0 ∧ |s.vx| > 1e-4 then
        if sign (b.apexX + b.pegOffsetX - s.x) ≠ 0 then
          if min 1 (|b.apexX + b.pegOffsetX - s.x| / max 1 (b.gridWidth * 0.5)) > 0 then do
            let r5 ← rand
            k { s with
              vx := s.vx * (if decide (sign s.vx = sign (b.apexX + b.pegOffsetX - s.x)) then
                  1 + b.phys.centerBiasStrength.getD 0
                    * min 1 (|b.apexX + b.pegOffsetX - s.x| / max 1 (b.gridWidth * 0.5))
                    * (1 + (r5 - 0.5) * b.phys.centerBiasJitter.getD 0)
                else
                  1 - b.phys.centerBiasStrength.getD 0
                    * min 1 (|b.apexX + b.pegOffsetX - s.x| / max 1 (b.gridWidth * 0.5))
                    * (1 + (r5 - 0.5) * b.phys.centerBiasJitter.getD 0)) }
          else k s
        else k s
      else k s) := by
  unfold centerBiasStage
  simp only [bind_assoc, pure_bind, ite_bind_randM]

/-- The keep-direction stage followed by a continuation. -/
theorem keepDirectionStage_bind {β : Type} (b : Board K) (incomingVx : K) (s : BallState K)
    (k : BallState K → RandM K β) :
    keepDirectionStage b incomingVx s >>= k = (do
      let r3 ← rand
      if (!decide (r3 < b.phys.keepDirectionChance.getD 0)) = true then
        if sign incomingVx = 0 then do
          let r4 ← rand
          if sign s.vx = 0 ∨ sign s.vx = (if r4 < 0.5 then -1 else 1) then
            if |(-s.vx)| < 1e-4 then
              k { s with
                vx := -(if r4 < 0.5 then -1 else 1)
                  * max (max 1 |incomingVx|) b.phys.impulseJitter }
            else k { s with vx := -s.vx }
          else k s
        else
          if sign s.vx = 0 ∨ sign s.vx = sign incomingVx then
            if |(-s.vx)| < 1e-4 then
              k { s with
                vx := -sign incomingVx * max (max 1 |incomingVx|) b.phys.impulseJitter }
            else k { s with vx := -s.vx }
          else k s
      else k s) := by
  unfold keepDirectionStage
  simp only [bind_assoc, pure_bind, ite_bind_randM]

/-- The part of `resolvePegCollision` after the impulse-and-damping stage,
started from the state `s` that stage produced, is the sequence of the jitter,
keep-direction and centre-bias stages followed by the speed clamp. -/
theorem collision_tail_eq (m : MathFns K) (b : Board K) (s : BallState K) (incomingVx : K) :
    (do
      let mut state := s
      let r1 ← rand
      state := { state with vx := state.vx + (r1 - 0.5) * b.phys.impulseJitter }
      let angleJitter := b.phys.bounceAngleJitter.getD 0
      if angleJitter > 0 then
        let r2 ← rand
        let angle := (r2 - 0.5) * angleJitter * 2
        let cos := m.cos angle
        let sin := m.sin angle
        let vx := state.vx
        let vy := state.vy
        state := { state with vx := vx * cos - vy * sin }
        state := { state with vy := vx * sin + vy * cos }
      let keepChance := b.phys.keepDirectionChance.getD 0
      let r3 ← rand
      let shouldKeep : Bool := decide (r3 < keepChance)
      if !shouldKeep then
        let mut incomingSign := sign incomingVx
        if incomingSign = 0 then
          let r4 ← rand
          incomingSign := if r4 < 0.5 then -1 else 1
        let outgoingSign := sign state.vx
        if outgoingSign = 0 ∨ outgoingSign = incomingSign then
          state := { state with vx := -state.vx }
          if |state.vx| < 1e-4 then
            let nudge := max (max 1 |incomingVx|) b.phys.impulseJitter
            state := { state with vx := -incomingSign * nudge }
      let centerBiasStrength := b.phys.centerBiasStrength.getD 0
      if centerBiasStrength > 0 ∧ |state.vx| > 1e-4 then
        let toCenter := b.apexX + b.pegOffsetX - state.x
        let directionToCenter := sign toCenter
        if directionToCenter ≠ 0 then
          let maxDistance := max 1 (b.gridWidth * 0.5)
          let distanceFactor := min 1 (|toCenter| / maxDistance)
          if distanceFactor > 0 then
            let r5 ← rand
            let jitter := 1 + (r5 - 0.5) * b.phys.centerBiasJitter.getD 0
            let bias := centerBiasStrength * distanceFactor * jitter
            let movingTowardCenter : Bool := decide (sign state.vx = directionToCenter)
            state := { state with
              vx := state.vx * (if movingTowardCenter then 1 + bias else 1 - bias) }
      state := clampStateSpeed m state b.phys.maxSpeed
      return (true, state) : RandM K (Bool × BallState K))
    = (do
      let s2 ← jitterStage m b s
      let s3 ← keepDirectionStage b incomingVx s2
      let s4 ← centerBiasStage b s3
      return (true, clampStateSpeed m s4 b.phys.maxSpeed)) := by
  conv_rhs => simp only [jitterStage_bind, keepDirectionStage_bind, centerBiasStage_bind]
  rfl

/-- The state the impulse-and-damping stage produces: `vx` is recomposed
from the tangential component times `tangentialDamp` and the normal component
after the impulse `j`; `vy` is recomposed with the normal component taken of
the velocity whose `vx` has just been replaced. -/
theorem impulseAndDamp_eq (b : Board K) (s : BallState K) (nx ny pegY vDotN : K) :
    impulseAndDamp b s nx ny pegY vDotN
      = { s with
          vx := -ny * ((s.vx * -ny + s.vy * nx) * b.phys.tangentialDamp)
            + nx * ((s.vx + (if s.y > pegY then 0 else -(1 + b.phys.restitution) * vDotN) * nx)
                  * nx
                + (s.vy + (if s.y > pegY then 0 else -(1 + b.phys.restitution) * vDotN) * ny)
                  * ny)
          vy := nx * ((s.vx * -ny + s.vy * nx) * b.phys.tangentialDamp)
            + ny * ((-ny * ((s.vx * -ny + s.vy * nx) * b.phys.tangentialDamp)
                  + nx * ((s.vx
                        + (if s.y > pegY then 0 else -(1 + b.phys.restitution) * vDotN) * nx)
                      * nx
                    + (s.vy
                        + (if s.y > pegY then 0 else -(1 + b.phys.restitution) * vDotN) * ny)
                      * ny))
                  * nx
                + (s.vy + (if s.y > pegY then 0 else -(1 + b.phys.restitution) * vDotN) * ny)
                  * ny) } := by
  unfold impulseAndDamp
  by_cases hy : s.y > pegY
  · simp only [if_pos hy, Id.run, Id.pure_eq, Id.bind_eq]
  · simp only [if_neg hy, Id.run, Id.pure_eq, Id.bind_eq]

/-- The branch of `resolvePegCollision` for a ball moving into the peg,
started from the pushed-out state, is the sequence of the stages. -/
theorem collision_branch_eq (m : MathFns K) (b : Board K) (pushed : BallState K)
    (nx ny pegY vDotN : K) :
    (do
      let mut state := pushed
      let incomingVx := state.vx
      let tx := -ny
      let ty := nx
      let vDotT := state.vx * tx + state.vy * ty
      let mut j := -(1 + b.phys.restitution) * vDotN
      if state.y > pegY then
        j := 0
      state := { state with vx := state.vx + j * nx }
      state := { state with vy := state.vy + j * ny }
      state := { state with
        vx := tx * (vDotT * b.phys.tangentialDamp) + nx * (state.vx * nx + state.vy * ny) }
      state := { state with
        vy := ty * (vDotT * b.phys.tangentialDamp) + ny * (state.vx * nx + state.vy * ny) }
      let r1 ← rand
      state := { state with vx := state.vx + (r1 - 0.5) * b.phys.impulseJitter }
      let angleJitter := b.phys.bounceAngleJitter.getD 0
      if angleJitter > 0 then
        let r2 ← rand
        let angle := (r2 - 0.5) * angleJitter * 2
        let cos := m.cos angle
        let sin := m.sin angle
        let vx := state.vx
        let vy := state.vy
        state := { state with vx := vx * cos - vy * sin }
        state := { state with vy := vx * sin + vy * cos }
      let keepChance := b.phys.keepDirectionChance.getD 0
      let r3 ← rand
      let shouldKeep : Bool := decide (r3 < keepChance)
      if !shouldKeep then
        let mut incomingSign := sign incomingVx
        if incomingSign = 0 then
          let r4 ← rand
          incomingSign := if r4 < 0.5 then -1 else 1
        let outgoingSign := sign state.vx
        if outgoingSign = 0 ∨ outgoingSign = incomingSign then
          state := { state with vx := -state.vx }
          if |state.vx| < 1e-4 then
            let nudge := max (max 1 |incomingVx|) b.phys.impulseJitter
            state := { state with vx := -incomingSign * nudge }
      let centerBiasStrength := b.phys.centerBiasStrength.getD 0
      if centerBiasStrength > 0 ∧ |state.vx| > 1e-4 then
        let toCenter := b.apexX + b.pegOffsetX - state.x
        let directionToCenter := sign toCenter
        if directionToCenter ≠ 0 then
          let maxDistance := max 1 (b.gridWidth * 0.5)
          let distanceFactor := min 1 (|toCenter| / maxDistance)
          if distanceFactor > 0 then
            let r5 ← rand
            let jitter := 1 + (r5 - 0.5) * b.phys.centerBiasJitter.getD 0
            let bias := centerBiasStrength * distanceFactor * jitter
            let movingTowardCenter : Bool := decide (sign state.vx = directionToCenter)
            state := { state with
              vx := state.vx * (if movingTowardCenter then 1 + bias else 1 - bias) }
      state := clampStateSpeed m state b.phys.maxSpeed
      return (true, state) : RandM K (Bool × BallState K))
    = (do
      let s1 := impulseAndDamp b pushed nx ny pegY vDotN
      let s2 ← jitterStage m b s1
      let s3 ← keepDirectionStage b pushed.vx s2
      let s4 ← centerBiasStage b s3
      return (true, clampStateSpeed m s4 b.phys.maxSpeed)) := by
  by_cases hy : pushed.y > pegY
  · have himp : impulseAndDamp b pushed nx ny pegY vDotN = _ := if_pos hy
    rw [himp]
    refine (if_pos hy).trans ?_
    exact collision_tail_eq m b _ _
  · have himp : impulseAndDamp b pushed nx ny pegY vDotN = _ := if_neg hy
    rw [himp]
    refine (if_neg hy).trans ?_
    exact collision_tail_eq m b _ _

/-- `resolvePegCollision` is the sequence of its stages. -/
theorem resolvePegCollision_eq_stages (m : MathFns K) (b : Board K) (state : BallState K)
    (pegX pegY : K) :
    resolvePegCollision m b state pegX pegY = resolvePegCollisionStages m b state pegX pegY := by
  unfold resolvePegCollision resolvePegCollisionStages
  by_cases hc : (state.x - pegX) * (state.x - pegX) + (state.y - pegY) * (state.y - pegY) ≤ 0 ∨
      (state.x - pegX) * (state.x - pegX) + (state.y - pegY) * (state.y - pegY)
        > (b.ballRadius + b.pegRadius) * (b.ballRadius + b.pegRadius)
  · exact (if_pos hc).trans (if_pos hc).symm
  · refine (if_neg hc).trans (Eq.trans ?_ (if_neg hc).symm)
    by_cases hv : state.vx * ((state.x - pegX)
          / m.sqrt ((state.x - pegX) * (state.x - pegX) + (state.y - pegY) * (state.y - pegY)))
        + state.vy * ((state.y - pegY)
          / m.sqrt ((state.x - pegX) * (state.x - pegX) + (state.y - pegY) * (state.y - pegY)))
        < 0
    · refine (if_pos hv).trans (Eq.trans ?_ (if_pos hv).symm)
      exact collision_branch_eq m b _ _ _ _ _
    · exact (if_neg hv).trans (if_neg hv).symm

end

section
variable {K : Type} [LinearOrderedField K]

/-- C27 (the code): in the impulse-and-damping stage of `resolvePegCollision`,
with `tx = -ny`, `ty = nx`, `vDotT` the incoming tangential component, `j` the
impulse (`0` when the ball center is below the peg) and `vN` the normal
component after the impulse, the new `vx` is `tx * (vDotT * tangentialDamp) +
nx * vN`, but the new `vy` is `ty * (vDotT * tangentialDamp) + ny * w`, where
`w` is the normal component of the velocity whose `vx` is already the new one;
with `nx = 3/5`, `ny = -4/5`, incoming velocity `(0, 10)`, restitution `0.18`
and tangential damping `0.85`, the new `vy` is `2.2536`, not
`ty * (vDotT * tangentialDamp) + ny * vN = 1.908`. -/
theorem impulseAndDamp_recomposition (b : Board K) (s : BallState K) (nx ny pegY vDotN : K) :
    (impulseAndDamp b s nx ny pegY vDotN).vx
        = -ny * ((s.vx * -ny + s.vy * nx) * b.phys.tangentialDamp)
          + nx * ((s.vx + (if s.y > pegY then 0 else -(1 + b.phys.restitution) * vDotN) * nx)
              * nx
            + (s.vy + (if s.y > pegY then 0 else -(1 + b.phys.restitution) * vDotN) * ny)
              * ny) ∧
      (impulseAndDamp b s nx ny pegY vDotN).vy
        = nx * ((s.vx * -ny + s.vy * nx) * b.phys.tangentialDamp)
          + ny * ((impulseAndDamp b s nx ny pegY vDotN).vx * nx
            + (s.vy + (if s.y > pegY then 0 else -(1 + b.phys.restitution) * vDotN) * ny)
              * ny) ∧
      (impulseAndDamp (exampleBoard ℚ) ⟨3 / 5, -4 / 5, 0, 10⟩ (3 / 5) (-4 / 5) 0 (-8)).vy
        = 2.2536 ∧
      (3 / 5 : ℚ) * (((0 : ℚ) * -(-4 / 5) + 10 * (3 / 5)) * 0.85)
          + (-4 / 5) * ((0 + -(1 + 0.18) * -8 * (3 / 5)) * (3 / 5)
            + (10 + -(1 + 0.18) * -8 * (-4 / 5)) * (-4 / 5))
        = 1.908 := by
  have h := impulseAndDamp_eq b s nx ny pegY vDotN
  refine ⟨?_, ?_, ?_, by norm_num⟩
  · rw [h]
  · rw [h]
  · rw [impulseAndDamp_eq]
    norm_num [exampleBoard]

/-- The multiplier the centre-bias stage applies to `vx` increases the
component of `vx` toward the centre. -/
theorem centerBias_toward (vx d bias : K) (hd : d = 1 ∨ d = -1) (hbias : 0 < bias)
    (hvx : vx ≠ 0) :
    vx * d < vx * (if decide (sign vx = d) then 1 + bias else 1 - bias) * d := by
  unfold sign
  rcases lt_or_gt_of_ne hvx with hneg | hpos
  · have h1 : ¬ vx > 0 := not_lt.mpr (le_of_lt hneg)
    rcases hd with hd | hd
    · subst hd
      have : ¬ ((-1 : K) = 1) := by norm_num
      simp only [h1, hneg, if_true, if_false, this, decide_False, Bool.false_eq_true]
      nlinarith
    · subst hd
      simp only [h1, hneg, if_true, if_false, decide_True]
      nlinarith
  · have h1 : vx > 0 := hpos
    rcases hd with hd | hd
    · subst hd
      simp only [h1, if_true, decide_True]
      nlinarith
    · subst hd
      have : ¬ ((1 : K) = -1) := by norm_num
      simp only [h1, if_true, this, decide_False, Bool.false_eq_true, if_false]
      nlinarith

/-- The sign of a number that is not zero is `1` or `-1`. -/
theorem sign_of_ne_zero (x : K) (h : x ≠ 0) : sign x = 1 ∨ sign x = -1 := by
  unfold sign
  rcases lt_or_gt_of_ne h with hneg | hpos
  · right
    rw [if_neg (not_lt.mpr (le_of_lt hneg)), if_pos hneg]
  · left
    rw [if_pos hpos]

/-- C28: in the centre-bias stage of `resolvePegCollision`, for
`centerBiasStrength > 0`, `0 ≤ centerBiasJitter < 2`, a draw in `[0, 1)` and a
ball that is horizontally off-centre with `|vx| > 1e-4`, the stage changes
only `vx`, and the component of `vx` toward the centre `apexX + pegOffsetX`
(`vx` times the direction `Math.sign(toCenter)`) increases: a ball moving
toward the centre is sped up, a ball moving away is slowed or turned back. -/
theorem centerBiasStage_toward_center (b : Board K) (s : BallState K) (rng : Rng K)
    (strength jitter : K) (hs : b.phys.centerBiasStrength = some strength)
    (hj : b.phys.centerBiasJitter = some jitter) (hstrength : 0 < strength)
    (hjitter : 0 ≤ jitter ∧ jitter < 2)
    (hdraw : 0 ≤ (rand rng : K × Rng K).1 ∧ (rand rng : K × Rng K).1 < 1)
    (hoff : b.apexX + b.pegOffsetX - s.x ≠ 0) (hvx : |s.vx| > 1e-4) :
    (centerBiasStage b s rng).1.x = s.x ∧ (centerBiasStage b s rng).1.y = s.y ∧
      (centerBiasStage b s rng).1.vy = s.vy ∧
      s.vx * sign (b.apexX + b.pegOffsetX - s.x)
        < (centerBiasStage b s rng).1.vx * sign (b.apexX + b.pegOffsetX - s.x) ∧
      (sign s.vx = sign (b.apexX + b.pegOffsetX - s.x) →
        |s.vx| < |(centerBiasStage b s rng).1.vx|) := by
  have hd := sign_of_ne_zero _ hoff
  have hdne : sign (b.apexX + b.pegOffsetX - s.x) ≠ 0 := by
    rcases hd with h | h <;> rw [h] <;> norm_num
  have hmax : (0 : K) < max 1 (b.gridWidth * 0.5) := lt_of_lt_of_le zero_lt_one (le_max_left _ _)
  have hdf : min 1 (|b.apexX + b.pegOffsetX - s.x| / max 1 (b.gridWidth * 0.5)) > 0 :=
    lt_min zero_lt_one (div_pos (abs_pos.mpr hoff) hmax)
  have hjit : 0 < 1 + ((rand rng : K × Rng K).1 - 0.5) * jitter := by
    have h1 : (-(1 : K) / 2) ≤ (rand rng : K × Rng K).1 - 0.5 := by
      have := hdraw.1
      norm_num
      linarith
    nlinarith [hjitter.1, hjitter.2, hdraw.1, hdraw.2]
  have hbias : 0 < strength
      * min 1 (|b.apexX + b.pegOffsetX - s.x| / max 1 (b.gridWidth * 0.5))
      * (1 + ((rand rng : K × Rng K).1 - 0.5) * jitter) :=
    mul_pos (mul_pos hstrength hdf) hjit
  have hvx0 : s.vx ≠ 0 := by
    intro h
    rw [h, abs_zero] at hvx
    norm_num at hvx
  have hc1 : strength > 0 ∧ |s.vx| > 1e-4 := ⟨hstrength, hvx⟩
  have hres : centerBiasStage b s rng
      = ({ s with
          vx := s.vx * (if decide (sign s.vx = sign (b.apexX + b.pegOffsetX - s.x)) then
              1 + strength
                * min 1 (|b.apexX + b.pegOffsetX - s.x| / max 1 (b.gridWidth * 0.5))
                * (1 + ((rand rng : K × Rng K).1 - 0.5) * jitter)
            else
              1 - strength
                * min 1 (|b.apexX + b.pegOffsetX - s.x| / max 1 (b.gridWidth * 0.5))
                * (1 + ((rand rng : K × Rng K).1 - 0.5) * jitter)) },
        (rand rng : K × Rng K).2) := by
    unfold centerBiasStage
    simp only [hs, hj, Option.getD_some, if_pos hc1, if_pos hdne, if_pos hdf, bind,
      StateT.bind, pure, StateT.pure, Id.pure_eq, Id.bind_eq]
    rfl
  rw [hres]
  refine ⟨rfl, rfl, rfl, ?_, ?_⟩
  · exact centerBias_toward s.vx _ _ hd hbias hvx0
  · intro hsame
    show |s.vx| < |s.vx * _|
    rw [hsame]
    simp only [decide_True, if_true]
    rw [abs_mul]
    have hpos : 0 < |s.vx| := abs_pos.mpr hvx0
    have h1 : 1 < |1 + strength
        * min 1 (|b.apexX + b.pegOffsetX - s.x| / max 1 (b.gridWidth * 0.5))
        * (1 + ((rand rng : K × Rng K).1 - 0.5) * jitter)| := by
      rw [abs_of_pos (by linarith)]
      linarith
    nlinarith

theorem centerBiasStage_toward_center_witness :
    (1 : ℚ) * sign ((exampleBoard ℚ).apexX + (exampleBoard ℚ).pegOffsetX - 0)
      < (centerBiasStage (exampleBoard ℚ) ⟨0, 0, 1, 0⟩ ⟨none, fun _ => 0, 0⟩).1.vx
        * sign ((exampleBoard ℚ).apexX + (exampleBoard ℚ).pegOffsetX - 0) :=
  (centerBiasStage_toward_center (exampleBoard ℚ) ⟨0, 0, 1, 0⟩ ⟨none, fun _ => 0, 0⟩ 1 0.15
    rfl rfl (by norm_num) (by norm_num) (by norm_num [rand]) (by norm_num [exampleBoard])
    (by norm_num)).2.2.2.1

/-- The centre-bias constants of every `getPhysForRows(rowCount)`:
`centerBiasStrength > 0` and `0 ≤ centerBiasJitter < 2`. -/
theorem getPhysForRows_centerBias (rowCount : K) :
    ∃ strength jitter, (getPhysForRows rowCount).centerBiasStrength = some strength ∧
      (getPhysForRows rowCount).centerBiasJitter = some jitter ∧ 0 < strength ∧
      0 ≤ jitter ∧ jitter < 2 := by
  have hscale : 0 < getSpeedScaleForRows rowCount := by
    unfold getSpeedScaleForRows
    exact div_pos (lt_of_lt_of_le zero_lt_one (le_max_left _ _))
      (lt_of_lt_of_le zero_lt_one (le_max_left _ _))
  have hf : 0 < min 2 (max 0 (getSpeedScaleForRows rowCount)) :=
    lt_min (by norm_num) (lt_of_lt_of_le hscale (le_max_right _ _))
  have hf2 : min 2 (max 0 (getSpeedScaleForRows rowCount)) ≤ 2 := min_le_left _ _
  refine ⟨1.0 * min 2 (max 0 (getSpeedScaleForRows rowCount)),
    0.15 * min 2 (max 0 (getSpeedScaleForRows rowCount)), rfl, rfl, ?_, ?_, ?_⟩
  · have : (0 : K) < 1.0 := by norm_num
    exact mul_pos this hf
  · have : (0 : K) ≤ 0.15 := by norm_num
    exact mul_nonneg this (le_of_lt hf)
  · have : (0.15 : K) * min 2 (max 0 (getSpeedScaleForRows rowCount)) ≤ 0.15 * 2 :=
      mul_le_mul_of_nonneg_left hf2 (by norm_num)
    have h2 : (0.15 : K) * 2 < 2 := by norm_num
    linarith

end

section LayoutPassFacts

/-- C30 (the code): in a container `400` pixels wide with `8` rows the layout
pass creates only `7` of the `boxCount = 9` boxes.  The minimum box width
`160 / (boxCount - 1) * 2 = 40` makes the row `400` wide while the base is
`317.76` wide, so slots `0` and `8` fail the bounds checks and are skipped.
`boxGraphics[0]` is then the box drawn at the position of slot `1`, and
`getClosestBoxIndexByX` at the centre of that box returns `0`, not `1`; the
last box of the array has index `6` although it is drawn for slot `7`.  In a
container `1000` pixels wide all `9` boxes are created. -/
theorem createBoxes_skips_boxes :
    (createBoxes (calculateLayout (400 : ℚ) 600 8) 8 9).boxWidth = 40 ∧
      (calculateLayout (400 : ℚ) 600 8).baseLeft = 331 / 50 ∧
      (calculateLayout (400 : ℚ) 600 8).baseRight = 16219 / 50 ∧
      ((createBoxes (calculateLayout (400 : ℚ) 600 8) 8 9).boxGraphics.map fun box => box.x)
        = [21 / 2, 111 / 2, 201 / 2, 291 / 2, 381 / 2, 471 / 2, 561 / 2] ∧
      (createBoxes (calculateLayout (400 : ℚ) 600 8) 8 9).boxGraphics.length = 7 ∧
      getClosestBoxIndexByX (createBoxes (calculateLayout (400 : ℚ) 600 8) 8 9).boxGraphics
        (createBoxes (calculateLayout (400 : ℚ) 600 8) 8 9).boxWidth (21 / 2 + 40 / 2) = 0 ∧
      getClosestBoxIndexByX (createBoxes (calculateLayout (400 : ℚ) 600 8) 8 9).boxGraphics
        (createBoxes (calculateLayout (400 : ℚ) 600 8) 8 9).boxWidth (561 / 2 + 40 / 2) = 6 ∧
      (createBoxes (calculateLayout (1000 : ℚ) 600 8) 8 9).boxGraphics.length = 9 := by
  have hrow : createBoxes (calculateLayout (400 : ℚ) 600 8) 8 9
      = ⟨[⟨21 / 2, 690119 / 1500⟩, ⟨111 / 2, 690119 / 1500⟩, ⟨201 / 2, 690119 / 1500⟩, ⟨291 / 2, 690119 / 1500⟩, ⟨381 / 2, 690119 / 1500⟩,
          ⟨471 / 2, 690119 / 1500⟩, ⟨561 / 2, 690119 / 1500⟩], 40, 40⟩ := by
    norm_num [createBoxes, calculateLayout, getBoxRowWidthScaleForRows, getPegOffsetXForRows,
      List.range, List.range.loop, List.filterMap]
  rw [hrow]
  refine ⟨rfl, ?_, ?_, rfl, rfl, ?_, ?_, ?_⟩
  · norm_num [calculateLayout]
  · norm_num [calculateLayout]
  · norm_num [getClosestBoxIndexByX, closestScan, abs_of_nonneg, abs_of_nonpos]
  · norm_num [getClosestBoxIndexByX, closestScan, abs_of_nonneg, abs_of_nonpos]
  · norm_num [createBoxes, calculateLayout, getBoxRowWidthScaleForRows, getPegOffsetXForRows,
      List.range, List.range.loop, List.filterMap]

end LayoutPassFacts

/-! ## Overflow in the probability engine -/

section OverflowFacts

theorem MAX_VALUE_bounds : (1.7e308 : ℝ) < MAX_VALUE ∧ (MAX_VALUE : ℝ) < 1.8e308 := by
  unfold MAX_VALUE
  constructor <;> norm_num

theorem ofExact_finite (x : ℝ) (h1 : -1.7e308 ≤ x) (h2 : x ≤ 1.7e308) :
    JsNum.ofExact x = JsNum.finite x := by
  have hM := MAX_VALUE_bounds.1
  unfold JsNum.ofExact
  rw [if_neg (by linarith), if_neg (by linarith)]

theorem ofExact_posInf (x : ℝ) (h : 1.8e308 ≤ x) : JsNum.ofExact x = JsNum.posInf := by
  have hM := MAX_VALUE_bounds.2
  unfold JsNum.ofExact
  rw [if_pos (by linarith)]

theorem exp_le_243 (x : ℝ) (h : x ≤ 5) : Real.exp x ≤ 243 := by
  have h1 : Real.exp x ≤ Real.exp 5 := Real.exp_le_exp.mpr h
  have h2 : Real.exp 5 = Real.exp 1 ^ 5 := by
    rw [← Real.exp_nat_mul]
    norm_num
  have h3 := Real.exp_one_lt_d9
  have h4 : Real.exp 1 ^ 5 ≤ 3 ^ 5 :=
    pow_le_pow_left₀ (Real.exp_pos 1).le (by linarith) 5
  rw [h2] at h1
  norm_num at h4
  linarith

end OverflowFacts

section OverflowOps

theorem add_fin (a b : ℝ) (h1 : -1.7e308 ≤ a + b) (h2 : a + b ≤ 1.7e308) :
    JsNum.add JsNum.ofExact (JsNum.finite a) (JsNum.finite b) = JsNum.finite (a + b) :=
  ofExact_finite _ h1 h2

theorem sub_fin (a b : ℝ) (h1 : -1.7e308 ≤ a - b) (h2 : a - b ≤ 1.7e308) :
    JsNum.sub JsNum.ofExact (JsNum.finite a) (JsNum.finite b) = JsNum.finite (a - b) :=
  ofExact_finite _ h1 h2

theorem mul_fin (a b : ℝ) (h1 : -1.7e308 ≤ a * b) (h2 : a * b ≤ 1.7e308) :
    JsNum.mul JsNum.ofExact (JsNum.finite a) (JsNum.finite b) = JsNum.finite (a * b) :=
  ofExact_finite _ h1 h2

theorem div_fin (a b : ℝ) (hb : b ≠ 0) (h1 : -1.7e308 ≤ a / b) (h2 : a / b ≤ 1.7e308) :
    JsNum.div JsNum.ofExact (JsNum.finite a) (JsNum.finite b) = JsNum.finite (a / b) := by
  show (if b = 0 then _ else JsNum.ofExact (a / b)) = _
  rw [if_neg hb]
  exact ofExact_finite _ h1 h2

theorem exp_fin (x : ℝ) (h : x ≤ 5) :
    Js.mathExp (JsNum.expExact Real.exp) (JsNum.finite x) = JsNum.finite (Real.exp x) := by
  show JsNum.ofExact (Real.exp x) = _
  have := exp_le_243 x h
  have := Real.exp_pos x
  exact ofExact_finite _ (by linarith) (by linarith)

/-- The two weights `buildWeightedProbabilities` computes for the base
`[a0, 1]` and the values `[0, 2]`, before they are normalised. -/
theorem weights_two (a0 b : ℝ) (ha : 0 ≤ a0) (hb1 : -9 ≤ b) (hb2 : b ≤ 9) :
    Js.buildWeightedProbabilities JsNum.ofExact (JsNum.expExact Real.exp)
        [JsNum.finite a0, JsNum.finite 1] [0, 2] b
      = Js.normalizeProbabilities JsNum.ofExact
          [JsNum.ofExact (a0 * Real.exp (-b / 2)), JsNum.finite (Real.exp (b / 2))] := by
  have hrange : JsNum.sub JsNum.ofExact (JsNum.finite (2 : ℝ)) (JsNum.finite 0)
      = JsNum.finite 2 := by
    rw [sub_fin _ _ (by norm_num) (by norm_num)]
    norm_num
  have w0 : Js.weightOf JsNum.ofExact (JsNum.expExact Real.exp) 0 (JsNum.finite 2) b
      (JsNum.finite a0) 0 = JsNum.ofExact (a0 * Real.exp (-b / 2)) := by
    unfold Js.weightOf
    simp only [JsNum.isFinite, JsNum.lt, Bool.not_true, Bool.false_or, decide_eq_true_eq]
    rw [if_neg (not_lt.mpr ha)]
    rw [sub_fin _ _ (by norm_num) (by norm_num), div_fin _ _ (by norm_num) (by norm_num)
      (by norm_num), sub_fin _ _ (by norm_num) (by norm_num),
      mul_fin _ _ (by norm_num; linarith) (by norm_num; linarith),
      exp_fin _ (by norm_num; linarith)]
    show JsNum.ofExact _ = _
    congr 3
    ring
  have w1 : Js.weightOf JsNum.ofExact (JsNum.expExact Real.exp) 0 (JsNum.finite 2) b
      (JsNum.finite 1) 2 = JsNum.finite (Real.exp (b / 2)) := by
    unfold Js.weightOf
    simp only [JsNum.isFinite, JsNum.lt, Bool.not_true, Bool.false_or, decide_eq_true_eq]
    rw [if_neg (by norm_num)]
    rw [sub_fin _ _ (by norm_num) (by norm_num), div_fin _ _ (by norm_num) (by norm_num)
      (by norm_num), sub_fin _ _ (by norm_num) (by norm_num),
      mul_fin _ _ (by norm_num; linarith) (by norm_num; linarith),
      exp_fin _ (by norm_num; linarith)]
    have hx : Real.exp (b * ((2 - 0) / 2 - 0.5)) = Real.exp (b / 2) := by
      congr 1
      ring
    rw [hx]
    have := exp_le_243 (b / 2) (by linarith)
    have := Real.exp_pos (b / 2)
    rw [mul_fin _ _ (by linarith) (by linarith), one_mul]
  have hmin : minOf ([0, 2] : List ℝ) = some 0 := by norm_num [minOf]
  have hmax : maxOf ([0, 2] : List ℝ) = some 2 := by norm_num [maxOf]
  unfold Js.buildWeightedProbabilities
  simp only [List.length_cons, List.length_nil, Nat.reduceAdd, min_self, Nat.reduceLeDiff,
    if_false, List.take_succ_cons, List.take_zero, hmin, hmax]
  rw [if_neg (by norm_num), hrange]
  simp only [List.range, List.range.loop, List.map_cons, List.map_nil, List.getD_cons_zero,
    List.getD_cons_succ]
  rw [w0, w1]

end OverflowOps

section OverflowChance

theorem ofExact_of_le (x : ℝ) (h1 : 0 ≤ x) (h2 : x ≤ MAX_VALUE) :
    JsNum.ofExact x = JsNum.finite x := by
  have hM := MAX_VALUE_bounds.1
  unfold JsNum.ofExact
  rw [if_neg (not_lt.mpr h2), if_neg (by linarith)]

theorem ofExact_of_gt (x : ℝ) (h : MAX_VALUE < x) : JsNum.ofExact x = JsNum.posInf := by
  unfold JsNum.ofExact
  rw [if_pos h]

/-- The win chance (threshold `1`, values `[0, 2]`) of a pair of weights whose
first one has overflowed: the overflowed slot is left out, the chance is `1`. -/
theorem chance_first_overflow (x1 : ℝ) (h1 : 0 < x1) (h2 : x1 ≤ MAX_VALUE) :
    Js.getWinChanceFromValues JsNum.ofExact
        (Js.normalizeProbabilities JsNum.ofExact [JsNum.posInf, JsNum.finite x1]) [0, 2] (some 1)
      = some (JsNum.finite 1) := by
  have hs : Js.sumOf JsNum.ofExact [JsNum.posInf, JsNum.finite x1] = JsNum.posInf := by
    simp only [Js.sumOf, List.foldl_cons, List.foldl_nil, JsNum.add]
  have hn : Js.normalizeProbabilities JsNum.ofExact [JsNum.posInf, JsNum.finite x1]
      = [JsNum.posInf, JsNum.finite x1] := by
    unfold Js.normalizeProbabilities
    simp only [hs, JsNum.isFinite, Bool.not_false, Bool.true_or, if_true]
  have ha : JsNum.add JsNum.ofExact (JsNum.finite 0) (JsNum.finite x1) = JsNum.finite x1 := by
    show JsNum.ofExact (0 + x1) = _
    rw [zero_add]
    exact ofExact_of_le x1 h1.le h2
  have hd : JsNum.div JsNum.ofExact (JsNum.finite x1) (JsNum.finite x1) = JsNum.finite 1 := by
    show (if x1 = 0 then _ else JsNum.ofExact (x1 / x1)) = _
    rw [if_neg (ne_of_gt h1), div_self (ne_of_gt h1)]
    exact ofExact_finite 1 (by norm_num) (by norm_num)
  rw [hn]
  unfold Js.getWinChanceFromValues
  simp only [List.zip_cons_cons, List.zip_nil_right, List.foldl_cons, List.foldl_nil, Js.winStep,
    JsNum.isFinite, JsNum.lt, Bool.not_false, Bool.true_or, if_true, Bool.not_true, Bool.false_or,
    decide_eq_true_eq, Option.getD_some, if_neg (not_lt.mpr h1.le), ha,
    if_pos (show (2 : ℝ) ≥ 1 by norm_num), JsNum.le, if_neg (not_le.mpr h1), hd]

/-- The win chance of a pair of finite weights whose sum has overflowed: the
weights are not normalised, `totalProbability` is `Infinity`, the chance `0`. -/
theorem chance_sum_overflow (x0 x1 : ℝ) (h0 : 0 ≤ x0) (h0' : x0 ≤ MAX_VALUE) (h1 : 0 < x1)
    (h2 : x1 ≤ MAX_VALUE) (hs : MAX_VALUE < x0 + x1) :
    Js.getWinChanceFromValues JsNum.ofExact
        (Js.normalizeProbabilities JsNum.ofExact [JsNum.finite x0, JsNum.finite x1]) [0, 2]
        (some 1)
      = some (JsNum.finite 0) := by
  have ha0 : JsNum.add JsNum.ofExact (JsNum.finite 0) (JsNum.finite x0) = JsNum.finite x0 := by
    show JsNum.ofExact (0 + x0) = _
    rw [zero_add]
    exact ofExact_of_le x0 h0 h0'
  have ha1 : JsNum.add JsNum.ofExact (JsNum.finite 0) (JsNum.finite x1) = JsNum.finite x1 := by
    show JsNum.ofExact (0 + x1) = _
    rw [zero_add]
    exact ofExact_of_le x1 h1.le h2
  have ha : JsNum.add JsNum.ofExact (JsNum.finite x0) (JsNum.finite x1) = JsNum.posInf :=
    ofExact_of_gt _ hs
  have hsum : Js.sumOf JsNum.ofExact [JsNum.finite x0, JsNum.finite x1] = JsNum.posInf := by
    simp only [Js.sumOf, List.foldl_cons, List.foldl_nil, ha0, ha]
  have hn : Js.normalizeProbabilities JsNum.ofExact [JsNum.finite x0, JsNum.finite x1]
      = [JsNum.finite x0, JsNum.finite x1] := by
    unfold Js.normalizeProbabilities
    simp only [hsum, JsNum.isFinite, Bool.not_false, Bool.true_or, if_true]
  rw [hn]
  unfold Js.getWinChanceFromValues
  simp only [List.zip_cons_cons, List.zip_nil_right, List.foldl_cons, List.foldl_nil, Js.winStep,
    JsNum.isFinite, JsNum.lt, Bool.not_true, Bool.false_or, decide_eq_true_eq, Option.getD_some,
    if_neg (not_lt.mpr h0), if_neg (not_lt.mpr h1.le), ha0, ha1, ha,
    if_neg (show ¬ (0 : ℝ) ≥ 1 by norm_num), if_pos (show (2 : ℝ) ≥ 1 by norm_num), JsNum.le,
    Bool.false_eq_true, if_false, JsNum.div]

/-- The win chance of a pair of weights that are normalised: the share of the
second weight. -/
theorem chance_no_overflow (x0 x1 : ℝ) (h0 : 0 ≤ x0) (h1 : 0 < x1)
    (hs : x0 + x1 ≤ MAX_VALUE) :
    Js.getWinChanceFromValues JsNum.ofExact
        (Js.normalizeProbabilities JsNum.ofExact [JsNum.finite x0, JsNum.finite x1]) [0, 2]
        (some 1)
      = some (JsNum.finite (x1 / (x0 + x1))) := by
  have hS : 0 < x0 + x1 := by linarith
  have ha0 : JsNum.add JsNum.ofExact (JsNum.finite 0) (JsNum.finite x0) = JsNum.finite x0 := by
    show JsNum.ofExact (0 + x0) = _
    rw [zero_add]
    exact ofExact_of_le x0 h0 (by linarith)
  have ha : JsNum.add JsNum.ofExact (JsNum.finite x0) (JsNum.finite x1)
      = JsNum.finite (x0 + x1) :=
    ofExact_of_le _ hS.le hs
  have hsum : Js.sumOf JsNum.ofExact [JsNum.finite x0, JsNum.finite x1]
      = JsNum.finite (x0 + x1) := by
    simp only [Js.sumOf, List.foldl_cons, List.foldl_nil, ha0, ha]
  have hp0 : 0 ≤ x0 / (x0 + x1) := div_nonneg h0 hS.le
  have hp1 : 0 < x1 / (x0 + x1) := div_pos h1 hS
  have hp0' : x0 / (x0 + x1) ≤ 1 := (div_le_one hS).mpr (by linarith)
  have hp1' : x1 / (x0 + x1) ≤ 1 := (div_le_one hS).mpr (by linarith)
  have hd0 : JsNum.div JsNum.ofExact (JsNum.finite x0) (JsNum.finite (x0 + x1))
      = JsNum.finite (x0 / (x0 + x1)) :=
    div_fin _ _ (ne_of_gt hS) (by linarith) (by linarith)
  have hd1 : JsNum.div JsNum.ofExact (JsNum.finite x1) (JsNum.finite (x0 + x1))
      = JsNum.finite (x1 / (x0 + x1)) :=
    div_fin _ _ (ne_of_gt hS) (by linarith) (by linarith)
  have hn : Js.normalizeProbabilities JsNum.ofExact [JsNum.finite x0, JsNum.finite x1]
      = [JsNum.finite (x0 / (x0 + x1)), JsNum.finite (x1 / (x0 + x1))] := by
    unfold Js.normalizeProbabilities
    simp only [hsum, JsNum.isFinite, Bool.not_true, Bool.false_or, JsNum.le, decide_eq_true_eq,
      if_neg (not_le.mpr hS), List.map_cons, List.map_nil, hd0, hd1]
  have hone : x0 / (x0 + x1) + x1 / (x0 + x1) = 1 := by
    rw [← add_div, div_self (ne_of_gt hS)]
  have hb0 : JsNum.add JsNum.ofExact (JsNum.finite 0) (JsNum.finite (x0 / (x0 + x1)))
      = JsNum.finite (x0 / (x0 + x1)) := by
    rw [add_fin _ _ (by linarith) (by linarith), zero_add]
  have hb1 : JsNum.add JsNum.ofExact (JsNum.finite 0) (JsNum.finite (x1 / (x0 + x1)))
      = JsNum.finite (x1 / (x0 + x1)) := by
    rw [add_fin _ _ (by linarith) (by linarith), zero_add]
  have hb : JsNum.add JsNum.ofExact (JsNum.finite (x0 / (x0 + x1)))
      (JsNum.finite (x1 / (x0 + x1))) = JsNum.finite 1 := by
    rw [add_fin _ _ (by linarith) (by linarith), hone]
  have hq : JsNum.div JsNum.ofExact (JsNum.finite (x1 / (x0 + x1))) (JsNum.finite 1)
      = JsNum.finite (x1 / (x0 + x1)) := by
    rw [div_fin _ _ (by norm_num) (by rw [div_one]; linarith) (by rw [div_one]; linarith),
      div_one]
  rw [hn]
  unfold Js.getWinChanceFromValues
  simp only [List.zip_cons_cons, List.zip_nil_right, List.foldl_cons, List.foldl_nil, Js.winStep,
    JsNum.isFinite, JsNum.lt, Bool.not_true, Bool.false_or, decide_eq_true_eq, Option.getD_some,
    if_neg (not_lt.mpr hp0), if_neg (not_lt.mpr hp1.le), hb0, hb1, hb,
    if_neg (show ¬ (0 : ℝ) ≥ 1 by norm_num), if_pos (show (2 : ℝ) ≥ 1 by norm_num), JsNum.le,
    if_neg (show ¬ (1 : ℝ) ≤ 0 by norm_num), hq]

end OverflowChance

section OverflowClaims

/-- The win chance at bias `b` for the base `[1e308, 1]`, the values `[0, 2]`
and the threshold `1`: it is `1` when the first weight `1e308 * exp(-b/2)`
overflows, and below `1/2` otherwise. -/
theorem winChanceAt_overflow_cases (b : ℝ) (hb1 : -9 ≤ b) (hb2 : b ≤ 8) :
    (MAX_VALUE < 1e308 * Real.exp (-b / 2) →
      Js.winChanceAt JsNum.ofExact (JsNum.expExact Real.exp) [JsNum.finite 1e308, JsNum.finite 1]
        [0, 2] (some 1) b = some (JsNum.finite 1)) ∧
    (1e308 * Real.exp (-b / 2) ≤ MAX_VALUE →
      ∃ c, Js.winChanceAt JsNum.ofExact (JsNum.expExact Real.exp)
          [JsNum.finite 1e308, JsNum.finite 1] [0, 2] (some 1) b = some (JsNum.finite c) ∧
        0 ≤ c ∧ c < 1 / 2) := by
  have hM := MAX_VALUE_bounds.1
  have hx1 : 0 < Real.exp (b / 2) := Real.exp_pos _
  have hx1' : Real.exp (b / 2) ≤ 243 := exp_le_243 _ (by linarith)
  have hx0 : 0 < 1e308 * Real.exp (-b / 2) := mul_pos (by norm_num) (Real.exp_pos _)
  have hw := weights_two 1e308 b (by norm_num) hb1 (by linarith)
  unfold Js.winChanceAt
  rw [hw]
  constructor
  · intro h
    rw [ofExact_of_gt _ h]
    exact chance_first_overflow _ hx1 (by linarith)
  · intro h
    rw [ofExact_of_le _ hx0.le h]
    by_cases hs : MAX_VALUE < 1e308 * Real.exp (-b / 2) + Real.exp (b / 2)
    · exact ⟨0, chance_sum_overflow _ _ hx0.le h hx1 (by linarith) hs, le_rfl, by norm_num⟩
    · refine ⟨_, chance_no_overflow _ _ hx0.le hx1 (not_lt.mp hs),
        div_nonneg hx1.le (by linarith), ?_⟩
      have h4 : Real.exp (b / 2) * Real.exp (-b / 2) = 1 := by
        rw [← Real.exp_add]
        have : b / 2 + -b / 2 = 0 := by ring
        rw [this, Real.exp_zero]
      have hlow : (1 : ℝ) / 243 ≤ Real.exp (-b / 2) := by
        rw [div_le_iff₀ (by norm_num)]
        nlinarith [Real.exp_pos (-b / 2)]
      rw [div_lt_iff₀ (by linarith)]
      nlinarith

/-- The two endpoint distributions for the base `[1e308, 1]`, the values
`[0, 2]` and the threshold `1`: at bias `-8` the first weight `1e308 * exp(4)`
overflows, the weights are returned as they are and the win chance is `1`; at
bias `8` nothing overflows and the win chance is below `1/2`. -/
theorem overflow_endpoint_chances :
    Js.buildWeightedProbabilities JsNum.ofExact (JsNum.expExact Real.exp)
        [JsNum.finite 1e308, JsNum.finite 1] [0, 2] (-8)
      = [JsNum.posInf, JsNum.finite (Real.exp (-4))] ∧
    Js.getWinChanceFromValues JsNum.ofExact
        (Js.buildWeightedProbabilities JsNum.ofExact (JsNum.expExact Real.exp)
          [JsNum.finite 1e308, JsNum.finite 1] [0, 2] (-8)) [0, 2] (some 1)
      = some (JsNum.finite 1) ∧
    ∃ c, Js.getWinChanceFromValues JsNum.ofExact
        (Js.buildWeightedProbabilities JsNum.ofExact (JsNum.expExact Real.exp)
          [JsNum.finite 1e308, JsNum.finite 1] [0, 2] 8) [0, 2] (some 1)
      = some (JsNum.finite c) ∧ 0 ≤ c ∧ c < 1 / 2 := by
  have hM := MAX_VALUE_bounds
  have he4 : (5 : ℝ) ≤ Real.exp 4 := by
    have := Real.add_one_le_exp (4 : ℝ)
    linarith
  have hover : MAX_VALUE < 1e308 * Real.exp (-(-8) / 2) := by
    have : (-(-8 : ℝ) / 2) = 4 := by norm_num
    rw [this]
    nlinarith [hM.2]
  have hunder : 1e308 * Real.exp (-8 / 2) ≤ (MAX_VALUE : ℝ) := by
    have h1 : Real.exp (-8 / 2) ≤ 1 := Real.exp_le_one_iff.mpr (by norm_num)
    nlinarith [hM.1]
  refine ⟨?_, (winChanceAt_overflow_cases (-8) (by norm_num) (by norm_num)).1 hover,
    (winChanceAt_overflow_cases 8 (by norm_num) (by norm_num)).2 hunder⟩
  rw [weights_two 1e308 (-8) (by norm_num) (by norm_num) (by norm_num), ofExact_of_gt _ hover]
  have hs : Js.sumOf JsNum.ofExact [JsNum.posInf, JsNum.finite (Real.exp (-8 / 2))]
      = JsNum.posInf := by
    simp only [Js.sumOf, List.foldl_cons, List.foldl_nil, JsNum.add]
  unfold Js.normalizeProbabilities
  simp only [hs, JsNum.isFinite, Bool.not_false, Bool.true_or, if_true]
  norm_num

/-- C7 (the code): with the base weights `[1e308, 1]` (non-negative, positive
sum), the values `[0, 2]` and the threshold `1`, the weight `1e308 * exp(4)`
of the first slot at bias `-8` overflows to `Infinity`; the sum of the weights
is then not finite, `normalizeProbabilities` returns the weights as they are,
`getWinChanceFromValues` leaves the `Infinity` slot out, and the win chance at
bias `-8` is `1`, while the win chance at bias `8` is some `c < 1/2`: for the
biases `-8 ≤ 8` the win chance decreases. -/
theorem winChance_overflow_not_monotone :
    (-8 : ℝ) ≤ 8 ∧
    Js.buildWeightedProbabilities JsNum.ofExact (JsNum.expExact Real.exp)
        [JsNum.finite 1e308, JsNum.finite 1] [0, 2] (-8)
      = [JsNum.posInf, JsNum.finite (Real.exp (-4))] ∧
    ∃ a c : ℝ,
      Js.getWinChanceFromValues JsNum.ofExact
          (Js.buildWeightedProbabilities JsNum.ofExact (JsNum.expExact Real.exp)
            [JsNum.finite 1e308, JsNum.finite 1] [0, 2] (-8)) [0, 2] (some 1)
        = some (JsNum.finite a) ∧
      Js.getWinChanceFromValues JsNum.ofExact
          (Js.buildWeightedProbabilities JsNum.ofExact (JsNum.expExact Real.exp)
            [JsNum.finite 1e308, JsNum.finite 1] [0, 2] 8) [0, 2] (some 1)
        = some (JsNum.finite c) ∧
      a = 1 ∧ c < 1 / 2 ∧ c < a := by
  obtain ⟨hw, hlow, c, hhigh, -, hc⟩ := overflow_endpoint_chances
  exact ⟨by norm_num, hw, 1, c, hlow, hhigh, rfl, hc, by linarith⟩

/-- C6 (the code): for the base `[1e308, 1]`, the multipliers `[0, 2]` and
`minMultiplier = 1`, the win chance at bias `-8` is `1` and the win chance at
bias `8` is some `c < 1/2`.  The swap exchanges the two biases and the two
chances but not `lowProbs` and `highProbs`: for the target `0`, at or below
the smaller chance `c`, `buildWinRateProbabilities` returns the distribution
of bias `-8`, whose win chance is the larger one, and for the target `1`, at
or above the larger chance, it returns the distribution of bias `8`, whose
win chance is the smaller one. -/
theorem buildWinRateProbabilities_swapped_endpoints :
    ∃ c : ℝ, c < 1 / 2 ∧
      Js.getWinChanceFromValues JsNum.ofExact
          (Js.buildWeightedProbabilities JsNum.ofExact (JsNum.expExact Real.exp)
            [JsNum.finite 1e308, JsNum.finite 1] [0, 2] (-8)) [0, 2] (some 1)
        = some (JsNum.finite 1) ∧
      Js.getWinChanceFromValues JsNum.ofExact
          (Js.buildWeightedProbabilities JsNum.ofExact (JsNum.expExact Real.exp)
            [JsNum.finite 1e308, JsNum.finite 1] [0, 2] 8) [0, 2] (some 1)
        = some (JsNum.finite c) ∧
      clamp01 (0 : ℝ) ≤ min 1 c ∧
      Js.buildWinRateProbabilities JsNum.ofExact (JsNum.expExact Real.exp)
          [JsNum.finite 1e308, JsNum.finite 1] [JsVal.number 0, JsVal.number 2] (some 0) (some 1)
        = Js.buildWeightedProbabilities JsNum.ofExact (JsNum.expExact Real.exp)
            [JsNum.finite 1e308, JsNum.finite 1] [0, 2] (-8) ∧
      clamp01 (1 : ℝ) ≥ max 1 c ∧
      Js.buildWinRateProbabilities JsNum.ofExact (JsNum.expExact Real.exp)
          [JsNum.finite 1e308, JsNum.finite 1] [JsVal.number 0, JsVal.number 2] (some 1) (some 1)
        = Js.buildWeightedProbabilities JsNum.ofExact (JsNum.expExact Real.exp)
            [JsNum.finite 1e308, JsNum.finite 1] [0, 2] 8 := by
  obtain ⟨-, hlow, c, hhigh, hc0, hc⟩ := overflow_endpoint_chances
  have hvals : getMultiplierValues [JsVal.number (0 : ℝ), JsVal.number 2] 2 = [0, 2] := by
    simp [getMultiplierValues, multiplierValueOf, List.range, List.range.loop]
  refine ⟨c, hc, hlow, hhigh, ?_, ?_, ?_, ?_⟩
  · rw [clamp01_zero]
    exact le_min (by norm_num) hc0
  · unfold Js.buildWinRateProbabilities
    simp only [List.length_cons, List.length_nil, Nat.reduceAdd, min_self, Nat.reduceLeDiff,
      if_false, List.take_succ_cons, List.take_zero, hvals, WINRATE_BIAS_RANGE, hlow, hhigh]
    rw [clamp01_zero]
    have : (1 : ℝ) > c := by linarith
    simp only [this, decide_True, if_true, if_pos hc0]
  · rw [clamp01_one]
    exact max_le le_rfl (by linarith)
  · unfold Js.buildWinRateProbabilities
    simp only [List.length_cons, List.length_nil, Nat.reduceAdd, min_self, Nat.reduceLeDiff,
      if_false, List.take_succ_cons, List.take_zero, hvals, WINRATE_BIAS_RANGE, hlow, hhigh]
    rw [clamp01_one]
    have : (1 : ℝ) > c := by linarith
    simp only [this, decide_True, if_true, if_neg (not_le.mpr this), ge_iff_le, le_refl]

/-- C29 (as stated): for the base `[1e308, 1]` (positive finite sum), the
multipliers `[0, 2]` and `minMultiplier = 1`, the target `1/2` lies strictly
between the win chance at bias `8` (below `1/2`) and the win chance at bias
`-8` (which is `1`), but no bias `b` in `[-8, 8]` has a win chance of at
least `1/2` together with a win chance below `1/2` at `b - 16 / 2^30`: a win
chance of at least `1/2` means that the first weight overflows at `b`, and it
then overflows at every smaller bias too, where the win chance is `1`. -/
theorem buildWinRateProbabilities_bisection_counterexample :
    Js.winChanceAt JsNum.ofExact (JsNum.expExact Real.exp) [JsNum.finite 1e308, JsNum.finite 1]
        [0, 2] (some 1) (-8) = some (JsNum.finite 1) ∧
    (∃ c, Js.winChanceAt JsNum.ofExact (JsNum.expExact Real.exp)
        [JsNum.finite 1e308, JsNum.finite 1] [0, 2] (some 1) 8 = some (JsNum.finite c) ∧
      0 ≤ c ∧ c < 1 / 2) ∧
    ∀ b : ℝ, -8 ≤ b → b ≤ 8 →
      ¬ ((∃ c, Js.winChanceAt JsNum.ofExact (JsNum.expExact Real.exp)
            [JsNum.finite 1e308, JsNum.finite 1] [0, 2] (some 1) b = some (JsNum.finite c) ∧
          1 / 2 ≤ c) ∧
        ∃ a, Js.winChanceAt JsNum.ofExact (JsNum.expExact Real.exp)
            [JsNum.finite 1e308, JsNum.finite 1] [0, 2] (some 1) (b - 16 / 2 ^ 30)
              = some (JsNum.finite a) ∧
          a < 1 / 2) := by
  obtain ⟨-, hlow, hhigh⟩ := overflow_endpoint_chances
  refine ⟨hlow, hhigh, ?_⟩
  rintro b hb1 hb2 ⟨⟨c, hc, hc2⟩, a, ha, ha2⟩
  have hδ : (0 : ℝ) < 16 / 2 ^ 30 := by positivity
  have hδ' : (16 : ℝ) / 2 ^ 30 ≤ 1 := by norm_num
  have hover : MAX_VALUE < 1e308 * Real.exp (-b / 2) := by
    by_contra hcon
    obtain ⟨c', hc', -, hc2'⟩ :=
      (winChanceAt_overflow_cases b (by linarith) hb2).2 (not_lt.mp hcon)
    rw [hc] at hc'
    have : c = c' := by
      simpa using hc'
    linarith
  have hmono : Real.exp (-b / 2) ≤ Real.exp (-(b - 16 / 2 ^ 30) / 2) :=
    Real.exp_le_exp.mpr (by linarith)
  have hover' : MAX_VALUE < 1e308 * Real.exp (-(b - 16 / 2 ^ 30) / 2) := by
    nlinarith
  have h1 := (winChanceAt_overflow_cases (b - 16 / 2 ^ 30) (by linarith) (by linarith)).1 hover'
  rw [ha] at h1
  have : a = 1 := by
    simpa using h1
  linarith

end OverflowClaims

section JsBisection

variable {K : Type} [LinearOrderedField K]

/-- Invariant of the bisection on JavaScript numbers, whatever the rounding
and whichever of the two ends is the larger bias: started with a win chance
below the target at `lo` and at least the target at `hi`, and as long as the
win chance is a finite number at every bias between `-8` and `8`, after `n`
steps the returned `highBias` has a win chance of at least the target, and the
bias `lo'` with `highBias - lo' = (hi - lo) / 2 ^ n` has a win chance below
the target. -/
theorem Js.bisectBias_bracket (fl exp : K → JsNum K) (base : List (JsNum K)) (values : List K)
    (minMultiplier : Option K) (t : K)
    (hfin : ∀ b : K, -8 ≤ b → b ≤ 8 →
      ∃ c, Js.winChanceAt fl exp base values minMultiplier b = some (JsNum.finite c))
    (n : Nat) :
    ∀ lo hi : K, (-8 ≤ lo ∧ lo ≤ 8) → (-8 ≤ hi ∧ hi ≤ 8) →
      (∃ a, Js.winChanceAt fl exp base values minMultiplier lo = some (JsNum.finite a) ∧ a < t) →
      (∃ c, Js.winChanceAt fl exp base values minMultiplier hi = some (JsNum.finite c) ∧ t ≤ c) →
      ∃ lo', (-8 ≤ lo' ∧ lo' ≤ 8) ∧
        (-8 ≤ Js.bisectBias fl exp base values t minMultiplier n lo hi ∧
          Js.bisectBias fl exp base values t minMultiplier n lo hi ≤ 8) ∧
        Js.bisectBias fl exp base values t minMultiplier n lo hi - lo' = (hi - lo) / 2 ^ n ∧
        (∃ a, Js.winChanceAt fl exp base values minMultiplier lo' = some (JsNum.finite a) ∧
          a < t) ∧
        (∃ c, Js.winChanceAt fl exp base values minMultiplier
            (Js.bisectBias fl exp base values t minMultiplier n lo hi) = some (JsNum.finite c) ∧
          t ≤ c) := by
  induction n with
  | zero =>
    intro lo hi hlo hhi hl hh
    exact ⟨lo, hlo, hhi, by simp [Js.bisectBias], hl, hh⟩
  | succ n ih =>
    intro lo hi hlo hhi hl hh
    have hmid : -8 ≤ (lo + hi) / 2 ∧ (lo + hi) / 2 ≤ 8 := by
      constructor
      · rw [le_div_iff₀ (by norm_num)]
        linarith [hlo.1, hhi.1]
      · rw [div_le_iff₀ (by norm_num)]
        linarith [hlo.2, hhi.2]
    obtain ⟨m, hm⟩ := hfin _ hmid.1 hmid.2
    have hm' : Js.getWinChanceFromValues fl
        (Js.buildWeightedProbabilities fl exp base values ((lo + hi) / 2)) values minMultiplier
        = some (JsNum.finite m) := hm
    by_cases hlt : m < t
    · have hrec : Js.bisectBias fl exp base values t minMultiplier (n + 1) lo hi
          = Js.bisectBias fl exp base values t minMultiplier n ((lo + hi) / 2) hi := by
        simp only [Js.bisectBias, hm', if_pos hlt]
      rw [hrec]
      obtain ⟨lo', h1, h2, h3, h4, h5⟩ := ih ((lo + hi) / 2) hi hmid hhi ⟨m, hm, hlt⟩ hh
      refine ⟨lo', h1, h2, ?_, h4, h5⟩
      rw [h3, pow_succ]
      field_simp
      ring
    · have hrec : Js.bisectBias fl exp base values t minMultiplier (n + 1) lo hi
          = Js.bisectBias fl exp base values t minMultiplier n lo ((lo + hi) / 2) := by
        simp only [Js.bisectBias, hm', if_neg hlt]
      rw [hrec]
      obtain ⟨lo', h1, h2, h3, h4, h5⟩ :=
        ih lo ((lo + hi) / 2) hlo hmid hl ⟨m, hm, not_lt.mp hlt⟩
      refine ⟨lo', h1, h2, ?_, h4, h5⟩
      rw [h3, pow_succ]
      field_simp
      ring

/-- C29 (amended): when the win chances at bias `-8` and `8` are finite
numbers, the clamped target lies strictly between them, and the win chance is
a finite number at every bias between `-8` and `8`, then
`buildWinRateProbabilities` returns `buildWeightedProbabilities(base, values,
b)` for a bias `b` in `[-8, 8]` whose win chance is at least the target, while
the win chance at the other end of the final bracket is below the target; that
end is `b - 16 / 2^30` when the win chance at bias `-8` is not above the one
at bias `8`, and `b + 16 / 2^30` when it is (the biases are then swapped).
This holds for every rounding `fl` and every `exp`. -/
theorem buildWinRateProbabilities_bisection (fl exp : K → JsNum K)
    (baseProbabilities : List (JsNum K)) (multipliers : List (JsVal K)) (target : K)
    (minMultiplier : Option K) (base : List (JsNum K)) (values : List K)
    (lowChance highChance : K)
    (hbase : base = baseProbabilities.take (min baseProbabilities.length multipliers.length))
    (hvalues : values
      = getMultiplierValues multipliers (min baseProbabilities.length multipliers.length))
    (hlow : Js.winChanceAt fl exp base values minMultiplier (-8)
      = some (JsNum.finite lowChance))
    (hhigh : Js.winChanceAt fl exp base values minMultiplier 8
      = some (JsNum.finite highChance))
    (hlt : min lowChance highChance < clamp01 target)
    (hgt : clamp01 target < max lowChance highChance)
    (hfin : ∀ b : K, -8 ≤ b → b ≤ 8 →
      ∃ c, Js.winChanceAt fl exp base values minMultiplier b = some (JsNum.finite c)) :
    ∃ b : K, -8 ≤ b ∧ b ≤ 8 ∧
      Js.buildWinRateProbabilities fl exp baseProbabilities multipliers (some target)
          minMultiplier
        = Js.buildWeightedProbabilities fl exp base values b ∧
      (∃ c, Js.winChanceAt fl exp base values minMultiplier b = some (JsNum.finite c) ∧
        clamp01 target ≤ c) ∧
      (∃ a, Js.winChanceAt fl exp base values minMultiplier
          (if lowChance ≤ highChance then b - 16 / 2 ^ 30 else b + 16 / 2 ^ 30)
            = some (JsNum.finite a) ∧
        a < clamp01 target) := by
  subst hbase hvalues
  have hc : ¬ min baseProbabilities.length multipliers.length ≤ 0 := by
    intro h0
    have h0' : min baseProbabilities.length multipliers.length = 0 := by omega
    rw [h0'] at hlow
    simp [Js.winChanceAt, Js.buildWeightedProbabilities, Js.getWinChanceFromValues,
      getMultiplierValues, JsNum.le] at hlow
  have hlow' := hlow
  have hhigh' := hhigh
  unfold Js.winChanceAt at hlow' hhigh'
  have h8 : (-8 : K) ≤ 8 := by norm_num
  by_cases hsw : lowChance ≤ highChance
  · rw [min_eq_left hsw] at hlt
    rw [max_eq_right hsw] at hgt
    obtain ⟨lo', -, hr, hd, ha, hb⟩ := Js.bisectBias_bracket fl exp _ _ minMultiplier
      (clamp01 target) hfin 30 (-8) 8 ⟨le_rfl, h8⟩ ⟨h8, le_rfl⟩ ⟨lowChance, hlow, hlt⟩
      ⟨highChance, hhigh, hgt.le⟩
    refine ⟨_, hr.1, hr.2, ?_, hb, ?_⟩
    · unfold Js.buildWinRateProbabilities
      simp only [hc, if_false, WINRATE_BIAS_RANGE, hlow', hhigh', gt_iff_lt, not_lt.mpr hsw,
        decide_False, Bool.false_eq_true, not_le.mpr hlt, ge_iff_le, not_le.mpr hgt]
    · rw [if_pos hsw]
      have e : Js.bisectBias fl exp
            (baseProbabilities.take (min baseProbabilities.length multipliers.length))
            (getMultiplierValues multipliers (min baseProbabilities.length multipliers.length))
            (clamp01 target) minMultiplier 30 (-8) 8 - 16 / 2 ^ 30 = lo' := by
        have : ((8 : K) - -8) / 2 ^ 30 = 16 / 2 ^ 30 := by norm_num
        rw [this] at hd
        linarith
      rw [e]
      exact ha
  · have hsw' : highChance < lowChance := not_le.mp hsw
    rw [min_eq_right hsw'.le] at hlt
    rw [max_eq_left hsw'.le] at hgt
    obtain ⟨lo', -, hr, hd, ha, hb⟩ := Js.bisectBias_bracket fl exp _ _ minMultiplier
      (clamp01 target) hfin 30 8 (-8) ⟨h8, le_rfl⟩ ⟨le_rfl, h8⟩ ⟨highChance, hhigh, hlt⟩
      ⟨lowChance, hlow, hgt.le⟩
    refine ⟨_, hr.1, hr.2, ?_, hb, ?_⟩
    · unfold Js.buildWinRateProbabilities
      simp only [hc, if_false, WINRATE_BIAS_RANGE, hlow', hhigh', gt_iff_lt, hsw', decide_True,
        if_true, not_le.mpr hlt, ge_iff_le, not_le.mpr hgt]
    · rw [if_neg hsw]
      have e : Js.bisectBias fl exp
            (baseProbabilities.take (min baseProbabilities.length multipliers.length))
            (getMultiplierValues multipliers (min baseProbabilities.length multipliers.length))
            (clamp01 target) minMultiplier 30 8 (-8) + 16 / 2 ^ 30 = lo' := by
        have : ((-8 : K) - 8) / 2 ^ 30 = -(16 / 2 ^ 30) := by norm_num
        rw [this] at hd
        linarith
      rw [e]
      exact ha

end JsBisection

section JsBisectionWitness

/-- C29 (amended) on the base `[1e308, 1]` with the multipliers `[0, 2]`,
`minMultiplier = 1` and the target `1/2`: the win chance at bias `-8` is the
larger one, the biases are swapped, and the returned bias `b` has a win chance
of at least `1/2` while the win chance at `b + 16 / 2^30` is below `1/2`. -/
theorem buildWinRateProbabilities_bisection_witness :
    ∃ b : ℝ, -8 ≤ b ∧ b ≤ 8 ∧
      Js.buildWinRateProbabilities JsNum.ofExact (JsNum.expExact Real.exp)
          [JsNum.finite 1e308, JsNum.finite 1] [JsVal.number 0, JsVal.number 2] (some (1 / 2))
          (some 1)
        = Js.buildWeightedProbabilities JsNum.ofExact (JsNum.expExact Real.exp)
            [JsNum.finite 1e308, JsNum.finite 1] [0, 2] b ∧
      (∃ c, Js.winChanceAt JsNum.ofExact (JsNum.expExact Real.exp)
          [JsNum.finite 1e308, JsNum.finite 1] [0, 2] (some 1) b = some (JsNum.finite c) ∧
        1 / 2 ≤ c) ∧
      (∃ a, Js.winChanceAt JsNum.ofExact (JsNum.expExact Real.exp)
          [JsNum.finite 1e308, JsNum.finite 1] [0, 2] (some 1) (b + 16 / 2 ^ 30)
            = some (JsNum.finite a) ∧
        a < 1 / 2) := by
  obtain ⟨-, hlow, c, hhigh, hc0, hc⟩ := overflow_endpoint_chances
  have hcl : clamp01 (1 / 2 : ℝ) = 1 / 2 := clamp01_of_mem _ (by norm_num) (by norm_num)
  have hvals : ([0, 2] : List ℝ)
      = getMultiplierValues [JsVal.number (0 : ℝ), JsVal.number 2]
          (min [JsNum.finite (1e308 : ℝ), JsNum.finite 1].length
            [JsVal.number (0 : ℝ), JsVal.number 2].length) := by
    simp [getMultiplierValues, multiplierValueOf, List.range, List.range.loop]
  have hfin : ∀ b : ℝ, -8 ≤ b → b ≤ 8 →
      ∃ c, Js.winChanceAt JsNum.ofExact (JsNum.expExact Real.exp)
        [JsNum.finite 1e308, JsNum.finite 1] [0, 2] (some 1) b = some (JsNum.finite c) := by
    intro b hb1 hb2
    by_cases h : MAX_VALUE < 1e308 * Real.exp (-b / 2)
    · exact ⟨1, (winChanceAt_overflow_cases b (by linarith) hb2).1 h⟩
    · obtain ⟨c, hc, -⟩ := (winChanceAt_overflow_cases b (by linarith) hb2).2 (not_lt.mp h)
      exact ⟨c, hc⟩
  have h := buildWinRateProbabilities_bisection JsNum.ofExact (JsNum.expExact Real.exp)
    [JsNum.finite 1e308, JsNum.finite 1] [JsVal.number 0, JsVal.number 2] (1 / 2) (some 1)
    [JsNum.finite 1e308, JsNum.finite 1] [0, 2] 1 c rfl hvals hlow hhigh
    (by rw [hcl, min_eq_right (by linarith)]; exact hc)
    (by rw [hcl, max_eq_left (by linarith)]; norm_num) hfin
  rw [hcl] at h
  simp only [if_neg (show ¬ (1 : ℝ) ≤ c by linarith)] at h
  exact h

end JsBisectionWitness

end Plinko
